import Mathlib

/-! Cogl attachment store and GLSL program cache.

A shallow embedding of `cogl-object.c` (per-object user data with destructors)
and of the GLSL program end `cogl-pipeline-progend-glsl.c`.

Pointers are natural numbers, `0` is `NULL`.  Callbacks are identified by the
address of the function.  The number of inline user-data slots,
`COGL_OBJECT_N_PRE_ALLOCATED_USER_DATA_ENTRIES`, is declared in
`cogl-object-private.h`; every function below takes it as the parameter `N`.
-/

namespace Cogl

/-! ## cogl-object.c : data model -/

/-- The C struct `CoglUserDataEntry`: key pointer, payload pointer, destructor pointer. -/
structure CoglUserDataEntry where
  key : Nat
  user_data : Nat
  destroy : Nat
deriving DecidableEq, Repr

/-- The entry produced by `memset (&new_entry, 0, sizeof (new_entry))`. -/
def CoglUserDataEntry.zero : CoglUserDataEntry := ⟨0, 0, 0⟩

/-- The C struct `CoglObject`.  `user_data_entry` is the inline array (of `N`
elements in a well-formed object), `user_data_array` the lazily allocated
`GArray` (`none` is `NULL`). -/
structure CoglObject where
  ref_count : Nat
  user_data_entry : List CoglUserDataEntry
  user_data_array : Option (List CoglUserDataEntry)
  n_user_data_entries : Nat
deriving DecidableEq, Repr

/-- A pointer to one user-data slot of an object: `&object->user_data_entry[i]`
or `&g_array_index (object->user_data_array, CoglUserDataEntry, i)`. -/
inductive Slot where
  | inline (i : Nat)
  | overflow (i : Nat)
deriving DecidableEq, Repr

/-- What the object code calls out to: a destructor callback
`entry->destroy (entry->user_data, obj)` (with the object as it is at the time of
the call), and the class free function `obj->klass->virt_free (obj)`. -/
inductive Event where
  | destroy (fn : Nat) (user_data : Nat) (obj : CoglObject)
  | virt_free
deriving DecidableEq, Repr

/-- The function and payload of a destructor call, `none` for the free function. -/
def Event.call : Event → Option (Nat × Nat)
  | .destroy fn d _ => some (fn, d)
  | .virt_free => none

/-- Read through a slot pointer. -/
def CoglObject.entry_at (obj : CoglObject) : Slot → CoglUserDataEntry
  | .inline i => obj.user_data_entry.getD i CoglUserDataEntry.zero
  | .overflow i => (obj.user_data_array.getD []).getD i CoglUserDataEntry.zero

/-- Store through a slot pointer: `*entry = new_entry`. -/
def CoglObject.write (obj : CoglObject) (s : Slot) (e : CoglUserDataEntry) : CoglObject :=
  match s with
  | .inline i => { obj with user_data_entry := obj.user_data_entry.set i e }
  | .overflow i => { obj with user_data_array := obj.user_data_array.map (fun a => a.set i e) }

/-- The number of inline slots in use: `MIN (n_user_data_entries, N)`. -/
def CoglObject.count (N : Nat) (obj : CoglObject) : Nat := min obj.n_user_data_entries N

/-! ## cogl-object.c : operations -/

/-- One of the two loops of `_cogl_object_find_entry`, from index `i` on.
`Except.error s` is the early `return current`; `Except.ok entry` is the loop
running to its end with the last empty slot seen so far. -/
def find_loop (key : Nat) (mk : Nat → Slot) :
    List CoglUserDataEntry → Nat → Option Slot → Except Slot (Option Slot)
  | [], _, entry => .ok entry
  | current :: rest, i, entry =>
    if current.key = key then .error (mk i)
    else find_loop key mk rest (i + 1) (if current.user_data = 0 then some (mk i) else entry)

/-- The C function `_cogl_object_find_entry`: the slot of `key` if there is one,
else the last empty slot, else `NULL`. -/
def _cogl_object_find_entry (N : Nat) (object : CoglObject) (key : Nat) : Option Slot :=
  match find_loop key Slot.inline (object.user_data_entry.take (object.count N)) 0 none with
  | .error s => some s
  | .ok entry =>
    match object.user_data_array with
    | none => entry
    | some arr =>
      match find_loop key Slot.overflow arr 0 entry with
      | .error s => some s
      | .ok e => e

/-- The C function `_cogl_object_set_user_data`; returns the object afterwards and
the callbacks made, in order. -/
def _cogl_object_set_user_data (N : Nat) (object : CoglObject)
    (key user_data destroy : Nat) : CoglObject × List Event :=
  let new_entry : CoglUserDataEntry :=
    if user_data ≠ 0 then ⟨key, user_data, destroy⟩ else CoglUserDataEntry.zero
  match _cogl_object_find_entry N object key with
  | some slot =>
    let old := object.entry_at slot
    (object.write slot new_entry,
      if old.destroy ≠ 0 then [Event.destroy old.destroy old.user_data object] else [])
  | none =>
    if object.n_user_data_entries < N then
      ({ object with n_user_data_entries := object.n_user_data_entries + 1 }.write
          (Slot.inline object.n_user_data_entries) new_entry, [])
    else
      ({ object with
          user_data_array := some (object.user_data_array.getD [] ++ [new_entry])
          n_user_data_entries := object.n_user_data_entries + 1 }, [])

/-- The C function `cogl_object_set_user_data` (a cast of the callback only). -/
def cogl_object_set_user_data (N : Nat) (object : CoglObject)
    (key user_data destroy : Nat) : CoglObject × List Event :=
  _cogl_object_set_user_data N object key user_data destroy

/-- One loop of `cogl_object_get_user_data`: the payload of the first entry with the key. -/
def get_loop (key : Nat) : List CoglUserDataEntry → Option Nat
  | [] => none
  | entry :: rest => if entry.key = key then some entry.user_data else get_loop key rest

/-- The C function `cogl_object_get_user_data`. -/
def cogl_object_get_user_data (N : Nat) (object : CoglObject) (key : Nat) : Nat :=
  match get_loop key (object.user_data_entry.take (object.count N)) with
  | some d => d
  | none =>
    match object.user_data_array with
    | none => 0
    | some arr => (get_loop key arr).getD 0

/-- The destructor calls of one of the loops of `cogl_object_unref`. -/
def destroy_loop (obj : CoglObject) : List CoglUserDataEntry → List Event
  | [] => []
  | entry :: rest =>
    (if entry.destroy ≠ 0 then [Event.destroy entry.destroy entry.user_data obj] else [])
      ++ destroy_loop obj rest

/-- The C function `cogl_object_ref`; `ref_count` is an `unsigned int`. -/
def cogl_object_ref (object : CoglObject) : CoglObject :=
  { object with ref_count := (object.ref_count + 1) % 4294967296 }

/-- The C function `cogl_object_unref`: the object afterwards (`none` once it has
been handed to the free function) and the callbacks made, in order. -/
def cogl_object_unref (N : Nat) (object : CoglObject) : Option CoglObject × List Event :=
  if object.ref_count = 0 then (some object, [])
  else
    let obj := { object with ref_count := object.ref_count - 1 }
    if obj.ref_count < 1 then
      (none,
        (if obj.n_user_data_entries ≠ 0 then
          destroy_loop obj (obj.user_data_entry.take (obj.count N))
            ++ (match obj.user_data_array with
                | none => []
                | some arr => destroy_loop obj arr)
         else [])
        ++ [Event.virt_free])
    else (some obj, [])

/-! ## The slot table as one list -/

/-- The slots in use, in storage order: the inline slots in use, then the overflow list. -/
def CoglObject.slots (N : Nat) (obj : CoglObject) : List CoglUserDataEntry :=
  obj.user_data_entry.take (obj.count N) ++ obj.user_data_array.getD []

/-- The position of a slot in `CoglObject.slots`. -/
def Slot.index (count : Nat) : Slot → Nat
  | .inline i => i
  | .overflow i => count + i

/-- Index of the first entry of a list that carries the key. -/
def firstKey (key : Nat) : List CoglUserDataEntry → Option Nat
  | [] => none
  | c :: rest => if c.key = key then some 0 else (firstKey key rest).map (· + 1)

/-- Index of the last entry of a list whose payload is `NULL`. -/
def lastEmpty : List CoglUserDataEntry → Option Nat
  | [] => none
  | c :: rest =>
    match lastEmpty rest with
    | some j => some (j + 1)
    | none => if c.user_data = 0 then some 0 else none

/-- The shape of an object built by the constructor and the functions above: an
inline array of `N` elements, the overflow list allocated only beyond them, and
`n_user_data_entries` counting the slots in use. -/
def CoglObject.Shape (N : Nat) (obj : CoglObject) : Prop :=
  obj.user_data_entry.length = N ∧
  match obj.user_data_array with
  | none => obj.n_user_data_entries ≤ N
  | some arr => obj.n_user_data_entries = N + arr.length ∧ 0 < arr.length

instance (N : Nat) (obj : CoglObject) : Decidable (obj.Shape N) := by
  unfold CoglObject.Shape
  cases obj.user_data_array <;> exact inferInstance

/-- The slot-table invariant: a slot is empty (`NULL` payload) exactly when its key
is `NULL`, an empty slot has no destructor, and no two slots carry the same
non-`NULL` key. -/
def Clean (l : List CoglUserDataEntry) : Prop :=
  (∀ e ∈ l, (e.user_data = 0 ↔ e.key = 0) ∧ (e.user_data = 0 → e.destroy = 0)) ∧
  l.Pairwise (fun a b => a.key ≠ 0 → a.key ≠ b.key)

instance (l : List CoglUserDataEntry) : Decidable (Clean l) := by
  unfold Clean; exact inferInstance

/-- An object as the constructor leaves it: no slot in use, no overflow list; the
inline array holds whatever the allocator left there. -/
def CoglObject.fresh (ref_count : Nat) (inline_mem : List CoglUserDataEntry) : CoglObject :=
  { ref_count := ref_count, user_data_entry := inline_mem,
    user_data_array := none, n_user_data_entries := 0 }

/-- One call of `cogl_object_set_user_data`: key, payload (`0` detaches), destructor. -/
structure SetCall where
  key : Nat
  user_data : Nat
  destroy : Nat
deriving DecidableEq, Repr

/-- The entry an attach call stores. -/
def SetCall.entry (c : SetCall) : CoglUserDataEntry := ⟨c.key, c.user_data, c.destroy⟩

/-- A sequence of `cogl_object_set_user_data` calls on one object; the callbacks
made are collected in order. -/
def run_set_calls (N : Nat) : CoglObject → List SetCall → CoglObject × List Event
  | obj, [] => (obj, [])
  | obj, c :: rest =>
    let r := cogl_object_set_user_data N obj c.key c.user_data c.destroy
    let r2 := run_set_calls N r.1 rest
    (r2.1, r.2 ++ r2.2)

/-- The finite map of the specification: `attach` binds the key to the payload,
`detach` is `attach` of the absent payload `0`. -/
def spec_attach (m : Nat → Nat) (key user_data : Nat) : Nat → Nat :=
  fun k => if k = key then user_data else m k

/-- The finite map reached by a sequence of calls from the empty map. -/
def spec_run : (Nat → Nat) → List SetCall → (Nat → Nat)
  | m, [] => m
  | m, c :: rest => spec_run (spec_attach m c.key c.user_data) rest

/-- The slot a store goes to, as a position in the slot list: the first slot with
the key, else the last empty slot, else none (a slot is added). -/
def target (key : Nat) (l : List CoglUserDataEntry) : Option Nat :=
  match firstKey key l with
  | some j => some j
  | none => lastEmpty l

/-- The slot list after a store of `e` under `key`. -/
def store (key : Nat) (e : CoglUserDataEntry) (l : List CoglUserDataEntry) :
    List CoglUserDataEntry :=
  match target key l with
  | some i => l.set i e
  | none => l ++ [e]

/-- The entry `_cogl_object_set_user_data` builds from its arguments. -/
def new_entry (key user_data destroy : Nat) : CoglUserDataEntry :=
  if user_data ≠ 0 then ⟨key, user_data, destroy⟩ else CoglUserDataEntry.zero

/-- Key `K` holds payload `P` with destructor `D`: the slot `_cogl_object_find_entry`
finds for `K` contains the entry `(K, P, D)`. -/
def CoglObject.holds (N : Nat) (obj : CoglObject) (K P D : Nat) : Prop :=
  match _cogl_object_find_entry N obj K with
  | some s => obj.entry_at s = ⟨K, P, D⟩
  | none => False

instance (N : Nat) (obj : CoglObject) (K P D : Nat) : Decidable (obj.holds N K P D) := by
  unfold CoglObject.holds
  cases _cogl_object_find_entry N obj K <;> exact inferInstance

/-- The invariant of the attachment store: shape of the object and slot-table invariant. -/
def CoglObject.Good (N : Nat) (obj : CoglObject) : Prop :=
  obj.Shape N ∧ Clean (obj.slots N)

instance (N : Nat) (obj : CoglObject) : Decidable (obj.Good N) := by
  unfold CoglObject.Good; exact inferInstance

/-- The destructor calls `(function, payload)` a final release makes for a slot list. -/
def calls_of (l : List CoglUserDataEntry) : List (Nat × Nat) :=
  (l.filter (fun e => e.destroy ≠ 0)).map (fun e => (e.destroy, e.user_data))

/-- Example: an inline array of two slots as the allocator may leave it. -/
def demo_mem : List CoglUserDataEntry := [⟨7, 7, 7⟩, ⟨0, 0, 0⟩]

/-- Example: three attaches (the third overflows two inline slots), a detach, an
attach that reuses the emptied slot, and a re-attach. -/
def demo_calls : List SetCall :=
  [⟨1, 10, 100⟩, ⟨2, 20, 200⟩, ⟨3, 30, 300⟩, ⟨2, 0, 999⟩, ⟨4, 40, 400⟩, ⟨1, 11, 100⟩]

/-- Example: four attaches under distinct keys. -/
def demo_attaches : List SetCall :=
  [⟨3, 30, 300⟩, ⟨1, 10, 100⟩, ⟨2, 20, 200⟩, ⟨4, 40, 0⟩]

/-- A new object with reference count 1 after a sequence of calls. -/
def attach_all (N : Nat) (mem : List CoglUserDataEntry) (calls : List SetCall) : CoglObject :=
  (run_set_calls N (CoglObject.fresh 1 mem) calls).1

/-- The object as the callbacks of the final `cogl_object_unref` see it: the
reference count already decremented to zero. -/
def CoglObject.released (obj : CoglObject) : CoglObject := { obj with ref_count := 0 }

/-! ## cogl-pipeline-progend-glsl.c : data model -/

/-- The C struct `UnitState`. -/
structure UnitState where
  dirty_combine_constant : Bool
  dirty_texture_matrix : Bool
  combine_constant_uniform : Int
  texture_matrix_uniform : Int
deriving DecidableEq, Repr

/-- The C struct `CoglPipelineProgendPrivate`, the cache entry of the program end.
The fields from `dirty_builtin_uniforms` to `flushed_projection_stack_age` exist in
the GLES2 build only and are left alone by the other build. -/
structure CoglPipelineProgendPrivate where
  ref_count : Nat
  user_program_age : Nat
  program : Nat
  n_tex_coord_attribs : Int
  dirty_builtin_uniforms : Nat
  builtin_uniform_locations : Int × Int
  position_attribute_location : Int
  color_attribute_location : Int
  normal_attribute_location : Int
  tex_coord0_attribute_location : Int
  tex_coord_attribute_locations : Option (List Int)
  modelview_uniform : Int
  projection_uniform : Int
  mvp_uniform : Int
  flushed_modelview_stack : Nat
  flushed_modelview_stack_age : Nat
  flushed_modelview_is_identity : Bool
  flushed_projection_stack : Nat
  flushed_projection_stack_age : Nat
  last_used_for_pipeline : Nat
  unit_state : List UnitState
deriving DecidableEq, Repr

/-- The fields of `CoglShader` (cogl-shader-private.h) the program end reads. -/
structure CoglShader where
  gl_handle : Nat
  n_tex_coord_attribs : Int
  language : Nat
deriving DecidableEq, Repr

/-- The fields of `CoglProgram` the program end reads: `age` and the list
`attached_shaders` of shader pointers. -/
structure CoglProgram where
  age : Nat
  attached_shaders : List Nat
deriving DecidableEq, Repr

/-- What the program end reads of a `CoglPipeline`: the embedded `CoglObject`, the
fields `fragend` and `vertend`, and the results of the accessors of cogl-pipeline.c:
`cogl_pipeline_get_user_program` and the layers that `cogl_pipeline_foreach_layer`
visits (their layer indices, in unit order; `cogl_pipeline_get_n_layers` is their
number).  `parent` and `differences` are the links of the state graph. -/
structure CoglPipeline where
  _parent : CoglObject
  fragend : Nat
  vertend : Nat
  user_program : Nat
  layers : List Nat
  parent : Nat
  differences : Nat
deriving DecidableEq, Repr

/-- The names of the uniforms the program end asks the driver for. -/
inductive UniformName where
  | sampler (unit : Nat)
  | layer_constant (unit : Nat)
  | texture_matrix (unit : Nat)
  | builtin (i : Nat)
  | modelview_matrix
  | projection_matrix
  | modelview_projection_matrix
deriving DecidableEq, Repr

/-- The calls the program end makes out of its own file, with the results the
callee returned where the code uses them. -/
inductive Call where
  | glDeleteProgram (program : Nat)
  | glCreateProgram (result : Nat)
  | shader_compile_real (shader : Nat) (n_tex_coord_attribs : Int)
  | glAttachShader (program shader : Nat)
  | glLinkProgram (program : Nat)
  | glGetProgramiv_link_status (program : Nat) (status : Bool)
  | glGetProgramInfoLog (program : Nat)
  | g_warning_link_failed (program : Nat)
  | glGetUniformLocation (program : Nat) (name : UniformName) (result : Int)
  | glUniform1i (location : Int) (value : Nat)
  | glUniform4fv_combine_constant (location : Int) (pipeline layer_index : Nat)
  | glUniformMatrix4fv_layer_matrix (location : Int) (pipeline layer_index : Nat)
  | glUniform1f_builtin (location : Int) (pipeline i : Nat)
  | use_fragment_program (gl_program : Nat)
  | use_vertex_program (gl_program : Nat)
  | program_flush_uniforms (user_program gl_program : Nat) (program_changed : Bool)
  | matrix_stack_unref (stack : Nat)
  | g_free_unit_state (priv : Nat)
  | g_slice_free_priv (priv : Nat)
  | foreign_destroy (fn user_data : Nat)
  | pipeline_free (pipeline : Nat)
deriving DecidableEq, Repr

/-- The program state: the heaps of pipelines and of cache entries (`none` once
freed; pointer `p + 1` is index `p`, pointer `0` is `NULL`), the user programs and
shaders, and the calls made so far. -/
structure World where
  pipelines : List (Option CoglPipeline)
  privs : List (Option CoglPipelineProgendPrivate)
  programs : List (Option CoglProgram)
  shaders : List (Option CoglShader)
  trace : List Call
deriving DecidableEq, Repr

/-- What the program end takes from outside its file: constants of the headers,
addresses, the build flag, the code of cogl-pipeline.c and cogl-shader.c it calls,
and the answers of the GL driver (a function of the calls made so far). -/
structure Env where
  N : Nat
  gles2 : Bool
  have_context : Bool
  glsl_priv_key : Nat
  destroy_glsl_priv : Nat
  FRAGEND_GLSL : Nat
  VERTEND_GLSL : Nat
  STATE_AFFECTS_FRAGMENT_CODEGEN : Nat
  LAYER_STATE_AFFECTS_FRAGMENT_CODEGEN : Nat
  STATE_AFFECTS_VERTEX_CODEGEN : Nat
  LAYER_STATE_AFFECTS_VERTEX_CODEGEN : Nat
  STATE_LAYERS : Nat
  LAYER_STATE_COMBINE_CONSTANT : Nat
  LAYER_STATE_USER_MATRIX : Nat
  STATE_POINT_SIZE : Nat
  STATE_ALPHA_FUNC_REFERENCE : Nat
  ulong_max : Nat
  find_equivalent_parent : List (Option CoglPipeline) → Nat → Nat
  glCreateProgram : List Call → Nat
  link_status : List Call → Nat → Bool
  glGetUniformLocation : List Call → Nat → UniformName → Int
  fragend_glsl_get_shader : List Call → Nat → Nat
  vertend_glsl_get_shader : List Call → Nat → Nat
  shader_compile_real : CoglShader → Int → CoglShader
  uninit_priv : Nat → CoglPipelineProgendPrivate
  uninit_unit_state : Nat → Nat → UnitState

/-- Dereference a pointer into a heap. -/
def heap_get {α : Type} (h : List (Option α)) : Nat → Option α
  | 0 => none
  | p + 1 => h.getD p none

/-- Store through a pointer into a heap. -/
def heap_set {α : Type} (h : List (Option α)) (v : Option α) : Nat → List (Option α)
  | 0 => h
  | p + 1 => h.set p v

/-- Unsigned 32-bit increment (`x++` on an `unsigned int`). -/
def inc32 (x : Nat) : Nat := (x + 1) % 4294967296

/-- Unsigned 32-bit decrement (`--x` on an `unsigned int`). -/
def dec32 (x : Nat) : Nat := (x + 4294967295) % 4294967296

/-- Append a call to the trace. -/
def World.call (w : World) (c : Call) : World := { w with trace := w.trace ++ [c] }

/-! ## cogl-pipeline-progend-glsl.c : the cache entry and its attachment -/

/-- The C function `get_glsl_priv`; `none` when the pipeline pointer is dangling. -/
def get_glsl_priv (env : Env) (w : World) (pipeline : Nat) : Option Nat :=
  match heap_get w.pipelines pipeline with
  | none => none
  | some pl => some (cogl_object_get_user_data env.N pl._parent env.glsl_priv_key)

/-- The C function `clear_attribute_cache` (`ATTRIBUTE_LOCATION_UNKNOWN` is `-2`). -/
def clear_attribute_cache (priv : CoglPipelineProgendPrivate) : CoglPipelineProgendPrivate :=
  { priv with
    position_attribute_location := -2
    color_attribute_location := -2
    normal_attribute_location := -2
    tex_coord0_attribute_location := -2
    tex_coord_attribute_locations := none }

/-- The C function `clear_flushed_matrix_stacks`: the entry afterwards and the
`cogl_object_unref` calls on the matrix stacks. -/
def clear_flushed_matrix_stacks (priv : CoglPipelineProgendPrivate) :
    CoglPipelineProgendPrivate × List Call :=
  let c1 := if priv.flushed_modelview_stack ≠ 0 then
      [Call.matrix_stack_unref priv.flushed_modelview_stack] else []
  let c2 := if priv.flushed_projection_stack ≠ 0 then
      [Call.matrix_stack_unref priv.flushed_projection_stack] else []
  ({ priv with
      flushed_modelview_stack := 0
      flushed_projection_stack := 0
      flushed_modelview_is_identity := false }, c1 ++ c2)

/-- The C function `destroy_glsl_priv`; `none` when the pointer is dangling. -/
def destroy_glsl_priv (env : Env) (w : World) (user_data : Nat) : Option World :=
  if env.have_context = false then some w
  else
    match heap_get w.privs user_data with
    | none => none
    | some priv =>
      let priv := { priv with ref_count := dec32 priv.ref_count }
      if priv.ref_count = 0 then
        let unrefs : List Call :=
          if env.gles2 then (clear_flushed_matrix_stacks (clear_attribute_cache priv)).2 else []
        let del : List Call := if priv.program ≠ 0 then [Call.glDeleteProgram priv.program] else []
        some { w with
          privs := heap_set w.privs none user_data
          trace := w.trace ++ unrefs ++ del ++
            [Call.g_free_unit_state user_data, Call.g_slice_free_priv user_data] }
      else
        some { w with privs := heap_set w.privs (some priv) user_data }

/-- Run the callbacks of the object code: the destructor `destroy_glsl_priv` of this
file, a destructor of some other file (recorded only), or the free function of
the pipeline class (recorded only). -/
def run_events (env : Env) (pipeline : Nat) : World → List Event → Option World
  | w, [] => some w
  | w, Event.destroy fn d _ :: rest =>
    if fn = env.destroy_glsl_priv then
      match destroy_glsl_priv env w d with
      | none => none
      | some w2 => run_events env pipeline w2 rest
    else run_events env pipeline (w.call (Call.foreign_destroy fn d)) rest
  | w, Event.virt_free :: rest =>
    run_events env pipeline (w.call (Call.pipeline_free pipeline)) rest

/-- A call `cogl_object_set_user_data (COGL_OBJECT (pipeline), &glsl_priv_key, priv,
destroy_glsl_priv)`: the destructor callbacks run before the slot is overwritten. -/
def set_priv_user_data (env : Env) (w : World) (pipeline priv : Nat) : Option World :=
  match heap_get w.pipelines pipeline with
  | none => none
  | some pl =>
    let r := cogl_object_set_user_data env.N pl._parent env.glsl_priv_key priv
      env.destroy_glsl_priv
    match run_events env pipeline w r.2 with
    | none => none
    | some w2 =>
      some { w2 with pipelines := heap_set w2.pipelines (some { pl with _parent := r.1 }) pipeline }

/-- The C function `set_glsl_priv`. -/
def set_glsl_priv (env : Env) (w : World) (pipeline priv : Nat) : Option World :=
  set_priv_user_data env w pipeline priv

/-- The C function `dirty_glsl_program_state`. -/
def dirty_glsl_program_state (env : Env) (w : World) (pipeline : Nat) : Option World :=
  set_priv_user_data env w pipeline 0

/-! ## cogl-pipeline-progend-glsl.c : linking and uniforms -/

/-- A `glGetUniformLocation` call: the answer of the driver and the world with the
call recorded. -/
def gl_get_uniform_location (env : Env) (w : World) (program : Nat) (name : UniformName) :
    Int × World :=
  (env.glGetUniformLocation w.trace program name,
    w.call (Call.glGetUniformLocation program name
      (env.glGetUniformLocation w.trace program name)))

/-- The C function `link_program`. -/
def link_program (env : Env) (w : World) (gl_program : Nat) : World :=
  let w1 := w.call (Call.glLinkProgram gl_program)
  let link_status := env.link_status w1.trace gl_program
  let w2 := w1.call (Call.glGetProgramiv_link_status gl_program link_status)
  if link_status = false then
    (w2.call (Call.glGetProgramInfoLog gl_program)).call (Call.g_warning_link_failed gl_program)
  else w2

/-- The C function `get_uniform_cb` for the layer at unit `unit`; `none` when
`unit` is outside `priv->unit_state`. -/
def get_uniform_cb (env : Env) (gl_program : Nat) (w : World)
    (priv : CoglPipelineProgendPrivate) (unit : Nat) :
    Option (World × CoglPipelineProgendPrivate) :=
  let r1 := gl_get_uniform_location env w gl_program (UniformName.sampler unit)
  let w1 := if r1.1 ≠ -1 then r1.2.call (Call.glUniform1i r1.1 unit) else r1.2
  let r2 := gl_get_uniform_location env w1 gl_program (UniformName.layer_constant unit)
  match priv.unit_state[unit]? with
  | none => none
  | some unit_state =>
    let us1 := { unit_state with combine_constant_uniform := r2.1 }
    if env.gles2 then
      let r3 := gl_get_uniform_location env r2.2 gl_program (UniformName.texture_matrix unit)
      some (r3.2, { priv with
        unit_state := priv.unit_state.set unit { us1 with texture_matrix_uniform := r3.1 } })
    else
      some (r2.2, { priv with unit_state := priv.unit_state.set unit us1 })

/-- The C function `update_constants_cb` for the layer `layer_index` at unit `unit`;
`none` when `unit` is outside `priv->unit_state`. -/
def update_constants_cb (env : Env) (pipeline : Nat) (update_all : Bool) (w : World)
    (priv : CoglPipelineProgendPrivate) (unit layer_index : Nat) :
    Option (World × CoglPipelineProgendPrivate) :=
  match priv.unit_state[unit]? with
  | none => none
  | some unit_state =>
    let r1 : World × UnitState :=
      if unit_state.combine_constant_uniform ≠ -1 ∧
          (update_all = true ∨ unit_state.dirty_combine_constant = true) then
        (w.call (Call.glUniform4fv_combine_constant unit_state.combine_constant_uniform
            pipeline layer_index),
          { unit_state with dirty_combine_constant := false })
      else (w, unit_state)
    let r2 : World × UnitState :=
      if env.gles2 = true ∧ r1.2.texture_matrix_uniform ≠ -1 ∧
          (update_all = true ∨ r1.2.dirty_texture_matrix = true) then
        (r1.1.call (Call.glUniformMatrix4fv_layer_matrix r1.2.texture_matrix_uniform
            pipeline layer_index),
          { r1.2 with dirty_texture_matrix := false })
      else r1
    some (r2.1, { priv with unit_state := priv.unit_state.set unit r2.2 })

/-- The traversal `cogl_pipeline_foreach_layer (pipeline, get_uniform_cb, &state)`
from `state.unit = unit` on. -/
def foreach_get_uniform (env : Env) (gl_program : Nat) :
    List Nat → Nat → World → CoglPipelineProgendPrivate →
      Option (World × CoglPipelineProgendPrivate)
  | [], _, w, priv => some (w, priv)
  | _ :: rest, unit, w, priv =>
    match get_uniform_cb env gl_program w priv unit with
    | none => none
    | some r => foreach_get_uniform env gl_program rest (unit + 1) r.1 r.2

/-- The traversal `cogl_pipeline_foreach_layer (pipeline, update_constants_cb, &state)`
from `state.unit = unit` on. -/
def foreach_update_constants (env : Env) (pipeline : Nat) (update_all : Bool) :
    List Nat → Nat → World → CoglPipelineProgendPrivate →
      Option (World × CoglPipelineProgendPrivate)
  | [], _, w, priv => some (w, priv)
  | layer_index :: rest, unit, w, priv =>
    match update_constants_cb env pipeline update_all w priv unit layer_index with
    | none => none
    | some r => foreach_update_constants env pipeline update_all rest (unit + 1) r.1 r.2

/-- The GLES2 loop of `_cogl_pipeline_progend_glsl_end` that takes the largest
`n_tex_coord_attribs` of the attached shaders; `none` on a dangling shader pointer. -/
def max_tex_coord_attribs (w : World) : List Nat → Int → Option Int
  | [], n => some n
  | shader :: rest, n =>
    match heap_get w.shaders shader with
    | none => none
    | some sh => max_tex_coord_attribs w rest (max sh.n_tex_coord_attribs n)

/-- The loop of `_cogl_pipeline_progend_glsl_end` that compiles and attaches the
shaders of the user program; `none` on a dangling shader pointer or when the
`g_assert` on the shader language (`COGL_SHADER_LANGUAGE_GLSL` is `0`) fails. -/
def attach_user_shaders (env : Env) (program : Nat) (n_tex_coord_attribs : Int) :
    List Nat → World → Option World
  | [], w => some w
  | shader :: rest, w =>
    match heap_get w.shaders shader with
    | none => none
    | some sh =>
      let sh2 := env.shader_compile_real sh n_tex_coord_attribs
      let w1 := { w with shaders := heap_set w.shaders (some sh2) shader }.call
        (Call.shader_compile_real shader n_tex_coord_attribs)
      if sh2.language ≠ 0 then none
      else attach_user_shaders env program n_tex_coord_attribs rest
        (w1.call (Call.glAttachShader program sh2.gl_handle))

/-- The C function `update_builtin_uniforms` (GLES2 build). -/
def update_builtin_uniforms (pipeline : Nat) (w : World) (priv : CoglPipelineProgendPrivate) :
    World × CoglPipelineProgendPrivate :=
  if priv.dirty_builtin_uniforms = 0 then (w, priv)
  else
    let w0 := if priv.dirty_builtin_uniforms.testBit 0 = true ∧
        priv.builtin_uniform_locations.1 ≠ -1 then
      w.call (Call.glUniform1f_builtin priv.builtin_uniform_locations.1 pipeline 0) else w
    let w1 := if priv.dirty_builtin_uniforms.testBit 1 = true ∧
        priv.builtin_uniform_locations.2 ≠ -1 then
      w0.call (Call.glUniform1f_builtin priv.builtin_uniform_locations.2 pipeline 1) else w0
    (w1, { priv with dirty_builtin_uniforms := 0 })

/-- Lines 574 to 580 of `_cogl_pipeline_progend_glsl_end`: delete the program when
it has to be linked again; `none` on a dangling user program pointer. -/
def end_check_relink (w : World) (user_program : Nat) (n_tex_coord_attribs : Int)
    (priv : CoglPipelineProgendPrivate) : Option (World × CoglPipelineProgendPrivate) :=
  if priv.program ≠ 0 ∧ user_program ≠ 0 then
    match heap_get w.programs user_program with
    | none => none
    | some up =>
      if up.age ≠ priv.user_program_age ∨ n_tex_coord_attribs > priv.n_tex_coord_attribs then
        some (w.call (Call.glDeleteProgram priv.program), { priv with program := 0 })
      else some (w, priv)
  else some (w, priv)

/-- Lines 582 to 636 of `_cogl_pipeline_progend_glsl_end`: create, fill and link a
program when the entry has none.  The Boolean is `program_changed`. -/
def end_link (env : Env) (w : World) (pipeline : Nat) (pl : CoglPipeline)
    (n_tex_coord_attribs : Int) (priv : CoglPipelineProgendPrivate) :
    Option (World × CoglPipelineProgendPrivate × Bool) :=
  if priv.program = 0 then
    let program := env.glCreateProgram w.trace
    let w1 := w.call (Call.glCreateProgram program)
    let priv1 := { priv with program := program }
    let user : Option (World × CoglPipelineProgendPrivate × Int) :=
      if pl.user_program ≠ 0 then
        match heap_get w1.programs pl.user_program with
        | none => none
        | some up =>
          let n1 := if priv1.n_tex_coord_attribs > n_tex_coord_attribs then
            priv1.n_tex_coord_attribs else n_tex_coord_attribs
          match (if env.gles2 then max_tex_coord_attribs w1 up.attached_shaders n1
                 else some n1) with
          | none => none
          | some n2 =>
            match attach_user_shaders env priv1.program n2 up.attached_shaders w1 with
            | none => none
            | some w2 => some (w2, { priv1 with user_program_age := up.age }, n2)
      else some (w1, priv1, n_tex_coord_attribs)
    match user with
    | none => none
    | some (w2, priv2, n) =>
      let fs := env.fragend_glsl_get_shader w2.trace pipeline
      let w3 := if pl.fragend = env.FRAGEND_GLSL ∧ fs ≠ 0 then
        w2.call (Call.glAttachShader priv2.program fs) else w2
      let vs := env.vertend_glsl_get_shader w3.trace pipeline
      let w4 := if pl.vertend = env.VERTEND_GLSL ∧ vs ≠ 0 then
        w3.call (Call.glAttachShader priv2.program vs) else w3
      some (link_program env w4 priv2.program, { priv2 with n_tex_coord_attribs := n }, true)
  else some (w, priv, false)

/-- The GLES2 block of lines 663 to 686: after a link, forget the attribute
locations and flushed matrix stacks and ask for the builtin uniform locations. -/
def end_gles2_locations (env : Env) (w : World) (gl_program : Nat)
    (priv : CoglPipelineProgendPrivate) : World × CoglPipelineProgendPrivate :=
  let c := clear_flushed_matrix_stacks (clear_attribute_cache priv)
  let w0 := { w with trace := w.trace ++ c.2 }
  let b0 := gl_get_uniform_location env w0 gl_program (UniformName.builtin 0)
  let b1 := gl_get_uniform_location env b0.2 gl_program (UniformName.builtin 1)
  let mv := gl_get_uniform_location env b1.2 gl_program UniformName.modelview_matrix
  let pr := gl_get_uniform_location env mv.2 gl_program UniformName.projection_matrix
  let mvp := gl_get_uniform_location env pr.2 gl_program
    UniformName.modelview_projection_matrix
  (mvp.2, { c.1 with
    builtin_uniform_locations := (b0.1, b1.1)
    modelview_uniform := mv.1
    projection_uniform := pr.1
    mvp_uniform := mvp.1 })

/-- The GLES2 block of lines 662 to 692: the builtin uniforms. -/
def end_gles2 (env : Env) (w : World) (pipeline gl_program : Nat) (program_changed : Bool)
    (priv : CoglPipelineProgendPrivate) : World × CoglPipelineProgendPrivate :=
  let r1 := if program_changed then end_gles2_locations env w gl_program priv else (w, priv)
  let priv5 := if program_changed = true ∨ r1.2.last_used_for_pipeline ≠ pipeline
    then { r1.2 with dirty_builtin_uniforms := env.ulong_max } else r1.2
  update_builtin_uniforms pipeline r1.1 priv5

/-- Lines 568 to 701 of `_cogl_pipeline_progend_glsl_end`, everything after the
cache entry has been found: on the entry `priv` (stored back by the caller). -/
def end_with_priv (env : Env) (w : World) (pipeline : Nat) (pl : CoglPipeline)
    (n_tex_coord_attribs : Int) (priv : CoglPipelineProgendPrivate) :
    Option (World × CoglPipelineProgendPrivate) :=
  match end_check_relink w pl.user_program n_tex_coord_attribs priv with
  | none => none
  | some (w1, priv1) =>
    match end_link env w1 pipeline pl n_tex_coord_attribs priv1 with
    | none => none
    | some (w2, priv2, program_changed) =>
      let gl_program := priv2.program
      let w3 := if pl.fragend = env.FRAGEND_GLSL then
        w2.call (Call.use_fragment_program gl_program) else w2
      let w4 := if pl.vertend = env.VERTEND_GLSL then
        w3.call (Call.use_vertex_program gl_program) else w3
      match (if program_changed then foreach_get_uniform env gl_program pl.layers 0 w4 priv2
             else some (w4, priv2)) with
      | none => none
      | some (w5, priv3) =>
        let update_all : Bool :=
          program_changed || decide (priv3.last_used_for_pipeline ≠ pipeline)
        match foreach_update_constants env pipeline update_all pl.layers 0 w5 priv3 with
        | none => none
        | some (w6, priv4) =>
          let g : World × CoglPipelineProgendPrivate :=
            if env.gles2 then end_gles2 env w6 pipeline gl_program program_changed priv4
            else (w6, priv4)
          let w7 := if pl.user_program ≠ 0 then
            g.1.call (Call.program_flush_uniforms pl.user_program gl_program program_changed)
            else g.1
          some (w7, { g.2 with last_used_for_pipeline := pipeline })

/-! ## cogl-pipeline-progend-glsl.c : the entry points -/

/-- The entry lines 546 to 557 initialise: `ref_count`, `program`,
`n_tex_coord_attribs`, a new `unit_state` array of `n_layers` elements and, in the
GLES2 build, four more fields; everything else is what the allocator left. -/
def new_glsl_priv (env : Env) (ptr n_layers : Nat) : CoglPipelineProgendPrivate :=
  let priv := { env.uninit_priv ptr with
    ref_count := 1
    program := 0
    n_tex_coord_attribs := 0
    unit_state := (List.range n_layers).map (env.uninit_unit_state ptr) }
  if env.gles2 then
    { priv with
      tex_coord_attribute_locations := none
      flushed_modelview_stack := 0
      flushed_modelview_is_identity := false
      flushed_projection_stack := 0 }
  else priv

/-- Lines 546 to 558 of `_cogl_pipeline_progend_glsl_end`: allocate a cache entry
(`g_slice_new`), initialise it and attach it to the authority. -/
def end_create_priv (env : Env) (w : World) (authority n_layers : Nat) :
    Option (World × Nat) :=
  let ptr := w.privs.length + 1
  let w1 := { w with privs := w.privs ++ [some (new_glsl_priv env ptr n_layers)] }
  match set_glsl_priv env w1 authority ptr with
  | none => none
  | some w2 => some (w2, ptr)

/-- Lines 563 and 564 of `_cogl_pipeline_progend_glsl_end`: `priv->ref_count++` and
`set_glsl_priv (pipeline, priv)`. -/
def end_share_priv (env : Env) (w : World) (pipeline priv : Nat) : Option World :=
  match heap_get w.privs priv with
  | none => none
  | some pv =>
    let w3 := { w with
      privs := heap_set w.privs (some { pv with ref_count := inc32 pv.ref_count }) priv }
    set_glsl_priv env w3 pipeline priv

/-- Lines 523 to 566 of `_cogl_pipeline_progend_glsl_end`: find the cache entry of
the pipeline, creating or sharing the one of its authority.  Returns the pointer
`priv`; `none` on a dangling pipeline or entry pointer. -/
def end_find_priv (env : Env) (w : World) (pipeline : Nat) (pl : CoglPipeline) :
    Option (World × Nat) :=
  let priv := cogl_object_get_user_data env.N pl._parent env.glsl_priv_key
  if priv = 0 then
    let authority := env.find_equivalent_parent w.pipelines pipeline
    match get_glsl_priv env w authority with
    | none => none
    | some apriv =>
      match (if apriv = 0 then end_create_priv env w authority pl.layers.length
             else some (w, apriv)) with
      | none => none
      | some (w2, priv) =>
        if authority ≠ pipeline then
          match end_share_priv env w2 pipeline priv with
          | none => none
          | some w4 => some (w4, priv)
        else some (w2, priv)
  else some (w, priv)

/-- The C function `_cogl_pipeline_progend_glsl_end` (`ensure_program` of the
specification); `none` when the code dereferences a dangling pointer, indexes
outside `unit_state`, or fails its `g_assert`. -/
def _cogl_pipeline_progend_glsl_end (env : Env) (w : World) (pipeline : Nat)
    (_pipelines_difference : Nat) (n_tex_coord_attribs : Int) : Option World :=
  if env.have_context = false then some w
  else
    match heap_get w.pipelines pipeline with
    | none => none
    | some pl =>
      if pl.fragend ≠ env.FRAGEND_GLSL ∧ pl.vertend ≠ env.VERTEND_GLSL then some w
      else
        match end_find_priv env w pipeline pl with
        | none => none
        | some (w1, priv) =>
          match heap_get w1.privs priv with
          | none => none
          | some pv =>
            match end_with_priv env w1 pipeline pl n_tex_coord_attribs pv with
            | none => none
            | some (w2, pv2) => some { w2 with privs := heap_set w2.privs (some pv2) priv }

/-- The body `priv = get_glsl_priv (pipeline); if (priv) update (priv)` of the
notification functions. -/
def with_glsl_priv (env : Env) (w : World) (pipeline : Nat)
    (update : CoglPipelineProgendPrivate → Option CoglPipelineProgendPrivate) : Option World :=
  match get_glsl_priv env w pipeline with
  | none => none
  | some priv =>
    if priv = 0 then some w
    else
      match heap_get w.privs priv with
      | none => none
      | some pv =>
        match update pv with
        | none => none
        | some pv2 => some { w with privs := heap_set w.privs (some pv2) priv }

/-- The C function `_cogl_pipeline_progend_glsl_pre_change_notify`. -/
def _cogl_pipeline_progend_glsl_pre_change_notify (env : Env) (w : World)
    (pipeline change : Nat) : Option World :=
  if change &&& env.STATE_AFFECTS_FRAGMENT_CODEGEN ≠ 0 then
    dirty_glsl_program_state env w pipeline
  else if env.gles2 then
    if change &&& env.STATE_POINT_SIZE ≠ 0 then
      with_glsl_priv env w pipeline (fun pv =>
        some { pv with dirty_builtin_uniforms := pv.dirty_builtin_uniforms ||| (1 <<< 0) })
    else if change &&& env.STATE_ALPHA_FUNC_REFERENCE ≠ 0 then
      with_glsl_priv env w pipeline (fun pv =>
        some { pv with dirty_builtin_uniforms := pv.dirty_builtin_uniforms ||| (1 <<< 1) })
    else some w
  else some w

/-- The C function `_cogl_pipeline_progend_glsl_layer_pre_change_notify`;
`unit_index` is what `_cogl_pipeline_layer_get_unit_index (layer)` returns. -/
def _cogl_pipeline_progend_glsl_layer_pre_change_notify (env : Env) (w : World)
    (owner unit_index change : Nat) : Option World :=
  if change &&& env.LAYER_STATE_AFFECTS_FRAGMENT_CODEGEN ≠ 0 then
    dirty_glsl_program_state env w owner
  else
    let r1 : Option World :=
      if change &&& env.LAYER_STATE_COMBINE_CONSTANT ≠ 0 then
        with_glsl_priv env w owner (fun pv =>
          match pv.unit_state[unit_index]? with
          | none => none
          | some us => some { pv with
              unit_state := pv.unit_state.set unit_index
                { us with dirty_combine_constant := true } })
      else some w
    match r1 with
    | none => none
    | some w1 =>
      if change &&& env.LAYER_STATE_USER_MATRIX ≠ 0 then
        with_glsl_priv env w1 owner (fun pv =>
          match pv.unit_state[unit_index]? with
          | none => none
          | some us => some { pv with
              unit_state := pv.unit_state.set unit_index
                { us with dirty_texture_matrix := true } })
      else some w1

/-- A call `cogl_object_unref (pipeline)`: the destructors of the attachments run
when the count reaches zero, and the pipeline is then gone from the heap. -/
def pipeline_unref (env : Env) (w : World) (pipeline : Nat) : Option World :=
  match heap_get w.pipelines pipeline with
  | none => none
  | some pl =>
    let r := cogl_object_unref env.N pl._parent
    match run_events env pipeline w r.2 with
    | none => none
    | some w2 =>
      some { w2 with
        pipelines := heap_set w2.pipelines (r.1.map (fun o => { pl with _parent := o })) pipeline }

/-- The operations on the program cache, and what the rest of the library does in
between: state edits of a pipeline (which follow the notifications), new pipelines,
references, and changes of user programs and shaders. -/
inductive Op where
  | ensure (pipeline pipelines_difference : Nat) (n_tex_coord_attribs : Int)
  | pre_change (pipeline change : Nat)
  | layer_pre_change (owner unit_index change : Nat)
  | unref (pipeline : Nat)
  | ref (pipeline : Nat)
  | edit (pipeline fragend vertend user_program : Nat) (layers : List Nat)
      (parent differences : Nat)
  | new_pipeline (inline_mem : List CoglUserDataEntry) (fragend vertend user_program : Nat)
      (layers : List Nat) (parent differences : Nat)
  | set_program (ptr : Nat) (program : Option CoglProgram)
  | set_shader (ptr : Nat) (shader : Option CoglShader)
deriving DecidableEq, Repr

/-- One operation; `none` when it is applied to a dangling pointer (or, for a new
pipeline, to an inline array of the wrong size or a full address space) or runs
into one. -/
def step (env : Env) (w : World) : Op → Option World
  | .ensure pipeline d n => _cogl_pipeline_progend_glsl_end env w pipeline d n
  | .pre_change pipeline change =>
    _cogl_pipeline_progend_glsl_pre_change_notify env w pipeline change
  | .layer_pre_change owner unit_index change =>
    _cogl_pipeline_progend_glsl_layer_pre_change_notify env w owner unit_index change
  | .unref pipeline => pipeline_unref env w pipeline
  | .ref pipeline =>
    match heap_get w.pipelines pipeline with
    | none => none
    | some pl =>
      let pl2 : CoglPipeline := { pl with _parent := cogl_object_ref pl._parent }
      some { w with pipelines := heap_set w.pipelines (some pl2) pipeline }
  | .edit pipeline fragend vertend user_program layers parent differences =>
    match heap_get w.pipelines pipeline with
    | none => none
    | some pl =>
      let pl2 : CoglPipeline :=
        { _parent := pl._parent, fragend := fragend, vertend := vertend,
          user_program := user_program, layers := layers, parent := parent,
          differences := differences }
      some { w with pipelines := heap_set w.pipelines (some pl2) pipeline }
  | .new_pipeline inline_mem fragend vertend user_program layers parent differences =>
    if inline_mem.length = env.N ∧ w.pipelines.length + 1 < 4294967295 then
      let pl : CoglPipeline :=
        { _parent := CoglObject.fresh 1 inline_mem, fragend := fragend,
          vertend := vertend, user_program := user_program, layers := layers,
          parent := parent, differences := differences }
      some { w with pipelines := w.pipelines ++ [some pl] }
    else none
  | .set_program ptr program => some { w with programs := heap_set w.programs program ptr }
  | .set_shader ptr shader => some { w with shaders := heap_set w.shaders shader ptr }

/-- A sequence of operations. -/
def run_ops (env : Env) : World → List Op → Option World
  | w, [] => some w
  | w, op :: rest =>
    match step env w op with
    | none => none
    | some w2 => run_ops env w2 rest

/-- The cache entry pointer attached to a pipeline (`0` when there is none). -/
def priv_of (env : Env) (pl : CoglPipeline) : Nat :=
  cogl_object_get_user_data env.N pl._parent env.glsl_priv_key

/-- Whether a heap cell is a live pipeline whose attachment under `glsl_priv_key`
is the entry `e`. -/
def is_sharer (env : Env) (e : Nat) : Option CoglPipeline → Bool
  | some pl => decide (priv_of env pl = e)
  | none => false

/-- The number of pipelines whose attachment under `glsl_priv_key` is the entry `e`. -/
def sharers (env : Env) (w : World) (e : Nat) : Nat :=
  w.pipelines.countP (is_sharer env e)

/-- The slots of an object follow the discipline of one user of the attachment
store: the slot table invariant holds, the slot under the key `K` carries the
destructor `F`, and no other slot does. -/
def CoglObject.Disciplined (N K F : Nat) (obj : CoglObject) : Prop :=
  obj.Good N ∧ ∀ x ∈ obj.slots N, (x.key = K → x.destroy = F) ∧ (x.key ≠ K → x.destroy ≠ F)

instance (N K F : Nat) (obj : CoglObject) : Decidable (obj.Disciplined N K F) := by
  unfold CoglObject.Disciplined; exact inferInstance

/-- The assumptions on the environment: the rendering context exists, and the key
and the destructor have addresses. -/
def Env.ok (env : Env) : Prop :=
  env.have_context = true ∧ env.glsl_priv_key ≠ 0 ∧ env.destroy_glsl_priv ≠ 0

instance (env : Env) : Decidable env.ok := by
  unfold Env.ok; exact inferInstance

/-- The entry `e`, if it is live, has a reference count that exceeds the number of
pipelines sharing it by `off`. -/
def RefOK (env : Env) (w : World) (off e : Nat) : Prop :=
  match heap_get w.privs e with
  | some pv => pv.ref_count = sharers env w e + off
  | none => True

instance (env : Env) (w : World) (off e : Nat) : Decidable (RefOK env w off e) := by
  unfold RefOK
  cases heap_get w.privs e <;> exact inferInstance

/-- A live pipeline follows the slot discipline and its cache entry, if any, is live. -/
def PipelineOK (env : Env) (w : World) (o : Option CoglPipeline) : Prop :=
  match o with
  | some pl =>
    pl._parent.Disciplined env.N env.glsl_priv_key env.destroy_glsl_priv ∧
    (priv_of env pl ≠ 0 → (heap_get w.privs (priv_of env pl)).isSome = true)
  | none => True

instance (env : Env) (w : World) (o : Option CoglPipeline) : Decidable (PipelineOK env w o) := by
  unfold PipelineOK
  cases o <;> exact inferInstance

/-- The invariant of the program cache, with the reference count of entry `x`
allowed to be `k` above its number of sharers (`k = 0` between operations). -/
def InvOff (env : Env) (w : World) (x k : Nat) : Prop :=
  (∀ o ∈ w.pipelines, PipelineOK env w o) ∧
  (∀ e, RefOK env w (if e = x then k else 0) e) ∧
  w.pipelines.length < 4294967295

/-- The invariant of the program cache between operations: every live pipeline
follows the slot discipline with a live entry, every live entry has a reference
count equal to the number of pipelines sharing it. -/
def Inv (env : Env) (w : World) : Prop := InvOff env w 0 0

/-- A world in which the program end has not run yet: no cache entry exists and no
pipeline carries an attachment under its key or with its destructor. -/
def InitOK (env : Env) (w : World) : Prop :=
  w.privs = [] ∧ w.pipelines.length < 4294967295 ∧
  ∀ o ∈ w.pipelines,
    match o with
    | some pl => pl._parent.Good env.N ∧
        ∀ x ∈ pl._parent.slots env.N,
          x.key ≠ env.glsl_priv_key ∧ x.destroy ≠ env.destroy_glsl_priv
    | none => True

instance (env : Env) (w : World) : Decidable (InitOK env w) := by
  unfold InitOK
  refine @instDecidableAnd _ _ _ (@instDecidableAnd _ _ _ ?_)
  refine @List.decidableBAll _ _ ?_ _
  intro o
  cases o <;> exact inferInstance

/-- The payloads of the destructor calls of a callback list that go to the
destructor `F`. -/
def ev_targets (F : Nat) : List Event → List Nat
  | [] => []
  | Event.destroy fn d _ :: rest => if fn = F then d :: ev_targets F rest else ev_targets F rest
  | Event.virt_free :: rest => ev_targets F rest

/-- What `destroy_glsl_priv` does to the heap of cache entries. -/
def privs_release (privs : List (Option CoglPipelineProgendPrivate)) (e : Nat) :
    Option (List (Option CoglPipelineProgendPrivate)) :=
  match heap_get privs e with
  | none => none
  | some pv =>
    if dec32 pv.ref_count = 0 then some (heap_set privs none e)
    else some (heap_set privs (some { pv with ref_count := dec32 pv.ref_count }) e)

/-- What a list of `destroy_glsl_priv` calls does to the heap of cache entries. -/
def privs_release_all :
    List (Option CoglPipelineProgendPrivate) → List Nat →
      Option (List (Option CoglPipelineProgendPrivate))
  | privs, [] => some privs
  | privs, e :: rest =>
    match privs_release privs e with
    | none => none
    | some p2 => privs_release_all p2 rest

/-- The world with the heap cell of pipeline `p` replaced. -/
def World.put_pipeline (w : World) (v : Option CoglPipeline) (p : Nat) : World :=
  { w with pipelines := heap_set w.pipelines v p }

/-- The world with the heap cell of cache entry `e` replaced. -/
def World.put_priv (w : World) (v : Option CoglPipelineProgendPrivate) (e : Nat) : World :=
  { w with privs := heap_set w.privs v e }

/-- The pipeline after `cogl_object_set_user_data` of the cache entry `x` on it. -/
def attached (env : Env) (pl : CoglPipeline) (x : Nat) : CoglPipeline :=
  { pl with _parent := (cogl_object_set_user_data env.N pl._parent
      env.glsl_priv_key x env.destroy_glsl_priv).1 }

/-- The heap cell of a cache entry after one reference to it has been dropped:
freed with the last reference, else the entry with the count decremented. -/
def dropped (pv : CoglPipelineProgendPrivate) : Option CoglPipelineProgendPrivate :=
  if pv.ref_count = 1 then none else some { pv with ref_count := pv.ref_count - 1 }

/-- A pipeline cell that carries no cache entry (or is gone) and follows the slot
discipline. -/
def Detached (env : Env) (v : Option CoglPipeline) : Prop :=
  match v with
  | some pl => pl._parent.Disciplined env.N env.glsl_priv_key env.destroy_glsl_priv ∧
      priv_of env pl = 0
  | none => True

/-- The world with a new cache entry at the end of the heap. -/
def World.alloc_priv (w : World) (pv : CoglPipelineProgendPrivate) : World :=
  { w with privs := w.privs ++ [some pv] }

/-- The entry with the reference count incremented (`priv->ref_count++`). -/
def CoglPipelineProgendPrivate.incremented (pv : CoglPipelineProgendPrivate) :
    CoglPipelineProgendPrivate :=
  { pv with ref_count := inc32 pv.ref_count }

/-- The world after lines 546 to 558: a new entry, attached to the authority. -/
def created_world (env : Env) (w : World) (A : Nat) (pa : CoglPipeline) (n : Nat) : World :=
  (w.alloc_priv (new_glsl_priv env (w.privs.length + 1) n)).put_pipeline
    (some (attached env pa (w.privs.length + 1))) A

/-- The world after lines 563 and 564: the count of the entry incremented, the
entry attached to the pipeline. -/
def shared_world (env : Env) (w : World) (p : Nat) (pl : CoglPipeline) (e : Nat)
    (pv : CoglPipelineProgendPrivate) : World :=
  (w.put_priv (some pv.incremented) e).put_pipeline (some (attached env pl e)) p

/-- The second world differs from the first in the shaders and the trace at most. -/
def Frame (w w2 : World) : Prop :=
  w2.pipelines = w.pipelines ∧ w2.privs = w.privs ∧ w2.programs = w.programs

/-- The state of a pipeline apart from its embedded object. -/
def pipeline_state (pl : CoglPipeline) : Nat × Nat × Nat × List Nat × Nat × Nat :=
  (pl.fragend, pl.vertend, pl.user_program, pl.layers, pl.parent, pl.differences)

/-- The second world has the same pipelines as the first, up to their embedded
objects, and the same user programs, shaders and trace. -/
def SameGraph (w w1 : World) : Prop :=
  w1.pipelines.length = w.pipelines.length ∧
  (∀ q, (heap_get w1.pipelines q).map pipeline_state =
    (heap_get w.pipelines q).map pipeline_state) ∧
  w1.programs = w.programs ∧ w1.shaders = w.shaders ∧ w1.trace = w.trace

/-! ## Authority resolution and an example world -/

/-- Modelled from the spec: the authority resolution
`_cogl_pipeline_find_equivalent_parent` of cogl-pipeline.c, which is not among the
sources.  The specification describes it as the nearest node, the queried node
included, found by "walking toward the root until a node overriding that category
is found"; the root, which has no parent, ends the walk.  `fuel` bounds the
length of the walk. -/
def resolve_authority (mask : Nat) (pipelines : List (Option CoglPipeline)) : Nat → Nat → Nat
  | 0, node => node
  | fuel + 1, node =>
    match heap_get pipelines node with
    | none => node
    | some pl =>
      if pl.differences &&& mask ≠ 0 ∨ pl.parent = 0 then node
      else resolve_authority mask pipelines fuel pl.parent

/-- Example: the contents of a cache entry as the allocator may leave them. -/
def demo_uninit_priv : CoglPipelineProgendPrivate :=
  { ref_count := 12345, user_program_age := 777, program := 666, n_tex_coord_attribs := -5,
    dirty_builtin_uniforms := 3, builtin_uniform_locations := (55, 56),
    position_attribute_location := 57, color_attribute_location := 58,
    normal_attribute_location := 59, tex_coord0_attribute_location := 60,
    tex_coord_attribute_locations := some [61], modelview_uniform := 62,
    projection_uniform := 63, mvp_uniform := 64, flushed_modelview_stack := 65,
    flushed_modelview_stack_age := 66, flushed_modelview_is_identity := true,
    flushed_projection_stack := 67, flushed_projection_stack_age := 68,
    last_used_for_pipeline := 2, unit_state := [] }

/-- Example: an environment with two inline slots, the GLES2 build, a driver that
links every program, and the authority resolution of the specification for the
code-generation mask `12`. -/
def demo_env : Env :=
  { N := 2, gles2 := true, have_context := true, glsl_priv_key := 7001,
    destroy_glsl_priv := 7002, FRAGEND_GLSL := 1, VERTEND_GLSL := 1,
    STATE_AFFECTS_FRAGMENT_CODEGEN := 12, LAYER_STATE_AFFECTS_FRAGMENT_CODEGEN := 3,
    STATE_AFFECTS_VERTEX_CODEGEN := 12, LAYER_STATE_AFFECTS_VERTEX_CODEGEN := 3,
    STATE_LAYERS := 64,
    LAYER_STATE_COMBINE_CONSTANT := 4, LAYER_STATE_USER_MATRIX := 8,
    STATE_POINT_SIZE := 16, STATE_ALPHA_FUNC_REFERENCE := 32,
    ulong_max := 18446744073709551615,
    find_equivalent_parent := fun pipelines p =>
      resolve_authority 12 pipelines pipelines.length p,
    glCreateProgram := fun trace => trace.length + 1,
    link_status := fun _ _ => true,
    glGetUniformLocation := fun _ _ name =>
      match name with
      | .sampler u => u
      | .layer_constant u => 10 + u
      | .texture_matrix u => 20 + u
      | .builtin i => 30 + i
      | .modelview_matrix => 40
      | .projection_matrix => 41
      | .modelview_projection_matrix => -1,
    fragend_glsl_get_shader := fun _ p => 500 + p,
    vertend_glsl_get_shader := fun _ p => 600 + p,
    shader_compile_real := fun sh n => { sh with gl_handle := 900, n_tex_coord_attribs := n },
    uninit_priv := fun _ => demo_uninit_priv,
    uninit_unit_state := fun _ _ => ⟨true, true, 99, 99⟩ }

/-- Example: a new pipeline with two layers. -/
def demo_pipeline (user_program parent differences : Nat) : CoglPipeline :=
  { _parent := CoglObject.fresh 1 demo_mem, fragend := 1, vertend := 1,
    user_program := user_program, layers := [0, 1], parent := parent,
    differences := differences }

/-- Example: the chain root (1), A (2), B (3), C (4), each the parent of the next;
the root overrides every category, C overrides a code-generation category, A and
B override none.  No cache entry exists yet. -/
def demo_world : World :=
  { pipelines := [some (demo_pipeline 0 0 63), some (demo_pipeline 0 1 0),
      some (demo_pipeline 0 2 0), some (demo_pipeline 1 3 4)],
    privs := [], programs := [some ⟨5, [1]⟩], shaders := [some ⟨0, 0, 0⟩], trace := [] }

/-- The world after a sequence of operations (the first world when one fails). -/
def after (env : Env) (w : World) (ops : List Op) : World := (run_ops env w ops).getD w

/-- The cache entry at a pointer (an entry as the allocator leaves it when the
pointer is dangling). -/
def entry_at (env : Env) (w : World) (e : Nat) : CoglPipelineProgendPrivate :=
  (heap_get w.privs e).getD (env.uninit_priv e)

/-- The pipeline at a pointer (a new pipeline when the pointer is dangling). -/
def pipeline_at (w : World) (p : Nat) : CoglPipeline :=
  (heap_get w.pipelines p).getD (demo_pipeline 0 0 0)

/-- Example: the program end runs for A, B and C; then a notification detaches the
entry of A, a layer notification marks a unit of B, and C is destroyed. -/
def demo_ops : List Op :=
  [Op.ensure 2 0 1, Op.ensure 3 0 1, Op.ensure 4 0 2, Op.pre_change 2 4,
    Op.layer_pre_change 3 1 4, Op.unref 4]

/-- The second world has the trace of the first followed by the calls `t`. -/
def Ext (w w2 : World) (t : List Call) : Prop := w2.trace = w.trace ++ t

/-- The uniform locations cached for a texture unit. -/
def UnitState.locations (u : UnitState) : Int × Int :=
  (u.combine_constant_uniform, u.texture_matrix_uniform)

/-- The second entry has the program, the attribute count, the user program age and
the cached per-unit uniform locations of the first. -/
def SameLink (pv pv2 : CoglPipelineProgendPrivate) : Prop :=
  pv2.program = pv.program ∧ pv2.n_tex_coord_attribs = pv.n_tex_coord_attribs ∧
  pv2.user_program_age = pv.user_program_age ∧
  pv2.unit_state.map UnitState.locations = pv.unit_state.map UnitState.locations

/-- The uniform locations cached for unit `u` were asked of the driver for the
program `g` among the calls `t`: the combine constant always, the texture matrix
in the GLES2 build. -/
def Resolved (gles2 : Bool) (g : Nat) (t : List Call) (pv : CoglPipelineProgendPrivate)
    (u : Nat) : Prop :=
  ∃ us, pv.unit_state[u]? = some us ∧
    Call.glGetUniformLocation g (UniformName.layer_constant u) us.combine_constant_uniform ∈ t ∧
    (gles2 = true →
      Call.glGetUniformLocation g (UniformName.texture_matrix u) us.texture_matrix_uniform ∈ t)

/-- A step that only adds calls to the trace and keeps what `SameLink` names. -/
def Keeps (w w2 : World) (pv pv2 : CoglPipelineProgendPrivate) : Prop :=
  (∃ t, Ext w w2 t) ∧ SameLink pv pv2

/-- The shader pointer is live and points to a GLSL shader
(`COGL_SHADER_LANGUAGE_GLSL` is `0`). -/
def GlslShader (w : World) (s : Nat) : Prop :=
  ∃ sh, heap_get w.shaders s = some sh ∧ sh.language = 0

/-- The user program of a pipeline, when it has one, is live and its shaders are
live GLSL shaders. -/
def UserProgramLive (w : World) (pl : CoglPipeline) : Prop :=
  pl.user_program ≠ 0 →
    ∃ prog, heap_get w.programs pl.user_program = some prog ∧
      ∀ s, s ∈ prog.attached_shaders → GlslShader w s

/-- The shader compiler leaves the language of a GLSL shader alone. -/
def Env.compiles_glsl (env : Env) : Prop :=
  ∀ sh m, sh.language = 0 → (env.shader_compile_real sh m).language = 0

/-- The program handle that a call deletes, if it is a `glDeleteProgram` call. -/
def Call.deletes : Call → Option Nat
  | Call.glDeleteProgram g => some g
  | _ => none

/-- The program handles passed to `glDeleteProgram` in a trace, in order. -/
def deleted_programs (t : List Call) : List Nat := t.filterMap Call.deletes

/-- The program handles returned by `glCreateProgram` in a trace, in order. -/
def created_programs (t : List Call) : List Nat :=
  t.filterMap (fun c => match c with
    | Call.glCreateProgram g => some g
    | _ => none)

/-- The calls of `destroy_glsl_priv` on the entry `pv` at `e` when the count
reaches zero (lines 308 to 318): the matrix stacks are released in the GLES2
build, the program is deleted if there is one, the unit state array and the
entry are freed. -/
def destroy_calls (env : Env) (pv : CoglPipelineProgendPrivate) (e : Nat) : List Call :=
  (if env.gles2 then (clear_flushed_matrix_stacks (clear_attribute_cache pv)).2 else []) ++
  (if pv.program ≠ 0 then [Call.glDeleteProgram pv.program] else []) ++
  [Call.g_free_unit_state e, Call.g_slice_free_priv e]

/-- The entry that a call frees with `g_slice_free`, if it is such a call. -/
def Call.frees : Call → Option Nat
  | Call.g_slice_free_priv e => some e
  | _ => none

/-- The cache entries freed in a trace, in order. -/
def freed (t : List Call) : List Nat := t.filterMap Call.frees

/-- The pointer `e` is an entry that has been allocated and freed. -/
def Dead (w : World) (e : Nat) : Prop :=
  e ≠ 0 ∧ e ≤ w.privs.length ∧ heap_get w.privs e = none

/-- From the first world to the second, the entries freed by the new calls of the
trace are distinct entries that were not dead and now are, and dead entries stay
dead. -/
def Releases (w w2 : World) : Prop :=
  ∃ l, freed w2.trace = freed w.trace ++ l ∧ l.Nodup ∧
    (∀ e, e ∈ l → ¬ Dead w e ∧ Dead w2 e) ∧ ∀ e, Dead w e → Dead w2 e

/-- No entry has been freed twice, and the freed entries are dead. -/
def FreedOK (w : World) : Prop :=
  (freed w.trace).Nodup ∧ ∀ e, e ∈ freed w.trace → Dead w e

/-- Whether a call is one of those the second half of
`_cogl_pipeline_progend_glsl_end` makes: every call but those that free memory or
belong to the object code. -/
def Call.is_end_call : Call → Bool
  | Call.g_free_unit_state _ => false
  | Call.g_slice_free_priv _ => false
  | Call.foreign_destroy _ _ => false
  | Call.pipeline_free _ => false
  | _ => true

/-- The second world has the trace of the first followed by calls of the second
half of `_cogl_pipeline_progend_glsl_end`. -/
def EndCalls (w w2 : World) : Prop :=
  ∃ t, Ext w w2 t ∧ ∀ c, c ∈ t → c.is_end_call = true

/-- The calls that `destroy_glsl_priv` makes for the entry at `e`. -/
def release_one (env : Env) (privs : List (Option CoglPipelineProgendPrivate)) (e : Nat) :
    List Call :=
  match heap_get privs e with
  | none => []
  | some pv => if dec32 pv.ref_count = 0 then destroy_calls env pv e else []

/-- The calls that a list of `destroy_glsl_priv` calls makes, given the heap of
cache entries they start from. -/
def release_calls (env : Env) :
    List (Option CoglPipelineProgendPrivate) → List Nat → List Call
  | _, [] => []
  | privs, e :: rest =>
    release_one env privs e ++ release_calls env ((privs_release privs e).getD privs) rest

/-- What dropping one reference to the entry `pv` at `e` does from the first world
to the second: above one reference the entry stays, with the count decremented,
and nothing is freed or deleted; with the last reference the entry is freed and
its program, if it has one, deleted.  Other entries are left alone. -/
def Dropped (w w2 : World) (e : Nat) (pv : CoglPipelineProgendPrivate) : Prop :=
  (1 < pv.ref_count →
    heap_get w2.privs e = some { pv with ref_count := pv.ref_count - 1 } ∧
    freed w2.trace = freed w.trace ∧
    deleted_programs w2.trace = deleted_programs w.trace) ∧
  (pv.ref_count = 1 →
    heap_get w2.privs e = none ∧ freed w2.trace = freed w.trace ++ [e] ∧
    deleted_programs w2.trace = deleted_programs w.trace ++
      (if pv.program ≠ 0 then [pv.program] else [])) ∧
  ∀ x, x ≠ e → heap_get w2.privs x = heap_get w.privs x

/-- Example: the world after the operations `demo_ops` on the example chain. -/
def demo_final : World := after demo_env demo_world demo_ops

/-- Every live GLSL shader of the first world is a live GLSL shader of the second. -/
def ShadersKept (w w2 : World) : Prop := ∀ s, GlslShader w s → GlslShader w2 s

/-- Whether a call is one of the calls of the program end that neither create,
link, delete or diagnose a program, nor upload a uniform of a layer, nor free
memory: shader compilation and attachment, uniform location queries, the sampler
and builtin uniforms, the program selection, the uniforms of the user program
and the release of a matrix stack. -/
def Call.is_quiet : Call → Bool
  | Call.shader_compile_real _ _ => true
  | Call.glAttachShader _ _ => true
  | Call.glGetUniformLocation _ _ _ => true
  | Call.glUniform1i _ _ => true
  | Call.glUniform1f_builtin _ _ _ => true
  | Call.use_fragment_program _ => true
  | Call.use_vertex_program _ => true
  | Call.program_flush_uniforms _ _ _ => true
  | Call.matrix_stack_unref _ => true
  | _ => false

/-- The calls of a trace that are not quiet, in order. -/
def loud (t : List Call) : List Call := t.filter (fun c => !c.is_quiet)

/-- The second world has the trace of the first followed by quiet calls. -/
def Quiet (w w2 : World) : Prop :=
  ∃ t, Ext w w2 t ∧ ∀ c, c ∈ t → c.is_quiet = true

/-- The calls of lines 582 to 636 that are not quiet, for the new program `g` and
the link status `st` that the driver reports: the program is created and linked,
the status is asked for, and a failed link is diagnosed with the log of the
driver in one warning. -/
def link_calls (g : Nat) (st : Bool) : List Call :=
  [Call.glCreateProgram g, Call.glLinkProgram g, Call.glGetProgramiv_link_status g st] ++
  if st = false then [Call.glGetProgramInfoLog g, Call.g_warning_link_failed g] else []

/-- The second world has the trace of the first followed by calls of which `l` are
those that are not quiet. -/
def Loud (w w2 : World) (l : List Call) : Prop :=
  ∃ t, Ext w w2 t ∧ loud t = l

/-- The uploads of `update_constants_cb` for one unit: the combine constant when
its uniform has a location and `update_all` or the dirty bit of the constant is
set, and, in the GLES2 build, the texture matrix under the same conditions on its
own location and dirty bit. -/
def unit_uploads (env : Env) (pipeline : Nat) (update_all : Bool) (us : UnitState)
    (layer_index : Nat) : List Call :=
  (if us.combine_constant_uniform ≠ -1 ∧
      (update_all = true ∨ us.dirty_combine_constant = true) then
    [Call.glUniform4fv_combine_constant us.combine_constant_uniform pipeline layer_index]
  else []) ++
  (if env.gles2 = true ∧ us.texture_matrix_uniform ≠ -1 ∧
      (update_all = true ∨ us.dirty_texture_matrix = true) then
    [Call.glUniformMatrix4fv_layer_matrix us.texture_matrix_uniform pipeline layer_index]
  else [])

/-- The unit state that `update_constants_cb` leaves: the dirty bit of what has
been uploaded is clear. -/
def unit_after (env : Env) (update_all : Bool) (us : UnitState) : UnitState :=
  { dirty_combine_constant :=
      if us.combine_constant_uniform ≠ -1 ∧
          (update_all = true ∨ us.dirty_combine_constant = true) then false
      else us.dirty_combine_constant
    dirty_texture_matrix :=
      if env.gles2 = true ∧ us.texture_matrix_uniform ≠ -1 ∧
          (update_all = true ∨ us.dirty_texture_matrix = true) then false
      else us.dirty_texture_matrix
    combine_constant_uniform := us.combine_constant_uniform
    texture_matrix_uniform := us.texture_matrix_uniform }

/-- The uploads of the traversal with `update_constants_cb`: those of each layer
with the state of its unit, in unit order. -/
def upload_calls (env : Env) (pipeline : Nat) (update_all : Bool) :
    List UnitState → List Nat → List Call
  | us :: units, layer_index :: layers =>
    unit_uploads env pipeline update_all us layer_index ++
      upload_calls env pipeline update_all units layers
  | _, _ => []

/-- The entry `pv2` is the entry `pv3` after the traversal with
`update_constants_cb` over `layers` and the rest of
`_cogl_pipeline_progend_glsl_end` for the pipeline `p`: the program, the attribute
count, the age and the reference count are kept, the visited unit states are
changed as `unit_after` says, and `p` is recorded as the last pipeline. -/
def Uploaded (env : Env) (p : Nat) (update_all : Bool)
    (pv3 pv2 : CoglPipelineProgendPrivate) (layers : List Nat) : Prop :=
  pv2.program = pv3.program ∧ pv2.n_tex_coord_attribs = pv3.n_tex_coord_attribs ∧
  pv2.user_program_age = pv3.user_program_age ∧ pv2.ref_count = pv3.ref_count ∧
  pv2.last_used_for_pipeline = p ∧
  ∀ u, pv2.unit_state[u]? = if u < layers.length
    then (pv3.unit_state[u]?).map (unit_after env update_all) else pv3.unit_state[u]?

/-- The program of the entry is not stale for the call (lines 574 to 576): the
pipeline has no user program, or the age of its user program is the cached one
and the call demands no more texture-coordinate attributes than the entry
records. -/
def Fresh (w : World) (pl : CoglPipeline) (n : Int) (pv : CoglPipelineProgendPrivate) :
    Prop :=
  pl.user_program = 0 ∨
    ∃ prog, heap_get w.programs pl.user_program = some prog ∧
      prog.age = pv.user_program_age ∧ n ≤ pv.n_tex_coord_attribs

/-- The program that a call links, if it is a `glLinkProgram` call. -/
def Call.links : Call → Option Nat
  | Call.glLinkProgram g => some g
  | _ => none

/-- The program whose failed link a call diagnoses, if it is the `g_warning` of
`link_program`. -/
def Call.warns : Call → Option Nat
  | Call.g_warning_link_failed g => some g
  | _ => none

/-- The program that a call creates, if it is a `glCreateProgram` call. -/
def Call.creates : Call → Option Nat
  | Call.glCreateProgram g => some g
  | _ => none

/-- The programs passed to `glLinkProgram` in a trace, in order. -/
def linked_programs (t : List Call) : List Nat := t.filterMap Call.links

/-- The programs whose failed link is diagnosed in a trace, in order. -/
def link_warnings (t : List Call) : List Nat := t.filterMap Call.warns

/-- The calls of a trace that upload the combine constant or the texture matrix
of a layer, in order. -/
def layer_uploads (t : List Call) : List Call :=
  t.filter (fun c => match c with
    | Call.glUniform4fv_combine_constant _ _ _ => true
    | Call.glUniformMatrix4fv_layer_matrix _ _ _ => true
    | _ => false)

/-- Example: the world after the program end has run for C (4) with three
texture-coordinate attributes. -/
def demo_linked3 : World := after demo_env demo_world [Op.ensure 4 0 3]

/-- The program of the entry has to be linked for the call (lines 574 to 582): the
entry has no program, or the pipeline has a user program whose age is not the
cached one or the call demands more texture-coordinate attributes than the
entry records. -/
def Stale (w : World) (pl : CoglPipeline) (n : Int) (pv : CoglPipelineProgendPrivate) :
    Prop :=
  pv.program = 0 ∨
    ∃ prog, pl.user_program ≠ 0 ∧ heap_get w.programs pl.user_program = some prog ∧
      (prog.age ≠ pv.user_program_age ∨ n > pv.n_tex_coord_attribs)

/-- The `glDeleteProgram` call of line 578 on a stale entry: none when the entry
has no program. -/
def stale_deletes (pv : CoglPipelineProgendPrivate) : List Call :=
  if pv.program ≠ 0 then [Call.glDeleteProgram pv.program] else []

/-- Example: the world `demo_linked` after the user program 1 has been changed, so
that its age is 6 while the entry of C (4) caches the age 5. -/
def demo_aged : World :=
  after demo_env demo_world [Op.ensure 4 0 1, Op.set_program 1 (some ⟨6, [1]⟩)]

/-- Example: the environment `demo_env` with a driver that fails to link every
program. -/
def demo_fail : Env := { demo_env with link_status := fun _ _ => false }

/-- A call `(pipeline, difference, n)` of the program end that finds the program
of the entry `e`, with the contents `pv`, not stale: the pipeline is live, uses a
GLSL backend and holds `e`, it has no user program or the age of its user program
is the cached one and `n` is at most the recorded attribute count, and the entry
has a unit state for each of its layers. -/
def LaterCall (env : Env) (w : World) (e : Nat) (pv : CoglPipelineProgendPrivate)
    (c : Nat × Nat × Int) : Prop :=
  ∃ pl, heap_get w.pipelines c.1 = some pl ∧
    (pl.fragend = env.FRAGEND_GLSL ∨ pl.vertend = env.VERTEND_GLSL) ∧
    priv_of env pl = e ∧ Fresh w pl c.2.2 pv ∧ pl.layers.length ≤ pv.unit_state.length

/-- A sequence of calls of the program end, as operations. -/
def ensure_ops (calls : List (Nat × Nat × Int)) : List Op :=
  calls.map (fun c => Op.ensure c.1 c.2.1 c.2.2)

/-- Whether a call uploads the combine constant of the layer `layer_index`. -/
def Call.is_constant_upload (layer_index : Nat) : Call → Bool
  | Call.glUniform4fv_combine_constant _ _ l => decide (l = layer_index)
  | _ => false

/-- Whether a call uploads the texture matrix of the layer `layer_index`. -/
def Call.is_matrix_upload (layer_index : Nat) : Call → Bool
  | Call.glUniformMatrix4fv_layer_matrix _ _ l => decide (l = layer_index)
  | _ => false

/-- How many times the calls `t` upload the combine constant of a layer. -/
def constant_uploads (t : List Call) (layer_index : Nat) : Nat :=
  t.countP (Call.is_constant_upload layer_index)

/-- How many times the calls `t` upload the texture matrix of a layer. -/
def matrix_uploads (t : List Call) (layer_index : Nat) : Nat :=
  t.countP (Call.is_matrix_upload layer_index)

/-- Example: the world after the program end has run for A (2) and then for B (3)
of the example chain, which share the entry of the root. -/
def demo_switched : World := after demo_env demo_world [Op.ensure 2 0 1, Op.ensure 3 0 1]

/-- The unit state after a layer notification with the change mask `change` that
does not detach the entry: each announced change sets its dirty bit. -/
def UnitState.marked (env : Env) (change : Nat) (us : UnitState) : UnitState :=
  { us with
    dirty_combine_constant :=
      if change &&& env.LAYER_STATE_COMBINE_CONSTANT ≠ 0 then true
      else us.dirty_combine_constant
    dirty_texture_matrix :=
      if change &&& env.LAYER_STATE_USER_MATRIX ≠ 0 then true
      else us.dirty_texture_matrix }

/-- Example: the world after the program end has run for the root (1) of the
example chain. -/
def demo_painted : World := after demo_env demo_world [Op.ensure 1 0 1]

/-- A sequence of layer notifications with the same change for the layers at the
unit indices `changed` of one pipeline, as operations. -/
def notify_ops (owner change : Nat) (changed : List Nat) : List Op :=
  changed.map (fun i => Op.layer_pre_change owner i change)

/-- Example: the environment `demo_env` with a driver that has no location for the
combine constant of unit 1 (the shader does not use it). -/
def demo_noconst : Env :=
  { demo_env with
    glGetUniformLocation := fun _ _ name =>
      match name with
      | .sampler u => u
      | .layer_constant u => if u = 1 then -1 else 10 + u
      | .texture_matrix u => 20 + u
      | .builtin i => 30 + i
      | .modelview_matrix => 40
      | .projection_matrix => 41
      | .modelview_projection_matrix => -1 }

/-- Example: the environment `demo_env` in the build without GLES2. -/
def demo_gl : Env := { demo_env with gles2 := false }

/-! ## cogl-pipeline-progend-glsl.c : the matrix uniforms (GLES2 build) -/

/-- The matrix uniforms that `_cogl_pipeline_progend_glsl_pre_paint` uploads. -/
inductive MatrixUniform where
  | modelview
  | projection
  | mvp
deriving DecidableEq, Repr

/-- The calls `_cogl_pipeline_progend_glsl_pre_paint` and its callbacks make out of
their file, apart from the queries of the matrix stacks: the warning of
`g_return_if_fail`, `cogl_object_ref` and `cogl_object_unref` on a matrix stack,
and `glUniformMatrix4fv` with a matrix of a stack or with the product that
`cogl_matrix_multiply` makes of a projection and a modelview matrix. -/
inductive PaintCall where
  | g_return_if_fail_warning
  | cogl_object_ref (stack : Nat)
  | cogl_object_unref (stack : Nat)
  | glUniformMatrix4fv (uniform : MatrixUniform) (location : Int) (matrix : Nat)
  | glUniformMatrix4fv_product (location : Int) (projection modelview : Nat)
deriving DecidableEq, Repr

/-- What `_cogl_pipeline_progend_glsl_pre_paint` takes from the context and from
cogl-matrix-stack.c: the flushed stacks of the context, the age and the identity
flag of a stack, and the callback invocations `(is_identity, matrix)` that
`_cogl_matrix_stack_prepare_for_flush` makes for a stack and a mode
(`COGL_MATRIX_MODELVIEW` is `0`, `COGL_MATRIX_PROJECTION` is `1`). -/
structure MatrixCtx where
  flushed_modelview_stack : Nat
  flushed_projection_stack : Nat
  _cogl_matrix_stack_get_age : Nat → Nat
  _cogl_matrix_stack_has_identity_flag : Nat → Bool
  _cogl_matrix_stack_prepare_for_flush : Nat → Nat → List (Bool × Nat)

/-- The C function `flush_modelview_cb`. -/
def flush_modelview_cb (priv : CoglPipelineProgendPrivate) (c : Bool × Nat) : PaintCall :=
  PaintCall.glUniformMatrix4fv MatrixUniform.modelview priv.modelview_uniform c.2

/-- The C function `flush_projection_cb`. -/
def flush_projection_cb (priv : CoglPipelineProgendPrivate) (c : Bool × Nat) : PaintCall :=
  PaintCall.glUniformMatrix4fv MatrixUniform.projection priv.projection_uniform c.2

/-- The C function `flush_combined_step_two_cb`. -/
def flush_combined_step_two_cb (priv : CoglPipelineProgendPrivate) (projection_matrix : Nat)
    (c : Bool × Nat) : PaintCall :=
  if c.1 then PaintCall.glUniformMatrix4fv MatrixUniform.mvp priv.mvp_uniform projection_matrix
  else PaintCall.glUniformMatrix4fv_product priv.mvp_uniform projection_matrix c.2

/-- The C function `flush_combined_step_one_cb`. -/
def flush_combined_step_one_cb (mx : MatrixCtx) (priv : CoglPipelineProgendPrivate)
    (c : Bool × Nat) : List PaintCall :=
  (mx._cogl_matrix_stack_prepare_for_flush mx.flushed_modelview_stack 0).map
    (flush_combined_step_two_cb priv c.2)

/-- Lines 865 to 877 of `_cogl_pipeline_progend_glsl_pre_paint`: whether the
modelview matrix has to be flushed. -/
def modelview_changed (mx : MatrixCtx) (priv : CoglPipelineProgendPrivate) : Bool :=
  if priv.flushed_modelview_is_identity = true ∧
      mx._cogl_matrix_stack_has_identity_flag mx.flushed_modelview_stack = true then false
  else decide (priv.flushed_modelview_stack ≠ mx.flushed_modelview_stack ∨
    priv.flushed_modelview_stack_age ≠
      mx._cogl_matrix_stack_get_age priv.flushed_modelview_stack)

/-- Lines 879 to 882 of `_cogl_pipeline_progend_glsl_pre_paint`: whether the
projection matrix has to be flushed. -/
def projection_changed (mx : MatrixCtx) (priv : CoglPipelineProgendPrivate) : Bool :=
  decide (priv.flushed_projection_stack ≠ mx.flushed_projection_stack ∨
    priv.flushed_projection_stack_age ≠
      mx._cogl_matrix_stack_get_age priv.flushed_projection_stack)

/-- Lines 884 to 900 of `_cogl_pipeline_progend_glsl_pre_paint`: record and flush
the modelview stack of the context. -/
def pre_paint_modelview (mx : MatrixCtx) (priv : CoglPipelineProgendPrivate) :
    CoglPipelineProgendPrivate × List PaintCall :=
  let priv1 := { priv with
    flushed_modelview_stack := mx.flushed_modelview_stack
    flushed_modelview_stack_age :=
      mx._cogl_matrix_stack_get_age mx.flushed_modelview_stack
    flushed_modelview_is_identity :=
      mx._cogl_matrix_stack_has_identity_flag mx.flushed_modelview_stack }
  (priv1,
    [PaintCall.cogl_object_ref mx.flushed_modelview_stack] ++
    (if priv.flushed_modelview_stack ≠ 0 then
      [PaintCall.cogl_object_unref priv.flushed_modelview_stack] else []) ++
    (if priv1.modelview_uniform ≠ -1 then
      (mx._cogl_matrix_stack_prepare_for_flush priv1.flushed_modelview_stack 0).map
        (flush_modelview_cb priv1)
    else []))

/-- Lines 902 to 916 of `_cogl_pipeline_progend_glsl_pre_paint`: record and flush
the projection stack of the context. -/
def pre_paint_projection (mx : MatrixCtx) (priv : CoglPipelineProgendPrivate) :
    CoglPipelineProgendPrivate × List PaintCall :=
  let priv1 := { priv with
    flushed_projection_stack := mx.flushed_projection_stack
    flushed_projection_stack_age :=
      mx._cogl_matrix_stack_get_age mx.flushed_projection_stack }
  (priv1,
    [PaintCall.cogl_object_ref mx.flushed_projection_stack] ++
    (if priv.flushed_projection_stack ≠ 0 then
      [PaintCall.cogl_object_unref priv.flushed_projection_stack] else []) ++
    (if priv1.projection_uniform ≠ -1 then
      (mx._cogl_matrix_stack_prepare_for_flush priv1.flushed_projection_stack 1).map
        (flush_projection_cb priv1)
    else []))

/-- Lines 865 to 923 of `_cogl_pipeline_progend_glsl_pre_paint` on the entry `priv`
(stored back by the caller). -/
def pre_paint_with_priv (mx : MatrixCtx) (priv : CoglPipelineProgendPrivate) :
    CoglPipelineProgendPrivate × List PaintCall :=
  let mc := modelview_changed mx priv
  let pc := projection_changed mx priv
  let r1 := if mc then pre_paint_modelview mx priv else (priv, [])
  let r2 := if pc then pre_paint_projection mx r1.1 else (r1.1, [])
  (r2.1, r1.2 ++ r2.2 ++
    (if r2.1.mvp_uniform ≠ -1 ∧ (mc = true ∨ pc = true) then
      (mx._cogl_matrix_stack_prepare_for_flush mx.flushed_projection_stack 1).flatMap
        (flush_combined_step_one_cb mx r2.1)
    else []))

/-- The C function `_cogl_pipeline_progend_glsl_pre_paint` (GLES2 build): the world
afterwards and the calls made; `none` when the pipeline pointer is dangling or
the code dereferences a `NULL` or dangling entry pointer. -/
def _cogl_pipeline_progend_glsl_pre_paint (env : Env) (mx : MatrixCtx) (w : World)
    (pipeline : Nat) : Option (World × List PaintCall) :=
  match heap_get w.pipelines pipeline with
  | none => none
  | some pl =>
    let priv := cogl_object_get_user_data env.N pl._parent env.glsl_priv_key
    if env.have_context = false then some (w, [])
    else if pl.vertend ≠ env.VERTEND_GLSL then some (w, [PaintCall.g_return_if_fail_warning])
    else if mx.flushed_modelview_stack = 0 ∨ mx.flushed_projection_stack = 0 then
      some (w, [])
    else
      match heap_get w.privs priv with
      | none => none
      | some pv =>
        let r := pre_paint_with_priv mx pv
        some ({ w with privs := heap_set w.privs (some r.1) priv }, r.2)

/-- The matrix uniform that a call uploads, if it is a `glUniformMatrix4fv` call. -/
def PaintCall.uploads : PaintCall → Option MatrixUniform
  | PaintCall.glUniformMatrix4fv u _ _ => some u
  | PaintCall.glUniformMatrix4fv_product _ _ _ => some MatrixUniform.mvp
  | _ => none

/-- The matrix uniforms uploaded by a list of calls, in order. -/
def matrix_uniform_uploads (t : List PaintCall) : List MatrixUniform :=
  t.filterMap PaintCall.uploads

/-- Example: a context with the flushed modelview stack 7 and projection stack 8;
the age of a stack is its address plus 100, no stack has the identity flag, and a
flush calls the callback once with the matrix of the stack. -/
def demo_mx : MatrixCtx :=
  { flushed_modelview_stack := 7, flushed_projection_stack := 8,
    _cogl_matrix_stack_get_age := fun s => s + 100,
    _cogl_matrix_stack_has_identity_flag := fun _ => false,
    _cogl_matrix_stack_prepare_for_flush := fun s _ => [(false, s)] }

/-- Example: three attaches, a detach of the first key, and two more attaches. -/
def demo_set_calls : List SetCall :=
  [⟨3, 30, 300⟩, ⟨1, 10, 100⟩, ⟨2, 20, 200⟩, ⟨3, 0, 0⟩, ⟨4, 40, 0⟩, ⟨5, 50, 500⟩]

/-- The arguments of the `_cogl_matrix_stack_get_age` calls of lines 865 to 916 of
`_cogl_pipeline_progend_glsl_pre_paint`, in order: the `||` of C evaluates its
second operand, the age of the stack recorded in the entry, only when the first
is false; the other two calls read the age of a stack of the context. -/
def age_reads_with_priv (mx : MatrixCtx) (priv : CoglPipelineProgendPrivate) : List Nat :=
  (if priv.flushed_modelview_is_identity = true ∧
      mx._cogl_matrix_stack_has_identity_flag mx.flushed_modelview_stack = true then []
    else if priv.flushed_modelview_stack ≠ mx.flushed_modelview_stack then []
    else [priv.flushed_modelview_stack]) ++
  (if priv.flushed_projection_stack ≠ mx.flushed_projection_stack then []
    else [priv.flushed_projection_stack]) ++
  (if modelview_changed mx priv then [mx.flushed_modelview_stack] else []) ++
  (if projection_changed mx priv then [mx.flushed_projection_stack] else [])

/-- The arguments of the `_cogl_matrix_stack_get_age` calls of
`_cogl_pipeline_progend_glsl_pre_paint`, in order. -/
def pre_paint_age_reads (env : Env) (mx : MatrixCtx) (w : World) (pipeline : Nat) : List Nat :=
  match heap_get w.pipelines pipeline with
  | none => []
  | some pl =>
    let priv := cogl_object_get_user_data env.N pl._parent env.glsl_priv_key
    if env.have_context = false then []
    else if pl.vertend ≠ env.VERTEND_GLSL then []
    else if mx.flushed_modelview_stack = 0 ∨ mx.flushed_projection_stack = 0 then []
    else
      match heap_get w.privs priv with
      | none => []
      | some pv => age_reads_with_priv mx pv

/-- The attribute names the program end asks the driver for: `cogl_position_in`,
`cogl_color_in`, `cogl_normal_in` and `cogl_tex_coord<unit>_in`. -/
inductive AttribName where
  | position
  | color
  | normal
  | tex_coord (unit : Nat)
deriving DecidableEq, Repr

/-- The calls the attribute queries make out of their file: the warning of
`g_return_val_if_fail` and `glGetAttribLocation` with its result. -/
inductive AttribCall where
  | g_return_if_fail_warning
  | glGetAttribLocation (program : Nat) (name : AttribName) (result : Int)
deriving DecidableEq, Repr

/-- The common frame of the four attribute queries (GLES2 build): `get_glsl_priv`,
the two `g_return_val_if_fail` lines, and the store of the entry the body changed.
Returns the value returned, the world afterwards and the calls made; `none` when a
pointer is dangling. -/
def with_attribute_priv (env : Env) (w : World) (pipeline : Nat)
    (body : CoglPipelineProgendPrivate → Int × CoglPipelineProgendPrivate × List AttribCall) :
    Option (Int × World × List AttribCall) :=
  match get_glsl_priv env w pipeline with
  | none => none
  | some priv =>
    if priv = 0 then some (-1, w, [AttribCall.g_return_if_fail_warning])
    else
      match heap_get w.privs priv with
      | none => none
      | some pv =>
        if pv.program = 0 then some (-1, w, [AttribCall.g_return_if_fail_warning])
        else
          let r := body pv
          some (r.1, { w with privs := heap_set w.privs (some r.2.1) priv }, r.2.2)

/-- The C function `_cogl_pipeline_progend_glsl_get_position_attribute`; `gl` is the
answer of `glGetAttribLocation` (`ATTRIBUTE_LOCATION_UNKNOWN` is `-2`). -/
def _cogl_pipeline_progend_glsl_get_position_attribute (gl : Nat → AttribName → Int)
    (env : Env) (w : World) (pipeline : Nat) : Option (Int × World × List AttribCall) :=
  with_attribute_priv env w pipeline (fun priv =>
    if priv.position_attribute_location = -2 then
      ((gl priv.program AttribName.position),
        { priv with position_attribute_location := gl priv.program AttribName.position },
        [AttribCall.glGetAttribLocation priv.program AttribName.position
          (gl priv.program AttribName.position)])
    else (priv.position_attribute_location, priv, []))

/-- The C function `_cogl_pipeline_progend_glsl_get_color_attribute`. -/
def _cogl_pipeline_progend_glsl_get_color_attribute (gl : Nat → AttribName → Int)
    (env : Env) (w : World) (pipeline : Nat) : Option (Int × World × List AttribCall) :=
  with_attribute_priv env w pipeline (fun priv =>
    if priv.color_attribute_location = -2 then
      ((gl priv.program AttribName.color),
        { priv with color_attribute_location := gl priv.program AttribName.color },
        [AttribCall.glGetAttribLocation priv.program AttribName.color
          (gl priv.program AttribName.color)])
    else (priv.color_attribute_location, priv, []))

/-- The C function `_cogl_pipeline_progend_glsl_get_normal_attribute`. -/
def _cogl_pipeline_progend_glsl_get_normal_attribute (gl : Nat → AttribName → Int)
    (env : Env) (w : World) (pipeline : Nat) : Option (Int × World × List AttribCall) :=
  with_attribute_priv env w pipeline (fun priv =>
    if priv.normal_attribute_location = -2 then
      ((gl priv.program AttribName.normal),
        { priv with normal_attribute_location := gl priv.program AttribName.normal },
        [AttribCall.glGetAttribLocation priv.program AttribName.normal
          (gl priv.program AttribName.normal)])
    else (priv.normal_attribute_location, priv, []))

/-- The C function `_cogl_pipeline_progend_glsl_get_tex_coord_attribute` for a unit
that is not negative: unit 0 has a field of its own, the other units an array that
is allocated on demand and grown to `unit` elements, the new ones unknown. -/
def _cogl_pipeline_progend_glsl_get_tex_coord_attribute (gl : Nat → AttribName → Int)
    (env : Env) (w : World) (pipeline : Nat) (unit : Nat) :
    Option (Int × World × List AttribCall) :=
  with_attribute_priv env w pipeline (fun priv =>
    if unit = 0 then
      if priv.tex_coord0_attribute_location = -2 then
        ((gl priv.program (AttribName.tex_coord 0)),
          { priv with tex_coord0_attribute_location := gl priv.program (AttribName.tex_coord 0) },
          [AttribCall.glGetAttribLocation priv.program (AttribName.tex_coord 0)
            (gl priv.program (AttribName.tex_coord 0))])
      else (priv.tex_coord0_attribute_location, priv, [])
    else
      let arr0 : List Int := priv.tex_coord_attribute_locations.getD []
      let arr1 : List Int :=
        if arr0.length ≤ unit - 1 then arr0 ++ List.replicate (unit - arr0.length) (-2)
        else arr0
      if arr1.getD (unit - 1) 0 = -2 then
        ((gl priv.program (AttribName.tex_coord unit)),
          { priv with
            tex_coord_attribute_locations :=
              some (arr1.set (unit - 1) (gl priv.program (AttribName.tex_coord unit))) },
          [AttribCall.glGetAttribLocation priv.program (AttribName.tex_coord unit)
            (gl priv.program (AttribName.tex_coord unit))])
      else (arr1.getD (unit - 1) 0, { priv with tex_coord_attribute_locations := some arr1 }, []))

/-- One of the four attribute queries, by the name it asks for. -/
def attribute_query (gl : Nat → AttribName → Int) (env : Env) (w : World) (pipeline : Nat) :
    AttribName → Option (Int × World × List AttribCall)
  | AttribName.position => _cogl_pipeline_progend_glsl_get_position_attribute gl env w pipeline
  | AttribName.color => _cogl_pipeline_progend_glsl_get_color_attribute gl env w pipeline
  | AttribName.normal => _cogl_pipeline_progend_glsl_get_normal_attribute gl env w pipeline
  | AttribName.tex_coord unit =>
    _cogl_pipeline_progend_glsl_get_tex_coord_attribute gl env w pipeline unit

/-- The location an entry caches for an attribute name; an array that is not
allocated or too short caches nothing, which is unknown (`-2`). -/
def cached_attribute (priv : CoglPipelineProgendPrivate) : AttribName → Int
  | AttribName.position => priv.position_attribute_location
  | AttribName.color => priv.color_attribute_location
  | AttribName.normal => priv.normal_attribute_location
  | AttribName.tex_coord 0 => priv.tex_coord0_attribute_location
  | AttribName.tex_coord (u + 1) => (priv.tex_coord_attribute_locations.getD []).getD u (-2)

/-- Example: the driver answers with the unit plus 3 for a texture coordinate
attribute and with 0, 1, 2 for position, colour and normal. -/
def demo_attrib_gl (_program : Nat) : AttribName → Int
  | AttribName.position => 0
  | AttribName.color => 1
  | AttribName.normal => 2
  | AttribName.tex_coord u => u + 3

/-! ## clutter-shader-effect.c : data model -/

/-- The `GType` values the shader effect tells apart: `G_TYPE_INVALID`,
`G_TYPE_INT`, `G_TYPE_FLOAT`, `CLUTTER_TYPE_SHADER_INT`,
`CLUTTER_TYPE_SHADER_FLOAT`, `CLUTTER_TYPE_SHADER_MATRIX`, and any other type. -/
inductive GType where
  | invalid
  | int
  | float
  | shader_int
  | shader_float
  | shader_matrix
  | other (id : Nat)
deriving DecidableEq, Repr

/-- A `GValue`: its type and its payload (the size given to
`clutter_value_set_shader_*` and the numbers held). -/
structure GValue where
  type : GType
  size : Nat
  data : List Int
deriving DecidableEq, Repr

/-- The C struct `ShaderUniform`. -/
structure ShaderUniform where
  name : String
  type : GType
  value : GValue
  location : Int
deriving DecidableEq, Repr

/-- The C struct `ClutterShaderEffectPrivate` (`COGL_INVALID_HANDLE` and `NULL` are
`0`).  The hash table `uniforms` is the list of its values in iteration order,
taken to be insertion order; `none` is `NULL`. -/
structure ClutterShaderEffectPrivate where
  actor : Nat
  program : Nat
  shader : Nat
  uniforms : Option (List ShaderUniform)
  is_compiled : Bool
deriving DecidableEq, Repr

/-- The calls the shader effect makes out of its file. -/
inductive EffectCall where
  | g_return_if_fail_warning
  | g_warning_no_glsl
  | clutter_actor_meta_set_enabled (is_enabled : Bool)
  | cogl_handle_unref (handle : Nat)
  | g_hash_table_destroy
  | parent_set_actor (actor : Nat)
  | cogl_create_program (result : Nat)
  | cogl_create_shader (result : Nat)
  | cogl_shader_compile (shader : Nat)
  | cogl_shader_is_compiled (shader : Nat) (result : Bool)
  | cogl_shader_get_info_log (shader : Nat)
  | g_warning_unable_to_compile
  | cogl_program_attach_shader (program shader : Nat)
  | cogl_program_link (program : Nat)
  | cogl_program_use (program : Nat)
  | cogl_program_get_uniform_location (program : Nat) (name : String) (result : Int)
  | cogl_program_uniform_float (location : Int) (size : Nat) (data : List Int)
  | cogl_program_uniform_int (location : Int) (size : Nat) (data : List Int)
  | cogl_program_uniform_matrix (location : Int) (size : Nat) (data : List Int)
  | g_warning_invalid_uniform (type : GType) (name : String)
  | g_warning_unrecognized_type (type : GType) (n_values : Int) (name : String)
  | parent_paint_target
  | parent_finalize
deriving DecidableEq, Repr

/-- A shader effect: its private data and the calls made so far. -/
structure Effect where
  priv : ClutterShaderEffectPrivate
  trace : List EffectCall
deriving DecidableEq, Repr

/-- Record a call. -/
def Effect.call (e : Effect) (c : EffectCall) : Effect := { e with trace := e.trace ++ [c] }

/-- What the shader effect takes from outside its file, each a function of the
calls made so far: whether GLSL shaders are available, the actor the parent class
reports, the handles Cogl creates, whether a shader compiled, and the location of
a uniform in a program; and the conversion `(gfloat)` of a `gdouble` argument
(the numbers of a payload stand for the values the C code holds). -/
structure ShaderEnv where
  clutter_feature_available_glsl : List EffectCall → Bool
  clutter_actor_meta_get_actor : List EffectCall → Nat
  cogl_create_program : List EffectCall → Nat
  cogl_create_shader : List EffectCall → Nat
  cogl_shader_is_compiled : List EffectCall → Nat → Bool
  cogl_program_get_uniform_location : List EffectCall → Nat → String → Int
  gfloat_of_gdouble : Int → Int

/-- The effect as `clutter_shader_effect_init` finds it: zeroed private data. -/
def Effect.init : Effect := ⟨⟨0, 0, 0, none, false⟩, []⟩

/-- The C function `clutter_shader_effect_clear`. -/
def clutter_shader_effect_clear (e : Effect) (reset_uniforms : Bool) : Effect :=
  let e1 : Effect := if e.priv.shader ≠ 0 then
      { priv := { e.priv with shader := 0 },
        trace := e.trace ++ [EffectCall.cogl_handle_unref e.priv.shader] }
    else e
  let e2 : Effect := if e1.priv.program ≠ 0 then
      { priv := { e1.priv with program := 0 },
        trace := e1.trace ++ [EffectCall.cogl_handle_unref e1.priv.program] }
    else e1
  let e3 : Effect := if reset_uniforms = true ∧ e2.priv.uniforms ≠ none then
      { priv := { e2.priv with uniforms := none },
        trace := e2.trace ++ [EffectCall.g_hash_table_destroy] }
    else e2
  { e3 with priv := { e3.priv with actor := 0, is_compiled := false } }

/-- The C function `clutter_shader_effect_reset_uniforms`. -/
def clutter_shader_effect_reset_uniforms (e : Effect) : Effect :=
  match e.priv.uniforms with
  | none => e
  | some table =>
    { e with priv := { e.priv with
        uniforms := some (table.map (fun uniform => { uniform with location := -1 })) } }

/-- The upload branch of the loop of `clutter_shader_effect_update_uniforms` for
one uniform with its location: the call made. -/
def uniform_upload (uniform : ShaderUniform) (location : Int) : EffectCall :=
  if uniform.value.type = GType.shader_float then
    EffectCall.cogl_program_uniform_float location uniform.value.size uniform.value.data
  else if uniform.value.type = GType.shader_int then
    EffectCall.cogl_program_uniform_int location uniform.value.size uniform.value.data
  else if uniform.value.type = GType.shader_matrix then
    EffectCall.cogl_program_uniform_matrix location uniform.value.size uniform.value.data
  else if uniform.value.type = GType.float then
    EffectCall.cogl_program_uniform_float location 1 uniform.value.data
  else if uniform.value.type = GType.int then
    EffectCall.cogl_program_uniform_int location 1 uniform.value.data
  else EffectCall.g_warning_invalid_uniform uniform.value.type uniform.name

/-- The loop of `clutter_shader_effect_update_uniforms` over the table: the table
afterwards and the trace afterwards. -/
def update_uniforms_loop (env : ShaderEnv) (program : Nat) :
    List ShaderUniform → List EffectCall → List ShaderUniform × List EffectCall
  | [], t => ([], t)
  | uniform :: rest, t =>
    let location :=
      if uniform.location = -1 then
        env.cogl_program_get_uniform_location t program uniform.name
      else uniform.location
    let t1 :=
      if uniform.location = -1 then
        t ++ [EffectCall.cogl_program_get_uniform_location program uniform.name location]
      else t
    let r := update_uniforms_loop env program rest (t1 ++ [uniform_upload uniform location])
    ({ uniform with location := location } :: r.1, r.2)

/-- The C function `clutter_shader_effect_update_uniforms`. -/
def clutter_shader_effect_update_uniforms (env : ShaderEnv) (e : Effect) : Effect :=
  match e.priv.uniforms with
  | none => e
  | some table =>
    let r := update_uniforms_loop env e.priv.program table e.trace
    { priv := { e.priv with uniforms := some r.1 }, trace := r.2 }

/-- The C function `clutter_shader_effect_set_actor`; `none` when the `g_assert`
on the new shader handle fails. -/
def clutter_shader_effect_set_actor (env : ShaderEnv) (e : Effect) (actor : Nat) :
    Option Effect :=
  if env.clutter_feature_available_glsl e.trace = false then
    some ((e.call EffectCall.g_warning_no_glsl).call
      (EffectCall.clutter_actor_meta_set_enabled false))
  else
    let e1 : Effect :=
      clutter_shader_effect_reset_uniforms (clutter_shader_effect_clear e false)
    let e2 : Effect := e1.call (EffectCall.parent_set_actor actor)
    let e3 : Effect := { e2 with priv := { e2.priv with
      actor := env.clutter_actor_meta_get_actor e2.trace } }
    if e3.priv.actor = 0 then some e3
    else
      let e4 : Effect :=
        { priv := { e3.priv with program := env.cogl_create_program e3.trace },
          trace := e3.trace ++ [EffectCall.cogl_create_program (env.cogl_create_program e3.trace)] }
      let e5 : Effect :=
        { priv := { e4.priv with shader := env.cogl_create_shader e4.trace },
          trace := e4.trace ++ [EffectCall.cogl_create_shader (env.cogl_create_shader e4.trace)] }
      if e5.priv.shader ≠ 0 then some e5 else none

/-- Lines 372 to 383 of `clutter_shader_effect_paint_target`: use the program,
upload the uniforms, paint, and unset the program. -/
def paint_target_use (env : ShaderEnv) (e : Effect) : Effect :=
  let e1 : Effect := e.call (EffectCall.cogl_program_use e.priv.program)
  let e2 : Effect := clutter_shader_effect_update_uniforms env e1
  (e2.call EffectCall.parent_paint_target).call (EffectCall.cogl_program_use 0)

/-- The C function `clutter_shader_effect_paint_target`. -/
def clutter_shader_effect_paint_target (env : ShaderEnv) (e : Effect) : Effect :=
  if e.priv.program = 0 ∨ e.priv.shader = 0 then e
  else if e.priv.is_compiled = false then
    let e1 : Effect := e.call (EffectCall.cogl_shader_compile e.priv.shader)
    let e2 : Effect := e1.call (EffectCall.cogl_shader_is_compiled e.priv.shader
      (env.cogl_shader_is_compiled e1.trace e.priv.shader))
    if env.cogl_shader_is_compiled e1.trace e.priv.shader = false then
      let e3 : Effect := (e2.call (EffectCall.cogl_shader_get_info_log e2.priv.shader)).call
        EffectCall.g_warning_unable_to_compile
      let e4 : Effect :=
        { priv := { e3.priv with shader := 0 },
          trace := e3.trace ++ [EffectCall.cogl_handle_unref e3.priv.shader] }
      { priv := { e4.priv with shader := 0 },
        trace := e4.trace ++ [EffectCall.cogl_handle_unref e4.priv.program] }
    else
      let e3 : Effect := (e2.call (EffectCall.cogl_program_attach_shader e2.priv.program
        e2.priv.shader)).call (EffectCall.cogl_program_link e2.priv.program)
      paint_target_use env { e3 with priv := { e3.priv with is_compiled := true } }
  else paint_target_use env e

/-- The C function `clutter_shader_effect_finalize`. -/
def clutter_shader_effect_finalize (e : Effect) : Effect :=
  (clutter_shader_effect_clear e true).call EffectCall.parent_finalize

/-- The C function `clutter_shader_effect_get_shader`, for an effect that passes
`CLUTTER_IS_SHADER_EFFECT`. -/
def clutter_shader_effect_get_shader (e : Effect) : Nat := e.priv.shader

/-- The C function `clutter_shader_effect_get_program`, for an effect that passes
`CLUTTER_IS_SHADER_EFFECT`. -/
def clutter_shader_effect_get_program (e : Effect) : Nat := e.priv.program

/-- The C function `shader_uniform_new`. -/
def shader_uniform_new (name : String) (value : GValue) : ShaderUniform :=
  { name := name, type := value.type, location := -1, value := value }

/-- The C function `shader_uniform_update`. -/
def shader_uniform_update (uniform : ShaderUniform) (value : GValue) : ShaderUniform :=
  { uniform with value := value }

/-- The function `g_hash_table_lookup` on the table: the position of the value
stored under a name. -/
def table_lookup (table : List ShaderUniform) (name : String) : Option Nat :=
  let i := table.findIdx (fun uniform => uniform.name = name)
  if i < table.length then some i else none

/-- The C function `clutter_shader_effect_add_uniform`. -/
def clutter_shader_effect_add_uniform (env : ShaderEnv) (e : Effect) (name : String)
    (value : GValue) : Effect :=
  let table := e.priv.uniforms.getD []
  let location (uniform : ShaderUniform) : Int :=
    env.cogl_program_get_uniform_location e.trace e.priv.program uniform.name
  let finish (i : Nat) (uniform : ShaderUniform) (table2 : List ShaderUniform) : Effect :=
    if e.priv.is_compiled = true then
      { priv := { e.priv with
          uniforms := some (table2.set i { uniform with location := location uniform }) },
        trace := e.trace ++ [EffectCall.cogl_program_get_uniform_location e.priv.program
          uniform.name (location uniform)] }
    else { e with priv := { e.priv with uniforms := some table2 } }
  match table_lookup table name with
  | none =>
    finish table.length (shader_uniform_new name value) (table ++ [shader_uniform_new name value])
  | some i =>
    match table[i]? with
    | none => e
    | some uniform =>
      finish i (shader_uniform_update uniform value)
        (table.set i (shader_uniform_update uniform value))

/-- The C function `clutter_shader_effect_set_uniform_value`, for an effect that
passes `CLUTTER_IS_SHADER_EFFECT`; `none` is `NULL`. -/
def clutter_shader_effect_set_uniform_value (env : ShaderEnv) (e : Effect)
    (name : Option String) (value : Option GValue) : Effect :=
  match name, value with
  | none, _ => e.call EffectCall.g_return_if_fail_warning
  | some _, none => e.call EffectCall.g_return_if_fail_warning
  | some n, some v => clutter_shader_effect_add_uniform env e n v

/-- The conversion `(int) n_values` of a `gsize` to a 32-bit `int`. -/
def int_of_gsize (n : Nat) : Int :=
  if n % 4294967296 < 2147483648 then ((n % 4294967296 : Nat) : Int)
  else ((n % 4294967296 : Nat) : Int) - 4294967296

/-- The C function `clutter_shader_effect_set_uniform_valist`; `args` are the
values the function reads from the argument list or from the array it points to. -/
def clutter_shader_effect_set_uniform_valist (env : ShaderEnv) (e : Effect) (name : String)
    (value_type : GType) (n_values : Nat) (args : List Int) : Effect :=
  if value_type = GType.shader_int then
    clutter_shader_effect_add_uniform env e name ⟨GType.shader_int, n_values, args⟩
  else if value_type = GType.shader_float then
    clutter_shader_effect_add_uniform env e name ⟨GType.shader_float, n_values, args⟩
  else if value_type = GType.shader_matrix then
    clutter_shader_effect_add_uniform env e name ⟨GType.shader_matrix, n_values, args⟩
  else if value_type = GType.int then
    if n_values = 1 then
      clutter_shader_effect_add_uniform env e name ⟨GType.int, 1, args.take 1⟩
    else
      clutter_shader_effect_add_uniform env e name
        ⟨GType.shader_int, n_values, args.take n_values⟩
  else if value_type = GType.float then
    if n_values = 1 then
      clutter_shader_effect_add_uniform env e name
        ⟨GType.float, 1, (args.take 1).map env.gfloat_of_gdouble⟩
    else
      clutter_shader_effect_add_uniform env e name
        ⟨GType.shader_float, n_values, (args.take n_values).map env.gfloat_of_gdouble⟩
  else e.call (EffectCall.g_warning_unrecognized_type value_type (int_of_gsize n_values) name)

/-- The C function `clutter_shader_effect_set_uniform`, for an effect that passes
`CLUTTER_IS_SHADER_EFFECT`. -/
def clutter_shader_effect_set_uniform (env : ShaderEnv) (e : Effect) (name : Option String)
    (gtype : GType) (n_values : Nat) (args : List Int) : Effect :=
  match name with
  | none => e.call EffectCall.g_return_if_fail_warning
  | some n =>
    if gtype = GType.invalid then e.call EffectCall.g_return_if_fail_warning
    else if n_values = 0 then e.call EffectCall.g_return_if_fail_warning
    else clutter_shader_effect_set_uniform_valist env e n gtype n_values args

/-- The payload kinds the uniform submission interface names: single integer,
single float, integer vector, float vector and matrix. -/
def GType.recognised : GType → Bool
  | GType.int => true
  | GType.float => true
  | GType.shader_int => true
  | GType.shader_float => true
  | GType.shader_matrix => true
  | _ => false

/-- Whether a call is a diagnostic (`g_warning` or the warning of
`g_return_if_fail`). -/
def EffectCall.is_diagnostic : EffectCall → Bool
  | EffectCall.g_return_if_fail_warning => true
  | EffectCall.g_warning_no_glsl => true
  | EffectCall.g_warning_unable_to_compile => true
  | EffectCall.g_warning_invalid_uniform _ _ => true
  | EffectCall.g_warning_unrecognized_type _ _ _ => true
  | _ => false

/-- The value the table stores under a name. -/
def stored_value (e : Effect) (name : String) : Option GValue :=
  ((e.priv.uniforms.getD []).find? (fun uniform => uniform.name = name)).map (·.value)

/-- An operation on a shader effect. -/
inductive EffectOp where
  | set_actor (actor : Nat)
  | paint_target
  | finalize
  | set_uniform_value (name : Option String) (value : Option GValue)
  | set_uniform (name : Option String) (gtype : GType) (n_values : Nat) (args : List Int)
deriving DecidableEq, Repr

/-- Run a sequence of operations on an effect; `none` when an assertion fails or
an operation follows `finalize`. -/
def run_effect_ops (env : ShaderEnv) : Effect → List EffectOp → Option Effect
  | e, [] => some e
  | e, EffectOp.set_actor actor :: rest =>
    match clutter_shader_effect_set_actor env e actor with
    | none => none
    | some e1 => run_effect_ops env e1 rest
  | e, EffectOp.paint_target :: rest =>
    run_effect_ops env (clutter_shader_effect_paint_target env e) rest
  | e, EffectOp.finalize :: rest =>
    if rest = [] then some (clutter_shader_effect_finalize e) else none
  | e, EffectOp.set_uniform_value name value :: rest =>
    run_effect_ops env (clutter_shader_effect_set_uniform_value env e name value) rest
  | e, EffectOp.set_uniform name gtype n_values args :: rest =>
    run_effect_ops env (clutter_shader_effect_set_uniform env e name gtype n_values args) rest

/-- Example: GLSL is available, the parent class reports actor 5, the handles
created are the number of calls made so far plus 100, no shader compiles, and
every uniform is at location 3. -/
def demo_shader_env : ShaderEnv :=
  { clutter_feature_available_glsl := fun _ => true
    clutter_actor_meta_get_actor := fun _ => 5
    cogl_create_program := fun t => t.length + 100
    cogl_create_shader := fun t => t.length + 100
    cogl_shader_is_compiled := fun _ _ => false
    cogl_program_get_uniform_location := fun _ _ _ => 3
    gfloat_of_gdouble := fun x => x }

/-- Example: as `demo_shader_env`, with every shader compiling. -/
def demo_shader_ok : ShaderEnv :=
  { demo_shader_env with cogl_shader_is_compiled := fun _ _ => true }

/-- Whether a call compiles a shader or attaches a shader to, links or uses a
program. -/
def EffectCall.uses_program : EffectCall → Bool
  | EffectCall.cogl_shader_compile _ => true
  | EffectCall.cogl_program_attach_shader _ _ => true
  | EffectCall.cogl_program_link _ => true
  | EffectCall.cogl_program_use _ => true
  | _ => false

/-- Whether an operation is a paint or a uniform submission (it neither prepares
nor destroys the effect). -/
def EffectOp.is_paint_or_submission : EffectOp → Bool
  | EffectOp.paint_target => true
  | EffectOp.set_uniform_value _ _ => true
  | EffectOp.set_uniform _ _ _ _ => true
  | _ => false

/-- Whether a call is a `cogl_handle_unref`. -/
def EffectCall.is_unref : EffectCall → Bool
  | EffectCall.cogl_handle_unref _ => true
  | _ => false

/-- The table after the first uniform with a name has been changed by `g`. -/
def update_first (name : String) (g : ShaderUniform → ShaderUniform) :
    List ShaderUniform → List ShaderUniform
  | [] => []
  | uniform :: rest =>
    if uniform.name = name then g uniform :: rest
    else uniform :: update_first name g rest

/-- Whether a call uploads a uniform (`cogl_program_uniform_float`, `_int` or
`_matrix`). -/
def EffectCall.is_uniform_upload : EffectCall → Bool
  | EffectCall.cogl_program_uniform_float _ _ _ => true
  | EffectCall.cogl_program_uniform_int _ _ _ => true
  | EffectCall.cogl_program_uniform_matrix _ _ _ => true
  | _ => false

/-- Example: the environment `demo_fail` with a driver that creates no program
either (`glCreateProgram` returns 0). -/
def demo_zero : Env := { demo_fail with glCreateProgram := fun _ => 0 }

theorem find_loop_spec (key : Nat) (mk : Nat → Slot) (l : List CoglUserDataEntry) :
    ∀ (i : Nat) (entry : Option Slot),
      find_loop key mk l i entry =
        match firstKey key l with
        | some j => .error (mk (i + j))
        | none => .ok (match lastEmpty l with
                       | some j => some (mk (i + j))
                       | none => entry) := by
  induction l with
  | nil => intro i entry; simp [find_loop, firstKey, lastEmpty]
  | cons c rest ih =>
    intro i entry
    by_cases hk : c.key = key
    · simp [find_loop, firstKey, hk]
    · rw [find_loop, if_neg hk, ih]
      simp only [firstKey, if_neg hk, lastEmpty]
      cases hf : firstKey key rest with
      | some j => simp [Nat.add_assoc, Nat.add_comm 1 j]
      | none =>
        cases hl : lastEmpty rest with
        | some j => simp [Nat.add_assoc, Nat.add_comm 1 j]
        | none => by_cases hu : c.user_data = 0 <;> simp [hu]

theorem firstKey_append (key : Nat) (a b : List CoglUserDataEntry) :
    firstKey key (a ++ b) =
      match firstKey key a with
      | some j => some j
      | none => (firstKey key b).map (a.length + ·) := by
  induction a with
  | nil => cases h : firstKey key b <;> simp [firstKey, h]
  | cons c rest ih =>
    by_cases hk : c.key = key
    · simp [firstKey, hk]
    · have e1 : firstKey key (c :: rest ++ b) = (firstKey key (rest ++ b)).map (· + 1) := by
        simp [firstKey, hk]
      have e2 : firstKey key (c :: rest) = (firstKey key rest).map (· + 1) := by
        simp [firstKey, hk]
      rw [e1, e2, ih]
      cases hf : firstKey key rest with
      | some j => simp
      | none =>
        cases hb : firstKey key b with
        | some j => simp; omega
        | none => simp

theorem lastEmpty_append (a b : List CoglUserDataEntry) :
    lastEmpty (a ++ b) =
      match lastEmpty b with
      | some j => some (a.length + j)
      | none => lastEmpty a := by
  induction a with
  | nil => cases h : lastEmpty b <;> simp [lastEmpty, h]
  | cons c rest ih =>
    have e1 : lastEmpty (c :: rest ++ b) =
        match lastEmpty (rest ++ b) with
        | some j => some (j + 1)
        | none => if c.user_data = 0 then some 0 else none := by
      simp [lastEmpty]
    rw [e1, ih]
    cases hb : lastEmpty b with
    | some j => simp; omega
    | none => simp [lastEmpty]

theorem firstKey_lt (key : Nat) (l : List CoglUserDataEntry) (j : Nat)
    (h : firstKey key l = some j) : j < l.length := by
  induction l generalizing j with
  | nil => simp [firstKey] at h
  | cons c rest ih =>
    by_cases hk : c.key = key
    · simp [firstKey, hk] at h; subst h; simp
    · simp only [firstKey, if_neg hk] at h
      cases hf : firstKey key rest with
      | none => simp [hf] at h
      | some j2 =>
        simp [hf] at h; subst h
        have := ih j2 hf
        simp; omega

theorem lastEmpty_lt (l : List CoglUserDataEntry) (j : Nat)
    (h : lastEmpty l = some j) : j < l.length := by
  induction l generalizing j with
  | nil => simp [lastEmpty] at h
  | cons c rest ih =>
    simp only [lastEmpty] at h
    cases hl : lastEmpty rest with
    | some j2 =>
      simp [hl] at h; subst h
      have := ih j2 hl
      simp; omega
    | none =>
      simp [hl] at h
      obtain ⟨_, h2⟩ := h
      subst h2; simp

theorem get_loop_append (key : Nat) (a b : List CoglUserDataEntry) :
    get_loop key (a ++ b) =
      match get_loop key a with
      | some d => some d
      | none => get_loop key b := by
  induction a with
  | nil => cases h : get_loop key b <;> simp [get_loop, h]
  | cons c rest ih =>
    by_cases hk : c.key = key
    · simp [get_loop, hk]
    · simp [get_loop, hk, ih]

theorem get_user_data_slots (N : Nat) (obj : CoglObject) (key : Nat) :
    cogl_object_get_user_data N obj key = (get_loop key (obj.slots N)).getD 0 := by
  unfold cogl_object_get_user_data CoglObject.slots
  rw [get_loop_append]
  cases h1 : get_loop key (List.take (obj.count N) obj.user_data_entry) with
  | some d => simp
  | none =>
    cases h2 : obj.user_data_array with
    | none => simp [get_loop]
    | some arr => simp

theorem find_entry_spec (N : Nat) (obj : CoglObject) (key : Nat) :
    _cogl_object_find_entry N obj key =
      match firstKey key (obj.user_data_entry.take (obj.count N)) with
      | some j => some (Slot.inline j)
      | none =>
        match firstKey key (obj.user_data_array.getD []) with
        | some j => some (Slot.overflow j)
        | none =>
          match lastEmpty (obj.user_data_array.getD []) with
          | some j => some (Slot.overflow j)
          | none => (lastEmpty (obj.user_data_entry.take (obj.count N))).map Slot.inline := by
  unfold _cogl_object_find_entry
  rw [find_loop_spec]
  cases h1 : firstKey key (List.take (obj.count N) obj.user_data_entry) with
  | some j => simp
  | none =>
    cases h2 : obj.user_data_array with
    | none =>
      cases h3 : lastEmpty (List.take (obj.count N) obj.user_data_entry) <;>
        simp [firstKey, lastEmpty]
    | some arr =>
      simp only [Option.getD_some]
      rw [find_loop_spec]
      cases h4 : firstKey key arr with
      | some j => simp
      | none =>
        cases h5 : lastEmpty arr with
        | some j => simp
        | none =>
          cases h3 : lastEmpty (List.take (obj.count N) obj.user_data_entry) <;> simp

theorem target_append (key : Nat) (a b : List CoglUserDataEntry) :
    target key (a ++ b) =
      match firstKey key a with
      | some j => some j
      | none =>
        match firstKey key b with
        | some j => some (a.length + j)
        | none =>
          match lastEmpty b with
          | some j => some (a.length + j)
          | none => lastEmpty a := by
  unfold target
  rw [firstKey_append, lastEmpty_append]
  cases h1 : firstKey key a with
  | some j => simp
  | none =>
    cases h2 : firstKey key b with
    | some j => simp
    | none => simp

theorem find_entry_target (N : Nat) (obj : CoglObject) (key : Nat) :
    (_cogl_object_find_entry N obj key).map
        (Slot.index (obj.user_data_entry.take (obj.count N)).length) =
      target key (obj.slots N) := by
  rw [find_entry_spec]
  unfold CoglObject.slots
  rw [target_append]
  cases h1 : firstKey key (List.take (obj.count N) obj.user_data_entry) with
  | some j => simp [Slot.index]
  | none =>
    cases h2 : firstKey key (obj.user_data_array.getD []) with
    | some j => simp [Slot.index]
    | none =>
      cases h3 : lastEmpty (obj.user_data_array.getD []) with
      | some j => simp [Slot.index]
      | none =>
        cases h4 : lastEmpty (List.take (obj.count N) obj.user_data_entry) <;>
          simp [Slot.index]

theorem Shape.take_length {N : Nat} {obj : CoglObject} (hs : obj.Shape N) :
    (obj.user_data_entry.take (obj.count N)).length = obj.count N := by
  have h := hs.1
  simp [CoglObject.count, h]

theorem Shape.slots_length {N : Nat} {obj : CoglObject} (hs : obj.Shape N) :
    (obj.slots N).length = obj.n_user_data_entries := by
  obtain ⟨h1, h2⟩ := hs
  unfold CoglObject.slots CoglObject.count
  cases ha : obj.user_data_array with
  | none => rw [ha] at h2; simp at h2; simp [h1]; omega
  | some arr => rw [ha] at h2; simp at h2; simp [h1]; omega

theorem take_succ_set (l : List CoglUserDataEntry) (n : Nat) (e : CoglUserDataEntry)
    (h : n < l.length) : (l.set n e).take (n + 1) = l.take n ++ [e] := by
  rw [List.take_succ, List.set_take, List.set_eq_of_length_le (by simp)]
  simp [h]

theorem set_user_data_unfold (N : Nat) (obj : CoglObject) (key ud d : Nat) :
    _cogl_object_set_user_data N obj key ud d =
      match _cogl_object_find_entry N obj key with
      | some slot =>
        (obj.write slot (new_entry key ud d),
          if (obj.entry_at slot).destroy ≠ 0 then
            [Event.destroy (obj.entry_at slot).destroy (obj.entry_at slot).user_data obj]
          else [])
      | none =>
        if obj.n_user_data_entries < N then
          ({ obj with n_user_data_entries := obj.n_user_data_entries + 1 }.write
              (Slot.inline obj.n_user_data_entries) (new_entry key ud d), [])
        else
          ({ obj with
              user_data_array := some (obj.user_data_array.getD [] ++ [new_entry key ud d])
              n_user_data_entries := obj.n_user_data_entries + 1 }, []) := rfl

theorem count_write (N : Nat) (obj : CoglObject) (s : Slot) (e : CoglUserDataEntry) :
    (obj.write s e).count N = obj.count N := by
  cases s <;> rfl

/-- The effect of `_cogl_object_set_user_data` on the slot list of a well-shaped object. -/
theorem set_user_data_slots (N : Nat) (obj : CoglObject) (key ud d : Nat)
    (hs : obj.Shape N) :
    (_cogl_object_set_user_data N obj key ud d).1.Shape N ∧
    (_cogl_object_set_user_data N obj key ud d).1.slots N =
      store key (new_entry key ud d) (obj.slots N) ∧
    (_cogl_object_set_user_data N obj key ud d).1.ref_count = obj.ref_count ∧
    (_cogl_object_set_user_data N obj key ud d).2 =
      match target key (obj.slots N) with
      | some i =>
        if ((obj.slots N).getD i CoglUserDataEntry.zero).destroy ≠ 0 then
          [Event.destroy ((obj.slots N).getD i CoglUserDataEntry.zero).destroy
            ((obj.slots N).getD i CoglUserDataEntry.zero).user_data obj]
        else []
      | none => [] := by
  have hlen := Shape.take_length hs
  have hft := find_entry_target N obj key
  have hfs := find_entry_spec N obj key
  obtain ⟨hs1, hs2⟩ := hs
  rw [set_user_data_unfold]
  unfold store
  cases hf : _cogl_object_find_entry N obj key with
  | some slot =>
    rw [hf] at hft hfs
    simp only [Option.map_some'] at hft
    rw [← hft]
    simp only
    cases slot with
    | inline j =>
      have hj : j < (obj.user_data_entry.take (obj.count N)).length := by
        cases h1 : firstKey key (List.take (obj.count N) obj.user_data_entry) with
        | some j2 =>
          rw [h1] at hfs; simp at hfs; subst hfs
          exact firstKey_lt _ _ _ h1
        | none =>
          rw [h1] at hfs
          cases h2 : firstKey key (obj.user_data_array.getD []) with
          | some j2 => rw [h2] at hfs; simp at hfs
          | none =>
            rw [h2] at hfs
            cases h3 : lastEmpty (obj.user_data_array.getD []) with
            | some j2 => rw [h3] at hfs; simp at hfs
            | none =>
              rw [h3] at hfs
              cases h4 : lastEmpty (List.take (obj.count N) obj.user_data_entry) with
              | none => rw [h4] at hfs; simp at hfs
              | some j2 =>
                rw [h4] at hfs; simp at hfs; subst hfs
                exact lastEmpty_lt _ _ h4
      have hj2 : j < obj.count N := by rw [hlen] at hj; exact hj
      refine ⟨?_, ?_, ?_, ?_⟩
      · refine ⟨by simp [CoglObject.write, hs1], ?_⟩
        simpa [CoglObject.write] using hs2
      · simp only [CoglObject.slots, count_write, Slot.index]
        simp only [CoglObject.write]
        rw [List.set_take, List.set_append_left _ _ hj]
      · simp [CoglObject.write]
      · simp only [CoglObject.entry_at, Slot.index, CoglObject.slots]
        rw [List.getD_append _ _ _ _ hj]
        have : (List.take (obj.count N) obj.user_data_entry).getD j CoglUserDataEntry.zero
            = obj.user_data_entry.getD j CoglUserDataEntry.zero := by
          simp only [List.getD_eq_getElem?_getD]
          rw [List.getElem?_take_of_lt hj2]
        rw [this]
    | overflow j =>
      cases ha : obj.user_data_array with
      | none =>
        rw [ha] at hfs
        cases h1 : firstKey key (List.take (obj.count N) obj.user_data_entry) with
        | some j2 => rw [h1] at hfs; simp at hfs
        | none =>
          rw [h1] at hfs
          simp [firstKey, lastEmpty] at hfs
          cases h4 : lastEmpty (List.take (obj.count N) obj.user_data_entry) <;>
            simp [h4] at hfs
      | some arr =>
        rw [ha] at hs2
        refine ⟨?_, ?_, ?_, ?_⟩
        · refine ⟨by simp [CoglObject.write, hs1], ?_⟩
          simpa [CoglObject.write, ha] using hs2
        · simp only [CoglObject.slots, count_write, Slot.index]
          simp only [CoglObject.write, ha, Option.map_some', Option.getD_some]
          rw [List.set_append_right _ _ (Nat.le_add_right _ _)]
          simp
        · simp [CoglObject.write]
        · simp only [CoglObject.entry_at, Slot.index, CoglObject.slots, ha, Option.getD_some]
          rw [List.getD_append_right _ _ _ _ (Nat.le_add_right _ _)]
          simp
  | none =>
    rw [hf] at hft
    simp only [Option.map_none'] at hft
    rw [← hft]
    simp only
    by_cases hn : obj.n_user_data_entries < N
    · rw [if_pos hn]
      have hnone : obj.user_data_array = none := by
        cases ha : obj.user_data_array with
        | none => rfl
        | some arr => rw [ha] at hs2; simp at hs2; omega
      refine ⟨?_, ?_, ?_, ?_⟩
      · refine ⟨by simp [CoglObject.write, hs1], ?_⟩
        simp [CoglObject.write, hnone]; omega
      · simp only [CoglObject.write, CoglObject.slots, CoglObject.count, hnone,
          Option.getD_none, List.append_nil]
        have e1 : min (obj.n_user_data_entries + 1) N = obj.n_user_data_entries + 1 := by omega
        have e2 : min obj.n_user_data_entries N = obj.n_user_data_entries := by omega
        rw [e1, e2, take_succ_set _ _ _ (by omega)]
      · simp [CoglObject.write]
      · rfl
    · rw [if_neg hn]
      have hB : obj.n_user_data_entries = N + (obj.user_data_array.getD []).length := by
        cases ha : obj.user_data_array with
        | none => rw [ha] at hs2; simp at hs2; simp; omega
        | some arr => rw [ha] at hs2; simpa using hs2.1
      refine ⟨?_, ?_, ?_, ?_⟩
      · refine ⟨hs1, ?_⟩
        simp; omega
      · simp only [CoglObject.slots, CoglObject.count, Option.getD_some]
        have e1 : min (obj.n_user_data_entries + 1) N = N := by omega
        have e2 : min obj.n_user_data_entries N = N := by omega
        rw [e1, e2, List.append_assoc]
      · rfl
      · rfl

/-! ## Lemmas on the slot list -/

theorem firstKey_none (key : Nat) (l : List CoglUserDataEntry) :
    firstKey key l = none ↔ ∀ x ∈ l, x.key ≠ key := by
  induction l with
  | nil => simp [firstKey]
  | cons c rest ih =>
    by_cases hk : c.key = key
    · simp [firstKey, hk]
    · simp [firstKey, hk, ih]

theorem lastEmpty_none (l : List CoglUserDataEntry) :
    lastEmpty l = none ↔ ∀ x ∈ l, x.user_data ≠ 0 := by
  induction l with
  | nil => simp [lastEmpty]
  | cons c rest ih =>
    cases h : lastEmpty rest with
    | some j =>
      have : ¬ ∀ x ∈ rest, x.user_data ≠ 0 := by
        intro hc; rw [ih.mpr hc] at h; cases h
      simp only [lastEmpty, h, List.mem_cons, forall_eq_or_imp]
      constructor
      · intro hh; cases hh
      · intro hh; exact absurd hh.2 this
    | none =>
      have h2 := ih.mp h
      by_cases hu : c.user_data = 0
      · simp [lastEmpty, h, hu]
      · simp only [lastEmpty, h, hu, List.mem_cons, forall_eq_or_imp, if_false, true_iff]
        exact ⟨hu, h2⟩

theorem firstKey_split (key : Nat) (l : List CoglUserDataEntry) (i : Nat)
    (h : firstKey key l = some i) :
    ∃ pre c post, l = pre ++ c :: post ∧ pre.length = i ∧ c.key = key ∧
      ∀ x ∈ pre, x.key ≠ key := by
  induction l generalizing i with
  | nil => simp [firstKey] at h
  | cons c rest ih =>
    by_cases hk : c.key = key
    · simp [firstKey, hk] at h
      exact ⟨[], c, rest, by simp, by simp [h], hk, by simp⟩
    · simp only [firstKey, if_neg hk] at h
      cases hf : firstKey key rest with
      | none => simp [hf] at h
      | some j =>
        simp [hf] at h
        obtain ⟨pre, c2, post, e1, e2, e3, e4⟩ := ih j hf
        refine ⟨c :: pre, c2, post, by simp [e1], by simp [e2, h], e3, ?_⟩
        intro x hx
        rcases List.mem_cons.mp hx with hx | hx
        · subst hx; exact hk
        · exact e4 x hx

theorem lastEmpty_split (l : List CoglUserDataEntry) (i : Nat)
    (h : lastEmpty l = some i) :
    ∃ pre c post, l = pre ++ c :: post ∧ pre.length = i ∧ c.user_data = 0 := by
  induction l generalizing i with
  | nil => simp [lastEmpty] at h
  | cons c rest ih =>
    simp only [lastEmpty] at h
    cases hl : lastEmpty rest with
    | some j =>
      simp [hl] at h
      obtain ⟨pre, c2, post, e1, e2, e3⟩ := ih j hl
      exact ⟨c :: pre, c2, post, by simp [e1], by simp [e2, h], e3⟩
    | none =>
      simp [hl] at h
      exact ⟨[], c, rest, by simp, by simp [h.2], h.1⟩

theorem set_split (pre post : List CoglUserDataEntry) (c e : CoglUserDataEntry) :
    (pre ++ c :: post).set pre.length e = pre ++ e :: post := by
  rw [List.set_append_right _ _ (Nat.le_refl _)]
  simp

theorem getD_split (pre post : List CoglUserDataEntry) (c d : CoglUserDataEntry) :
    (pre ++ c :: post).getD pre.length d = c := by
  rw [List.getD_append_right _ _ _ _ (Nat.le_refl _)]
  simp

/-- The three ways a store lands: on the slot of the key, on an empty slot, or on a
new slot at the end. -/
theorem store_cases (key : Nat) (e : CoglUserDataEntry) (l : List CoglUserDataEntry) :
    (∃ pre c post, l = pre ++ c :: post ∧ c.key = key ∧ (∀ x ∈ pre, x.key ≠ key) ∧
        target key l = some pre.length ∧ store key e l = pre ++ e :: post) ∨
    ((∀ x ∈ l, x.key ≠ key) ∧
      ∃ pre c post, l = pre ++ c :: post ∧ c.user_data = 0 ∧
        target key l = some pre.length ∧ store key e l = pre ++ e :: post) ∨
    ((∀ x ∈ l, x.key ≠ key) ∧ (∀ x ∈ l, x.user_data ≠ 0) ∧
      target key l = none ∧ store key e l = l ++ [e]) := by
  cases hf : firstKey key l with
  | some i =>
    obtain ⟨pre, c, post, e1, e2, e3, e4⟩ := firstKey_split key l i hf
    left
    have ht : target key l = some pre.length := by simp [target, hf, e2]
    refine ⟨pre, c, post, e1, e3, e4, ht, ?_⟩
    simp only [store, ht]
    rw [e1, set_split]
  | none =>
    have hno := (firstKey_none key l).mp hf
    right
    cases hl : lastEmpty l with
    | some i =>
      obtain ⟨pre, c, post, e1, e2, e3⟩ := lastEmpty_split l i hl
      left
      have ht : target key l = some pre.length := by simp [target, hf, hl, e2]
      refine ⟨hno, pre, c, post, e1, e3, ht, ?_⟩
      simp only [store, ht]
      rw [e1, set_split]
    | none =>
      right
      have ht : target key l = none := by simp [target, hf, hl]
      exact ⟨hno, (lastEmpty_none l).mp hl, ht, by simp [store, ht]⟩

theorem get_loop_none (key : Nat) (l : List CoglUserDataEntry) :
    get_loop key l = none ↔ ∀ x ∈ l, x.key ≠ key := by
  induction l with
  | nil => simp [get_loop]
  | cons c rest ih =>
    by_cases hk : c.key = key
    · simp [get_loop, hk]
    · simp [get_loop, hk, ih]

theorem get_loop_zero (l : List CoglUserDataEntry)
    (h : ∀ x ∈ l, x.key = 0 → x.user_data = 0) : (get_loop 0 l).getD 0 = 0 := by
  induction l with
  | nil => simp [get_loop]
  | cons c rest ih =>
    by_cases hk : c.key = 0
    · simp [get_loop, hk, h c (List.mem_cons_self _ _) hk]
    · simp only [get_loop, if_neg hk]
      exact ih (fun x hx => h x (List.mem_cons_of_mem _ hx))

theorem new_entry_key (key ud d : Nat) :
    (new_entry key ud d).key = key ∨ new_entry key ud d = CoglUserDataEntry.zero := by
  unfold new_entry
  by_cases h : ud = 0 <;> simp [h]

theorem new_entry_clean (key ud d : Nat) (hk : key ≠ 0) :
    ((new_entry key ud d).user_data = 0 ↔ (new_entry key ud d).key = 0) ∧
    ((new_entry key ud d).user_data = 0 → (new_entry key ud d).destroy = 0) := by
  unfold new_entry
  by_cases h : ud = 0 <;> simp [h, hk, CoglUserDataEntry.zero]

theorem clean_split (pre post : List CoglUserDataEntry) (c : CoglUserDataEntry) :
    Clean (pre ++ c :: post) ↔
      ((∀ x ∈ pre, (x.user_data = 0 ↔ x.key = 0) ∧ (x.user_data = 0 → x.destroy = 0)) ∧
       ((c.user_data = 0 ↔ c.key = 0) ∧ (c.user_data = 0 → c.destroy = 0)) ∧
       (∀ x ∈ post, (x.user_data = 0 ↔ x.key = 0) ∧ (x.user_data = 0 → x.destroy = 0))) ∧
      (pre.Pairwise (fun a b => a.key ≠ 0 → a.key ≠ b.key) ∧
       post.Pairwise (fun a b => a.key ≠ 0 → a.key ≠ b.key) ∧
       (∀ x ∈ pre, x.key ≠ 0 → x.key ≠ c.key) ∧
       (∀ y ∈ post, c.key ≠ 0 → c.key ≠ y.key) ∧
       (∀ x ∈ pre, ∀ y ∈ post, x.key ≠ 0 → x.key ≠ y.key)) := by
  unfold Clean
  simp only [List.mem_append, List.mem_cons, List.pairwise_append, List.pairwise_cons]
  constructor
  · rintro ⟨h1, h2, ⟨h3, h4⟩, h5⟩
    refine ⟨⟨fun x hx => h1 x (Or.inl hx), h1 c (Or.inr (Or.inl rfl)),
      fun x hx => h1 x (Or.inr (Or.inr hx))⟩, h2, h4, ?_, h3, ?_⟩
    · intro x hx; exact h5 x hx c (Or.inl rfl)
    · intro x hx y hy; exact h5 x hx y (Or.inr hy)
  · rintro ⟨⟨h1, h2, h3⟩, h4, h5, h6, h7, h8⟩
    refine ⟨?_, h4, ⟨h7, h5⟩, ?_⟩
    · intro x hx
      rcases hx with hx | hx | hx
      · exact h1 x hx
      · subst hx; exact h2
      · exact h3 x hx
    · intro x hx y hy
      rcases hy with hy | hy
      · subst hy; exact h6 x hx
      · exact h8 x hx y hy

theorem clean_snoc (l : List CoglUserDataEntry) (c : CoglUserDataEntry) :
    Clean (l ++ [c]) ↔
      Clean l ∧ ((c.user_data = 0 ↔ c.key = 0) ∧ (c.user_data = 0 → c.destroy = 0)) ∧
        (∀ x ∈ l, x.key ≠ 0 → x.key ≠ c.key) := by
  rw [clean_split]
  unfold Clean
  simp
  tauto

/-- A store under a non-`NULL` key keeps the slot-table invariant. -/
theorem store_clean (key ud d : Nat) (hk : key ≠ 0) (l : List CoglUserDataEntry)
    (hc : Clean l) : Clean (store key (new_entry key ud d) l) := by
  have hne := new_entry_clean key ud d hk
  have hkey := new_entry_key key ud d
  rcases store_cases key (new_entry key ud d) l with
    ⟨pre, c, post, e1, e2, e3, _, e5⟩ | ⟨hno, pre, c, post, e1, e2, _, e5⟩ | ⟨hno, _, _, e5⟩
  · rw [e5]; rw [e1] at hc
    rw [clean_split] at hc ⊢
    obtain ⟨⟨h1, h2, h3⟩, h4, h5, h6, h7, h8⟩ := hc
    refine ⟨⟨h1, hne, h3⟩, h4, h5, ?_, ?_, h8⟩
    · intro x hx hx0
      rcases hkey with hk2 | hk2
      · rw [hk2]; exact e3 x hx
      · rw [hk2]; exact hx0
    · intro y hy hy0
      rcases hkey with hk2 | hk2
      · rw [hk2]; rw [e2] at h7; exact h7 y hy hk
      · rw [hk2] at hy0; exact absurd rfl hy0
  · rw [e5]; rw [e1] at hc hno
    rw [clean_split] at hc ⊢
    obtain ⟨⟨h1, h2, h3⟩, h4, h5, h6, h7, h8⟩ := hc
    refine ⟨⟨h1, hne, h3⟩, h4, h5, ?_, ?_, h8⟩
    · intro x hx hx0
      rcases hkey with hk2 | hk2
      · rw [hk2]; exact hno x (by simp [hx])
      · rw [hk2]; exact hx0
    · intro y hy hy0
      rcases hkey with hk2 | hk2
      · rw [hk2]; exact fun h => hno y (by simp [hy]) h.symm
      · rw [hk2] at hy0; exact absurd rfl hy0
  · rw [e5, clean_snoc]
    refine ⟨hc, hne, ?_⟩
    intro x hx hx0
    rcases hkey with hk2 | hk2
    · rw [hk2]; exact hno x hx
    · rw [hk2]; exact hx0

theorem clean_lookup_zero (l : List CoglUserDataEntry) (hc : Clean l) :
    (get_loop 0 l).getD 0 = 0 :=
  get_loop_zero l (fun x hx h0 => ((hc.1 x hx).1).mpr h0)

theorem get_loop_split (K : Nat) (pre post : List CoglUserDataEntry) (c : CoglUserDataEntry) :
    get_loop K (pre ++ c :: post) =
      match get_loop K pre with
      | some d => some d
      | none => if c.key = K then some c.user_data else get_loop K post := by
  rw [get_loop_append]
  rfl

/-- A lookup after a store: the stored payload for the key of the store, the old
answer for every other key. -/
theorem lookup_store (key ud d K : Nat) (hk : key ≠ 0) (l : List CoglUserDataEntry)
    (hc : Clean l) :
    (get_loop K (store key (new_entry key ud d) l)).getD 0 =
      if K = key then ud else (get_loop K l).getD 0 := by
  by_cases hK0 : K = 0
  · subst hK0
    rw [if_neg (fun h => hk h.symm), clean_lookup_zero l hc,
      clean_lookup_zero _ (store_clean key ud d hk l hc)]
  have hnew : ∀ (hKk : K = key), (if (new_entry key ud d).key = K then
      some (new_entry key ud d).user_data else none).getD 0 = ud := by
    intro hKk
    unfold new_entry
    by_cases hu : ud = 0
    · have h0 : ¬ (0 = K) := fun h => hK0 h.symm
      simp [hu, CoglUserDataEntry.zero, h0]
    · simp [hu, hKk]
  have hnew2 : K ≠ key → (new_entry key ud d).key ≠ K := by
    intro hKk
    rcases new_entry_key key ud d with h | h
    · rw [h]; exact fun h2 => hKk h2.symm
    · rw [h]; exact fun h2 => hK0 h2.symm
  rcases store_cases key (new_entry key ud d) l with
    ⟨pre, c, post, e1, e2, e3, _, e5⟩ | ⟨hno, pre, c, post, e1, e2, _, e5⟩ | ⟨hno, _, _, e5⟩
  · rw [e5]; rw [e1] at hc
    rw [clean_split] at hc
    obtain ⟨_, _, _, _, h7, _⟩ := hc
    by_cases hKk : K = key
    · rw [if_pos hKk, get_loop_split]
      have hp : get_loop K pre = none := (get_loop_none K pre).mpr (by rw [hKk]; exact e3)
      have hq : get_loop K post = none :=
        (get_loop_none K post).mpr (by
          intro y hy; rw [hKk, ← e2]; exact fun h => h7 y hy (by rw [e2]; exact hk) h.symm)
      rw [hp]
      have := hnew hKk
      by_cases hm : (new_entry key ud d).key = K
      · simpa [hm] using this
      · simpa [hm, hq] using this
    · rw [if_neg hKk, e1, get_loop_split, get_loop_split]
      have hcK : c.key ≠ K := by rw [e2]; exact fun h => hKk h.symm
      simp [hnew2 hKk, hcK]
  · rw [e5]; rw [e1] at hc hno
    rw [clean_split] at hc
    obtain ⟨⟨_, h2, _⟩, _⟩ := hc
    by_cases hKk : K = key
    · rw [if_pos hKk, get_loop_split]
      have hp : get_loop K pre = none :=
        (get_loop_none K pre).mpr (by rw [hKk]; exact fun x hx => hno x (by simp [hx]))
      have hq : get_loop K post = none :=
        (get_loop_none K post).mpr (by rw [hKk]; exact fun x hx => hno x (by simp [hx]))
      rw [hp]
      have := hnew hKk
      by_cases hm : (new_entry key ud d).key = K
      · simpa [hm] using this
      · simpa [hm, hq] using this
    · rw [if_neg hKk, e1, get_loop_split, get_loop_split]
      have hcK : c.key ≠ K := by rw [h2.1.mp e2]; exact fun h => hK0 h.symm
      simp [hnew2 hKk, hcK]
  · rw [e5, get_loop_append]
    by_cases hKk : K = key
    · rw [if_pos hKk]
      have hp : get_loop K l = none := (get_loop_none K l).mpr (by rw [hKk]; exact hno)
      rw [hp]
      have := hnew hKk
      simpa [get_loop] using this
    · rw [if_neg hKk]
      cases hg : get_loop K l with
      | some v => simp
      | none => simp [get_loop, hnew2 hKk]

/-! ## The slot of a key that is present -/

theorem mem_of_lt_getD (l : List CoglUserDataEntry) (j : Nat) (h : j < l.length) :
    l.getD j CoglUserDataEntry.zero ∈ l := by
  simp only [List.getD_eq_getElem?_getD, List.getElem?_eq_getElem h, Option.getD_some]
  exact List.getElem_mem h

theorem take_getD (l : List CoglUserDataEntry) (n j : Nat) (h : j < (l.take n).length) :
    l.getD j CoglUserDataEntry.zero = (l.take n).getD j CoglUserDataEntry.zero := by
  have hj : j < n := by simp at h; omega
  simp only [List.getD_eq_getElem?_getD]
  rw [List.getElem?_take_of_lt hj]

/-- When the slot found for a non-`NULL` key carries that key, it is the first slot
with the key: in the inline array, or else in the overflow list. -/
theorem find_entry_key_cases (N : Nat) (obj : CoglObject) (K : Nat) (s : Slot)
    (hf : _cogl_object_find_entry N obj K = some s) (hkey : (obj.entry_at s).key = K) :
    (∃ pre c post, obj.user_data_entry.take (obj.count N) = pre ++ c :: post ∧
        s = Slot.inline pre.length ∧ c.key = K ∧ (∀ x ∈ pre, x.key ≠ K)) ∨
    ((∀ x ∈ obj.user_data_entry.take (obj.count N), x.key ≠ K) ∧
      ∃ pre c post, obj.user_data_array = some (pre ++ c :: post) ∧
        s = Slot.overflow pre.length ∧ c.key = K ∧ (∀ x ∈ pre, x.key ≠ K)) := by
  rw [find_entry_spec] at hf
  cases h1 : firstKey K (List.take (obj.count N) obj.user_data_entry) with
  | some j =>
    rw [h1] at hf; simp only [Option.some.injEq] at hf
    obtain ⟨pre, c, post, e1, e2, e3, e4⟩ := firstKey_split _ _ _ h1
    left
    exact ⟨pre, c, post, e1, by rw [← hf, e2], e3, e4⟩
  | none =>
    rw [h1] at hf
    have hA := (firstKey_none _ _).mp h1
    cases h2 : firstKey K (obj.user_data_array.getD []) with
    | some j =>
      rw [h2] at hf; simp only [Option.some.injEq] at hf
      obtain ⟨pre, c, post, e1, e2, e3, e4⟩ := firstKey_split _ _ _ h2
      right
      refine ⟨hA, pre, c, post, ?_, by rw [← hf, e2], e3, e4⟩
      cases ha : obj.user_data_array with
      | none => rw [ha] at e1; simp at e1
      | some arr => rw [ha] at e1; simpa using e1
    | none =>
      rw [h2] at hf
      have hB := (firstKey_none _ _).mp h2
      exfalso
      cases h3 : lastEmpty (obj.user_data_array.getD []) with
      | some j =>
        rw [h3] at hf; simp only [Option.some.injEq] at hf
        subst hf
        have hj := lastEmpty_lt _ _ h3
        exact hB _ (mem_of_lt_getD _ j hj) hkey
      | none =>
        rw [h3] at hf
        cases h4 : lastEmpty (List.take (obj.count N) obj.user_data_entry) with
        | none => rw [h4] at hf; simp at hf
        | some j =>
          rw [h4] at hf; simp only [Option.map_some', Option.some.injEq] at hf
          subst hf
          have hj := lastEmpty_lt _ _ h4
          have := hA _ (mem_of_lt_getD _ j hj)
          rw [← take_getD _ _ _ hj] at this
          exact this hkey

theorem write_inline_get (N : Nat) (obj : CoglObject) (K : Nat)
    (pre post : List CoglUserDataEntry) (c e : CoglUserDataEntry)
    (e1 : obj.user_data_entry.take (obj.count N) = pre ++ c :: post)
    (e4 : ∀ x ∈ pre, x.key ≠ K) (he : e.key = K) :
    cogl_object_get_user_data N (obj.write (Slot.inline pre.length) e) K = e.user_data := by
  unfold cogl_object_get_user_data
  rw [count_write]
  simp only [CoglObject.write]
  rw [List.set_take, e1, set_split, get_loop_split, (get_loop_none K pre).mpr e4]
  simp [he]

theorem write_overflow_get (N : Nat) (obj : CoglObject) (K : Nat)
    (pre post : List CoglUserDataEntry) (c e : CoglUserDataEntry)
    (hA : ∀ x ∈ obj.user_data_entry.take (obj.count N), x.key ≠ K)
    (e1 : obj.user_data_array = some (pre ++ c :: post))
    (e4 : ∀ x ∈ pre, x.key ≠ K) (he : e.key = K) :
    cogl_object_get_user_data N (obj.write (Slot.overflow pre.length) e) K = e.user_data := by
  unfold cogl_object_get_user_data
  rw [count_write]
  simp only [CoglObject.write, e1, Option.map_some']
  rw [(get_loop_none K _).mpr hA, set_split, get_loop_split, (get_loop_none K pre).mpr e4]
  simp [he]

/-! ## The invariant along a sequence of calls -/

theorem fresh_good (N rc : Nat) (mem : List CoglUserDataEntry) (h : mem.length = N) :
    (CoglObject.fresh rc mem).Good N := by
  refine ⟨⟨h, ?_⟩, ?_⟩
  · simp [CoglObject.fresh]
  · simp [CoglObject.slots, CoglObject.fresh, CoglObject.count, Clean]

theorem fresh_slots (N rc : Nat) (mem : List CoglUserDataEntry) :
    (CoglObject.fresh rc mem).slots N = [] := by
  simp [CoglObject.slots, CoglObject.fresh, CoglObject.count]

theorem set_good (N : Nat) (obj : CoglObject) (key ud d : Nat) (hk : key ≠ 0)
    (hg : obj.Good N) : (cogl_object_set_user_data N obj key ud d).1.Good N := by
  obtain ⟨h1, h2, _, _⟩ := set_user_data_slots N obj key ud d hg.1
  refine ⟨h1, ?_⟩
  unfold cogl_object_set_user_data
  rw [h2]
  exact store_clean key ud d hk _ hg.2

theorem get_set (N : Nat) (obj : CoglObject) (key ud d K : Nat) (hk : key ≠ 0)
    (hg : obj.Good N) :
    cogl_object_get_user_data N (cogl_object_set_user_data N obj key ud d).1 K =
      if K = key then ud else cogl_object_get_user_data N obj K := by
  obtain ⟨_, h2, _, _⟩ := set_user_data_slots N obj key ud d hg.1
  unfold cogl_object_set_user_data
  rw [get_user_data_slots, get_user_data_slots, h2]
  exact lookup_store key ud d K hk _ hg.2

theorem run_good (N : Nat) (calls : List SetCall) :
    ∀ (obj : CoglObject), obj.Good N → (∀ c ∈ calls, c.key ≠ 0) →
      (run_set_calls N obj calls).1.Good N := by
  induction calls with
  | nil => intro obj hg _; exact hg
  | cons c rest ih =>
    intro obj hg hk
    simp only [run_set_calls]
    exact ih _ (set_good N obj c.key c.user_data c.destroy (hk c (List.mem_cons_self _ _)) hg)
      (fun c2 hc2 => hk c2 (List.mem_cons_of_mem _ hc2))

theorem run_refines (N : Nat) (calls : List SetCall) :
    ∀ (obj : CoglObject) (m : Nat → Nat), obj.Good N → (∀ c ∈ calls, c.key ≠ 0) →
      (∀ K, cogl_object_get_user_data N obj K = m K) →
      ∀ K, cogl_object_get_user_data N (run_set_calls N obj calls).1 K = spec_run m calls K := by
  induction calls with
  | nil => intro obj m _ _ h K; exact h K
  | cons c rest ih =>
    intro obj m hg hk h K
    simp only [run_set_calls, spec_run]
    have hc := hk c (List.mem_cons_self _ _)
    refine ih _ _ (set_good N obj c.key c.user_data c.destroy hc hg)
      (fun c2 hc2 => hk c2 (List.mem_cons_of_mem _ hc2)) ?_ K
    intro K2
    rw [get_set N obj c.key c.user_data c.destroy K2 hc hg, h K2]
    rfl

theorem run_attach_slots (N : Nat) (calls : List SetCall) :
    ∀ (obj : CoglObject), obj.Shape N → (∀ x ∈ obj.slots N, x.user_data ≠ 0) →
      (∀ c ∈ calls, c.user_data ≠ 0 ∧ ∀ x ∈ obj.slots N, x.key ≠ c.key) →
      (calls.map (·.key)).Nodup →
      (run_set_calls N obj calls).1.Shape N ∧
      (run_set_calls N obj calls).1.slots N = obj.slots N ++ calls.map SetCall.entry ∧
      (run_set_calls N obj calls).2 = [] ∧
      (run_set_calls N obj calls).1.ref_count = obj.ref_count := by
  induction calls with
  | nil => intro obj hs _ _ _; simp [run_set_calls, hs]
  | cons c rest ih =>
    intro obj hs hfull hc hnd
    obtain ⟨h1, h2, h3, h4⟩ := set_user_data_slots N obj c.key c.user_data c.destroy hs
    obtain ⟨hcu, hck⟩ := hc c (List.mem_cons_self _ _)
    have hne : new_entry c.key c.user_data c.destroy = c.entry := by
      simp [new_entry, hcu, SetCall.entry]
    have hstore : store c.key c.entry (obj.slots N) = obj.slots N ++ [c.entry] ∧
        target c.key (obj.slots N) = none := by
      rcases store_cases c.key c.entry (obj.slots N) with
        ⟨pre, c2, post, e1, e2, _, _, _⟩ | ⟨_, pre, c2, post, e1, e2, _, _⟩ | ⟨_, _, e4, e5⟩
      · exact absurd e2 (hck c2 (by rw [e1]; simp))
      · exact absurd e2 (hfull c2 (by rw [e1]; simp))
      · exact ⟨e5, e4⟩
    rw [hne, hstore.1] at h2
    rw [hstore.2] at h4
    simp only [List.map_cons, List.nodup_cons] at hnd
    have hfull2 : ∀ x ∈ (_cogl_object_set_user_data N obj c.key c.user_data c.destroy).1.slots N,
        x.user_data ≠ 0 := by
      rw [h2]
      intro x hx
      rcases List.mem_append.mp hx with hx | hx
      · exact hfull x hx
      · simp at hx; subst hx; exact hcu
    have hc2 : ∀ c2 ∈ rest, c2.user_data ≠ 0 ∧
        ∀ x ∈ (_cogl_object_set_user_data N obj c.key c.user_data c.destroy).1.slots N,
          x.key ≠ c2.key := by
      intro c2 hc2
      refine ⟨(hc c2 (List.mem_cons_of_mem _ hc2)).1, ?_⟩
      rw [h2]
      intro x hx
      rcases List.mem_append.mp hx with hx | hx
      · exact (hc c2 (List.mem_cons_of_mem _ hc2)).2 x hx
      · simp at hx; subst hx
        intro he
        exact hnd.1 (List.mem_map.mpr ⟨c2, hc2, he.symm⟩)
    obtain ⟨g1, g2, g3, g4⟩ := ih _ h1 hfull2 hc2 hnd.2
    simp only [run_set_calls, cogl_object_set_user_data]
    refine ⟨g1, ?_, ?_, ?_⟩
    · rw [g2, h2]; simp
    · rw [g3, h4]; rfl
    · rw [g4, h3]

theorem destroy_loop_append (o : CoglObject) (a b : List CoglUserDataEntry) :
    destroy_loop o (a ++ b) = destroy_loop o a ++ destroy_loop o b := by
  induction a with
  | nil => simp [destroy_loop]
  | cons c rest ih => simp [destroy_loop, ih]

theorem destroy_loop_eq (o : CoglObject) (l : List CoglUserDataEntry) :
    destroy_loop o l =
      (l.filter (fun e => e.destroy ≠ 0)).map
        (fun e => Event.destroy e.destroy e.user_data o) := by
  induction l with
  | nil => simp [destroy_loop]
  | cons c rest ih =>
    by_cases h : c.destroy = 0 <;> simp [destroy_loop, ih, h, List.filter_cons]

theorem destroy_loop_calls (o : CoglObject) (l : List CoglUserDataEntry) :
    (destroy_loop o l).filterMap Event.call = calls_of l := by
  induction l with
  | nil => simp [destroy_loop, calls_of]
  | cons c rest ih =>
    unfold calls_of at ih ⊢
    by_cases h : c.destroy = 0 <;>
      simp [destroy_loop, List.filterMap_append, ih, h, List.filter_cons, Event.call]

/-- The final `cogl_object_unref` of a well-shaped object: every slot in storage
order, inline slots first, then the free function. -/
theorem unref_final (N : Nat) (obj : CoglObject) (hs : obj.Shape N) (hrc : obj.ref_count = 1) :
    cogl_object_unref N obj =
      (none, destroy_loop { obj with ref_count := 0 } (obj.slots N) ++ [Event.virt_free]) := by
  have hlen := Shape.slots_length hs
  unfold cogl_object_unref
  simp only [hrc]
  by_cases hn : obj.n_user_data_entries = 0
  · have : obj.slots N = [] := by
      rw [hn] at hlen; exact List.length_eq_zero.mp hlen
    simp [hn, this, destroy_loop]
  · simp only [CoglObject.slots, destroy_loop_append, CoglObject.count]
    cases ha : obj.user_data_array <;> simp [hn, destroy_loop]

theorem firstKey_of_split (K : Nat) (pre post : List CoglUserDataEntry)
    (c : CoglUserDataEntry) (hpre : ∀ x ∈ pre, x.key ≠ K) (hc : c.key = K) :
    firstKey K (pre ++ c :: post) = some pre.length := by
  rw [firstKey_append, (firstKey_none K pre).mpr hpre]
  simp [firstKey, hc]

/-- A key that holds `(P, D)` has the entry `(K, P, D)` as the first slot with the key. -/
theorem holds_slots (N : Nat) (obj : CoglObject) (K P D : Nat) (hold : obj.holds N K P D) :
    ∃ pre post, obj.slots N = pre ++ ⟨K, P, D⟩ :: post ∧ ∀ x ∈ pre, x.key ≠ K := by
  unfold CoglObject.holds at hold
  cases hf : _cogl_object_find_entry N obj K with
  | none => rw [hf] at hold; exact hold.elim
  | some s =>
    rw [hf] at hold
    simp only at hold
    have hkey : (obj.entry_at s).key = K := by rw [hold]
    rcases find_entry_key_cases N obj K s hf hkey with
      ⟨pre, c, post, e1, e2, e3, e4⟩ | ⟨hA, pre, c, post, e1, e2, e3, e4⟩
    · have hc : c = ⟨K, P, D⟩ := by
        rw [← hold, e2]
        simp only [CoglObject.entry_at]
        rw [take_getD _ (obj.count N) _ (by rw [e1]; simp), e1, getD_split]
      refine ⟨pre, post ++ obj.user_data_array.getD [], ?_, e4⟩
      unfold CoglObject.slots
      rw [e1, hc]
      simp
    · have hc : c = ⟨K, P, D⟩ := by
        rw [← hold, e2]
        simp only [CoglObject.entry_at, e1, Option.getD_some]
        rw [getD_split]
      refine ⟨obj.user_data_entry.take (obj.count N) ++ pre, post, ?_, ?_⟩
      · unfold CoglObject.slots
        rw [e1, hc]
        simp
      · intro x hx
        rcases List.mem_append.mp hx with hx | hx
        · exact hA x hx
        · exact e4 x hx

theorem calls_of_split (pre post : List CoglUserDataEntry) (c : CoglUserDataEntry) :
    calls_of (pre ++ c :: post) =
      calls_of pre ++ (if c.destroy ≠ 0 then [(c.destroy, c.user_data)] else []) ++
        calls_of post := by
  unfold calls_of
  by_cases h : c.destroy = 0 <;> simp [List.filter_cons, h]

theorem unref_final_calls (N : Nat) (obj : CoglObject) (hs : obj.Shape N)
    (hrc : obj.ref_count = 1) :
    (cogl_object_unref N obj).2.filterMap Event.call = calls_of (obj.slots N) := by
  rw [unref_final N obj hs hrc]
  simp [List.filterMap_append, destroy_loop_calls, Event.call]

/-! ## Claims on the attachment store -/

/-- C1: when key `K` (non-`NULL` or not) holds payload `P_old` with destructor `D_old`,
`cogl_object_set_user_data` with a non-`NULL` payload `P_new` makes exactly one
callback, `D_old (P_old, object)` with the object as it was before the call (the
slot not yet overwritten), and afterwards `cogl_object_get_user_data` for `K`
returns `P_new` (so not `P_old`, when the two differ). -/
theorem reattach_destroys_old_once (N : Nat) (obj : CoglObject)
    (K P_old D_old P_new D_new : Nat)
    (hD : D_old ≠ 0) (hP : P_new ≠ 0) (hold : obj.holds N K P_old D_old) :
    (cogl_object_set_user_data N obj K P_new D_new).2 = [Event.destroy D_old P_old obj] ∧
    cogl_object_get_user_data N obj K = P_old ∧
    cogl_object_get_user_data N (cogl_object_set_user_data N obj K P_new D_new).1 K = P_new ∧
    (P_new ≠ P_old →
      cogl_object_get_user_data N (cogl_object_set_user_data N obj K P_new D_new).1 K
        ≠ P_old) := by
  unfold CoglObject.holds at hold
  cases hf : _cogl_object_find_entry N obj K with
  | none => rw [hf] at hold; exact hold.elim
  | some s =>
    rw [hf] at hold
    simp only at hold
    have hkey : (obj.entry_at s).key = K := by rw [hold]
    have hne : (new_entry K P_new D_new).key = K := by simp [new_entry, hP]
    have hnu : (new_entry K P_new D_new).user_data = P_new := by simp [new_entry, hP]
    have hset : cogl_object_set_user_data N obj K P_new D_new =
        (obj.write s (new_entry K P_new D_new), [Event.destroy D_old P_old obj]) := by
      unfold cogl_object_set_user_data
      rw [set_user_data_unfold, hf]
      simp [hold, hD]
    have hold_get : cogl_object_get_user_data N obj K = P_old := by
      rcases find_entry_key_cases N obj K s hf hkey with
        ⟨pre, c, post, e1, e2, e3, e4⟩ | ⟨hA, pre, c, post, e1, e2, e3, e4⟩
      · have hc : c = ⟨K, P_old, D_old⟩ := by
          rw [← hold, e2]
          simp only [CoglObject.entry_at]
          rw [take_getD _ (obj.count N) _ (by rw [e1]; simp), e1, getD_split]
        unfold cogl_object_get_user_data
        rw [e1, get_loop_split, (get_loop_none K pre).mpr e4]
        simp [hc]
      · have hc : c = ⟨K, P_old, D_old⟩ := by
          rw [← hold, e2]
          simp only [CoglObject.entry_at, e1, Option.getD_some]
          rw [getD_split]
        unfold cogl_object_get_user_data
        rw [(get_loop_none K _).mpr hA, e1]
        simp only
        rw [get_loop_split, (get_loop_none K pre).mpr e4]
        simp [hc]
    have hget : cogl_object_get_user_data N
        (cogl_object_set_user_data N obj K P_new D_new).1 K = P_new := by
      rw [hset]
      simp only
      rcases find_entry_key_cases N obj K s hf hkey with
        ⟨pre, c, post, e1, e2, e3, e4⟩ | ⟨hA, pre, c, post, e1, e2, e3, e4⟩
      · rw [e2, write_inline_get N obj K pre post c _ e1 e4 hne, hnu]
      · rw [e2, write_overflow_get N obj K pre post c _ hA e1 e4 hne, hnu]
    refine ⟨by rw [hset], hold_get, hget, ?_⟩
    intro hne2
    rw [hget]
    exact hne2

/-- Witness of C1: two inline slots, key 5 holds payload 10 with destructor 20. -/
theorem reattach_destroys_old_once_witness :
    ((20 : Nat) ≠ 0 ∧ (11 : Nat) ≠ 0 ∧
      (CoglObject.mk 1 [⟨5, 10, 20⟩, ⟨0, 0, 0⟩] none 1).holds 2 5 10 20) ∧
    ((cogl_object_set_user_data 2 (CoglObject.mk 1 [⟨5, 10, 20⟩, ⟨0, 0, 0⟩] none 1)
        5 11 21).2 =
      [Event.destroy 20 10 (CoglObject.mk 1 [⟨5, 10, 20⟩, ⟨0, 0, 0⟩] none 1)] ∧
    cogl_object_get_user_data 2 (CoglObject.mk 1 [⟨5, 10, 20⟩, ⟨0, 0, 0⟩] none 1) 5 = 10 ∧
    cogl_object_get_user_data 2
      (cogl_object_set_user_data 2 (CoglObject.mk 1 [⟨5, 10, 20⟩, ⟨0, 0, 0⟩] none 1)
        5 11 21).1 5 = 11 ∧
    ((11 : Nat) ≠ 10 →
      cogl_object_get_user_data 2
        (cogl_object_set_user_data 2 (CoglObject.mk 1 [⟨5, 10, 20⟩, ⟨0, 0, 0⟩] none 1)
          5 11 21).1 5 ≠ 10)) :=
  ⟨⟨by decide, by decide, by decide⟩,
    reattach_destroys_old_once 2 (CoglObject.mk 1 [⟨5, 10, 20⟩, ⟨0, 0, 0⟩] none 1)
      5 10 20 11 21 (by decide) (by decide) (by decide)⟩

/-- C2: the attachment store refines a finite map.  After any sequence of
`cogl_object_set_user_data` calls with non-`NULL` keys on a new object (attach:
non-`NULL` payload; detach: `NULL` payload; any number of keys, inline or
overflowing), `cogl_object_get_user_data` for any key returns what the finite map
of the specification holds: the payload of the last attach under the key, `NULL`
if the key was never attached or was last detached.  In particular one more call
under a key leaves the lookup of every other key unchanged. -/
theorem attachment_store_refines_map (N rc : Nat) (mem : List CoglUserDataEntry)
    (calls : List SetCall) (hmem : mem.length = N) (hkeys : ∀ c ∈ calls, c.key ≠ 0) :
    (∀ K, cogl_object_get_user_data N
        (run_set_calls N (CoglObject.fresh rc mem) calls).1 K =
      spec_run (fun _ => 0) calls K) ∧
    (∀ key ud d K, key ≠ 0 → K ≠ key →
      cogl_object_get_user_data N
        (cogl_object_set_user_data N
          (run_set_calls N (CoglObject.fresh rc mem) calls).1 key ud d).1 K =
      cogl_object_get_user_data N (run_set_calls N (CoglObject.fresh rc mem) calls).1 K) := by
  have hg := fresh_good N rc mem hmem
  constructor
  · refine run_refines N calls _ _ hg hkeys ?_
    intro K
    rw [get_user_data_slots, fresh_slots]
    rfl
  · intro key ud d K hk hKk
    rw [get_set N _ key ud d K hk (run_good N calls _ hg hkeys), if_neg hKk]

/-- Witness of C2: two inline slots, six calls that overflow, detach and re-attach. -/
theorem attachment_store_refines_map_witness :
    (demo_mem.length = 2 ∧ ∀ c ∈ demo_calls, c.key ≠ 0) ∧
    ((∀ K, cogl_object_get_user_data 2
        (run_set_calls 2 (CoglObject.fresh 1 demo_mem) demo_calls).1 K =
      spec_run (fun _ => 0) demo_calls K) ∧
    (∀ key ud d K, key ≠ 0 → K ≠ key →
      cogl_object_get_user_data 2
        (cogl_object_set_user_data 2
          (run_set_calls 2 (CoglObject.fresh 1 demo_mem) demo_calls).1 key ud d).1 K =
      cogl_object_get_user_data 2
        (run_set_calls 2 (CoglObject.fresh 1 demo_mem) demo_calls).1 K)) :=
  ⟨⟨by decide, by decide⟩,
    attachment_store_refines_map 2 1 demo_mem demo_calls (by decide) (by decide)⟩

theorem attach_all_slots (N : Nat) (mem : List CoglUserDataEntry) (calls : List SetCall)
    (hmem : mem.length = N) (hud : ∀ c ∈ calls, c.user_data ≠ 0)
    (hnd : (calls.map (·.key)).Nodup) :
    (attach_all N mem calls).Shape N ∧
    (attach_all N mem calls).slots N = calls.map SetCall.entry ∧
    (run_set_calls N (CoglObject.fresh 1 mem) calls).2 = [] ∧
    (attach_all N mem calls).ref_count = 1 := by
  have h := run_attach_slots N calls (CoglObject.fresh 1 mem) (fresh_good N 1 mem hmem).1
    (by rw [fresh_slots]; simp)
    (by intro c hc; exact ⟨hud c hc, by rw [fresh_slots]; simp⟩) hnd
  rw [fresh_slots] at h
  simpa [attach_all, CoglObject.fresh] using h

/-- C3: after attaches under distinct keys on a new object (any number of them, in
any order), the attach phase itself runs no destructor, the slots hold the
attachments in attachment order (inline slots, then the overflow list), and the
`cogl_object_unref` that brings the reference count from 1 to 0 frees the object
after calling, for the inline slots first and then the overflow list, each in
storage order, the destructor of every attachment that has one, once, with its
own payload; the class free function is the last call. -/
theorem final_unref_runs_each_destructor_once (N : Nat) (mem : List CoglUserDataEntry)
    (calls : List SetCall) (hmem : mem.length = N) (hud : ∀ c ∈ calls, c.user_data ≠ 0)
    (hnd : (calls.map (·.key)).Nodup) :
    (run_set_calls N (CoglObject.fresh 1 mem) calls).2 = [] ∧
    (attach_all N mem calls).user_data_entry.take ((attach_all N mem calls).count N) ++
      (attach_all N mem calls).user_data_array.getD [] = calls.map SetCall.entry ∧
    cogl_object_unref N (attach_all N mem calls) =
      (none,
        destroy_loop (attach_all N mem calls).released
            ((attach_all N mem calls).user_data_entry.take ((attach_all N mem calls).count N))
          ++ destroy_loop (attach_all N mem calls).released
            ((attach_all N mem calls).user_data_array.getD [])
          ++ [Event.virt_free]) ∧
    (cogl_object_unref N (attach_all N mem calls)).2 =
      (calls.filter (fun c => c.destroy ≠ 0)).map
          (fun c => Event.destroy c.destroy c.user_data (attach_all N mem calls).released)
        ++ [Event.virt_free] := by
  obtain ⟨h1, h2, h3, h4⟩ := attach_all_slots N mem calls hmem hud hnd
  have hu := unref_final N _ h1 h4
  refine ⟨h3, h2, ?_, ?_⟩
  · rw [hu, ← destroy_loop_append]
    rfl
  · rw [hu, h2, destroy_loop_eq]
    simp only [CoglObject.released, List.filter_map, List.map_map]
    rfl

/-- Witness of C3: two inline slots, four attachments, one without destructor. -/
theorem final_unref_runs_each_destructor_once_witness :
    (demo_mem.length = 2 ∧ (∀ c ∈ demo_attaches, c.user_data ≠ 0) ∧
      (demo_attaches.map (·.key)).Nodup) ∧
    ((run_set_calls 2 (CoglObject.fresh 1 demo_mem) demo_attaches).2 = [] ∧
    (attach_all 2 demo_mem demo_attaches).user_data_entry.take
        ((attach_all 2 demo_mem demo_attaches).count 2) ++
      (attach_all 2 demo_mem demo_attaches).user_data_array.getD [] =
        demo_attaches.map SetCall.entry ∧
    cogl_object_unref 2 (attach_all 2 demo_mem demo_attaches) =
      (none,
        destroy_loop (attach_all 2 demo_mem demo_attaches).released
            ((attach_all 2 demo_mem demo_attaches).user_data_entry.take
              ((attach_all 2 demo_mem demo_attaches).count 2))
          ++ destroy_loop (attach_all 2 demo_mem demo_attaches).released
            ((attach_all 2 demo_mem demo_attaches).user_data_array.getD [])
          ++ [Event.virt_free]) ∧
    (cogl_object_unref 2 (attach_all 2 demo_mem demo_attaches)).2 =
      (demo_attaches.filter (fun c => c.destroy ≠ 0)).map
          (fun c => Event.destroy c.destroy c.user_data
            (attach_all 2 demo_mem demo_attaches).released)
        ++ [Event.virt_free]) :=
  ⟨⟨by decide, by decide, by decide⟩,
    final_unref_runs_each_destructor_once 2 demo_mem demo_attaches
      (by decide) (by decide) (by decide)⟩

/-- C5: after `k` attaches of non-`NULL` payloads under distinct keys on a new
object, `n_user_data_entries` is `k`, the first `N` attachments occupy the inline
slots `0 .. N-1` in attachment order, the overflow list is not allocated while
`k ≤ N`, and for `k > N` it holds exactly the attachments after the `N`-th, in
order, so its length is `k - N`. -/
theorem inline_slots_then_overflow (N : Nat) (mem : List CoglUserDataEntry)
    (calls : List SetCall) (hmem : mem.length = N) (hud : ∀ c ∈ calls, c.user_data ≠ 0)
    (hnd : (calls.map (·.key)).Nodup) :
    (attach_all N mem calls).n_user_data_entries = calls.length ∧
    (attach_all N mem calls).user_data_entry.take (min calls.length N) =
      (calls.map SetCall.entry).take N ∧
    (calls.length ≤ N → (attach_all N mem calls).user_data_array = none) ∧
    (N < calls.length →
      (attach_all N mem calls).user_data_array = some ((calls.map SetCall.entry).drop N) ∧
      ((calls.map SetCall.entry).drop N).length = calls.length - N) := by
  obtain ⟨h1, h2, _, _⟩ := attach_all_slots N mem calls hmem hud hnd
  have hn : (attach_all N mem calls).n_user_data_entries = calls.length := by
    rw [← Shape.slots_length h1, h2]; simp
  have htl := Shape.take_length h1
  have hcount : (attach_all N mem calls).count N = min calls.length N := by
    simp [CoglObject.count, hn]
  unfold CoglObject.slots at h2
  rw [hcount] at h2 htl
  have htake : (attach_all N mem calls).user_data_entry.take (min calls.length N) =
      (calls.map SetCall.entry).take (min calls.length N) := by
    rw [← h2, List.take_left' htl]
  have hdrop : (attach_all N mem calls).user_data_array.getD [] =
      (calls.map SetCall.entry).drop (min calls.length N) := by
    rw [← h2, List.drop_left' htl]
  have hshape := h1.2
  refine ⟨hn, ?_, ?_, ?_⟩
  · rw [htake]
    by_cases hk : calls.length ≤ N
    · rw [Nat.min_eq_left hk, List.take_of_length_le (by simp),
        List.take_of_length_le (by simpa using hk)]
    · rw [Nat.min_eq_right (by omega)]
  · intro hk
    cases ha : (attach_all N mem calls).user_data_array with
    | none => rfl
    | some arr => rw [ha] at hshape; simp at hshape; omega
  · intro hk
    refine ⟨?_, by simp⟩
    cases ha : (attach_all N mem calls).user_data_array with
    | none => rw [ha] at hshape; simp at hshape; omega
    | some arr =>
      rw [ha] at hdrop
      rw [Nat.min_eq_right (by omega)] at hdrop
      simpa using hdrop

/-- Witness of C5: two inline slots, four attachments. -/
theorem inline_slots_then_overflow_witness :
    (demo_mem.length = 2 ∧ (∀ c ∈ demo_attaches, c.user_data ≠ 0) ∧
      (demo_attaches.map (·.key)).Nodup) ∧
    ((attach_all 2 demo_mem demo_attaches).n_user_data_entries = demo_attaches.length ∧
    (attach_all 2 demo_mem demo_attaches).user_data_entry.take (min demo_attaches.length 2) =
      (demo_attaches.map SetCall.entry).take 2 ∧
    (demo_attaches.length ≤ 2 → (attach_all 2 demo_mem demo_attaches).user_data_array = none) ∧
    (2 < demo_attaches.length →
      (attach_all 2 demo_mem demo_attaches).user_data_array =
        some ((demo_attaches.map SetCall.entry).drop 2) ∧
      ((demo_attaches.map SetCall.entry).drop 2).length = demo_attaches.length - 2)) :=
  ⟨⟨by decide, by decide, by decide⟩,
    inline_slots_then_overflow 2 demo_mem demo_attaches (by decide) (by decide) (by decide)⟩

/-- C4: detaching key `K` is `cogl_object_set_user_data` with a `NULL` payload.
When `K` holds payload `P` with destructor `D`, the call makes exactly one
callback, `D (P, object)`; the slot of `K` becomes the all-`NULL` entry and no
other slot changes, so the destructor passed along with the `NULL` payload is not
stored; a lookup of `K` afterwards returns `NULL`; and the final release of the
object makes the same destructor calls as it would have made before the detach,
less the one call `D (P)` of the slot of `K`. -/
theorem detach_runs_destructor_once (N : Nat) (obj : CoglObject) (K P D D_arg : Nat)
    (hg : obj.Good N) (hrc : obj.ref_count = 1) (hK : K ≠ 0) (hD : D ≠ 0)
    (hold : obj.holds N K P D) :
    (cogl_object_set_user_data N obj K 0 D_arg).2 = [Event.destroy D P obj] ∧
    (∃ pre post, obj.slots N = pre ++ ⟨K, P, D⟩ :: post ∧
      (cogl_object_set_user_data N obj K 0 D_arg).1.slots N =
        pre ++ CoglUserDataEntry.zero :: post) ∧
    cogl_object_get_user_data N (cogl_object_set_user_data N obj K 0 D_arg).1 K = 0 ∧
    (∃ a b, (cogl_object_unref N obj).2.filterMap Event.call = a ++ (D, P) :: b ∧
      (cogl_object_unref N (cogl_object_set_user_data N obj K 0 D_arg).1).2.filterMap
        Event.call = a ++ b) := by
  obtain ⟨pre, post, e1, e2⟩ := holds_slots N obj K P D hold
  obtain ⟨h1, h2, h3, h4⟩ := set_user_data_slots N obj K 0 D_arg hg.1
  have hgs := get_set N obj K 0 D_arg K hK hg
  unfold cogl_object_set_user_data at hgs ⊢
  have ht : target K (obj.slots N) = some pre.length := by
    unfold target
    rw [e1, firstKey_of_split K pre post _ e2 rfl]
  have hz : new_entry K 0 D_arg = CoglUserDataEntry.zero := by simp [new_entry]
  have hslots : (_cogl_object_set_user_data N obj K 0 D_arg).1.slots N =
      pre ++ CoglUserDataEntry.zero :: post := by
    rw [h2, hz]
    unfold store
    rw [ht]
    simp only
    rw [e1, set_split]
  refine ⟨?_, ⟨pre, post, e1, hslots⟩, ?_, ?_⟩
  · rw [h4, ht]
    simp only
    rw [e1, getD_split]
    simp [hD]
  · rw [hgs]
    simp
  · refine ⟨calls_of pre, calls_of post, ?_, ?_⟩
    · rw [unref_final_calls N obj hg.1 hrc, e1, calls_of_split]
      simp [hD]
    · rw [unref_final_calls N _ h1 (by rw [← hrc]; exact h3), hslots, calls_of_split]
      simp [CoglUserDataEntry.zero]

/-- Witness of C4: key 2 in the second inline slot, with an overflow list behind it. -/
theorem detach_runs_destructor_once_witness :
    ((attach_all 2 demo_mem demo_attaches).Good 2 ∧
      (attach_all 2 demo_mem demo_attaches).ref_count = 1 ∧ (1 : Nat) ≠ 0 ∧ (100 : Nat) ≠ 0 ∧
      (attach_all 2 demo_mem demo_attaches).holds 2 1 10 100) ∧
    ((cogl_object_set_user_data 2 (attach_all 2 demo_mem demo_attaches) 1 0 999).2 =
      [Event.destroy 100 10 (attach_all 2 demo_mem demo_attaches)] ∧
    (∃ pre post, (attach_all 2 demo_mem demo_attaches).slots 2 = pre ++ ⟨1, 10, 100⟩ :: post ∧
      (cogl_object_set_user_data 2 (attach_all 2 demo_mem demo_attaches) 1 0 999).1.slots 2 =
        pre ++ CoglUserDataEntry.zero :: post) ∧
    cogl_object_get_user_data 2
      (cogl_object_set_user_data 2 (attach_all 2 demo_mem demo_attaches) 1 0 999).1 1 = 0 ∧
    (∃ a b, (cogl_object_unref 2 (attach_all 2 demo_mem demo_attaches)).2.filterMap
        Event.call = a ++ (100, 10) :: b ∧
      (cogl_object_unref 2
        (cogl_object_set_user_data 2 (attach_all 2 demo_mem demo_attaches) 1 0 999).1).2.filterMap
        Event.call = a ++ b)) :=
  ⟨⟨by decide, by decide, by decide, by decide, by decide⟩,
    detach_runs_destructor_once 2 (attach_all 2 demo_mem demo_attaches) 1 10 100 999
      (by decide) (by decide) (by decide) (by decide) (by decide)⟩

/-! ## Heaps -/

theorem heap_get_some_bound {α : Type} (h : List (Option α)) (p : Nat) (x : α)
    (hx : heap_get h p = some x) : p ≠ 0 ∧ p ≤ h.length := by
  cases p with
  | zero => simp [heap_get] at hx
  | succ q =>
    refine ⟨Nat.succ_ne_zero q, ?_⟩
    simp only [heap_get, List.getD_eq_getElem?_getD] at hx
    by_contra hlt
    rw [List.getElem?_eq_none (by omega)] at hx
    simp at hx

theorem heap_get_zero {α : Type} (h : List (Option α)) : heap_get h 0 = none := rfl

theorem heap_get_set_same {α : Type} (h : List (Option α)) (v : Option α) (p : Nat)
    (hp0 : p ≠ 0) (hp : p ≤ h.length) : heap_get (heap_set h v p) p = v := by
  cases p with
  | zero => exact absurd rfl hp0
  | succ q =>
    simp only [heap_get, heap_set, List.getD_eq_getElem?_getD]
    rw [List.getElem?_set_self (by omega)]
    simp

theorem heap_get_set_ne {α : Type} (h : List (Option α)) (v : Option α) (p q : Nat)
    (hne : q ≠ p) : heap_get (heap_set h v p) q = heap_get h q := by
  cases p with
  | zero => rfl
  | succ p2 =>
    cases q with
    | zero => rfl
    | succ q2 =>
      simp only [heap_get, heap_set, List.getD_eq_getElem?_getD]
      rw [List.getElem?_set_ne (by omega)]

theorem heap_set_length {α : Type} (h : List (Option α)) (v : Option α) (p : Nat) :
    (heap_set h v p).length = h.length := by
  cases p <;> simp [heap_set]

theorem heap_get_append {α : Type} (h : List (Option α)) (v : Option α) (p : Nat) :
    heap_get (h ++ [v]) p = if p = h.length + 1 then v else heap_get h p := by
  cases p with
  | zero => simp [heap_get]
  | succ q =>
    simp only [heap_get, List.getD_eq_getElem?_getD]
    by_cases hq : q = h.length
    · subst hq; simp
    · simp only [Nat.succ_eq_add_one, Nat.add_right_cancel_iff, hq, if_false]
      by_cases hlt : q < h.length
      · rw [List.getElem?_append_left hlt]
      · rw [List.getElem?_eq_none (by simp; omega), List.getElem?_eq_none (by omega)]

theorem heap_get_mem {α : Type} (h : List (Option α)) (p : Nat) (x : α)
    (hx : heap_get h p = some x) : some x ∈ h := by
  cases p with
  | zero => simp [heap_get] at hx
  | succ q =>
    simp only [heap_get, List.getD_eq_getElem?_getD] at hx
    cases hq : h[q]? with
    | none => rw [hq] at hx; simp at hx
    | some y =>
      rw [hq] at hx; simp at hx; subst hx
      exact List.getElem?_mem hq

theorem mem_heap_set {α : Type} (h : List (Option α)) (v : Option α) (p : Nat) (o : Option α)
    (ho : o ∈ heap_set h v p) : o ∈ h ∨ o = v := by
  cases p with
  | zero => left; exact ho
  | succ q => exact List.mem_or_eq_of_mem_set ho

/-! ## The slot discipline of one user of the attachment store -/

theorem clean_cons (c : CoglUserDataEntry) (l : List CoglUserDataEntry) (h : Clean (c :: l)) :
    Clean l ∧ ((c.user_data = 0 ↔ c.key = 0) ∧ (c.user_data = 0 → c.destroy = 0)) ∧
      (∀ y ∈ l, c.key ≠ 0 → c.key ≠ y.key) := by
  have := (clean_split [] l c).mp (by simpa using h)
  obtain ⟨⟨_, h2, h3⟩, _, h5, _, h7, _⟩ := this
  exact ⟨⟨h3, h5⟩, h2, h7⟩

theorem lookup_mem (K : Nat) (hK : K ≠ 0) (l : List CoglUserDataEntry) (hc : Clean l)
    (x : CoglUserDataEntry) (hx : x ∈ l) (hxk : x.key = K) :
    get_loop K l = some x.user_data := by
  induction l with
  | nil => simp at hx
  | cons c rest ih =>
    obtain ⟨h1, _, h3⟩ := clean_cons c rest hc
    by_cases hck : c.key = K
    · simp only [get_loop, if_pos hck]
      rcases List.mem_cons.mp hx with hx | hx
      · rw [hx]
      · exact absurd (hxk.trans hck.symm).symm (h3 x hx (by rw [hck]; exact hK))
    · simp only [get_loop, if_neg hck]
      rcases List.mem_cons.mp hx with hx | hx
      · rw [hx] at hxk; exact absurd hxk hck
      · exact ih h1 hx

theorem lookup_some (K v : Nat) (l : List CoglUserDataEntry) (h : get_loop K l = some v) :
    ∃ x ∈ l, x.key = K ∧ x.user_data = v := by
  induction l with
  | nil => simp [get_loop] at h
  | cons c rest ih =>
    by_cases hck : c.key = K
    · simp only [get_loop, if_pos hck, Option.some.injEq] at h
      exact ⟨c, List.mem_cons_self _ _, hck, h⟩
    · simp only [get_loop, if_neg hck] at h
      obtain ⟨x, hx, h1, h2⟩ := ih h
      exact ⟨x, List.mem_cons_of_mem _ hx, h1, h2⟩

theorem mem_store (key : Nat) (e x : CoglUserDataEntry) (l : List CoglUserDataEntry)
    (hx : x ∈ store key e l) : x ∈ l ∨ x = e := by
  unfold store at hx
  cases ht : target key l with
  | none =>
    rw [ht] at hx
    simp only [List.mem_append, List.mem_singleton] at hx
    exact hx
  | some i =>
    rw [ht] at hx
    exact List.mem_or_eq_of_mem_set hx

theorem set_disciplined (N K F : Nat) (obj : CoglObject) (ud : Nat) (hK : K ≠ 0)
    (hF : F ≠ 0) (hd : obj.Disciplined N K F) :
    (cogl_object_set_user_data N obj K ud F).1.Disciplined N K F := by
  refine ⟨set_good N obj K ud F hK hd.1, ?_⟩
  obtain ⟨_, h2, _, _⟩ := set_user_data_slots N obj K ud F hd.1.1
  unfold cogl_object_set_user_data
  rw [h2]
  intro x hx
  rcases mem_store K _ x _ hx with hx | hx
  · exact hd.2 x hx
  · subst hx
    unfold new_entry
    by_cases hu : ud = 0
    · simp [hu, CoglUserDataEntry.zero, hK.symm, hF.symm]
    · simp [hu]

theorem set_events (N K F : Nat) (obj : CoglObject) (ud d : Nat) (hK : K ≠ 0)
    (hF : F ≠ 0) (hd : obj.Disciplined N K F) :
    (cogl_object_set_user_data N obj K ud d).2 =
      if cogl_object_get_user_data N obj K = 0 then []
      else [Event.destroy F (cogl_object_get_user_data N obj K) obj] := by
  obtain ⟨_, _, _, h4⟩ := set_user_data_slots N obj K ud d hd.1.1
  unfold cogl_object_set_user_data
  rw [h4, get_user_data_slots]
  have hc := hd.1.2
  rcases store_cases K (new_entry K ud d) (obj.slots N) with
    ⟨pre, c, post, e1, e2, e3, e4, _⟩ | ⟨hno, pre, c, post, e1, e2, e4, _⟩ | ⟨hno, _, e4, _⟩
  · rw [e4]
    simp only
    have hcm : c ∈ obj.slots N := by rw [e1]; simp
    have hcd : c.destroy = F := (hd.2 c hcm).1 e2
    have hcu : c.user_data ≠ 0 := by
      intro h0
      exact hK (e2 ▸ ((hc.1 c hcm).1.mp h0))
    have hgd : (obj.slots N).getD pre.length CoglUserDataEntry.zero = c := by
      rw [e1, getD_split]
    rw [lookup_mem K hK _ hc c hcm e2, hgd]
    simp [hcd, hF, hcu]
  · rw [e4]
    simp only
    have hcm : c ∈ obj.slots N := by rw [e1]; simp
    have hcd : c.destroy = 0 := (hc.1 c hcm).2 e2
    have hgd : (obj.slots N).getD pre.length CoglUserDataEntry.zero = c := by
      rw [e1, getD_split]
    rw [(get_loop_none K _).mpr hno, hgd]
    simp [hcd]
  · rw [e4, (get_loop_none K _).mpr hno]
    simp

theorem ev_targets_append (F : Nat) (a b : List Event) :
    ev_targets F (a ++ b) = ev_targets F a ++ ev_targets F b := by
  induction a with
  | nil => rfl
  | cons ev rest ih =>
    cases ev with
    | destroy fn d o =>
      by_cases h : fn = F <;> simp [ev_targets, h, ih]
    | virt_free => simp [ev_targets, ih]

theorem ev_targets_destroy_loop (K F : Nat) (hK : K ≠ 0) (hF : F ≠ 0) (o : CoglObject)
    (l : List CoglUserDataEntry) (hc : Clean l)
    (hd : ∀ x ∈ l, (x.key = K → x.destroy = F) ∧ (x.key ≠ K → x.destroy ≠ F)) :
    ev_targets F (destroy_loop o l) =
      match get_loop K l with
      | some v => [v]
      | none => [] := by
  induction l with
  | nil => simp [destroy_loop, ev_targets, get_loop]
  | cons c rest ih =>
    obtain ⟨h1, _, h3⟩ := clean_cons c rest hc
    have ih2 := ih h1 (fun x hx => hd x (List.mem_cons_of_mem _ hx))
    have hdc := hd c (List.mem_cons_self _ _)
    simp only [destroy_loop, ev_targets_append]
    by_cases hck : c.key = K
    · have hrest : get_loop K rest = none :=
        (get_loop_none K rest).mpr (fun y hy h => h3 y hy (by rw [hck]; exact hK) (hck.trans h.symm))
      rw [ih2, hrest]
      simp [get_loop, hck, hdc.1 hck, hF, ev_targets]
    · rw [ih2]
      simp only [get_loop, if_neg hck]
      by_cases h0 : c.destroy = 0
      · simp [h0, ev_targets]
      · simp [h0, ev_targets, hdc.2 hck]

/-- The destructor calls of a final unref that go to `F`: the one for the payload
under the key `K`, if there is one. -/
theorem unref_targets (N K F : Nat) (obj : CoglObject) (hK : K ≠ 0) (hF : F ≠ 0)
    (hd : obj.Disciplined N K F) (hrc : obj.ref_count = 1) :
    (cogl_object_unref N obj).1 = none ∧
    ev_targets F (cogl_object_unref N obj).2 =
      if cogl_object_get_user_data N obj K = 0 then []
      else [cogl_object_get_user_data N obj K] := by
  rw [unref_final N obj hd.1.1 hrc]
  refine ⟨rfl, ?_⟩
  simp only
  rw [ev_targets_append, ev_targets_destroy_loop K F hK hF _ _ hd.1.2 hd.2, get_user_data_slots]
  cases hg : get_loop K (obj.slots N) with
  | none => simp [ev_targets]
  | some v =>
    obtain ⟨x, hx, hxk, hxv⟩ := lookup_some K v _ hg
    have hv : v ≠ 0 := by
      intro h0
      rw [← hxv] at h0
      exact hK (hxk ▸ ((hd.1.2.1 x hx).1.mp h0))
    simp [ev_targets, hv]

/-! ## Destructor callbacks on the heap of cache entries -/

theorem destroy_glsl_priv_last (env : Env) (hctx : env.have_context = true) (w : World)
    (e : Nat) (pv : CoglPipelineProgendPrivate) (hg : heap_get w.privs e = some pv)
    (h0 : dec32 pv.ref_count = 0) :
    ∃ tr, destroy_glsl_priv env w e =
      some { w with privs := heap_set w.privs none e, trace := tr } := by
  unfold destroy_glsl_priv
  rw [if_neg (by rw [hctx]; exact Bool.noConfusion), hg]
  dsimp only
  rw [if_pos h0]
  exact ⟨_, rfl⟩

theorem destroy_glsl_priv_shared (env : Env) (hctx : env.have_context = true) (w : World)
    (e : Nat) (pv : CoglPipelineProgendPrivate) (hg : heap_get w.privs e = some pv)
    (h0 : dec32 pv.ref_count ≠ 0) :
    destroy_glsl_priv env w e =
      some { w with
        privs := heap_set w.privs (some { pv with ref_count := dec32 pv.ref_count }) e } := by
  unfold destroy_glsl_priv
  rw [if_neg (by rw [hctx]; exact Bool.noConfusion), hg]
  dsimp only
  rw [if_neg h0]

theorem destroy_glsl_priv_spec (env : Env) (hctx : env.have_context = true) (w : World)
    (e : Nat) :
    match privs_release w.privs e with
    | none => destroy_glsl_priv env w e = none
    | some pr => ∃ w2, destroy_glsl_priv env w e = some w2 ∧ w2.privs = pr ∧
        w2.pipelines = w.pipelines ∧ w2.programs = w.programs ∧ w2.shaders = w.shaders := by
  cases hg : heap_get w.privs e with
  | none =>
    have h1 : privs_release w.privs e = none := by unfold privs_release; rw [hg]
    have h2 : destroy_glsl_priv env w e = none := by
      unfold destroy_glsl_priv
      rw [if_neg (by rw [hctx]; exact Bool.noConfusion), hg]
    rw [h1]; exact h2
  | some pv =>
    by_cases h0 : dec32 pv.ref_count = 0
    · have h1 : privs_release w.privs e = some (heap_set w.privs none e) := by
        unfold privs_release; rw [hg]; dsimp only; rw [if_pos h0]
      obtain ⟨tr, h2⟩ := destroy_glsl_priv_last env hctx w e pv hg h0
      rw [h1]
      exact ⟨_, h2, rfl, rfl, rfl, rfl⟩
    · have h1 : privs_release w.privs e =
          some (heap_set w.privs (some { pv with ref_count := dec32 pv.ref_count }) e) := by
        unfold privs_release; rw [hg]; dsimp only; rw [if_neg h0]
      rw [h1]
      exact ⟨_, destroy_glsl_priv_shared env hctx w e pv hg h0, rfl, rfl, rfl, rfl⟩

theorem run_events_spec (env : Env) (hctx : env.have_context = true) (p : Nat)
    (evs : List Event) :
    ∀ w : World,
      match privs_release_all w.privs (ev_targets env.destroy_glsl_priv evs) with
      | none => run_events env p w evs = none
      | some pr => ∃ w2, run_events env p w evs = some w2 ∧ w2.privs = pr ∧
          w2.pipelines = w.pipelines ∧ w2.programs = w.programs ∧ w2.shaders = w.shaders := by
  induction evs with
  | nil => intro w; simp [ev_targets, privs_release_all, run_events]
  | cons ev rest ih =>
    intro w
    cases ev with
    | virt_free =>
      have := ih (w.call (Call.pipeline_free p))
      simpa [ev_targets, run_events, World.call] using this
    | destroy fn d o =>
      by_cases hfn : fn = env.destroy_glsl_priv
      · simp only [ev_targets, if_pos hfn, privs_release_all, run_events]
        have hd := destroy_glsl_priv_spec env hctx w d
        cases hr : privs_release w.privs d with
        | none => rw [hr] at hd; simp [hd]
        | some pr =>
          rw [hr] at hd
          obtain ⟨w2, e1, e2, e3, e4, e5⟩ := hd
          have := ih w2
          rw [e2] at this
          simp only [e1]
          cases hr2 : privs_release_all pr (ev_targets env.destroy_glsl_priv rest) with
          | none => rw [hr2] at this; simpa using this
          | some pr2 =>
            rw [hr2] at this
            obtain ⟨w3, f1, f2, f3, f4, f5⟩ := this
            exact ⟨w3, f1, f2, by rw [f3, e3], by rw [f4, e4], by rw [f5, e5]⟩
      · have := ih (w.call (Call.foreign_destroy fn d))
        simpa [ev_targets, run_events, hfn, World.call] using this

/-! ## Counting the sharers of an entry -/

theorem countP_set_add {α : Type} (f : α → Bool) (l : List α) (i : Nat) (a v : α)
    (h : l[i]? = some a) :
    (l.set i v).countP f + (if f a = true then 1 else 0) =
      l.countP f + (if f v = true then 1 else 0) := by
  induction l generalizing i with
  | nil => simp at h
  | cons c rest ih =>
    cases i with
    | zero =>
      simp only [List.getElem?_cons_zero, Option.some.injEq] at h
      subst h
      simp only [List.set_cons_zero, List.countP_cons]
      omega
    | succ j =>
      simp only [List.getElem?_cons_succ] at h
      have := ih j h
      simp only [List.set_cons_succ, List.countP_cons]
      omega

theorem sharers_heap_set (env : Env) (w : World) (p : Nat) (pl : CoglPipeline)
    (v : Option CoglPipeline) (h : heap_get w.pipelines p = some pl) (e : Nat)
    (w2 : World) (hw2 : w2.pipelines = heap_set w.pipelines v p) :
    sharers env w2 e + (if priv_of env pl = e then 1 else 0) =
      sharers env w e + (if is_sharer env e v = true then 1 else 0) := by
  unfold sharers
  rw [hw2]
  cases p with
  | zero => simp [heap_get] at h
  | succ q =>
    simp only [heap_get, List.getD_eq_getElem?_getD] at h
    have hq : w.pipelines[q]? = some (some pl) := by
      cases hh : w.pipelines[q]? with
      | none => rw [hh] at h; simp at h
      | some y => rw [hh] at h; simp at h; rw [h]
    have := countP_set_add (is_sharer env e) w.pipelines q (some pl) v hq
    simpa [heap_set, is_sharer] using this

theorem sharers_congr (env : Env) (w w2 : World) (h : w2.pipelines = w.pipelines) (e : Nat) :
    sharers env w2 e = sharers env w e := by
  unfold sharers; rw [h]

theorem sharers_le (env : Env) (w : World) (e : Nat) : sharers env w e ≤ w.pipelines.length :=
  List.countP_le_length _

theorem sharers_pos (env : Env) (w : World) (e : Nat) (pl : CoglPipeline)
    (hm : some pl ∈ w.pipelines) (he : priv_of env pl = e) : 1 ≤ sharers env w e := by
  unfold sharers
  exact List.countP_pos_iff.mpr ⟨some pl, hm, by simp [is_sharer, he]⟩

/-! ## The invariant of the program cache -/

theorem inv_iff (env : Env) (w : World) :
    Inv env w ↔
      (∀ o ∈ w.pipelines, PipelineOK env w o) ∧ (∀ e, RefOK env w 0 e) ∧
        w.pipelines.length < 4294967295 := by
  unfold Inv InvOff
  simp

theorem pipelineOK_mono (env : Env) (w w2 : World) (o : Option CoglPipeline)
    (h : PipelineOK env w o)
    (hl : ∀ e, (heap_get w.privs e).isSome = true → (heap_get w2.privs e).isSome = true) :
    PipelineOK env w2 o := by
  cases o with
  | none => trivial
  | some pl => exact ⟨h.1, fun h0 => hl _ (h.2 h0)⟩

theorem refOK_live (env : Env) (w : World) (off e : Nat) (pv : CoglPipelineProgendPrivate)
    (h : RefOK env w off e) (hg : heap_get w.privs e = some pv) :
    pv.ref_count = sharers env w e + off := by
  unfold RefOK at h
  rw [hg] at h
  exact h

theorem refOK_of (env : Env) (w : World) (off e : Nat)
    (h : ∀ pv, heap_get w.privs e = some pv → pv.ref_count = sharers env w e + off) :
    RefOK env w off e := by
  unfold RefOK
  cases hg : heap_get w.privs e with
  | none => trivial
  | some pv => exact h pv hg

theorem isSome_of_eq {α : Type} (o : Option α) (x : α) (h : o = some x) : o.isSome = true := by
  rw [h]; rfl

/-- Attaching the entry `x`, whose reference count is one above its number of
sharers, to a pipeline that has no entry restores the invariant. -/
theorem inv_attach (env : Env) (hok : env.ok) (w : World) (x p : Nat) (pl : CoglPipeline)
    (h : InvOff env w x 1) (hx : (heap_get w.privs x).isSome = true)
    (hp : heap_get w.pipelines p = some pl) (habs : priv_of env pl = 0) :
    set_priv_user_data env w p x = some (w.put_pipeline (some (attached env pl x)) p) ∧
    Inv env (w.put_pipeline (some (attached env pl x)) p) ∧
    priv_of env (attached env pl x) = x := by
  obtain ⟨hctx, hK, hF⟩ := hok
  obtain ⟨h1, h2, h3⟩ := h
  have hplOK := h1 _ (heap_get_mem _ _ _ hp)
  have hdis : pl._parent.Disciplined env.N env.glsl_priv_key env.destroy_glsl_priv := hplOK.1
  have hev := set_events env.N env.glsl_priv_key env.destroy_glsl_priv pl._parent x
    env.destroy_glsl_priv hK hF hdis
  have habs2 : cogl_object_get_user_data env.N pl._parent env.glsl_priv_key = 0 := habs
  rw [habs2, if_pos rfl] at hev
  have hpriv : priv_of env (attached env pl x) = x := by
    unfold priv_of attached
    dsimp only
    rw [get_set env.N pl._parent env.glsl_priv_key x env.destroy_glsl_priv _ hK hdis.1]
    simp
  have hx0 : x ≠ 0 := by
    intro h0; rw [h0, heap_get_zero] at hx; cases hx
  refine ⟨?_, ?_, hpriv⟩
  · unfold set_priv_user_data
    rw [hp]
    dsimp only
    rw [hev]
    rfl
  · rw [inv_iff]
    refine ⟨?_, ?_, ?_⟩
    · intro o ho
      rcases mem_heap_set _ _ _ _ ho with ho | ho
      · exact pipelineOK_mono env w _ o (h1 o ho) (fun e he => he)
      · subst ho
        refine ⟨set_disciplined env.N _ _ _ x hK hF hdis, ?_⟩
        intro _
        rw [hpriv]
        exact hx
    · intro e
      apply refOK_of
      intro pv hg
      have hg2 : heap_get w.privs e = some pv := hg
      have hr := refOK_live env w _ e pv (h2 e) hg2
      have he0 : e ≠ 0 := (heap_get_some_bound _ _ _ hg2).1
      have hs := sharers_heap_set env w p pl _ hp e
        (w.put_pipeline (some (attached env pl x)) p) rfl
      rw [habs] at hs
      simp only [is_sharer, hpriv, decide_eq_true_eq] at hs
      have hne : ¬ (0 = e) := fun h0 => he0 h0.symm
      rw [if_neg hne] at hs
      by_cases hex : e = x
      · rw [if_pos hex] at hr
        rw [if_pos hex.symm] at hs
        omega
      · rw [if_neg hex] at hr
        rw [if_neg (fun h0 => hex h0.symm)] at hs
        omega
    · show (heap_set w.pipelines _ p).length < 4294967295
      rw [heap_set_length]
      exact h3

theorem dec32_pos (x : Nat) (h1 : 1 ≤ x) (h2 : x < 4294967296) : dec32 x = x - 1 := by
  unfold dec32; omega

theorem inc32_small (x : Nat) (h : x + 1 < 4294967296) : inc32 x = x + 1 := by
  unfold inc32; omega

theorem privs_release_live (privs : List (Option CoglPipelineProgendPrivate)) (e : Nat)
    (pv : CoglPipelineProgendPrivate) (hg : heap_get privs e = some pv)
    (h1 : 1 ≤ pv.ref_count) (h2 : pv.ref_count < 4294967296) :
    privs_release privs e = some (heap_set privs (dropped pv) e) := by
  have hd := dec32_pos pv.ref_count h1 h2
  by_cases hone : pv.ref_count = 1
  · have h0 : dec32 pv.ref_count = 0 := by rw [hd, hone]
    unfold privs_release dropped
    rw [hg]
    dsimp only
    rw [if_pos h0, if_pos hone]
  · have h0 : dec32 pv.ref_count ≠ 0 := by rw [hd]; omega
    unfold privs_release dropped
    rw [hg]
    dsimp only
    rw [if_neg h0, if_neg hone, hd]

/-- Dropping the cache entry of a pipeline (by detaching it or by destroying the
pipeline) runs the destructor of the entry once and keeps the invariant. -/
theorem inv_release (env : Env) (hok : env.ok) (w : World) (p : Nat) (pl : CoglPipeline)
    (v : Option CoglPipeline) (evs : List Event)
    (h : Inv env w) (hp : heap_get w.pipelines p = some pl) (hv : Detached env v)
    (hev : ev_targets env.destroy_glsl_priv evs =
      if priv_of env pl = 0 then [] else [priv_of env pl]) :
    ∃ w1, run_events env p w evs = some w1 ∧ w1.pipelines = w.pipelines ∧
      w1.programs = w.programs ∧ w1.shaders = w.shaders ∧
      Inv env (w1.put_pipeline v p) ∧
      (priv_of env pl = 0 → w1.privs = w.privs) ∧
      (priv_of env pl ≠ 0 → ∃ pv, heap_get w.privs (priv_of env pl) = some pv ∧
        pv.ref_count = sharers env w (priv_of env pl) ∧ 1 ≤ pv.ref_count ∧
        w1.privs = heap_set w.privs (dropped pv) (priv_of env pl)) := by
  obtain ⟨hctx, hK, hF⟩ := hok
  rw [inv_iff] at h
  obtain ⟨h1, h2, h3⟩ := h
  have hpm := heap_get_mem _ _ _ hp
  have hplOK := h1 _ hpm
  have hspec := run_events_spec env hctx p evs w
  rw [hev] at hspec
  have hold : ∀ o ∈ heap_set w.pipelines v p, ∀ pl2, o = some pl2 →
      pl2._parent.Disciplined env.N env.glsl_priv_key env.destroy_glsl_priv := by
    intro o ho pl2 ho2
    rcases mem_heap_set _ _ _ _ ho with ho | ho
    · have := h1 o ho
      rw [ho2] at this
      exact this.1
    · rw [ho2] at ho
      rw [← ho] at hv
      exact hv.1
  have hvs : ∀ e, e ≠ 0 → is_sharer env e v = false := by
    intro e he
    cases v with
    | none => rfl
    | some pl2 =>
      have : priv_of env pl2 = 0 := hv.2
      simp only [is_sharer, this, decide_eq_false_iff_not]
      exact fun h0 => he h0.symm
  by_cases he0 : priv_of env pl = 0
  · rw [if_pos he0] at hspec
    simp only [privs_release_all] at hspec
    obtain ⟨w1, e1, e2, e3, e4, e5⟩ := hspec
    refine ⟨w1, e1, e3, e4, e5, ?_, fun _ => e2, fun hne => absurd he0 hne⟩
    rw [inv_iff]
    have hpl1 : (w1.put_pipeline v p).pipelines = heap_set w.pipelines v p := by
      show heap_set w1.pipelines v p = _
      rw [e3]
    have hpr1 : (w1.put_pipeline v p).privs = w.privs := e2
    refine ⟨?_, ?_, ?_⟩
    · intro o ho
      rw [hpl1] at ho
      cases o with
      | none => trivial
      | some pl2 =>
        refine ⟨hold _ ho pl2 rfl, ?_⟩
        intro hne
        rw [hpr1]
        rcases mem_heap_set _ _ _ _ ho with ho | ho
        · exact (h1 _ ho).2 hne
        · rw [← ho] at hv
          exact absurd hv.2 hne
    · intro e
      apply refOK_of
      intro pv hg
      rw [hpr1] at hg
      have hr := refOK_live env w _ e pv (h2 e) hg
      have hen0 : e ≠ 0 := (heap_get_some_bound _ _ _ hg).1
      have hs := sharers_heap_set env w p pl v hp e (w1.put_pipeline v p) hpl1
      rw [he0, hvs e hen0, if_neg (fun h0 => hen0 h0.symm)] at hs
      simp at hs
      omega
    · rw [hpl1, heap_set_length]
      exact h3
  · rw [if_neg he0] at hspec
    have hlive := hplOK.2 he0
    cases hg0 : heap_get w.privs (priv_of env pl) with
    | none => rw [hg0] at hlive; cases hlive
    | some pv0 =>
      have hr0 := refOK_live env w _ _ pv0 (h2 _) hg0
      have hpos := sharers_pos env w _ pl hpm rfl
      have hle := sharers_le env w (priv_of env pl)
      have hrel := privs_release_live w.privs _ pv0 hg0 (by omega) (by omega)
      simp only [privs_release_all, hrel] at hspec
      obtain ⟨w1, e1, e2, e3, e4, e5⟩ := hspec
      have hb := heap_get_some_bound _ _ _ hg0
      refine ⟨w1, e1, e3, e4, e5, ?_, fun h0 => absurd h0 he0,
        fun _ => ⟨pv0, rfl, by omega, by omega, e2⟩⟩
      rw [inv_iff]
      have hpl1 : (w1.put_pipeline v p).pipelines = heap_set w.pipelines v p := by
        show heap_set w1.pipelines v p = _
        rw [e3]
      have hpr1 : (w1.put_pipeline v p).privs = heap_set w.privs (dropped pv0) (priv_of env pl) :=
        e2
      have hs0 := sharers_heap_set env w p pl v hp (priv_of env pl) (w1.put_pipeline v p) hpl1
      rw [hvs _ he0, if_pos rfl] at hs0
      simp at hs0
      refine ⟨?_, ?_, ?_⟩
      · intro o ho
        cases o with
        | none => trivial
        | some pl2 =>
          have ho2 := ho
          rw [hpl1] at ho
          refine ⟨hold _ ho pl2 rfl, ?_⟩
          intro hne
          rw [hpr1]
          by_cases hsame : priv_of env pl2 = priv_of env pl
          · have hpos2 := sharers_pos env (w1.put_pipeline v p) _ pl2 ho2 hsame
            rw [hsame, heap_get_set_same _ _ _ hb.1 hb.2]
            unfold dropped
            rw [if_neg (by omega)]
            rfl
          · rw [heap_get_set_ne _ _ _ _ hsame]
            rcases mem_heap_set _ _ _ _ ho with ho | ho
            · exact (h1 _ ho).2 hne
            · rw [← ho] at hv
              exact absurd hv.2 hne
      · intro e
        apply refOK_of
        intro pv hg
        rw [hpr1] at hg
        by_cases hsame : e = priv_of env pl
        · rw [hsame, heap_get_set_same _ _ _ hb.1 hb.2] at hg
          unfold dropped at hg
          by_cases hone : pv0.ref_count = 1
          · rw [if_pos hone] at hg; cases hg
          · rw [if_neg hone] at hg
            simp only [Option.some.injEq] at hg
            rw [← hg, hsame]
            show pv0.ref_count - 1 = _
            omega
        · rw [heap_get_set_ne _ _ _ _ hsame] at hg
          have hr := refOK_live env w _ e pv (h2 e) hg
          have hen0 : e ≠ 0 := (heap_get_some_bound _ _ _ hg).1
          have hs := sharers_heap_set env w p pl v hp e (w1.put_pipeline v p) hpl1
          rw [hvs e hen0, if_neg (fun h0 => hsame h0.symm)] at hs
          simp at hs
          omega
      · rw [hpl1, heap_set_length]
        exact h3

/-- The invariant looks at the pipelines and at the reference counts of the live
entries only. -/
theorem invOff_of_rc (env : Env) (w w2 : World) (x k : Nat)
    (hpl : w2.pipelines = w.pipelines)
    (hrc : ∀ e, (heap_get w2.privs e).map (·.ref_count) =
      (heap_get w.privs e).map (·.ref_count))
    (h : InvOff env w x k) : InvOff env w2 x k := by
  obtain ⟨h1, h2, h3⟩ := h
  refine ⟨?_, ?_, ?_⟩
  · intro o ho
    rw [hpl] at ho
    refine pipelineOK_mono env w w2 o (h1 o ho) ?_
    intro e he
    have := hrc e
    cases hg : heap_get w.privs e with
    | none => rw [hg] at he; cases he
    | some pv =>
      rw [hg] at this
      cases hg2 : heap_get w2.privs e with
      | none => rw [hg2] at this; cases this
      | some pv2 => rfl
  · intro e
    apply refOK_of
    intro pv2 hg2
    have := hrc e
    rw [hg2] at this
    cases hg : heap_get w.privs e with
    | none => rw [hg] at this; cases this
    | some pv =>
      rw [hg] at this
      simp only [Option.map_some', Option.some.injEq] at this
      rw [this, sharers_congr env w w2 hpl]
      exact refOK_live env w _ e pv (h2 e) hg
  · rw [hpl]; exact h3

theorem invOff_put_priv (env : Env) (w : World) (x k e : Nat)
    (pv pv2 : CoglPipelineProgendPrivate) (hg : heap_get w.privs e = some pv)
    (hrc : pv2.ref_count = pv.ref_count) (h : InvOff env w x k) :
    InvOff env (w.put_priv (some pv2) e) x k := by
  refine invOff_of_rc env w _ x k rfl ?_ h
  intro e2
  have hb := heap_get_some_bound _ _ _ hg
  show (heap_get (heap_set w.privs (some pv2) e) e2).map _ = _
  by_cases he : e2 = e
  · rw [he, heap_get_set_same _ _ _ hb.1 hb.2, hg]
    simp [hrc]
  · rw [heap_get_set_ne _ _ _ _ he]

/-- After `priv->ref_count++` the count of the entry is one above its sharers. -/
theorem inv_inc (env : Env) (w : World) (x : Nat) (pv : CoglPipelineProgendPrivate)
    (h : Inv env w) (hg : heap_get w.privs x = some pv) :
    InvOff env (w.put_priv (some pv.incremented) x) x 1 ∧
    pv.incremented.ref_count = pv.ref_count + 1 := by
  rw [inv_iff] at h
  obtain ⟨h1, h2, h3⟩ := h
  have hb := heap_get_some_bound _ _ _ hg
  have hr := refOK_live env w _ x pv (h2 x) hg
  have hle := sharers_le env w x
  have hinc : pv.incremented.ref_count = pv.ref_count + 1 :=
    inc32_small pv.ref_count (by omega)
  refine ⟨⟨?_, ?_, h3⟩, hinc⟩
  · intro o ho
    refine pipelineOK_mono env w _ o (h1 o ho) ?_
    intro e he
    show (heap_get (heap_set w.privs _ x) e).isSome = true
    by_cases hex : e = x
    · rw [hex, heap_get_set_same _ _ _ hb.1 hb.2]; rfl
    · rw [heap_get_set_ne _ _ _ _ hex]; exact he
  · intro e
    apply refOK_of
    intro pv2 hg2
    have hg3 : heap_get (heap_set w.privs (some pv.incremented) x) e = some pv2 := hg2
    have hsh : sharers env (w.put_priv (some pv.incremented) x) e = sharers env w e :=
      sharers_congr env w _ rfl e
    rw [hsh]
    by_cases hex : e = x
    · rw [hex, heap_get_set_same _ _ _ hb.1 hb.2] at hg3
      simp only [Option.some.injEq] at hg3
      rw [if_pos hex, ← hg3, hinc, hex]
      omega
    · rw [heap_get_set_ne _ _ _ _ hex] at hg3
      rw [if_neg hex]
      exact refOK_live env w _ e pv2 (h2 e) hg3

/-- A newly allocated entry with reference count 1 has no sharer yet. -/
theorem inv_alloc (env : Env) (w : World) (pv : CoglPipelineProgendPrivate)
    (h : Inv env w) (hrc : pv.ref_count = 1) :
    InvOff env (w.alloc_priv pv) (w.privs.length + 1) 1 ∧
    sharers env w (w.privs.length + 1) = 0 := by
  rw [inv_iff] at h
  obtain ⟨h1, h2, h3⟩ := h
  have hfresh : sharers env w (w.privs.length + 1) = 0 := by
    unfold sharers
    rw [List.countP_eq_zero]
    intro o ho
    cases o with
    | none => simp [is_sharer]
    | some pl =>
      simp only [is_sharer, decide_eq_true_eq]
      intro hc
      have := (h1 _ ho).2 (by rw [hc]; omega)
      rw [hc] at this
      cases hg : heap_get w.privs (w.privs.length + 1) with
      | none => rw [hg] at this; cases this
      | some y =>
        have := (heap_get_some_bound _ _ _ hg).2
        omega
  refine ⟨⟨?_, ?_, h3⟩, hfresh⟩
  · intro o ho
    refine pipelineOK_mono env w _ o (h1 o ho) ?_
    intro e he
    show (heap_get (w.privs ++ [some pv]) e).isSome = true
    rw [heap_get_append]
    by_cases hex : e = w.privs.length + 1
    · rw [if_pos hex]; rfl
    · rw [if_neg hex]; exact he
  · intro e
    apply refOK_of
    intro pv2 hg2
    have hg3 : heap_get (w.privs ++ [some pv]) e = some pv2 := hg2
    have hsh : sharers env (w.alloc_priv pv) e = sharers env w e :=
      sharers_congr env w _ rfl e
    rw [hsh]
    rw [heap_get_append] at hg3
    by_cases hex : e = w.privs.length + 1
    · rw [if_pos hex] at hg3
      simp only [Option.some.injEq] at hg3
      rw [if_pos hex, ← hg3, hrc, hex, hfresh]
    · rw [if_neg hex] at hg3
      rw [if_neg hex]
      exact refOK_live env w _ e pv2 (h2 e) hg3

/-! ## Finding the cache entry in `_cogl_pipeline_progend_glsl_end` -/

theorem new_glsl_priv_fields (env : Env) (ptr n : Nat) :
    (new_glsl_priv env ptr n).ref_count = 1 ∧ (new_glsl_priv env ptr n).program = 0 ∧
    (new_glsl_priv env ptr n).n_tex_coord_attribs = 0 ∧
    (new_glsl_priv env ptr n).unit_state.length = n := by
  unfold new_glsl_priv
  cases env.gles2 <;> simp

theorem get_glsl_priv_live (env : Env) (w : World) (p : Nat) (pl : CoglPipeline)
    (hp : heap_get w.pipelines p = some pl) :
    get_glsl_priv env w p = some (priv_of env pl) := by
  unfold get_glsl_priv
  rw [hp]
  rfl

theorem get_put_pipeline_same (w : World) (p : Nat) (pl pl2 : CoglPipeline)
    (hp : heap_get w.pipelines p = some pl) :
    heap_get (w.put_pipeline (some pl2) p).pipelines p = some pl2 := by
  have hb := heap_get_some_bound _ _ _ hp
  exact heap_get_set_same _ _ _ hb.1 hb.2

theorem create_spec (env : Env) (hok : env.ok) (w : World) (A n : Nat) (pa : CoglPipeline)
    (h : Inv env w) (hpa : heap_get w.pipelines A = some pa) (habs : priv_of env pa = 0) :
    end_create_priv env w A n =
      some ((w.alloc_priv (new_glsl_priv env (w.privs.length + 1) n)).put_pipeline
        (some (attached env pa (w.privs.length + 1))) A, w.privs.length + 1) ∧
    Inv env ((w.alloc_priv (new_glsl_priv env (w.privs.length + 1) n)).put_pipeline
        (some (attached env pa (w.privs.length + 1))) A) := by
  have hnew := new_glsl_priv_fields env (w.privs.length + 1) n
  have ha := inv_alloc env w (new_glsl_priv env (w.privs.length + 1) n) h hnew.1
  have hlive : (heap_get (w.alloc_priv (new_glsl_priv env (w.privs.length + 1) n)).privs
      (w.privs.length + 1)).isSome = true := by
    show (heap_get (w.privs ++ [_]) (w.privs.length + 1)).isSome = true
    rw [heap_get_append, if_pos rfl]
    rfl
  obtain ⟨h1, h2, _⟩ := inv_attach env hok _ (w.privs.length + 1) A pa ha.1 hlive hpa habs
  refine ⟨?_, h2⟩
  unfold end_create_priv set_glsl_priv
  dsimp only
  have h1b : set_priv_user_data env
      { w with privs := w.privs ++ [some (new_glsl_priv env (w.privs.length + 1) n)] } A
      (w.privs.length + 1) = _ := h1
  rw [h1b]

theorem share_spec (env : Env) (hok : env.ok) (w : World) (p e : Nat) (pl : CoglPipeline)
    (pv : CoglPipelineProgendPrivate) (h : Inv env w) (hg : heap_get w.privs e = some pv)
    (hp : heap_get w.pipelines p = some pl) (habs : priv_of env pl = 0) :
    end_share_priv env w p e =
      some ((w.put_priv (some pv.incremented) e).put_pipeline (some (attached env pl e)) p) ∧
    Inv env ((w.put_priv (some pv.incremented) e).put_pipeline (some (attached env pl e)) p) ∧
    pv.incremented.ref_count = pv.ref_count + 1 := by
  obtain ⟨hi, hrc⟩ := inv_inc env w e pv h hg
  have hb := heap_get_some_bound _ _ _ hg
  have hlive : (heap_get (w.put_priv (some pv.incremented) e).privs e).isSome = true := by
    show (heap_get (heap_set w.privs _ e) e).isSome = true
    rw [heap_get_set_same _ _ _ hb.1 hb.2]
    rfl
  obtain ⟨h1, h2, _⟩ := inv_attach env hok _ e p pl hi hlive hp habs
  refine ⟨?_, h2, hrc⟩
  unfold end_share_priv set_glsl_priv
  rw [hg]
  exact h1

theorem find_present (env : Env) (w : World) (p : Nat) (pl : CoglPipeline)
    (h : priv_of env pl ≠ 0) : end_find_priv env w p pl = some (w, priv_of env pl) := by
  have h2 : cogl_object_get_user_data env.N pl._parent env.glsl_priv_key ≠ 0 := h
  unfold end_find_priv
  dsimp only
  rw [if_neg h2]
  rfl

theorem find_self (env : Env) (hok : env.ok) (w : World) (p : Nat) (pl : CoglPipeline)
    (h : Inv env w) (hp : heap_get w.pipelines p = some pl) (habs : priv_of env pl = 0)
    (hA : env.find_equivalent_parent w.pipelines p = p) :
    end_find_priv env w p pl =
      some (created_world env w p pl pl.layers.length, w.privs.length + 1) ∧
    Inv env (created_world env w p pl pl.layers.length) := by
  obtain ⟨h1, h2⟩ := create_spec env hok w p pl.layers.length pl h hp habs
  have habs2 : cogl_object_get_user_data env.N pl._parent env.glsl_priv_key = 0 := habs
  refine ⟨?_, h2⟩
  unfold end_find_priv
  dsimp only
  rw [if_pos habs2, hA, get_glsl_priv_live env w p pl hp, habs]
  dsimp only
  rw [if_pos rfl, h1]
  dsimp only
  rw [if_neg (by simp)]
  rfl

theorem find_create_share (env : Env) (hok : env.ok) (w : World) (p : Nat)
    (pl pa : CoglPipeline) (h : Inv env w) (hp : heap_get w.pipelines p = some pl)
    (habs : priv_of env pl = 0)
    (hA : env.find_equivalent_parent w.pipelines p ≠ p)
    (hpa : heap_get w.pipelines (env.find_equivalent_parent w.pipelines p) = some pa)
    (haabs : priv_of env pa = 0) :
    end_find_priv env w p pl =
      some (shared_world env
          (created_world env w (env.find_equivalent_parent w.pipelines p) pa pl.layers.length)
          p pl (w.privs.length + 1) (new_glsl_priv env (w.privs.length + 1) pl.layers.length),
        w.privs.length + 1) ∧
    Inv env (shared_world env
          (created_world env w (env.find_equivalent_parent w.pipelines p) pa pl.layers.length)
          p pl (w.privs.length + 1)
          (new_glsl_priv env (w.privs.length + 1) pl.layers.length)) ∧
    (new_glsl_priv env (w.privs.length + 1) pl.layers.length).incremented.ref_count = 2 := by
  obtain ⟨h1, h2⟩ := create_spec env hok w _ pl.layers.length pa h hpa haabs
  have hg2 : heap_get (created_world env w (env.find_equivalent_parent w.pipelines p) pa
      pl.layers.length).privs (w.privs.length + 1) =
      some (new_glsl_priv env (w.privs.length + 1) pl.layers.length) := by
    show heap_get (w.privs ++ [_]) (w.privs.length + 1) = _
    rw [heap_get_append, if_pos rfl]
  have hp2 : heap_get (created_world env w (env.find_equivalent_parent w.pipelines p) pa
      pl.layers.length).pipelines p = some pl := by
    show heap_get (heap_set w.pipelines _ _) p = _
    rw [heap_get_set_ne _ _ _ _ (fun hc => hA hc.symm)]
    exact hp
  obtain ⟨h3, h4, h5⟩ := share_spec env hok _ p (w.privs.length + 1) pl _ h2 hg2 hp2 habs
  have habs2 : cogl_object_get_user_data env.N pl._parent env.glsl_priv_key = 0 := habs
  refine ⟨?_, h4, ?_⟩
  · unfold end_find_priv
    dsimp only
    rw [if_pos habs2, get_glsl_priv_live env w _ pa hpa, haabs]
    dsimp only
    rw [if_pos rfl, h1]
    dsimp only
    rw [if_pos hA]
    have h3b : end_share_priv env (created_world env w
        (env.find_equivalent_parent w.pipelines p) pa pl.layers.length) p
        (w.privs.length + 1) = _ := h3
    unfold created_world at h3b
    rw [h3b]
    rfl
  · rw [h5, (new_glsl_priv_fields env _ _).1]

theorem find_share (env : Env) (hok : env.ok) (w : World) (p : Nat)
    (pl pa : CoglPipeline) (pv : CoglPipelineProgendPrivate)
    (h : Inv env w) (hp : heap_get w.pipelines p = some pl)
    (habs : priv_of env pl = 0)
    (hpa : heap_get w.pipelines (env.find_equivalent_parent w.pipelines p) = some pa)
    (haabs : priv_of env pa ≠ 0) (hg : heap_get w.privs (priv_of env pa) = some pv) :
    env.find_equivalent_parent w.pipelines p ≠ p ∧
    end_find_priv env w p pl =
      some (shared_world env w p pl (priv_of env pa) pv, priv_of env pa) ∧
    Inv env (shared_world env w p pl (priv_of env pa) pv) ∧
    pv.incremented.ref_count = pv.ref_count + 1 := by
  have hA : env.find_equivalent_parent w.pipelines p ≠ p := by
    intro hc
    rw [hc, hp] at hpa
    simp only [Option.some.injEq] at hpa
    rw [hpa] at habs
    exact haabs habs
  obtain ⟨h3, h4, h5⟩ := share_spec env hok w p _ pl pv h hg hp habs
  have habs2 : cogl_object_get_user_data env.N pl._parent env.glsl_priv_key = 0 := habs
  refine ⟨hA, ?_, h4, h5⟩
  unfold end_find_priv
  dsimp only
  rw [if_pos habs2, get_glsl_priv_live env w _ pa hpa]
  dsimp only
  rw [if_neg haabs]
  dsimp only
  rw [if_pos hA, h3]
  rfl

/-! ## Linking and uniforms leave the pipelines and the reference counts alone -/

theorem frame_refl (w : World) : Frame w w := ⟨rfl, rfl, rfl⟩

theorem frame_trans {w w2 w3 : World} (h1 : Frame w w2) (h2 : Frame w2 w3) : Frame w w3 :=
  ⟨h2.1.trans h1.1, h2.2.1.trans h1.2.1, h2.2.2.trans h1.2.2⟩

theorem frame_call (w : World) (c : Call) : Frame w (w.call c) := ⟨rfl, rfl, rfl⟩

theorem frame_call_if (w : World) (c : Call) (P : Prop) [Decidable P] :
    Frame w (if P then w.call c else w) := by
  by_cases h : P
  · rw [if_pos h]; exact frame_call w c
  · rw [if_neg h]; exact frame_refl w

theorem frame_uniform_location (env : Env) (w : World) (g : Nat) (name : UniformName) :
    Frame w (gl_get_uniform_location env w g name).2 := ⟨rfl, rfl, rfl⟩

theorem frame_link_program (env : Env) (w : World) (g : Nat) :
    Frame w (link_program env w g) := by
  unfold link_program
  dsimp only
  split
  · exact ⟨rfl, rfl, rfl⟩
  · exact ⟨rfl, rfl, rfl⟩

theorem frame_check_relink (w : World) (up : Nat) (n : Int)
    (pv pv1 : CoglPipelineProgendPrivate) (w1 : World)
    (h : end_check_relink w up n pv = some (w1, pv1)) :
    Frame w w1 ∧ pv1.ref_count = pv.ref_count := by
  unfold end_check_relink at h
  split at h
  · split at h
    · cases h
    · split at h
      · simp only [Option.some.injEq, Prod.mk.injEq] at h
        obtain ⟨h1, h2⟩ := h
        subst h1; subst h2
        exact ⟨frame_call _ _, rfl⟩
      · simp only [Option.some.injEq, Prod.mk.injEq] at h
        obtain ⟨h1, h2⟩ := h
        subst h1; subst h2
        exact ⟨frame_refl _, rfl⟩
  · simp only [Option.some.injEq, Prod.mk.injEq] at h
    obtain ⟨h1, h2⟩ := h
    subst h1; subst h2
    exact ⟨frame_refl _, rfl⟩

theorem frame_get_uniform_cb (env : Env) (g : Nat) (w w2 : World)
    (pv pv2 : CoglPipelineProgendPrivate) (unit : Nat)
    (h : get_uniform_cb env g w pv unit = some (w2, pv2)) :
    Frame w w2 ∧ pv2.ref_count = pv.ref_count := by
  unfold get_uniform_cb at h
  dsimp only at h
  split at h
  · cases h
  · split at h
    · simp only [Option.some.injEq, Prod.mk.injEq] at h
      obtain ⟨h1, h2⟩ := h
      subst h1; subst h2
      refine ⟨?_, rfl⟩
      split <;> exact ⟨rfl, rfl, rfl⟩
    · simp only [Option.some.injEq, Prod.mk.injEq] at h
      obtain ⟨h1, h2⟩ := h
      subst h1; subst h2
      refine ⟨?_, rfl⟩
      split <;> exact ⟨rfl, rfl, rfl⟩

theorem frame_update_constants_cb (env : Env) (p : Nat) (ua : Bool) (w w2 : World)
    (pv pv2 : CoglPipelineProgendPrivate) (unit li : Nat)
    (h : update_constants_cb env p ua w pv unit li = some (w2, pv2)) :
    Frame w w2 ∧ pv2.ref_count = pv.ref_count := by
  unfold update_constants_cb at h
  split at h
  · cases h
  · dsimp only at h
    simp only [Option.some.injEq, Prod.mk.injEq] at h
    obtain ⟨h1, h2⟩ := h
    subst h1; subst h2
    refine ⟨?_, rfl⟩
    split <;> split <;> exact ⟨rfl, rfl, rfl⟩

theorem frame_foreach_get_uniform (env : Env) (g : Nat) (layers : List Nat) :
    ∀ (unit : Nat) (w w2 : World) (pv pv2 : CoglPipelineProgendPrivate),
      foreach_get_uniform env g layers unit w pv = some (w2, pv2) →
      Frame w w2 ∧ pv2.ref_count = pv.ref_count := by
  induction layers with
  | nil =>
    intro unit w w2 pv pv2 h
    simp only [foreach_get_uniform, Option.some.injEq, Prod.mk.injEq] at h
    obtain ⟨h1, h2⟩ := h
    subst h1; subst h2
    exact ⟨frame_refl _, rfl⟩
  | cons l rest ih =>
    intro unit w w2 pv pv2 h
    rw [foreach_get_uniform] at h
    cases hc : get_uniform_cb env g w pv unit with
    | none => rw [hc] at h; cases h
    | some r =>
      rw [hc] at h
      obtain ⟨f1, r1⟩ := frame_get_uniform_cb env g w r.1 pv r.2 unit hc
      obtain ⟨f2, r2⟩ := ih _ _ _ _ _ h
      exact ⟨frame_trans f1 f2, r2.trans r1⟩

theorem frame_foreach_update_constants (env : Env) (p : Nat) (ua : Bool) (layers : List Nat) :
    ∀ (unit : Nat) (w w2 : World) (pv pv2 : CoglPipelineProgendPrivate),
      foreach_update_constants env p ua layers unit w pv = some (w2, pv2) →
      Frame w w2 ∧ pv2.ref_count = pv.ref_count := by
  induction layers with
  | nil =>
    intro unit w w2 pv pv2 h
    simp only [foreach_update_constants, Option.some.injEq, Prod.mk.injEq] at h
    obtain ⟨h1, h2⟩ := h
    subst h1; subst h2
    exact ⟨frame_refl _, rfl⟩
  | cons l rest ih =>
    intro unit w w2 pv pv2 h
    rw [foreach_update_constants] at h
    cases hc : update_constants_cb env p ua w pv unit l with
    | none => rw [hc] at h; cases h
    | some r =>
      rw [hc] at h
      obtain ⟨f1, r1⟩ := frame_update_constants_cb env p ua w r.1 pv r.2 unit l hc
      obtain ⟨f2, r2⟩ := ih _ _ _ _ _ h
      exact ⟨frame_trans f1 f2, r2.trans r1⟩

theorem frame_attach_user_shaders (env : Env) (g : Nat) (n : Int) (shaders : List Nat) :
    ∀ (w w2 : World), attach_user_shaders env g n shaders w = some w2 → Frame w w2 := by
  induction shaders with
  | nil =>
    intro w w2 h
    simp only [attach_user_shaders, Option.some.injEq] at h
    subst h
    exact frame_refl _
  | cons sh rest ih =>
    intro w w2 h
    rw [attach_user_shaders] at h
    split at h
    · cases h
    · dsimp only at h
      split at h
      · cases h
      · have f2 := ih _ _ h
        exact frame_trans ⟨rfl, rfl, rfl⟩ f2

theorem frame_update_builtin_uniforms (p : Nat) (w : World) (pv : CoglPipelineProgendPrivate) :
    Frame w (update_builtin_uniforms p w pv).1 ∧
    (update_builtin_uniforms p w pv).2.ref_count = pv.ref_count := by
  unfold update_builtin_uniforms
  split
  · exact ⟨frame_refl _, rfl⟩
  · dsimp only
    refine ⟨?_, rfl⟩
    split <;> split <;> exact ⟨rfl, rfl, rfl⟩

theorem frame_gles2_locations (env : Env) (w : World) (g : Nat)
    (pv : CoglPipelineProgendPrivate) :
    Frame w (end_gles2_locations env w g pv).1 ∧
    (end_gles2_locations env w g pv).2.ref_count = pv.ref_count :=
  ⟨⟨rfl, rfl, rfl⟩, rfl⟩

theorem frame_end_link (env : Env) (w w2 : World) (p : Nat) (pl : CoglPipeline) (n : Int)
    (pv pv2 : CoglPipelineProgendPrivate) (b : Bool)
    (h : end_link env w p pl n pv = some (w2, pv2, b)) :
    Frame w w2 ∧ pv2.ref_count = pv.ref_count := by
  unfold end_link at h
  split at h
  · dsimp only at h
    split at h
    · cases h
    · rename_i w3 pv3 n3 hu
      simp only [Option.some.injEq, Prod.mk.injEq] at h
      obtain ⟨h1, h2, _⟩ := h
      have hu2 : Frame w w3 ∧ pv3.ref_count = pv.ref_count := by
        split at hu
        · split at hu
          · cases hu
          · split at hu
            · cases hu
            · split at hu
              · cases hu
              · rename_i w5 ha
                simp only [Option.some.injEq, Prod.mk.injEq] at hu
                obtain ⟨u1, u2, _⟩ := hu
                have f := frame_attach_user_shaders env _ _ _ _ _ ha
                rw [← u1, ← u2]
                exact ⟨frame_trans (frame_call _ _) f, rfl⟩
        · simp only [Option.some.injEq, Prod.mk.injEq] at hu
          obtain ⟨u1, u2, _⟩ := hu
          rw [← u1, ← u2]
          exact ⟨frame_call _ _, rfl⟩
      rw [← h1, ← h2]
      refine ⟨?_, hu2.2⟩
      refine frame_trans hu2.1 (frame_trans ?_ (frame_link_program env _ _))
      exact frame_trans (frame_call_if _ _ _) (frame_call_if _ _ _)
  · simp only [Option.some.injEq, Prod.mk.injEq] at h
    obtain ⟨h1, h2, _⟩ := h
    rw [← h1, ← h2]
    exact ⟨frame_refl _, rfl⟩

theorem frame_end_gles2 (env : Env) (w : World) (p g : Nat) (changed : Bool)
    (pv : CoglPipelineProgendPrivate) :
    Frame w (end_gles2 env w p g changed pv).1 ∧
    (end_gles2 env w p g changed pv).2.ref_count = pv.ref_count := by
  cases changed with
  | true =>
    have h : end_gles2 env w p g true pv =
        update_builtin_uniforms p (end_gles2_locations env w g pv).1
          { (end_gles2_locations env w g pv).2 with dirty_builtin_uniforms := env.ulong_max } := by
      unfold end_gles2
      simp
    rw [h]
    obtain ⟨f, r⟩ := frame_update_builtin_uniforms p (end_gles2_locations env w g pv).1
      { (end_gles2_locations env w g pv).2 with dirty_builtin_uniforms := env.ulong_max }
    exact ⟨frame_trans (frame_gles2_locations env w g pv).1 f, r⟩
  | false =>
    by_cases hl : pv.last_used_for_pipeline ≠ p
    · have h : end_gles2 env w p g false pv =
          update_builtin_uniforms p w { pv with dirty_builtin_uniforms := env.ulong_max } := by
        unfold end_gles2
        simp [hl]
      rw [h]
      exact frame_update_builtin_uniforms p w _
    · have h : end_gles2 env w p g false pv = update_builtin_uniforms p w pv := by
        unfold end_gles2
        simp [hl]
      rw [h]
      exact frame_update_builtin_uniforms p w _

theorem frame_end_with_priv (env : Env) (w w2 : World) (p : Nat) (pl : CoglPipeline) (n : Int)
    (pv pv2 : CoglPipelineProgendPrivate)
    (h : end_with_priv env w p pl n pv = some (w2, pv2)) :
    Frame w w2 ∧ pv2.ref_count = pv.ref_count := by
  unfold end_with_priv at h
  split at h
  · cases h
  · rename_i w1 pv1 h1
    obtain ⟨f1, r1⟩ := frame_check_relink _ _ _ _ _ _ h1
    split at h
    · cases h
    · rename_i wl pvl changed hl
      obtain ⟨f2, r2⟩ := frame_end_link _ _ _ _ _ _ _ _ _ hl
      dsimp only at h
      split at h
      · cases h
      · rename_i w5 pv3 hg
        have hg2 : Frame wl w5 ∧ pv3.ref_count = pvl.ref_count := by
          split at hg
          · obtain ⟨f, r⟩ := frame_foreach_get_uniform _ _ _ _ _ _ _ _ hg
            exact ⟨frame_trans (frame_trans (frame_call_if _ _ _) (frame_call_if _ _ _)) f, r⟩
          · simp only [Option.some.injEq, Prod.mk.injEq] at hg
            obtain ⟨u1, u2⟩ := hg
            rw [← u1, ← u2]
            exact ⟨frame_trans (frame_call_if _ _ _) (frame_call_if _ _ _), rfl⟩
        split at h
        · cases h
        · rename_i w6 pv4 hc
          obtain ⟨f4, r4⟩ := frame_foreach_update_constants _ _ _ _ _ _ _ _ _ hc
          simp only [Option.some.injEq, Prod.mk.injEq] at h
          obtain ⟨e1, e2⟩ := h
          have hgl : Frame w6 (if env.gles2 = true then
                end_gles2 env w6 p pvl.program changed pv4 else (w6, pv4)).1 ∧
              (if env.gles2 = true then
                end_gles2 env w6 p pvl.program changed pv4 else (w6, pv4)).2.ref_count =
                pv4.ref_count := by
            split
            · exact frame_end_gles2 _ _ _ _ _ _
            · exact ⟨frame_refl _, rfl⟩
          obtain ⟨f5, r5⟩ := hgl
          rw [← e1, ← e2]
          refine ⟨?_, ?_⟩
          · refine frame_trans f1 (frame_trans f2 (frame_trans hg2.1 (frame_trans f4
              (frame_trans f5 (frame_call_if _ _ _)))))
          · show _ = pv.ref_count
            rw [← r1, ← r2, ← hg2.2, ← r4, ← r5]

/-! ## `_cogl_pipeline_progend_glsl_end` keeps the invariant -/

theorem find_dangling (env : Env) (w : World) (p : Nat) (pl : CoglPipeline)
    (habs : priv_of env pl = 0)
    (hpa : heap_get w.pipelines (env.find_equivalent_parent w.pipelines p) = none) :
    end_find_priv env w p pl = none := by
  have habs2 : cogl_object_get_user_data env.N pl._parent env.glsl_priv_key = 0 := habs
  have hg : get_glsl_priv env w (env.find_equivalent_parent w.pipelines p) = none := by
    unfold get_glsl_priv
    rw [hpa]
  unfold end_find_priv
  dsimp only
  rw [if_pos habs2, hg]

theorem created_world_priv (env : Env) (w : World) (A : Nat) (pa : CoglPipeline) (n : Nat) :
    heap_get (created_world env w A pa n).privs (w.privs.length + 1) =
      some (new_glsl_priv env (w.privs.length + 1) n) := by
  show heap_get (w.privs ++ [_]) (w.privs.length + 1) = _
  rw [heap_get_append, if_pos rfl]

theorem shared_world_priv (env : Env) (w : World) (p : Nat) (pl : CoglPipeline) (e : Nat)
    (pv pv0 : CoglPipelineProgendPrivate) (hg : heap_get w.privs e = some pv0) :
    heap_get (shared_world env w p pl e pv).privs e = some pv.incremented := by
  have hb := heap_get_some_bound _ _ _ hg
  show heap_get (heap_set w.privs _ e) e = _
  rw [heap_get_set_same _ _ _ hb.1 hb.2]

/-- The outcomes of lines 523 to 566 in a world that satisfies the invariant. -/
theorem find_priv_cases (env : Env) (hok : env.ok) (w : World) (p : Nat) (pl : CoglPipeline)
    (h : Inv env w) (hp : heap_get w.pipelines p = some pl) :
    (priv_of env pl ≠ 0 ∧ end_find_priv env w p pl = some (w, priv_of env pl)) ∨
    (priv_of env pl = 0 ∧
      heap_get w.pipelines (env.find_equivalent_parent w.pipelines p) = none ∧
      end_find_priv env w p pl = none) ∨
    (priv_of env pl = 0 ∧ env.find_equivalent_parent w.pipelines p = p ∧
      end_find_priv env w p pl =
        some (created_world env w p pl pl.layers.length, w.privs.length + 1) ∧
      Inv env (created_world env w p pl pl.layers.length)) ∨
    (priv_of env pl = 0 ∧ env.find_equivalent_parent w.pipelines p ≠ p ∧
      ∃ pa, heap_get w.pipelines (env.find_equivalent_parent w.pipelines p) = some pa ∧
        priv_of env pa = 0 ∧
        end_find_priv env w p pl =
          some (shared_world env
            (created_world env w (env.find_equivalent_parent w.pipelines p) pa pl.layers.length)
            p pl (w.privs.length + 1)
            (new_glsl_priv env (w.privs.length + 1) pl.layers.length),
            w.privs.length + 1) ∧
        Inv env (shared_world env
            (created_world env w (env.find_equivalent_parent w.pipelines p) pa pl.layers.length)
            p pl (w.privs.length + 1)
            (new_glsl_priv env (w.privs.length + 1) pl.layers.length))) ∨
    (priv_of env pl = 0 ∧ env.find_equivalent_parent w.pipelines p ≠ p ∧
      ∃ pa pv, heap_get w.pipelines (env.find_equivalent_parent w.pipelines p) = some pa ∧
        priv_of env pa ≠ 0 ∧ heap_get w.privs (priv_of env pa) = some pv ∧
        end_find_priv env w p pl =
          some (shared_world env w p pl (priv_of env pa) pv, priv_of env pa) ∧
        Inv env (shared_world env w p pl (priv_of env pa) pv)) := by
  by_cases habs : priv_of env pl = 0
  · right
    cases hpa : heap_get w.pipelines (env.find_equivalent_parent w.pipelines p) with
    | none => left; exact ⟨habs, rfl, find_dangling env w p pl habs hpa⟩
    | some pa =>
      right
      by_cases hA : env.find_equivalent_parent w.pipelines p = p
      · left
        obtain ⟨h1, h2⟩ := find_self env hok w p pl h hp habs hA
        exact ⟨habs, hA, h1, h2⟩
      · right
        by_cases haabs : priv_of env pa = 0
        · left
          obtain ⟨h1, h2, _⟩ := find_create_share env hok w p pl pa h hp habs hA hpa haabs
          exact ⟨habs, hA, pa, rfl, haabs, h1, h2⟩
        · right
          have hlive := ((inv_iff env w).mp h).1 _ (heap_get_mem _ _ _ hpa)
          have hl2 := hlive.2 haabs
          cases hg : heap_get w.privs (priv_of env pa) with
          | none => rw [hg] at hl2; cases hl2
          | some pv =>
            obtain ⟨_, h1, h2, _⟩ := find_share env hok w p pl pa pv h hp habs hpa haabs hg
            exact ⟨habs, hA, pa, pv, rfl, haabs, hg, h1, h2⟩
  · left
    exact ⟨habs, find_present env w p pl habs⟩

theorem find_priv_inv (env : Env) (hok : env.ok) (w w1 : World) (p e : Nat)
    (pl : CoglPipeline) (h : Inv env w) (hp : heap_get w.pipelines p = some pl)
    (hf : end_find_priv env w p pl = some (w1, e)) :
    Inv env w1 ∧ (heap_get w1.privs e).isSome = true := by
  rcases find_priv_cases env hok w p pl h hp with
    ⟨h0, h1⟩ | ⟨_, _, h1⟩ | ⟨_, _, h1, h2⟩ | ⟨_, _, pa, hpa, _, h1, h2⟩ |
    ⟨_, _, pa, pv, hpa, _, hg, h1, h2⟩
  · rw [h1] at hf
    simp only [Option.some.injEq, Prod.mk.injEq] at hf
    obtain ⟨e1, e2⟩ := hf
    subst e1; subst e2
    exact ⟨h, (((inv_iff env w).mp h).1 _ (heap_get_mem _ _ _ hp)).2 h0⟩
  · rw [h1] at hf; cases hf
  · rw [h1] at hf
    simp only [Option.some.injEq, Prod.mk.injEq] at hf
    obtain ⟨e1, e2⟩ := hf
    subst e1; subst e2
    exact ⟨h2, isSome_of_eq _ _ (created_world_priv env w p pl _)⟩
  · rw [h1] at hf
    simp only [Option.some.injEq, Prod.mk.injEq] at hf
    obtain ⟨e1, e2⟩ := hf
    subst e1; subst e2
    exact ⟨h2, isSome_of_eq _ _ (shared_world_priv env _ p pl _ _ _
      (created_world_priv env w _ pa _))⟩
  · rw [h1] at hf
    simp only [Option.some.injEq, Prod.mk.injEq] at hf
    obtain ⟨e1, e2⟩ := hf
    subst e1; subst e2
    exact ⟨h2, isSome_of_eq _ _ (shared_world_priv env w p pl _ pv pv hg)⟩

/-- What `_cogl_pipeline_progend_glsl_end` returns, in terms of its two halves. -/
theorem end_unfold (env : Env) (hctx : env.have_context = true) (w w2 : World) (p d : Nat)
    (n : Int) (hs : _cogl_pipeline_progend_glsl_end env w p d n = some w2) :
    ∃ pl, heap_get w.pipelines p = some pl ∧
      ((pl.fragend ≠ env.FRAGEND_GLSL ∧ pl.vertend ≠ env.VERTEND_GLSL ∧ w2 = w) ∨
       (¬ (pl.fragend ≠ env.FRAGEND_GLSL ∧ pl.vertend ≠ env.VERTEND_GLSL) ∧
        ∃ w1 e pv w3 pv2, end_find_priv env w p pl = some (w1, e) ∧
          heap_get w1.privs e = some pv ∧
          end_with_priv env w1 p pl n pv = some (w3, pv2) ∧
          w2 = w3.put_priv (some pv2) e)) := by
  unfold _cogl_pipeline_progend_glsl_end at hs
  rw [if_neg (by rw [hctx]; exact Bool.noConfusion)] at hs
  split at hs
  · cases hs
  · rename_i pl hp
    refine ⟨pl, hp, ?_⟩
    split at hs
    · rename_i hguard
      left
      simp only [Option.some.injEq] at hs
      exact ⟨hguard.1, hguard.2, hs.symm⟩
    · rename_i hguard
      right
      refine ⟨hguard, ?_⟩
      split at hs
      · cases hs
      · rename_i w1 e hf
        split at hs
        · cases hs
        · rename_i pv hpv
          split at hs
          · cases hs
          · rename_i w3 pv2 ht
            simp only [Option.some.injEq] at hs
            exact ⟨w1, e, pv, w3, pv2, hf, hpv, ht, hs.symm⟩

theorem end_inv (env : Env) (hok : env.ok) (w w2 : World) (p d : Nat) (n : Int)
    (h : Inv env w) (hs : _cogl_pipeline_progend_glsl_end env w p d n = some w2) :
    Inv env w2 := by
  obtain ⟨pl, hp, hcase⟩ := end_unfold env hok.1 w w2 p d n hs
  rcases hcase with ⟨_, _, e1⟩ | ⟨_, w1, e, pv, w3, pv2, hf, hpv, ht, e1⟩
  · rw [e1]; exact h
  · obtain ⟨hi1, _⟩ := find_priv_inv env hok w w1 p e pl h hp hf
    obtain ⟨fr, rc⟩ := frame_end_with_priv env w1 w3 p pl n pv pv2 ht
    have hi3 : Inv env w3 :=
      invOff_of_rc env w1 w3 0 0 fr.1 (by intro e2; rw [fr.2.1]) hi1
    rw [e1]
    exact invOff_put_priv env w3 0 0 e pv pv2 (by rw [fr.2.1]; exact hpv) rc hi3

/-! ## The other operations keep the invariant -/

theorem inv_neutral (env : Env) (w : World) (p : Nat) (pl pl2 : CoglPipeline)
    (h : Inv env w) (hp : heap_get w.pipelines p = some pl)
    (hd : pl2._parent.Disciplined env.N env.glsl_priv_key env.destroy_glsl_priv)
    (hpriv : priv_of env pl2 = priv_of env pl) :
    Inv env (w.put_pipeline (some pl2) p) := by
  rw [inv_iff] at h ⊢
  obtain ⟨h1, h2, h3⟩ := h
  have hplOK := h1 _ (heap_get_mem _ _ _ hp)
  refine ⟨?_, ?_, ?_⟩
  · intro o ho
    rcases mem_heap_set _ _ _ _ ho with ho | ho
    · exact pipelineOK_mono env w _ o (h1 o ho) (fun e he => he)
    · subst ho
      refine ⟨hd, ?_⟩
      intro hne
      rw [hpriv] at hne ⊢
      exact hplOK.2 hne
  · intro e
    apply refOK_of
    intro pv hg
    have hg2 : heap_get w.privs e = some pv := hg
    have hr := refOK_live env w _ e pv (h2 e) hg2
    have hs := sharers_heap_set env w p pl (some pl2) hp e (w.put_pipeline (some pl2) p) rfl
    simp only [is_sharer, hpriv, decide_eq_true_eq] at hs
    omega
  · show (heap_set w.pipelines _ p).length < 4294967295
    rw [heap_set_length]
    exact h3

theorem disciplined_ref_count (N K F : Nat) (obj : CoglObject) (r : Nat)
    (h : obj.Disciplined N K F) :
    ({ obj with ref_count := r } : CoglObject).Disciplined N K F := h

theorem get_ref_count (N K : Nat) (obj : CoglObject) (r : Nat) :
    cogl_object_get_user_data N ({ obj with ref_count := r } : CoglObject) K =
      cogl_object_get_user_data N obj K := rfl

theorem detached_attached (env : Env) (hok : env.ok) (pl : CoglPipeline)
    (hd : pl._parent.Disciplined env.N env.glsl_priv_key env.destroy_glsl_priv) :
    Detached env (some (attached env pl 0)) := by
  obtain ⟨_, hK, hF⟩ := hok
  refine ⟨set_disciplined env.N _ _ _ 0 hK hF hd, ?_⟩
  unfold priv_of attached
  dsimp only
  rw [get_set env.N pl._parent env.glsl_priv_key 0 env.destroy_glsl_priv _ hK hd.1]
  simp

/-- What `dirty_glsl_program_state` does in a world that satisfies the invariant. -/
theorem dirty_spec (env : Env) (hok : env.ok) (w : World) (p : Nat) (pl : CoglPipeline)
    (h : Inv env w) (hp : heap_get w.pipelines p = some pl) :
    ∃ w1 : World, dirty_glsl_program_state env w p =
        some (w1.put_pipeline (some (attached env pl 0)) p) ∧
      w1.pipelines = w.pipelines ∧ w1.programs = w.programs ∧ w1.shaders = w.shaders ∧
      Inv env (w1.put_pipeline (some (attached env pl 0)) p) ∧
      priv_of env (attached env pl 0) = 0 ∧
      (priv_of env pl = 0 → w1.privs = w.privs) ∧
      (priv_of env pl ≠ 0 → ∃ pv, heap_get w.privs (priv_of env pl) = some pv ∧
        pv.ref_count = sharers env w (priv_of env pl) ∧ 1 ≤ pv.ref_count ∧
        w1.privs = heap_set w.privs (dropped pv) (priv_of env pl)) := by
  have hdis := (((inv_iff env w).mp h).1 _ (heap_get_mem _ _ _ hp)).1
  have hdet := detached_attached env hok pl hdis
  have hev := set_events env.N env.glsl_priv_key env.destroy_glsl_priv pl._parent 0
    env.destroy_glsl_priv hok.2.1 hok.2.2 hdis
  have htar : ev_targets env.destroy_glsl_priv
      (cogl_object_set_user_data env.N pl._parent env.glsl_priv_key 0
        env.destroy_glsl_priv).2 = if priv_of env pl = 0 then [] else [priv_of env pl] := by
    rw [hev]
    by_cases h0 : priv_of env pl = 0
    · have h02 : cogl_object_get_user_data env.N pl._parent env.glsl_priv_key = 0 := h0
      rw [if_pos h0, if_pos h02]
      rfl
    · have h02 : cogl_object_get_user_data env.N pl._parent env.glsl_priv_key ≠ 0 := h0
      rw [if_neg h0, if_neg h02]
      simp [ev_targets, priv_of]
  obtain ⟨w1, e1, e2, e3, e4, e5, e6, e7⟩ :=
    inv_release env hok w p pl (some (attached env pl 0)) _ h hp hdet htar
  refine ⟨w1, ?_, e2, e3, e4, e5, hdet.2, e6, e7⟩
  unfold dirty_glsl_program_state set_priv_user_data
  rw [hp]
  dsimp only
  rw [e1]
  rfl

/-- What the final `cogl_object_unref` of a pipeline does in a world that satisfies
the invariant. -/
theorem unref_spec (env : Env) (hok : env.ok) (w : World) (p : Nat) (pl : CoglPipeline)
    (h : Inv env w) (hp : heap_get w.pipelines p = some pl)
    (hrc : pl._parent.ref_count = 1) :
    ∃ w1 : World, pipeline_unref env w p = some (w1.put_pipeline none p) ∧
      w1.pipelines = w.pipelines ∧ w1.programs = w.programs ∧ w1.shaders = w.shaders ∧
      Inv env (w1.put_pipeline none p) ∧
      (priv_of env pl = 0 → w1.privs = w.privs) ∧
      (priv_of env pl ≠ 0 → ∃ pv, heap_get w.privs (priv_of env pl) = some pv ∧
        pv.ref_count = sharers env w (priv_of env pl) ∧ 1 ≤ pv.ref_count ∧
        w1.privs = heap_set w.privs (dropped pv) (priv_of env pl)) := by
  have hdis := (((inv_iff env w).mp h).1 _ (heap_get_mem _ _ _ hp)).1
  obtain ⟨hu1, hu2⟩ := unref_targets env.N env.glsl_priv_key env.destroy_glsl_priv
    pl._parent hok.2.1 hok.2.2 hdis hrc
  have htar : ev_targets env.destroy_glsl_priv (cogl_object_unref env.N pl._parent).2 =
      if priv_of env pl = 0 then [] else [priv_of env pl] := hu2
  obtain ⟨w1, e1, e2, e3, e4, e5, e6, e7⟩ :=
    inv_release env hok w p pl none _ h hp trivial htar
  refine ⟨w1, ?_, e2, e3, e4, e5, e6, e7⟩
  unfold pipeline_unref
  rw [hp]
  dsimp only
  rw [e1, hu1]
  rfl

theorem unref_inv (env : Env) (hok : env.ok) (w w2 : World) (p : Nat)
    (h : Inv env w) (hs : pipeline_unref env w p = some w2) : Inv env w2 := by
  cases hp : heap_get w.pipelines p with
  | none =>
    unfold pipeline_unref at hs
    rw [hp] at hs
    cases hs
  | some pl =>
    have hdis := (((inv_iff env w).mp h).1 _ (heap_get_mem _ _ _ hp)).1
    by_cases hrc : pl._parent.ref_count = 1
    · obtain ⟨w1, e1, _, _, _, e5, _⟩ := unref_spec env hok w p pl h hp hrc
      rw [e1] at hs
      simp only [Option.some.injEq] at hs
      rw [← hs]
      exact e5
    · by_cases h0 : pl._parent.ref_count = 0
      · have hun : cogl_object_unref env.N pl._parent = (some pl._parent, []) := by
          unfold cogl_object_unref
          rw [if_pos h0]
        unfold pipeline_unref at hs
        rw [hp] at hs
        dsimp only at hs
        rw [hun] at hs
        simp only [run_events, Option.map_some', Option.some.injEq] at hs
        rw [← hs]
        exact inv_neutral env w p pl _ h hp hdis rfl
      · have hun : cogl_object_unref env.N pl._parent =
            (some { pl._parent with ref_count := pl._parent.ref_count - 1 }, []) := by
          unfold cogl_object_unref
          rw [if_neg h0]
          dsimp only
          rw [if_neg (by omega)]
        unfold pipeline_unref at hs
        rw [hp] at hs
        dsimp only at hs
        rw [hun] at hs
        simp only [run_events, Option.map_some', Option.some.injEq] at hs
        rw [← hs]
        exact inv_neutral env w p pl _ h hp (disciplined_ref_count _ _ _ _ _ hdis) rfl

theorem dirty_inv (env : Env) (hok : env.ok) (w w2 : World) (p : Nat)
    (h : Inv env w) (hs : dirty_glsl_program_state env w p = some w2) : Inv env w2 := by
  cases hp : heap_get w.pipelines p with
  | none =>
    unfold dirty_glsl_program_state set_priv_user_data at hs
    rw [hp] at hs
    cases hs
  | some pl =>
    obtain ⟨w1, e1, _, _, _, e5, _⟩ := dirty_spec env hok w p pl h hp
    rw [e1] at hs
    simp only [Option.some.injEq] at hs
    rw [← hs]
    exact e5

theorem with_glsl_priv_inv (env : Env) (w w2 : World) (p : Nat)
    (update : CoglPipelineProgendPrivate → Option CoglPipelineProgendPrivate)
    (hup : ∀ pv pv2, update pv = some pv2 → pv2.ref_count = pv.ref_count)
    (h : Inv env w) (hs : with_glsl_priv env w p update = some w2) : Inv env w2 := by
  unfold with_glsl_priv at hs
  split at hs
  · cases hs
  · split at hs
    · simp only [Option.some.injEq] at hs
      rw [← hs]; exact h
    · split at hs
      · cases hs
      · rename_i pv hg
        split at hs
        · cases hs
        · rename_i pv2 hu
          simp only [Option.some.injEq] at hs
          rw [← hs]
          exact invOff_put_priv env w 0 0 _ pv pv2 hg (hup pv pv2 hu) h

theorem pre_change_inv (env : Env) (hok : env.ok) (w w2 : World) (p change : Nat)
    (h : Inv env w)
    (hs : _cogl_pipeline_progend_glsl_pre_change_notify env w p change = some w2) :
    Inv env w2 := by
  unfold _cogl_pipeline_progend_glsl_pre_change_notify at hs
  split at hs
  · exact dirty_inv env hok w w2 p h hs
  · split at hs
    · split at hs
      · refine with_glsl_priv_inv env w w2 p _ ?_ h hs
        intro pv pv2 hu
        simp only [Option.some.injEq] at hu
        rw [← hu]
      · split at hs
        · refine with_glsl_priv_inv env w w2 p _ ?_ h hs
          intro pv pv2 hu
          simp only [Option.some.injEq] at hu
          rw [← hu]
        · simp only [Option.some.injEq] at hs
          rw [← hs]; exact h
    · simp only [Option.some.injEq] at hs
      rw [← hs]; exact h

theorem mark_unit_rc (unit_index : Nat) (f : UnitState → UnitState)
    (pv pv2 : CoglPipelineProgendPrivate)
    (hu : (match pv.unit_state[unit_index]? with
      | none => none
      | some us => some { pv with unit_state := pv.unit_state.set unit_index (f us) }) =
        some pv2) :
    pv2.ref_count = pv.ref_count := by
  split at hu
  · cases hu
  · simp only [Option.some.injEq] at hu
    rw [← hu]

theorem layer_pre_change_inv (env : Env) (hok : env.ok) (w w2 : World)
    (p unit_index change : Nat) (h : Inv env w)
    (hs : _cogl_pipeline_progend_glsl_layer_pre_change_notify env w p unit_index change =
      some w2) :
    Inv env w2 := by
  unfold _cogl_pipeline_progend_glsl_layer_pre_change_notify at hs
  split at hs
  · exact dirty_inv env hok w w2 p h hs
  · dsimp only at hs
    split at hs
    · cases hs
    · rename_i w1 h1
      have hi1 : Inv env w1 := by
        split at h1
        · refine with_glsl_priv_inv env w w1 p _ ?_ h h1
          intro pv pv2 hu
          exact mark_unit_rc unit_index
            (fun us => { us with dirty_combine_constant := true }) pv pv2 hu
        · simp only [Option.some.injEq] at h1
          rw [← h1]; exact h
      split at hs
      · refine with_glsl_priv_inv env w1 w2 p _ ?_ hi1 hs
        intro pv pv2 hu
        exact mark_unit_rc unit_index
          (fun us => { us with dirty_texture_matrix := true }) pv pv2 hu
      · simp only [Option.some.injEq] at hs
        rw [← hs]; exact hi1

theorem inv_new_pipeline (env : Env) (w : World) (pl : CoglPipeline)
    (mem : List CoglUserDataEntry) (hmem : mem.length = env.N)
    (hobj : pl._parent = CoglObject.fresh 1 mem)
    (hroom : w.pipelines.length + 1 < 4294967295) (h : Inv env w) :
    Inv env { w with pipelines := w.pipelines ++ [some pl] } := by
  rw [inv_iff] at h ⊢
  obtain ⟨h1, h2, _⟩ := h
  have hpriv : priv_of env pl = 0 := by
    unfold priv_of
    rw [hobj, get_user_data_slots, fresh_slots]
    rfl
  refine ⟨?_, ?_, ?_⟩
  · intro o ho
    rcases List.mem_append.mp ho with ho | ho
    · exact pipelineOK_mono env w _ o (h1 o ho) (fun e he => he)
    · simp only [List.mem_singleton] at ho
      subst ho
      refine ⟨⟨?_, ?_⟩, fun hne => absurd hpriv hne⟩
      · rw [hobj]; exact fresh_good env.N 1 mem hmem
      · rw [hobj, fresh_slots]
        intro x hx
        cases hx
  · intro e
    apply refOK_of
    intro pv hg
    have hg2 : heap_get w.privs e = some pv := hg
    have hr := refOK_live env w _ e pv (h2 e) hg2
    have he0 : e ≠ 0 := (heap_get_some_bound _ _ _ hg2).1
    have : sharers env { w with pipelines := w.pipelines ++ [some pl] } e = sharers env w e := by
      unfold sharers
      show List.countP _ (w.pipelines ++ [some pl]) = _
      rw [List.countP_append]
      simp only [List.countP_cons, List.countP_nil, is_sharer, hpriv, decide_eq_true_eq]
      rw [if_neg (fun h0 => he0 h0.symm)]
      rfl
    rw [this]
    exact hr
  · show (w.pipelines ++ [some pl]).length < 4294967295
    simp only [List.length_append, List.length_singleton]
    exact hroom

theorem step_inv (env : Env) (hok : env.ok) (w w2 : World) (op : Op)
    (h : Inv env w) (hs : step env w op = some w2) : Inv env w2 := by
  cases op with
  | ensure p d n => exact end_inv env hok w w2 p d n h hs
  | pre_change p c => exact pre_change_inv env hok w w2 p c h hs
  | layer_pre_change p u c => exact layer_pre_change_inv env hok w w2 p u c h hs
  | unref p => exact unref_inv env hok w w2 p h hs
  | ref p =>
    simp only [step] at hs
    split at hs
    · cases hs
    · rename_i pl hp
      have hdis := (((inv_iff env w).mp h).1 _ (heap_get_mem _ _ _ hp)).1
      simp only [Option.some.injEq] at hs
      rw [← hs]
      exact inv_neutral env w p pl _ h hp (disciplined_ref_count _ _ _ _ _ hdis) rfl
  | edit p f v u l pa di =>
    simp only [step] at hs
    split at hs
    · cases hs
    · rename_i pl hp
      have hdis := (((inv_iff env w).mp h).1 _ (heap_get_mem _ _ _ hp)).1
      simp only [Option.some.injEq] at hs
      rw [← hs]
      exact inv_neutral env w p pl _ h hp hdis rfl
  | new_pipeline mem f v u l pa di =>
    simp only [step] at hs
    split at hs
    · rename_i hg
      simp only [Option.some.injEq] at hs
      rw [← hs]
      exact inv_new_pipeline env w _ mem hg.1 rfl hg.2 h
    · cases hs
  | set_program ptr pr =>
    simp only [step, Option.some.injEq] at hs
    rw [← hs]
    exact invOff_of_rc env w _ 0 0 rfl (fun _ => rfl) h
  | set_shader ptr sh =>
    simp only [step, Option.some.injEq] at hs
    rw [← hs]
    exact invOff_of_rc env w _ 0 0 rfl (fun _ => rfl) h

theorem run_ops_inv (env : Env) (hok : env.ok) (ops : List Op) :
    ∀ (w w2 : World), Inv env w → run_ops env w ops = some w2 → Inv env w2 := by
  induction ops with
  | nil =>
    intro w w2 h hs
    simp only [run_ops, Option.some.injEq] at hs
    rw [← hs]; exact h
  | cons op rest ih =>
    intro w w2 h hs
    rw [run_ops] at hs
    split at hs
    · cases hs
    · rename_i w1 h1
      exact ih w1 w2 (step_inv env hok w w1 op h h1) hs

theorem init_inv (env : Env) (w : World) (h : InitOK env w) : Inv env w := by
  obtain ⟨h1, h2, h3⟩ := h
  have hget : ∀ pl, some pl ∈ w.pipelines → priv_of env pl = 0 := by
    intro pl hpl
    have := h3 _ hpl
    unfold priv_of
    rw [get_user_data_slots]
    rw [(get_loop_none _ _).mpr (fun x hx => (this.2 x hx).1)]
    rfl
  rw [inv_iff]
  refine ⟨?_, ?_, h2⟩
  · intro o ho
    cases o with
    | none => trivial
    | some pl =>
      have := h3 _ ho
      refine ⟨⟨this.1, ?_⟩, fun hne => absurd (hget pl ho) hne⟩
      intro x hx
      exact ⟨fun hk => absurd hk (this.2 x hx).1, fun _ => (this.2 x hx).2⟩
  · intro e
    apply refOK_of
    intro pv hg
    rw [h1] at hg
    cases e <;> simp [heap_get] at hg

/-! ## The cache entry found for a pipeline that has none -/

theorem priv_of_attached (env : Env) (hok : env.ok) (pl : CoglPipeline) (x : Nat)
    (hd : pl._parent.Disciplined env.N env.glsl_priv_key env.destroy_glsl_priv) :
    priv_of env (attached env pl x) = x := by
  unfold priv_of attached
  dsimp only
  rw [get_set env.N pl._parent env.glsl_priv_key x env.destroy_glsl_priv _ hok.2.1 hd.1]
  simp

theorem heap_get_fresh {α : Type} (h : List (Option α)) : heap_get h (h.length + 1) = none := by
  cases hg : heap_get h (h.length + 1) with
  | none => rfl
  | some x =>
    have := (heap_get_some_bound _ _ _ hg).2
    omega

theorem incremented_fields (pv : CoglPipelineProgendPrivate) :
    pv.incremented.program = pv.program ∧ pv.incremented.unit_state = pv.unit_state ∧
    pv.incremented.n_tex_coord_attribs = pv.n_tex_coord_attribs := ⟨rfl, rfl, rfl⟩

theorem created_world_pipeline (env : Env) (w : World) (A : Nat) (pa pa0 : CoglPipeline)
    (n : Nat) (hA : heap_get w.pipelines A = some pa0) :
    heap_get (created_world env w A pa n).pipelines A =
      some (attached env pa (w.privs.length + 1)) := by
  have hb := heap_get_some_bound _ _ _ hA
  exact heap_get_set_same _ _ _ hb.1 hb.2

theorem created_world_other (env : Env) (w : World) (A q : Nat) (pa : CoglPipeline)
    (n : Nat) (hq : q ≠ A) :
    heap_get (created_world env w A pa n).pipelines q = heap_get w.pipelines q :=
  heap_get_set_ne _ _ _ _ hq

theorem shared_world_pipeline (env : Env) (w : World) (P e : Nat) (pl pl0 : CoglPipeline)
    (pv : CoglPipelineProgendPrivate) (hP : heap_get w.pipelines P = some pl0) :
    heap_get (shared_world env w P pl e pv).pipelines P = some (attached env pl e) := by
  have hb := heap_get_some_bound _ _ _ hP
  exact heap_get_set_same _ _ _ hb.1 hb.2

theorem shared_world_other (env : Env) (w : World) (P e q : Nat) (pl : CoglPipeline)
    (pv : CoglPipelineProgendPrivate) (hq : q ≠ P) :
    heap_get (shared_world env w P pl e pv).pipelines q = heap_get w.pipelines q :=
  heap_get_set_ne _ _ _ _ hq

/-- Lines 523 to 566 on a pipeline `P` without cache entry whose authority `A` is
live: the entry found, its reference count, and who holds it afterwards. -/
theorem find_absent_outcome (env : Env) (hok : env.ok) (w : World) (P : Nat)
    (pl pa : CoglPipeline) (hinv : Inv env w) (hP : heap_get w.pipelines P = some pl)
    (habs : priv_of env pl = 0)
    (hA : heap_get w.pipelines (env.find_equivalent_parent w.pipelines P) = some pa) :
    ∃ w1 e pv1, end_find_priv env w P pl = some (w1, e) ∧ Inv env w1 ∧ e ≠ 0 ∧
      heap_get w1.privs e = some pv1 ∧
      get_glsl_priv env w1 P = some e ∧
      get_glsl_priv env w1 (env.find_equivalent_parent w.pipelines P) = some e ∧
      (priv_of env pa = 0 →
        e = w.privs.length + 1 ∧ heap_get w.privs e = none ∧
        pv1 = (if env.find_equivalent_parent w.pipelines P = P
          then new_glsl_priv env e pl.layers.length
          else (new_glsl_priv env e pl.layers.length).incremented) ∧
        pv1.ref_count = (if env.find_equivalent_parent w.pipelines P = P then 1 else 2) ∧
        pv1.program = 0) ∧
      (priv_of env pa ≠ 0 →
        env.find_equivalent_parent w.pipelines P ≠ P ∧ e = priv_of env pa ∧
        ∃ pv, heap_get w.privs e = some pv ∧ pv1 = pv.incremented ∧
          pv1.ref_count = pv.ref_count + 1) := by
  have hdP := (((inv_iff env w).mp hinv).1 _ (heap_get_mem _ _ _ hP)).1
  have hdA := (((inv_iff env w).mp hinv).1 _ (heap_get_mem _ _ _ hA)).1
  rcases find_priv_cases env hok w P pl hinv hP with
    ⟨h0, _⟩ | ⟨_, hn, _⟩ | ⟨_, hself, h1, h2⟩ | ⟨_, hne, pa2, hpa2, haabs, h1, h2⟩ |
    ⟨_, hne, pa2, pv, hpa2, haabs, hg, h1, h2⟩
  · exact absurd habs h0
  · rw [hn] at hA; cases hA
  · have hpa : pa = pl := by
      rw [hself, hP] at hA
      simp only [Option.some.injEq] at hA
      exact hA.symm
    have hgp : get_glsl_priv env (created_world env w P pl pl.layers.length) P =
        some (w.privs.length + 1) := by
      rw [get_glsl_priv_live env _ P _ (created_world_pipeline env w P pl pl _ hP),
        priv_of_attached env hok pl _ hdP]
    refine ⟨_, _, _, h1, h2, Nat.succ_ne_zero _, created_world_priv env w P pl _, hgp,
      by rw [hself]; exact hgp, ?_, ?_⟩
    · intro _
      refine ⟨rfl, heap_get_fresh _, by rw [if_pos hself], ?_,
        (new_glsl_priv_fields env _ _).2.1⟩
      rw [if_pos hself, (new_glsl_priv_fields env _ _).1]
    · intro hc
      rw [hpa] at hc
      exact absurd habs hc
  · have hpa : pa2 = pa := by
      rw [hpa2] at hA
      simp only [Option.some.injEq] at hA
      exact hA
    subst hpa
    have hpc := created_world_priv env w (env.find_equivalent_parent w.pipelines P) pa2
      pl.layers.length
    have hP2 : heap_get (created_world env w (env.find_equivalent_parent w.pipelines P) pa2
        pl.layers.length).pipelines P = some pl := by
      rw [created_world_other env w _ P pa2 _ (fun hc => hne hc.symm)]
      exact hP
    have hgp : get_glsl_priv env (shared_world env
        (created_world env w (env.find_equivalent_parent w.pipelines P) pa2 pl.layers.length)
        P pl (w.privs.length + 1) (new_glsl_priv env (w.privs.length + 1) pl.layers.length))
        P = some (w.privs.length + 1) := by
      rw [get_glsl_priv_live env _ P _ (shared_world_pipeline env _ P _ pl pl _ hP2),
        priv_of_attached env hok pl _ hdP]
    have hga : get_glsl_priv env (shared_world env
        (created_world env w (env.find_equivalent_parent w.pipelines P) pa2 pl.layers.length)
        P pl (w.privs.length + 1) (new_glsl_priv env (w.privs.length + 1) pl.layers.length))
        (env.find_equivalent_parent w.pipelines P) = some (w.privs.length + 1) := by
      have : heap_get (shared_world env
          (created_world env w (env.find_equivalent_parent w.pipelines P) pa2 pl.layers.length)
          P pl (w.privs.length + 1)
          (new_glsl_priv env (w.privs.length + 1) pl.layers.length)).pipelines
          (env.find_equivalent_parent w.pipelines P) =
          some (attached env pa2 (w.privs.length + 1)) := by
        rw [shared_world_other env _ P _ _ pl _ hne]
        exact created_world_pipeline env w _ pa2 pa2 _ hpa2
      rw [get_glsl_priv_live env _ _ _ this, priv_of_attached env hok pa2 _ hdA]
    refine ⟨_, _, _, h1, h2, Nat.succ_ne_zero _,
      shared_world_priv env _ P pl _ _ _ hpc, hgp, hga, ?_, ?_⟩
    · intro _
      refine ⟨rfl, heap_get_fresh _, by rw [if_neg hne], ?_, ?_⟩
      · rw [if_neg hne]
        have := inc32_small (new_glsl_priv env (w.privs.length + 1) pl.layers.length).ref_count
          (by rw [(new_glsl_priv_fields env _ _).1]; decide)
        show inc32 _ = 2
        rw [this, (new_glsl_priv_fields env _ _).1]
      · exact (new_glsl_priv_fields env _ _).2.1
    · intro hc
      exact absurd haabs hc
  · have hpa : pa2 = pa := by
      rw [hpa2] at hA
      simp only [Option.some.injEq] at hA
      exact hA
    subst hpa
    have hb := heap_get_some_bound _ _ _ hg
    have hgp : get_glsl_priv env (shared_world env w P pl (priv_of env pa2) pv) P =
        some (priv_of env pa2) := by
      rw [get_glsl_priv_live env _ P _ (shared_world_pipeline env w P _ pl pl pv hP),
        priv_of_attached env hok pl _ hdP]
    have hga : get_glsl_priv env (shared_world env w P pl (priv_of env pa2) pv)
        (env.find_equivalent_parent w.pipelines P) = some (priv_of env pa2) := by
      have : heap_get (shared_world env w P pl (priv_of env pa2) pv).pipelines
          (env.find_equivalent_parent w.pipelines P) = some pa2 := by
        rw [shared_world_other env w P _ _ pl pv hne]
        exact hpa2
      rw [get_glsl_priv_live env _ _ _ this]
    have hrc := (inv_inc env w _ pv hinv hg).2
    refine ⟨_, _, _, h1, h2, hb.1, shared_world_priv env w P pl _ pv pv hg, hgp, hga, ?_, ?_⟩
    · intro hc
      exact absurd hc haabs
    · intro _
      exact ⟨hne, rfl, pv, hg, rfl, hrc⟩

/-! ## What finding the entry leaves alone -/

theorem sameGraph_refl (w : World) : SameGraph w w := ⟨rfl, fun _ => rfl, rfl, rfl, rfl⟩

theorem sameGraph_trans {w w1 w2 : World} (h1 : SameGraph w w1) (h2 : SameGraph w1 w2) :
    SameGraph w w2 :=
  ⟨h2.1.trans h1.1, fun q => (h2.2.1 q).trans (h1.2.1 q), h2.2.2.1.trans h1.2.2.1,
    h2.2.2.2.1.trans h1.2.2.2.1, h2.2.2.2.2.trans h1.2.2.2.2⟩

theorem sameGraph_put_attached (env : Env) (w : World) (q0 x : Nat) (pl : CoglPipeline)
    (h : heap_get w.pipelines q0 = some pl) :
    SameGraph w (w.put_pipeline (some (attached env pl x)) q0) := by
  have hb := heap_get_some_bound _ _ _ h
  refine ⟨heap_set_length _ _ _, ?_, rfl, rfl, rfl⟩
  intro q
  show (heap_get (heap_set w.pipelines _ q0) q).map _ = _
  by_cases hq : q = q0
  · rw [hq, heap_get_set_same _ _ _ hb.1 hb.2, h]
    rfl
  · rw [heap_get_set_ne _ _ _ _ hq]

theorem sameGraph_created (env : Env) (w : World) (A n : Nat) (pa : CoglPipeline)
    (h : heap_get w.pipelines A = some pa) : SameGraph w (created_world env w A pa n) := by
  have h2 : heap_get (w.alloc_priv (new_glsl_priv env (w.privs.length + 1) n)).pipelines A =
      some pa := h
  have := sameGraph_put_attached env _ A (w.privs.length + 1) pa h2
  exact sameGraph_trans ⟨rfl, fun _ => rfl, rfl, rfl, rfl⟩ this

theorem sameGraph_shared (env : Env) (w : World) (P e : Nat) (pl : CoglPipeline)
    (pv : CoglPipelineProgendPrivate) (h : heap_get w.pipelines P = some pl) :
    SameGraph w (shared_world env w P pl e pv) := by
  have h2 : heap_get (w.put_priv (some pv.incremented) e).pipelines P = some pl := h
  have := sameGraph_put_attached env _ P e pl h2
  exact sameGraph_trans ⟨rfl, fun _ => rfl, rfl, rfl, rfl⟩ this

theorem created_world_privs_other (env : Env) (w : World) (A n e2 : Nat) (pa : CoglPipeline)
    (he : e2 ≠ w.privs.length + 1) :
    heap_get (created_world env w A pa n).privs e2 = heap_get w.privs e2 := by
  show heap_get (w.privs ++ [_]) e2 = _
  rw [heap_get_append, if_neg he]

theorem shared_world_privs_other (env : Env) (w : World) (P e e2 : Nat) (pl : CoglPipeline)
    (pv : CoglPipelineProgendPrivate) (he : e2 ≠ e) :
    heap_get (shared_world env w P pl e pv).privs e2 = heap_get w.privs e2 :=
  heap_get_set_ne _ _ _ _ he

/-- Lines 523 to 566 change nothing but the embedded objects of the pipeline and of
its authority, and the cache entry found. -/
theorem find_priv_frame (env : Env) (hok : env.ok) (w w1 : World) (P e : Nat)
    (pl : CoglPipeline) (hinv : Inv env w) (hP : heap_get w.pipelines P = some pl)
    (hf : end_find_priv env w P pl = some (w1, e)) :
    SameGraph w w1 ∧
    (∀ q, q ≠ P → q ≠ env.find_equivalent_parent w.pipelines P →
      heap_get w1.pipelines q = heap_get w.pipelines q) ∧
    (∀ e2, e2 ≠ e → heap_get w1.privs e2 = heap_get w.privs e2) := by
  rcases find_priv_cases env hok w P pl hinv hP with
    ⟨h0, h1⟩ | ⟨_, _, h1⟩ | ⟨_, hself, h1, h2⟩ | ⟨_, hne, pa, hpa, _, h1, h2⟩ |
    ⟨_, hne, pa, pv, hpa, _, hg, h1, h2⟩
  · rw [h1] at hf
    simp only [Option.some.injEq, Prod.mk.injEq] at hf
    obtain ⟨e1, e2⟩ := hf
    subst e1; subst e2
    exact ⟨sameGraph_refl _, fun _ _ _ => rfl, fun _ _ => rfl⟩
  · rw [h1] at hf; cases hf
  · rw [h1] at hf
    simp only [Option.some.injEq, Prod.mk.injEq] at hf
    obtain ⟨e1, e2⟩ := hf
    subst e1; subst e2
    refine ⟨sameGraph_created env w P _ pl hP, ?_, ?_⟩
    · intro q hq _
      exact created_world_other env w P q pl _ hq
    · intro e2 he2
      exact created_world_privs_other env w P _ e2 pl he2
  · rw [h1] at hf
    simp only [Option.some.injEq, Prod.mk.injEq] at hf
    obtain ⟨e1, e2⟩ := hf
    subst e1; subst e2
    have hP2 : heap_get (created_world env w (env.find_equivalent_parent w.pipelines P) pa
        pl.layers.length).pipelines P = some pl := by
      rw [created_world_other env w _ P pa _ (fun hc => hne hc.symm)]
      exact hP
    refine ⟨sameGraph_trans (sameGraph_created env w _ _ pa hpa)
      (sameGraph_shared env _ P _ pl _ hP2), ?_, ?_⟩
    · intro q hq hqa
      rw [shared_world_other env _ P _ q pl _ hq, created_world_other env w _ q pa _ hqa]
    · intro e2 he2
      rw [shared_world_privs_other env _ P _ e2 pl _ he2,
        created_world_privs_other env w _ _ e2 pa he2]
  · rw [h1] at hf
    simp only [Option.some.injEq, Prod.mk.injEq] at hf
    obtain ⟨e1, e2⟩ := hf
    subst e1; subst e2
    refine ⟨sameGraph_shared env w P _ pl pv hP, ?_, ?_⟩
    · intro q hq _
      exact shared_world_other env w P _ q pl pv hq
    · intro e2 he2
      exact shared_world_privs_other env w P _ e2 pl pv he2

theorem get_glsl_priv_congr (env : Env) (w w2 : World) (p : Nat)
    (h : w2.pipelines = w.pipelines) : get_glsl_priv env w2 p = get_glsl_priv env w p := by
  unfold get_glsl_priv
  rw [h]

/-! ## Claims on the program cache -/

/-- The outcome of `_cogl_pipeline_progend_glsl_end` on a pipeline without cache
entry, and what the call leaves alone. -/
theorem end_absent_outcome (env : Env) (w w2 : World) (P d : Nat) (n : Int)
    (pl pa : CoglPipeline) (hok : env.ok) (hinv : Inv env w)
    (hP : heap_get w.pipelines P = some pl)
    (hglsl : pl.fragend = env.FRAGEND_GLSL ∨ pl.vertend = env.VERTEND_GLSL)
    (habs : get_glsl_priv env w P = some 0)
    (hA : heap_get w.pipelines (env.find_equivalent_parent w.pipelines P) = some pa)
    (hend : _cogl_pipeline_progend_glsl_end env w P d n = some w2) :
    ∃ w1 e pv1 pv2,
      end_find_priv env w P pl = some (w1, e) ∧ e ≠ 0 ∧ heap_get w1.privs e = some pv1 ∧
      (get_glsl_priv env w (env.find_equivalent_parent w.pipelines P) = some 0 →
        e = w.privs.length + 1 ∧ heap_get w.privs e = none ∧
        (new_glsl_priv env e pl.layers.length).ref_count = 1 ∧
        (new_glsl_priv env e pl.layers.length).program = 0 ∧
        pv1 = (if env.find_equivalent_parent w.pipelines P = P
          then new_glsl_priv env e pl.layers.length
          else (new_glsl_priv env e pl.layers.length).incremented) ∧
        pv1.ref_count = (if env.find_equivalent_parent w.pipelines P = P then 1 else 2)) ∧
      (get_glsl_priv env w (env.find_equivalent_parent w.pipelines P) ≠ some 0 →
        env.find_equivalent_parent w.pipelines P ≠ P ∧
        get_glsl_priv env w (env.find_equivalent_parent w.pipelines P) = some e ∧
        ∃ pv, heap_get w.privs e = some pv ∧ pv1 = pv.incremented ∧
          pv1.ref_count = pv.ref_count + 1) ∧
      heap_get w2.privs e = some pv2 ∧ pv2.ref_count = pv1.ref_count ∧
      get_glsl_priv env w2 P = some e ∧
      get_glsl_priv env w2 (env.find_equivalent_parent w.pipelines P) = some e ∧
      w2.pipelines.length = w.pipelines.length ∧
      (∀ q, (heap_get w2.pipelines q).map pipeline_state =
        (heap_get w.pipelines q).map pipeline_state) ∧
      (∀ q, q ≠ P → q ≠ env.find_equivalent_parent w.pipelines P →
        heap_get w2.pipelines q = heap_get w.pipelines q) ∧
      (∀ e2, e2 ≠ e → (heap_get w2.privs e2) = (heap_get w.privs e2)) := by
  have habs2 : priv_of env pl = 0 := by
    rw [get_glsl_priv_live env w P pl hP] at habs
    simpa using habs
  have hgA := get_glsl_priv_live env w _ pa hA
  obtain ⟨w1, e, pv1, f1, f2, f3, f4, f5, f6, f7, f8⟩ :=
    find_absent_outcome env hok w P pl pa hinv hP habs2 hA
  obtain ⟨pl2, hP2, hcase⟩ := end_unfold env hok.1 w w2 P d n hend
  rw [hP] at hP2
  simp only [Option.some.injEq] at hP2
  subst hP2
  rcases hcase with ⟨g1, g2, _⟩ | ⟨_, w1b, eb, pvb, w3, pv2, hf, hpv, ht, e1⟩
  · rcases hglsl with hg | hg
    · exact absurd hg g1
    · exact absurd hg g2
  · rw [f1] at hf
    simp only [Option.some.injEq, Prod.mk.injEq] at hf
    obtain ⟨e2, e3⟩ := hf
    subst e2; subst e3
    rw [f4] at hpv
    simp only [Option.some.injEq] at hpv
    subst hpv
    obtain ⟨fr, rc⟩ := frame_end_with_priv env w1 w3 P pl n pv1 pv2 ht
    have hb := heap_get_some_bound _ _ _ f4
    have hpl2 : w2.pipelines = w1.pipelines := by rw [e1]; exact fr.1
    obtain ⟨sg, fo, fp⟩ := find_priv_frame env hok w w1 P e pl hinv hP f1
    refine ⟨w1, e, pv1, pv2, f1, f3, f4, ?_, ?_, ?_, rc, ?_, ?_, ?_, ?_, ?_, ?_⟩
    · intro h0
      rw [hgA] at h0
      simp only [Option.some.injEq] at h0
      obtain ⟨a1, a2, a3, a4, _⟩ := f7 h0
      exact ⟨a1, a2, (new_glsl_priv_fields env _ _).1, (new_glsl_priv_fields env _ _).2.1,
        a3, a4⟩
    · intro h0
      rw [hgA] at h0
      have h1 : priv_of env pa ≠ 0 := fun hc => h0 (by rw [hc])
      obtain ⟨a1, a2, a3⟩ := f8 h1
      exact ⟨a1, by rw [hgA, a2], a3⟩
    · rw [e1]
      show heap_get (heap_set w3.privs _ e) e = _
      rw [fr.2.1]
      exact heap_get_set_same _ _ _ hb.1 hb.2
    · rw [get_glsl_priv_congr env w1 w2 P hpl2]; exact f5
    · rw [get_glsl_priv_congr env w1 w2 _ hpl2]; exact f6
    · rw [hpl2]; exact sg.1
    · intro q; rw [hpl2]; exact sg.2.1 q
    · intro q hq hqa; rw [hpl2]; exact fo q hq hqa
    · intro e2 he2
      rw [e1]
      show heap_get (heap_set w3.privs _ e) e2 = _
      rw [heap_get_set_ne _ _ _ _ he2, fr.2.1]
      exact fp e2 he2

/-- C8: in every state reached from a world without cache entries by the
operations of the program cache (`_cogl_pipeline_progend_glsl_end`, the two
pre-change notifications, `cogl_object_unref` of a pipeline) and by what the rest
of the library does in between, the `ref_count` of every live cache entry equals
the number of live pipelines whose attachment under `glsl_priv_key` is that entry. -/
theorem ref_count_equals_sharers (env : Env) (w0 w : World) (ops : List Op) (e : Nat)
    (pv : CoglPipelineProgendPrivate) (hok : env.ok) (h0 : InitOK env w0)
    (hrun : run_ops env w0 ops = some w) (hlive : heap_get w.privs e = some pv) :
    pv.ref_count = sharers env w e := by
  have hinv := run_ops_inv env hok ops w0 w (init_inv env w0 h0) hrun
  have := refOK_live env w 0 e pv (((inv_iff env w).mp hinv).2.1 e) hlive
  simpa using this

/-- Witness of C8: the example chain after three calls of the program end, two
notifications and the destruction of a pipeline; the entry 1 is left to the root
and to B. -/
theorem ref_count_equals_sharers_witness :
    (demo_env.ok ∧ InitOK demo_env demo_world ∧
      run_ops demo_env demo_world demo_ops = some (after demo_env demo_world demo_ops) ∧
      heap_get (after demo_env demo_world demo_ops).privs 1 =
        some (entry_at demo_env (after demo_env demo_world demo_ops) 1)) ∧
    (entry_at demo_env (after demo_env demo_world demo_ops) 1).ref_count =
      sharers demo_env (after demo_env demo_world demo_ops) 1 :=
  ⟨⟨by decide, by decide, by decide, by decide⟩,
    ref_count_equals_sharers demo_env demo_world (after demo_env demo_world demo_ops)
      demo_ops 1 (entry_at demo_env (after demo_env demo_world demo_ops) 1)
      (by decide) (by decide) (by decide) (by decide)⟩

/-! ## The chain root, A, B, C -/

theorem resolve_root (mask : Nat) (pls : List (Option CoglPipeline)) (root k : Nat)
    (pr : CoglPipeline) (h : heap_get pls root = some pr) (hp : pr.parent = 0) :
    resolve_authority mask pls (k + 1) root = root := by
  rw [resolve_authority, h]
  dsimp only
  rw [if_pos (Or.inr hp)]

theorem resolve_child (mask : Nat) (pls : List (Option CoglPipeline)) (c k : Nat)
    (pc : CoglPipeline) (h : heap_get pls c = some pc) (hd : pc.differences &&& mask = 0)
    (hp : pc.parent ≠ 0) :
    resolve_authority mask pls (k + 1) c = resolve_authority mask pls k pc.parent := by
  rw [resolve_authority, h]
  dsimp only
  rw [if_neg (by
    intro hc
    rcases hc with hc | hc
    · exact hc hd
    · exact hp hc)]

theorem chain_authority (mask : Nat) (pls : List (Option CoglPipeline)) (root A B : Nat)
    (pr pla plb : CoglPipeline)
    (hroot : heap_get pls root = some pr) (hrp : pr.parent = 0)
    (hA : heap_get pls A = some pla) (hAp : pla.parent = root)
    (hAd : pla.differences &&& mask = 0)
    (hB : heap_get pls B = some plb) (hBp : plb.parent = A)
    (hBd : plb.differences &&& mask = 0) :
    resolve_authority mask pls pls.length A = root ∧
    resolve_authority mask pls pls.length B = root ∧
    root ≠ 0 ∧ A ≠ root ∧ B ≠ root ∧ A ≠ B := by
  have br := heap_get_some_bound _ _ _ hroot
  have bA := heap_get_some_bound _ _ _ hA
  have bB := heap_get_some_bound _ _ _ hB
  have hAr : A ≠ root := by
    intro hc
    rw [hc, hroot] at hA
    simp only [Option.some.injEq] at hA
    rw [hA] at hrp
    rw [hrp] at hAp
    exact br.1 hAp.symm
  have hBr : B ≠ root := by
    intro hc
    rw [hc, hroot] at hB
    simp only [Option.some.injEq] at hB
    rw [hB] at hrp
    rw [hrp] at hBp
    exact bA.1 hBp.symm
  have hAB : A ≠ B := by
    intro hc
    rw [hc, hB] at hA
    simp only [Option.some.injEq] at hA
    rw [hA] at hBp
    rw [hBp] at hAp
    exact hAr (hc ▸ hAp)
  obtain ⟨k, hk⟩ : ∃ k, pls.length = k + 3 := ⟨pls.length - 3, by omega⟩
  refine ⟨?_, ?_, br.1, hAr, hBr, hAB⟩
  · rw [hk, resolve_child mask pls A (k + 2) pla hA hAd (by rw [hAp]; exact br.1), hAp,
      resolve_root mask pls root (k + 1) pr hroot hrp]
  · rw [hk, resolve_child mask pls B (k + 2) plb hB hBd (by rw [hBp]; exact bA.1), hBp,
      resolve_child mask pls A (k + 1) pla hA hAd (by rw [hAp]; exact br.1), hAp,
      resolve_root mask pls root k pr hroot hrp]

theorem state_of_map (pls pls2 : List (Option CoglPipeline)) (q : Nat) (pl : CoglPipeline)
    (hs : (heap_get pls2 q).map pipeline_state = (heap_get pls q).map pipeline_state)
    (h : heap_get pls q = some pl) :
    ∃ pl2, heap_get pls2 q = some pl2 ∧ pl2.parent = pl.parent ∧
      pl2.differences = pl.differences ∧ pl2.fragend = pl.fragend ∧
      pl2.vertend = pl.vertend := by
  rw [h] at hs
  cases h2 : heap_get pls2 q with
  | none => rw [h2] at hs; cases hs
  | some pl2 =>
    rw [h2] at hs
    simp only [Option.map_some', Option.some.injEq, pipeline_state, Prod.mk.injEq] at hs
    exact ⟨pl2, rfl, hs.2.2.2.2.1, hs.2.2.2.2.2, hs.1, hs.2.1⟩

theorem init_no_priv (env : Env) (w : World) (h : InitOK env w) (q : Nat) (pl : CoglPipeline)
    (hq : heap_get w.pipelines q = some pl) : get_glsl_priv env w q = some 0 := by
  rw [get_glsl_priv_live env w q pl hq]
  have := h.2.2 _ (heap_get_mem _ _ _ hq)
  unfold priv_of
  rw [get_user_data_slots, (get_loop_none _ _).mpr (fun x hx => (this.2 x hx).1)]
  rfl

/-- C7, as stated, fails on the example chain root (1), A (2), B (3), C (4) in
which only C overrides a generation-affecting category: the authority of A and
of B is the root, both hold the entry 1 after the program end has run for them,
and the reference count of that entry is 3, not 2. -/
theorem chain_ref_count_is_not_two :
    resolve_authority 12 demo_world.pipelines demo_world.pipelines.length 2 = 1 ∧
    resolve_authority 12 demo_world.pipelines demo_world.pipelines.length 3 = 1 ∧
    (pipeline_at demo_world 4).differences &&& 12 ≠ 0 ∧
    run_ops demo_env demo_world [Op.ensure 2 0 1, Op.ensure 3 0 1] =
      some (after demo_env demo_world [Op.ensure 2 0 1, Op.ensure 3 0 1]) ∧
    get_glsl_priv demo_env
      (after demo_env demo_world [Op.ensure 2 0 1, Op.ensure 3 0 1]) 2 = some 1 ∧
    get_glsl_priv demo_env
      (after demo_env demo_world [Op.ensure 2 0 1, Op.ensure 3 0 1]) 3 = some 1 ∧
    (heap_get (after demo_env demo_world [Op.ensure 2 0 1, Op.ensure 3 0 1]).privs 1).map
      (·.ref_count) = some 3 ∧
    (heap_get (after demo_env demo_world [Op.ensure 2 0 1, Op.ensure 3 0 1]).privs 1).map
      (·.ref_count) ≠ some 2 := by
  decide

/-! ## Traces of the linking half of `_cogl_pipeline_progend_glsl_end` -/

theorem ext_refl (w : World) : Ext w w [] := by simp [Ext]

theorem ext_trans {w w2 w3 : World} {t t2 : List Call} (h1 : Ext w w2 t) (h2 : Ext w2 w3 t2) :
    Ext w w3 (t ++ t2) := by
  unfold Ext at *
  rw [h2, h1, List.append_assoc]

theorem ext_call (w : World) (c : Call) : Ext w (w.call c) [c] := rfl

theorem sameLink_refl (pv : CoglPipelineProgendPrivate) : SameLink pv pv := ⟨rfl, rfl, rfl, rfl⟩

theorem sameLink_trans {pv pv2 pv3 : CoglPipelineProgendPrivate} (h1 : SameLink pv pv2)
    (h2 : SameLink pv2 pv3) : SameLink pv pv3 :=
  ⟨h2.1.trans h1.1, h2.2.1.trans h1.2.1, h2.2.2.1.trans h1.2.2.1, h2.2.2.2.trans h1.2.2.2⟩

theorem map_set_same {α β : Type} (f : α → β) (l : List α) (i : Nat) (a x : α)
    (h : l[i]? = some a) (hf : f x = f a) : (l.set i x).map f = l.map f := by
  induction l generalizing i with
  | nil => simp
  | cons c rest ih =>
    cases i with
    | zero =>
      simp only [List.getElem?_cons_zero, Option.some.injEq] at h
      subst h
      simp [hf]
    | succ j =>
      simp only [List.getElem?_cons_succ] at h
      simp [ih j h]

theorem relink_eq (w : World) (up : Nat) (n : Int) (pv : CoglPipelineProgendPrivate)
    (prog : CoglProgram) (hp : pv.program ≠ 0) (hu : up ≠ 0)
    (hg : heap_get w.programs up = some prog)
    (hstale : prog.age ≠ pv.user_program_age ∨ n > pv.n_tex_coord_attribs) :
    end_check_relink w up n pv =
      some (w.call (Call.glDeleteProgram pv.program), { pv with program := 0 }) := by
  unfold end_check_relink
  rw [if_pos ⟨hp, hu⟩, hg]
  dsimp only
  rw [if_pos hstale]

theorem no_relink_eq (w : World) (up : Nat) (n : Int) (pv : CoglPipelineProgendPrivate)
    (h : pv.program = 0 ∨ up = 0) : end_check_relink w up n pv = some (w, pv) := by
  unfold end_check_relink
  rw [if_neg (by
    intro hc
    rcases h with h | h
    · exact hc.1 h
    · exact hc.2 h)]

theorem max_tex_ge (w : World) (shaders : List Nat) :
    ∀ (n m : Int), max_tex_coord_attribs w shaders n = some m → n ≤ m := by
  induction shaders with
  | nil =>
    intro n m h
    simp only [max_tex_coord_attribs, Option.some.injEq] at h
    omega
  | cons sh rest ih =>
    intro n m h
    rw [max_tex_coord_attribs] at h
    split at h
    · cases h
    · have := ih _ _ h
      omega

theorem ext_attach_user_shaders (env : Env) (g : Nat) (n : Int) (shaders : List Nat) :
    ∀ (w w2 : World), attach_user_shaders env g n shaders w = some w2 →
      ∃ t, Ext w w2 t := by
  induction shaders with
  | nil =>
    intro w w2 h
    simp only [attach_user_shaders, Option.some.injEq] at h
    subst h
    exact ⟨[], ext_refl _⟩
  | cons sh rest ih =>
    intro w w2 h
    rw [attach_user_shaders] at h
    split at h
    · cases h
    · dsimp only at h
      split at h
      · cases h
      · rename_i sh0 _ _
        obtain ⟨t, ht⟩ := ih _ _ h
        refine ⟨Call.shader_compile_real sh n ::
          Call.glAttachShader g (env.shader_compile_real sh0 n).gl_handle :: t, ?_⟩
        unfold Ext at ht ⊢
        rw [ht]
        simp [World.call]

theorem ext_link_program (env : Env) (w : World) (g : Nat) :
    ∃ t, Ext w (link_program env w g) t := by
  unfold link_program
  dsimp only
  split
  · exact ⟨_, ext_trans (ext_trans (ext_trans (ext_call _ _) (ext_call _ _)) (ext_call _ _))
      (ext_call _ _)⟩
  · exact ⟨_, ext_trans (ext_call _ _) (ext_call _ _)⟩

theorem ext_call_if (w : World) (c : Call) (P : Prop) [Decidable P] :
    ∃ t, Ext w (if P then w.call c else w) t := by
  by_cases h : P
  · rw [if_pos h]; exact ⟨_, ext_call w c⟩
  · rw [if_neg h]; exact ⟨_, ext_refl w⟩

theorem link_spec (env : Env) (w w2 : World) (p : Nat) (pl : CoglPipeline) (n : Int)
    (pv pv2 : CoglPipelineProgendPrivate) (b : Bool) (h0 : pv.program = 0)
    (h : end_link env w p pl n pv = some (w2, pv2, b)) :
    b = true ∧ pv2.program = env.glCreateProgram w.trace ∧
    (∃ t, Ext w w2 (Call.glCreateProgram pv2.program :: t)) ∧
    n ≤ pv2.n_tex_coord_attribs ∧ pv2.unit_state = pv.unit_state := by
  unfold end_link at h
  rw [if_pos h0] at h
  dsimp only at h
  split at h
  · cases h
  · rename_i w3 pv3 n3 hu
    simp only [Option.some.injEq, Prod.mk.injEq] at h
    obtain ⟨h1, h2, h3⟩ := h
    have hu2 : pv3.program = env.glCreateProgram w.trace ∧
        (∃ t, Ext w w3 (Call.glCreateProgram (env.glCreateProgram w.trace) :: t)) ∧
        n ≤ n3 ∧ pv3.unit_state = pv.unit_state := by
      split at hu
      · split at hu
        · cases hu
        · split at hu
          · cases hu
          · rename_i n2 hm
            split at hu
            · cases hu
            · rename_i w5 ha
              simp only [Option.some.injEq, Prod.mk.injEq] at hu
              obtain ⟨u1, u2, u3⟩ := hu
              obtain ⟨t, ht⟩ := ext_attach_user_shaders env _ _ _ _ _ ha
              rw [← u1, ← u2, ← u3]
              refine ⟨rfl, ⟨t, ?_⟩, ?_, rfl⟩
              · have := ext_trans (ext_call w (Call.glCreateProgram
                  (env.glCreateProgram w.trace))) ht
                simpa using this
              · have hn1 : n ≤ (if pv.n_tex_coord_attribs > n then pv.n_tex_coord_attribs
                    else n) := by
                  split <;> omega
                split at hm
                · exact le_trans hn1 (max_tex_ge _ _ _ _ hm)
                · simp only [Option.some.injEq] at hm
                  rw [← hm]
                  exact hn1
      · simp only [Option.some.injEq, Prod.mk.injEq] at hu
        obtain ⟨u1, u2, u3⟩ := hu
        rw [← u1, ← u2, ← u3]
        exact ⟨rfl, ⟨[], ext_call _ _⟩, le_refl _, rfl⟩
    obtain ⟨k1, ⟨t, k2⟩, k3, k4⟩ := hu2
    rw [← h2]
    refine ⟨h3.symm, k1, ?_, k3, k4⟩
    rw [← h1]
    rw [← k1] at k2
    obtain ⟨t1, e1⟩ := ext_call_if w3 (Call.glAttachShader pv3.program
      (env.fragend_glsl_get_shader w3.trace p))
      (pl.fragend = env.FRAGEND_GLSL ∧ env.fragend_glsl_get_shader w3.trace p ≠ 0)
    obtain ⟨t2, e2⟩ := ext_call_if _ (Call.glAttachShader pv3.program
      (env.vertend_glsl_get_shader (if pl.fragend = env.FRAGEND_GLSL ∧
        env.fragend_glsl_get_shader w3.trace p ≠ 0 then
          w3.call (Call.glAttachShader pv3.program (env.fragend_glsl_get_shader w3.trace p))
        else w3).trace p))
      (pl.vertend = env.VERTEND_GLSL ∧
        env.vertend_glsl_get_shader (if pl.fragend = env.FRAGEND_GLSL ∧
          env.fragend_glsl_get_shader w3.trace p ≠ 0 then
          w3.call (Call.glAttachShader pv3.program (env.fragend_glsl_get_shader w3.trace p))
        else w3).trace p ≠ 0)
    obtain ⟨t3, e3⟩ := ext_link_program env _ pv3.program
    have := ext_trans (ext_trans (ext_trans k2 e1) e2) e3
    exact ⟨_, by simpa using this⟩

theorem no_link_eq (env : Env) (w : World) (p : Nat) (pl : CoglPipeline) (n : Int)
    (pv : CoglPipelineProgendPrivate) (h0 : pv.program ≠ 0) :
    end_link env w p pl n pv = some (w, pv, false) := by
  unfold end_link
  rw [if_neg h0]

theorem ext_get_location (env : Env) (w : World) (g : Nat) (name : UniformName) :
    Ext w (gl_get_uniform_location env w g name).2
      [Call.glGetUniformLocation g name (gl_get_uniform_location env w g name).1] := rfl

theorem Resolved.mono {b : Bool} {g : Nat} {t t2 : List Call}
    {pv : CoglPipelineProgendPrivate} {u : Nat} (ht : ∀ c, c ∈ t → c ∈ t2)
    (h : Resolved b g t pv u) : Resolved b g t2 pv u := by
  obtain ⟨us, h1, h2, h3⟩ := h
  exact ⟨us, h1, ht _ h2, fun hb => ht _ (h3 hb)⟩

theorem Resolved.congr {b : Bool} {g : Nat} {t : List Call}
    {pv pv2 : CoglPipelineProgendPrivate} {u : Nat}
    (he : pv2.unit_state[u]? = pv.unit_state[u]?)
    (h : Resolved b g t pv u) : Resolved b g t pv2 u := by
  obtain ⟨us, h1, h2, h3⟩ := h
  exact ⟨us, he.trans h1, h2, h3⟩

theorem resolved_get_uniform_cb (env : Env) (g : Nat) (w w2 : World)
    (pv pv2 : CoglPipelineProgendPrivate) (unit : Nat)
    (h : get_uniform_cb env g w pv unit = some (w2, pv2)) :
    ∃ t, Ext w w2 t ∧ Resolved env.gles2 g t pv2 unit ∧
      (∀ j, j ≠ unit → pv2.unit_state[j]? = pv.unit_state[j]?) ∧
      pv2.program = pv.program ∧ pv2.n_tex_coord_attribs = pv.n_tex_coord_attribs := by
  unfold get_uniform_cb at h
  dsimp only at h
  split at h
  · cases h
  · rename_i us hus
    have hlt : unit < pv.unit_state.length := (List.getElem?_eq_some_iff.mp hus).1
    obtain ⟨t1, e1⟩ := ext_call_if (gl_get_uniform_location env w g (UniformName.sampler unit)).2
      (Call.glUniform1i (gl_get_uniform_location env w g (UniformName.sampler unit)).1 unit)
      ((gl_get_uniform_location env w g (UniformName.sampler unit)).1 ≠ -1)
    have e01 := ext_trans (ext_get_location env w g (UniformName.sampler unit)) e1
    have e2 := ext_trans e01 (ext_get_location env _ g (UniformName.layer_constant unit))
    split at h
    · simp only [Option.some.injEq, Prod.mk.injEq] at h
      obtain ⟨h1, h2⟩ := h
      have e3 := ext_trans e2 (ext_get_location env _ g (UniformName.texture_matrix unit))
      rw [h1] at e3
      subst h2
      refine ⟨_, e3, ⟨_, List.getElem?_set_self hlt, ?_, ?_⟩, ?_, rfl, rfl⟩
      · simp
      · intro _
        simp
      · intro j hj
        exact List.getElem?_set_ne (fun hc => hj hc.symm)
    · rename_i hgl
      simp only [Option.some.injEq, Prod.mk.injEq] at h
      obtain ⟨h1, h2⟩ := h
      rw [h1] at e2
      subst h2
      refine ⟨_, e2, ⟨_, List.getElem?_set_self hlt, ?_, ?_⟩, ?_, rfl, rfl⟩
      · simp
      · intro hc
        exact absurd hc hgl
      · intro j hj
        exact List.getElem?_set_ne (fun hc => hj hc.symm)

theorem resolved_foreach_get_uniform (env : Env) (g : Nat) (layers : List Nat) :
    ∀ (unit : Nat) (w w2 : World) (pv pv2 : CoglPipelineProgendPrivate),
      foreach_get_uniform env g layers unit w pv = some (w2, pv2) →
      ∃ t, Ext w w2 t ∧ (∀ i, i < layers.length → Resolved env.gles2 g t pv2 (unit + i)) ∧
        (∀ j, j < unit → pv2.unit_state[j]? = pv.unit_state[j]?) ∧
        pv2.program = pv.program ∧ pv2.n_tex_coord_attribs = pv.n_tex_coord_attribs := by
  induction layers with
  | nil =>
    intro unit w w2 pv pv2 h
    simp only [foreach_get_uniform, Option.some.injEq, Prod.mk.injEq] at h
    obtain ⟨h1, h2⟩ := h
    subst h1; subst h2
    exact ⟨[], ext_refl _, fun i hi => absurd hi (by simp), fun _ _ => rfl, rfl, rfl⟩
  | cons l rest ih =>
    intro unit w w2 pv pv2 h
    rw [foreach_get_uniform] at h
    cases hc : get_uniform_cb env g w pv unit with
    | none => rw [hc] at h; cases h
    | some r =>
      rw [hc] at h
      obtain ⟨t1, e1, r1, o1, p1, n1⟩ := resolved_get_uniform_cb env g w r.1 pv r.2 unit hc
      obtain ⟨t2, e2, r2, o2, p2, n2⟩ := ih _ _ _ _ _ h
      refine ⟨t1 ++ t2, ext_trans e1 e2, ?_, ?_, p2.trans p1, n2.trans n1⟩
      · intro i hi
        cases i with
        | zero =>
          have hr : Resolved env.gles2 g t1 pv2 unit :=
            Resolved.congr (o2 unit (Nat.lt_succ_self unit)) r1
          exact Resolved.mono (fun c hc => List.mem_append_left _ hc) hr
        | succ k =>
          have hk : k < rest.length := by simpa using hi
          have hr := r2 k hk
          have he : unit + (k + 1) = unit + 1 + k := by omega
          rw [he]
          exact Resolved.mono (fun c hc => List.mem_append_right _ hc) hr
      · intro j hj
        rw [o2 j (by omega), o1 j (by omega)]

theorem keeps_refl (w : World) (pv : CoglPipelineProgendPrivate) : Keeps w w pv pv :=
  ⟨⟨[], ext_refl w⟩, sameLink_refl pv⟩

theorem keeps_trans {w w2 w3 : World} {pv pv2 pv3 : CoglPipelineProgendPrivate}
    (h1 : Keeps w w2 pv pv2) (h2 : Keeps w2 w3 pv2 pv3) : Keeps w w3 pv pv3 := by
  obtain ⟨⟨t1, e1⟩, s1⟩ := h1
  obtain ⟨⟨t2, e2⟩, s2⟩ := h2
  exact ⟨⟨_, ext_trans e1 e2⟩, sameLink_trans s1 s2⟩

theorem keeps_update_constants_cb (env : Env) (p : Nat) (ua : Bool) (w w2 : World)
    (pv pv2 : CoglPipelineProgendPrivate) (unit li : Nat)
    (h : update_constants_cb env p ua w pv unit li = some (w2, pv2)) :
    Keeps w w2 pv pv2 := by
  unfold update_constants_cb at h
  split at h
  · cases h
  · rename_i us hus
    dsimp only at h
    simp only [Option.some.injEq, Prod.mk.injEq] at h
    obtain ⟨h1, h2⟩ := h
    subst h1; subst h2
    refine ⟨?_, rfl, rfl, rfl, ?_⟩
    · split <;> split <;> first
        | exact ⟨_, ext_refl _⟩
        | exact ⟨_, ext_call _ _⟩
        | exact ⟨_, ext_trans (ext_call _ _) (ext_call _ _)⟩
    · apply map_set_same _ _ _ us _ hus
      split <;> split <;> rfl

theorem keeps_foreach_update_constants (env : Env) (p : Nat) (ua : Bool) (layers : List Nat) :
    ∀ (unit : Nat) (w w2 : World) (pv pv2 : CoglPipelineProgendPrivate),
      foreach_update_constants env p ua layers unit w pv = some (w2, pv2) →
      Keeps w w2 pv pv2 := by
  induction layers with
  | nil =>
    intro unit w w2 pv pv2 h
    simp only [foreach_update_constants, Option.some.injEq, Prod.mk.injEq] at h
    obtain ⟨h1, h2⟩ := h
    subst h1; subst h2
    exact keeps_refl _ _
  | cons l rest ih =>
    intro unit w w2 pv pv2 h
    rw [foreach_update_constants] at h
    cases hc : update_constants_cb env p ua w pv unit l with
    | none => rw [hc] at h; cases h
    | some r =>
      rw [hc] at h
      exact keeps_trans (keeps_update_constants_cb env p ua w r.1 pv r.2 unit l hc)
        (ih _ _ _ _ _ h)

theorem keeps_update_builtin_uniforms (p : Nat) (w : World) (pv : CoglPipelineProgendPrivate) :
    Keeps w (update_builtin_uniforms p w pv).1 pv (update_builtin_uniforms p w pv).2 := by
  unfold update_builtin_uniforms
  split
  · exact keeps_refl _ _
  · dsimp only
    refine ⟨?_, rfl, rfl, rfl, rfl⟩
    obtain ⟨t1, e1⟩ := ext_call_if w
      (Call.glUniform1f_builtin pv.builtin_uniform_locations.1 p 0)
      (pv.dirty_builtin_uniforms.testBit 0 = true ∧ pv.builtin_uniform_locations.1 ≠ -1)
    obtain ⟨t2, e2⟩ := ext_call_if (if pv.dirty_builtin_uniforms.testBit 0 = true ∧
        pv.builtin_uniform_locations.1 ≠ -1 then
        w.call (Call.glUniform1f_builtin pv.builtin_uniform_locations.1 p 0) else w)
      (Call.glUniform1f_builtin pv.builtin_uniform_locations.2 p 1)
      (pv.dirty_builtin_uniforms.testBit 1 = true ∧ pv.builtin_uniform_locations.2 ≠ -1)
    exact ⟨_, ext_trans e1 e2⟩

theorem keeps_gles2_locations (env : Env) (w : World) (g : Nat)
    (pv : CoglPipelineProgendPrivate) :
    Keeps w (end_gles2_locations env w g pv).1 pv (end_gles2_locations env w g pv).2 := by
  refine ⟨?_, rfl, rfl, rfl, rfl⟩
  have e0 : Ext w { w with trace := w.trace ++
      (clear_flushed_matrix_stacks (clear_attribute_cache pv)).2 } _ := rfl
  exact ⟨_, ext_trans (ext_trans (ext_trans (ext_trans (ext_trans e0
    (ext_get_location env _ g (UniformName.builtin 0)))
    (ext_get_location env _ g (UniformName.builtin 1)))
    (ext_get_location env _ g UniformName.modelview_matrix))
    (ext_get_location env _ g UniformName.projection_matrix))
    (ext_get_location env _ g UniformName.modelview_projection_matrix)⟩

theorem keeps_dirty (w : World) (pv : CoglPipelineProgendPrivate) (d : Nat) :
    Keeps w w pv { pv with dirty_builtin_uniforms := d } :=
  ⟨⟨[], ext_refl w⟩, rfl, rfl, rfl, rfl⟩

theorem keeps_end_gles2 (env : Env) (w : World) (p g : Nat) (changed : Bool)
    (pv : CoglPipelineProgendPrivate) :
    Keeps w (end_gles2 env w p g changed pv).1 pv (end_gles2 env w p g changed pv).2 := by
  cases changed with
  | true =>
    have h : end_gles2 env w p g true pv =
        update_builtin_uniforms p (end_gles2_locations env w g pv).1
          { (end_gles2_locations env w g pv).2 with dirty_builtin_uniforms := env.ulong_max } := by
      unfold end_gles2
      simp
    rw [h]
    exact keeps_trans (keeps_trans (keeps_gles2_locations env w g pv) (keeps_dirty _ _ _))
      (keeps_update_builtin_uniforms p _ _)
  | false =>
    by_cases hl : pv.last_used_for_pipeline ≠ p
    · have h : end_gles2 env w p g false pv =
          update_builtin_uniforms p w { pv with dirty_builtin_uniforms := env.ulong_max } := by
        unfold end_gles2
        simp [hl]
      rw [h]
      exact keeps_trans (keeps_dirty _ _ _) (keeps_update_builtin_uniforms p _ _)
    · have h : end_gles2 env w p g false pv = update_builtin_uniforms p w pv := by
        unfold end_gles2
        simp [hl]
      rw [h]
      exact keeps_update_builtin_uniforms p w _

theorem heap_live_set {α : Type} (P : α → Prop) (h : List (Option α)) (x : α) (p q : Nat)
    (hx : P x) (hq : ∃ y, heap_get h q = some y ∧ P y) :
    ∃ y, heap_get (heap_set h (some x) p) q = some y ∧ P y := by
  by_cases hqp : q = p
  · subst hqp
    obtain ⟨y, hv, _⟩ := hq
    have hb := heap_get_some_bound _ _ _ hv
    rw [heap_get_set_same _ _ _ hb.1 hb.2]
    exact ⟨x, rfl, hx⟩
  · rw [heap_get_set_ne _ _ _ _ hqp]
    exact hq

theorem max_tex_total (w : World) (shaders : List Nat) :
    ∀ (n : Int), (∀ s, s ∈ shaders → GlslShader w s) →
      ∃ m, max_tex_coord_attribs w shaders n = some m := by
  induction shaders with
  | nil =>
    intro n _
    exact ⟨n, rfl⟩
  | cons sh rest ih =>
    intro n hl
    rw [max_tex_coord_attribs]
    obtain ⟨x, hv, _⟩ := hl sh (List.mem_cons_self _ _)
    rw [hv]
    exact ih _ (fun s hs => hl s (List.mem_cons_of_mem _ hs))

theorem attach_total (env : Env) (g : Nat) (n : Int)
    (hlang : env.compiles_glsl) (shaders : List Nat) :
    ∀ (w : World), (∀ s, s ∈ shaders → GlslShader w s) →
      ∃ w2, attach_user_shaders env g n shaders w = some w2 := by
  induction shaders with
  | nil =>
    intro w _
    exact ⟨w, rfl⟩
  | cons sh rest ih =>
    intro w hl
    rw [attach_user_shaders]
    obtain ⟨x, hv, hx⟩ := hl sh (List.mem_cons_self _ _)
    rw [hv]
    dsimp only
    rw [if_neg (fun hc => hc (hlang x n hx))]
    apply ih
    intro s hs
    exact heap_live_set (fun y : CoglShader => y.language = 0) _ _ _ _ (hlang x n hx)
      (hl s (List.mem_cons_of_mem _ hs))

theorem link_total (env : Env) (hlang : env.compiles_glsl)
    (w : World) (p : Nat) (pl : CoglPipeline) (n : Int) (pv : CoglPipelineProgendPrivate)
    (hlive : UserProgramLive w pl) :
    ∃ r, end_link env w p pl n pv = some r ∧ r.2.1.unit_state = pv.unit_state := by
  unfold end_link
  by_cases h0 : pv.program = 0
  · rw [if_pos h0]
    dsimp only
    by_cases hu : pl.user_program ≠ 0
    · obtain ⟨prog, hg, hsh⟩ := hlive hu
      have hg2 : heap_get (w.call (Call.glCreateProgram (env.glCreateProgram w.trace))).programs
          pl.user_program = some prog := hg
      rw [if_pos hu, hg2]
      dsimp only
      by_cases hgl : env.gles2 = true
      · rw [if_pos hgl]
        obtain ⟨m, hm⟩ := max_tex_total
          (w.call (Call.glCreateProgram (env.glCreateProgram w.trace))) prog.attached_shaders
          (if pv.n_tex_coord_attribs > n then pv.n_tex_coord_attribs else n) hsh
        rw [hm]
        dsimp only
        obtain ⟨w5, h5⟩ := attach_total env (env.glCreateProgram w.trace) m hlang
          prog.attached_shaders
          (w.call (Call.glCreateProgram (env.glCreateProgram w.trace))) hsh
        rw [h5]
        exact ⟨_, rfl, rfl⟩
      · rw [if_neg hgl]
        dsimp only
        obtain ⟨w5, h5⟩ := attach_total env (env.glCreateProgram w.trace)
          (if pv.n_tex_coord_attribs > n then pv.n_tex_coord_attribs else n) hlang
          prog.attached_shaders
          (w.call (Call.glCreateProgram (env.glCreateProgram w.trace))) hsh
        rw [h5]
        exact ⟨_, rfl, rfl⟩
    · rw [if_neg hu]
      exact ⟨_, rfl, rfl⟩
  · rw [if_neg h0]
    exact ⟨_, rfl, rfl⟩

theorem get_uniform_cb_total (env : Env) (g : Nat) (w : World)
    (pv : CoglPipelineProgendPrivate) (unit : Nat) (h : unit < pv.unit_state.length) :
    ∃ r, get_uniform_cb env g w pv unit = some r ∧
      r.2.unit_state.length = pv.unit_state.length := by
  unfold get_uniform_cb
  dsimp only
  rw [List.getElem?_eq_getElem h]
  dsimp only
  split
  · exact ⟨_, rfl, by simp⟩
  · exact ⟨_, rfl, by simp⟩

theorem update_constants_cb_total (env : Env) (p : Nat) (ua : Bool) (w : World)
    (pv : CoglPipelineProgendPrivate) (unit li : Nat) (h : unit < pv.unit_state.length) :
    ∃ r, update_constants_cb env p ua w pv unit li = some r ∧
      r.2.unit_state.length = pv.unit_state.length := by
  unfold update_constants_cb
  rw [List.getElem?_eq_getElem h]
  exact ⟨_, rfl, by simp⟩

theorem foreach_get_uniform_total (env : Env) (g : Nat) (layers : List Nat) :
    ∀ (unit : Nat) (w : World) (pv : CoglPipelineProgendPrivate),
      unit + layers.length ≤ pv.unit_state.length →
      ∃ r, foreach_get_uniform env g layers unit w pv = some r ∧
        r.2.unit_state.length = pv.unit_state.length := by
  induction layers with
  | nil =>
    intro unit w pv _
    exact ⟨_, rfl, rfl⟩
  | cons l rest ih =>
    intro unit w pv h
    rw [foreach_get_uniform]
    simp only [List.length_cons] at h
    obtain ⟨r, hr, hl⟩ := get_uniform_cb_total env g w pv unit (by omega)
    rw [hr]
    obtain ⟨r2, hr2, hl2⟩ := ih (unit + 1) r.1 r.2 (by omega)
    exact ⟨r2, hr2, hl2.trans hl⟩

theorem foreach_update_constants_total (env : Env) (p : Nat) (ua : Bool) (layers : List Nat) :
    ∀ (unit : Nat) (w : World) (pv : CoglPipelineProgendPrivate),
      unit + layers.length ≤ pv.unit_state.length →
      ∃ r, foreach_update_constants env p ua layers unit w pv = some r := by
  induction layers with
  | nil =>
    intro unit w pv _
    exact ⟨_, rfl⟩
  | cons l rest ih =>
    intro unit w pv h
    rw [foreach_update_constants]
    simp only [List.length_cons] at h
    obtain ⟨r, hr, hl⟩ := update_constants_cb_total env p ua w pv unit l (by omega)
    rw [hr]
    exact ih (unit + 1) r.1 r.2 (by omega)

theorem check_relink_total (w : World) (pl : CoglPipeline) (n : Int)
    (pv : CoglPipelineProgendPrivate) (hlive : UserProgramLive w pl) :
    ∃ r, end_check_relink w pl.user_program n pv = some r ∧ r.1.programs = w.programs ∧
      r.1.shaders = w.shaders ∧ r.2.unit_state = pv.unit_state := by
  unfold end_check_relink
  by_cases hc : pv.program ≠ 0 ∧ pl.user_program ≠ 0
  · obtain ⟨prog, hg, _⟩ := hlive hc.2
    rw [if_pos hc, hg]
    dsimp only
    split
    · exact ⟨_, rfl, rfl, rfl, rfl⟩
    · exact ⟨_, rfl, rfl, rfl, rfl⟩
  · rw [if_neg hc]
    exact ⟨_, rfl, rfl, rfl, rfl⟩

/-- The second half of `_cogl_pipeline_progend_glsl_end` completes when the user
program and its shaders are live, compiled shaders are GLSL shaders, and the
entry has a unit state for every layer. -/
theorem end_with_priv_total (env : Env)
    (hlang : env.compiles_glsl)
    (w : World) (p : Nat) (pl : CoglPipeline) (n : Int) (pv : CoglPipelineProgendPrivate)
    (hlive : UserProgramLive w pl) (hunits : pl.layers.length ≤ pv.unit_state.length) :
    ∃ r, end_with_priv env w p pl n pv = some r := by
  unfold end_with_priv
  obtain ⟨⟨w1, pv1⟩, h1, hp1, hs1, hu1⟩ := check_relink_total w pl n pv hlive
  rw [h1]
  dsimp only
  have hlive1 : UserProgramLive w1 pl := by
    intro hu
    obtain ⟨prog, hg, hsh⟩ := hlive hu
    refine ⟨prog, ?_, ?_⟩
    · show heap_get w1.programs _ = _
      rw [hp1]; exact hg
    · intro s hs
      show ∃ sh, heap_get w1.shaders s = some sh ∧ sh.language = 0
      rw [hs1]; exact hsh s hs
  obtain ⟨⟨w2, pv2, b⟩, h2, hu2⟩ := link_total env hlang w1 p pl n pv1 hlive1
  rw [h2]
  dsimp only
  dsimp only at hu1 hu2
  have hlen : 0 + pl.layers.length ≤ pv2.unit_state.length := by
    rw [hu2, hu1]; omega
  have h3 : ∃ r3, (if b = true then
      foreach_get_uniform env pv2.program pl.layers 0
        (if pl.vertend = env.VERTEND_GLSL then
          (if pl.fragend = env.FRAGEND_GLSL then
            w2.call (Call.use_fragment_program pv2.program) else w2).call
            (Call.use_vertex_program pv2.program)
        else if pl.fragend = env.FRAGEND_GLSL then
          w2.call (Call.use_fragment_program pv2.program) else w2) pv2
      else some (if pl.vertend = env.VERTEND_GLSL then
          (if pl.fragend = env.FRAGEND_GLSL then
            w2.call (Call.use_fragment_program pv2.program) else w2).call
            (Call.use_vertex_program pv2.program)
        else if pl.fragend = env.FRAGEND_GLSL then
          w2.call (Call.use_fragment_program pv2.program) else w2, pv2)) = some r3 ∧
      r3.2.unit_state.length = pv2.unit_state.length := by
    cases b with
    | true =>
      simp only [↓reduceIte]
      exact foreach_get_uniform_total env _ _ _ _ _ hlen
    | false => exact ⟨_, rfl, rfl⟩
  obtain ⟨⟨w5, pv3⟩, h3, hl3⟩ := h3
  rw [h3]
  dsimp only
  dsimp only at hl3
  obtain ⟨⟨w6, pv4⟩, h4⟩ := foreach_update_constants_total env p
    (b || decide (pv3.last_used_for_pipeline ≠ p)) pl.layers 0 w5 pv3 (by rw [hl3]; exact hlen)
  rw [h4]
  exact ⟨_, rfl⟩

theorem end_present_eq (env : Env) (hctx : env.have_context = true) (w w3 : World) (p d : Nat)
    (n : Int) (pl : CoglPipeline) (pv pv2 : CoglPipelineProgendPrivate)
    (hp : heap_get w.pipelines p = some pl)
    (hglsl : pl.fragend = env.FRAGEND_GLSL ∨ pl.vertend = env.VERTEND_GLSL)
    (he : priv_of env pl ≠ 0) (hpv : heap_get w.privs (priv_of env pl) = some pv)
    (hw : end_with_priv env w p pl n pv = some (w3, pv2)) :
    _cogl_pipeline_progend_glsl_end env w p d n =
      some (w3.put_priv (some pv2) (priv_of env pl)) := by
  unfold _cogl_pipeline_progend_glsl_end
  rw [if_neg (by rw [hctx]; exact Bool.noConfusion), hp]
  dsimp only
  rw [if_neg (by
    intro hc
    rcases hglsl with h | h
    · exact hc.1 h
    · exact hc.2 h), find_present env w p pl he]
  dsimp only
  rw [hpv]
  dsimp only
  rw [hw]
  rfl

theorem demo_compiles_glsl : demo_env.compiles_glsl := fun _ _ h => h

theorem releases_refl (w : World) : Releases w w :=
  ⟨[], by simp, List.nodup_nil, fun _ h => absurd h (List.not_mem_nil _), fun _ h => h⟩

theorem releases_trans {w w2 w3 : World} (h1 : Releases w w2) (h2 : Releases w2 w3) :
    Releases w w3 := by
  obtain ⟨l1, f1, n1, d1, k1⟩ := h1
  obtain ⟨l2, f2, n2, d2, k2⟩ := h2
  refine ⟨l1 ++ l2, by rw [f2, f1, List.append_assoc], ?_, ?_, fun e he => k2 e (k1 e he)⟩
  · rw [List.nodup_append]
    refine ⟨n1, n2, ?_⟩
    intro e he1 he2
    exact (d2 e he2).1 (d1 e he1).2
  · intro e he
    rcases List.mem_append.mp he with he | he
    · exact ⟨(d1 e he).1, k2 e (d1 e he).2⟩
    · exact ⟨fun hd => (d2 e he).1 (k1 e hd), (d2 e he).2⟩

theorem releases_quiet (w w2 : World) (ht : freed w2.trace = freed w.trace)
    (hd : ∀ e, Dead w e → Dead w2 e) : Releases w w2 :=
  ⟨[], by rw [ht, List.append_nil], List.nodup_nil,
    fun _ h => absurd h (List.not_mem_nil _), hd⟩

theorem releases_same (w w2 : World) (ht : w2.trace = w.trace) (hp : w2.privs = w.privs) :
    Releases w w2 := by
  apply releases_quiet w w2 (by rw [ht])
  intro e he
  unfold Dead at *
  rw [hp]
  exact he

theorem freed_append (t t2 : List Call) : freed (t ++ t2) = freed t ++ freed t2 := by
  simp [freed]

theorem clear_flushed_calls (pv : CoglPipelineProgendPrivate) :
    (clear_flushed_matrix_stacks pv).2 =
      (if pv.flushed_modelview_stack ≠ 0 then
        [Call.matrix_stack_unref pv.flushed_modelview_stack] else []) ++
      (if pv.flushed_projection_stack ≠ 0 then
        [Call.matrix_stack_unref pv.flushed_projection_stack] else []) := rfl

theorem freed_unref_if (x : Nat) :
    freed (if x ≠ 0 then [Call.matrix_stack_unref x] else []) = [] := by
  split <;> rfl

theorem deleted_unref_if (x : Nat) :
    deleted_programs (if x ≠ 0 then [Call.matrix_stack_unref x] else []) = [] := by
  split <;> rfl

theorem deleted_append (t t2 : List Call) :
    deleted_programs (t ++ t2) = deleted_programs t ++ deleted_programs t2 := by
  simp [deleted_programs]

theorem freed_destroy_calls (env : Env) (pv : CoglPipelineProgendPrivate) (e : Nat) :
    freed (destroy_calls env pv e) = [e] := by
  unfold destroy_calls
  rw [freed_append, freed_append, clear_flushed_calls]
  have h1 : freed [Call.g_free_unit_state e, Call.g_slice_free_priv e] = [e] := rfl
  have h2 : freed (if pv.program ≠ 0 then [Call.glDeleteProgram pv.program] else []) = [] := by
    split <;> rfl
  rw [h1, h2]
  split
  · rw [freed_append, freed_unref_if, freed_unref_if]
    rfl
  · rfl

theorem deleted_destroy_calls (env : Env) (pv : CoglPipelineProgendPrivate) (e : Nat) :
    deleted_programs (destroy_calls env pv e) =
      if pv.program ≠ 0 then [pv.program] else [] := by
  unfold destroy_calls
  rw [deleted_append, deleted_append, clear_flushed_calls]
  have h1 : deleted_programs [Call.g_free_unit_state e, Call.g_slice_free_priv e] = [] := rfl
  have h2 : deleted_programs (if pv.program ≠ 0 then [Call.glDeleteProgram pv.program]
      else []) = if pv.program ≠ 0 then [pv.program] else [] := by
    split <;> rfl
  rw [h1, h2]
  split
  · rw [deleted_append, deleted_unref_if, deleted_unref_if]
    simp
  · simp [deleted_programs]

theorem destroy_calls_dec (env : Env) (pv : CoglPipelineProgendPrivate) (e x : Nat) :
    destroy_calls env { pv with ref_count := x } e = destroy_calls env pv e := by
  unfold destroy_calls
  rw [clear_flushed_calls, clear_flushed_calls]
  rfl

theorem destroy_glsl_priv_freed (env : Env) (hctx : env.have_context = true) (w : World)
    (e : Nat) (pv : CoglPipelineProgendPrivate) (hg : heap_get w.privs e = some pv)
    (h0 : dec32 pv.ref_count = 0) :
    destroy_glsl_priv env w e =
      some { w with privs := heap_set w.privs none e,
                    trace := w.trace ++
                      destroy_calls env { pv with ref_count := dec32 pv.ref_count } e } := by
  unfold destroy_glsl_priv
  rw [if_neg (by rw [hctx]; exact Bool.noConfusion), hg]
  dsimp only
  rw [if_pos h0]
  unfold destroy_calls
  rw [List.append_assoc, List.append_assoc, List.append_assoc]

/-- The destructor `destroy_glsl_priv` on a live entry. -/
theorem destroy_glsl_priv_eq (env : Env) (hctx : env.have_context = true) (w : World)
    (e : Nat) (pv : CoglPipelineProgendPrivate) (hg : heap_get w.privs e = some pv) :
    destroy_glsl_priv env w e =
      some (if dec32 pv.ref_count = 0 then
          { w with privs := heap_set w.privs none e,
                   trace := w.trace ++ destroy_calls env pv e }
        else { w with
          privs := heap_set w.privs (some { pv with ref_count := dec32 pv.ref_count }) e }) := by
  by_cases h0 : dec32 pv.ref_count = 0
  · rw [if_pos h0, destroy_glsl_priv_freed env hctx w e pv hg h0, destroy_calls_dec]
  · rw [if_neg h0]
    exact destroy_glsl_priv_shared env hctx w e pv hg h0

theorem dead_heap_set (w w2 : World) (v : Option CoglPipelineProgendPrivate) (x : Nat)
    (hp : w2.privs = heap_set w.privs v x) (hx : ¬ Dead w x ∨ v = none) :
    ∀ e, Dead w e → Dead w2 e := by
  intro e he
  obtain ⟨h0, hl, hn⟩ := he
  refine ⟨h0, by rw [hp, heap_set_length]; exact hl, ?_⟩
  rw [hp]
  by_cases hex : e = x
  · subst hex
    rcases hx with hx | hx
    · exact absurd ⟨h0, hl, hn⟩ hx
    · rw [heap_get_set_same _ _ _ h0 hl, hx]
  · rw [heap_get_set_ne _ _ _ _ hex]
    exact hn

theorem not_dead_of_live (w : World) (e : Nat) (pv : CoglPipelineProgendPrivate)
    (hg : heap_get w.privs e = some pv) : ¬ Dead w e := by
  intro hd
  rw [hd.2.2] at hg
  cases hg

theorem releases_put_priv (w : World) (e : Nat) (pv x : CoglPipelineProgendPrivate)
    (hg : heap_get w.privs e = some pv) : Releases w (w.put_priv (some x) e) :=
  releases_quiet _ _ rfl (dead_heap_set w _ (some x) e rfl (Or.inl (not_dead_of_live w e pv hg)))

theorem releases_alloc (w : World) (x : CoglPipelineProgendPrivate) :
    Releases w { w with privs := w.privs ++ [some x] } := by
  refine releases_quiet w { w with privs := w.privs ++ [some x] } rfl ?_
  intro e he
  obtain ⟨h0, hl, hn⟩ := he
  refine ⟨h0, ?_, ?_⟩
  · show e ≤ (w.privs ++ [some x]).length
    rw [List.length_append]
    omega
  · show heap_get (w.privs ++ [some x]) e = none
    rw [heap_get_append, if_neg (by omega)]
    exact hn

theorem releases_call (w : World) (c : Call) (hc : c.frees = none) : Releases w (w.call c) := by
  apply releases_quiet
  · show freed (w.trace ++ [c]) = _
    rw [freed_append]
    simp [freed, hc]
  · exact fun e he => he

theorem destroy_releases (env : Env) (hctx : env.have_context = true) (w w2 : World) (e : Nat)
    (h : destroy_glsl_priv env w e = some w2) : Releases w w2 := by
  cases hg : heap_get w.privs e with
  | none =>
    unfold destroy_glsl_priv at h
    rw [if_neg (by rw [hctx]; exact Bool.noConfusion), hg] at h
    cases h
  | some pv =>
    rw [destroy_glsl_priv_eq env hctx w e pv hg] at h
    simp only [Option.some.injEq] at h
    have hb := heap_get_some_bound _ _ _ hg
    by_cases h0 : dec32 pv.ref_count = 0
    · rw [if_pos h0] at h
      subst h
      refine ⟨[e], ?_, List.nodup_singleton e, ?_, ?_⟩
      · show freed (w.trace ++ destroy_calls env pv e) = _
        rw [freed_append, freed_destroy_calls]
      · intro x hx
        rw [List.mem_singleton] at hx
        subst hx
        refine ⟨not_dead_of_live w x pv hg, hb.1, ?_, ?_⟩
        · show x ≤ (heap_set w.privs none x).length
          rw [heap_set_length]; exact hb.2
        · exact heap_get_set_same _ _ _ hb.1 hb.2
      · exact dead_heap_set w _ none e rfl (Or.inr rfl)
    · rw [if_neg h0] at h
      subst h
      exact releases_quiet _ _ rfl
        (dead_heap_set w _ _ e rfl (Or.inl (not_dead_of_live w e pv hg)))

theorem run_events_releases (env : Env) (hctx : env.have_context = true) (p : Nat)
    (evs : List Event) :
    ∀ w w2 : World, run_events env p w evs = some w2 → Releases w w2 := by
  induction evs with
  | nil =>
    intro w w2 h
    simp only [run_events, Option.some.injEq] at h
    subst h
    exact releases_refl w
  | cons ev rest ih =>
    intro w w2 h
    cases ev with
    | virt_free =>
      rw [run_events] at h
      exact releases_trans (releases_call w (Call.pipeline_free p) rfl) (ih _ _ h)
    | destroy fn d o =>
      rw [run_events] at h
      by_cases hfn : fn = env.destroy_glsl_priv
      · rw [if_pos hfn] at h
        cases hd : destroy_glsl_priv env w d with
        | none => rw [hd] at h; cases h
        | some w1 =>
          rw [hd] at h
          exact releases_trans (destroy_releases env hctx w w1 d hd) (ih _ _ h)
      · rw [if_neg hfn] at h
        exact releases_trans (releases_call w (Call.foreign_destroy fn d) rfl) (ih _ _ h)

theorem set_priv_user_data_releases (env : Env) (hctx : env.have_context = true) (w w2 : World)
    (p x : Nat) (h : set_priv_user_data env w p x = some w2) : Releases w w2 := by
  unfold set_priv_user_data at h
  split at h
  · cases h
  · dsimp only at h
    split at h
    · cases h
    · rename_i w1 hr
      simp only [Option.some.injEq] at h
      subst h
      exact releases_trans (run_events_releases env hctx p _ _ _ hr) (releases_same _ _ rfl rfl)

theorem endcalls_refl (w : World) : EndCalls w w :=
  ⟨[], ext_refl w, fun _ h => absurd h (List.not_mem_nil _)⟩

theorem endcalls_trans {w w2 w3 : World} (h1 : EndCalls w w2) (h2 : EndCalls w2 w3) :
    EndCalls w w3 := by
  obtain ⟨t1, e1, c1⟩ := h1
  obtain ⟨t2, e2, c2⟩ := h2
  refine ⟨t1 ++ t2, ext_trans e1 e2, ?_⟩
  intro c hc
  rcases List.mem_append.mp hc with hc | hc
  · exact c1 c hc
  · exact c2 c hc

theorem endcalls_call (w : World) (c : Call) (hc : c.is_end_call = true) :
    EndCalls w (w.call c) := by
  refine ⟨[c], ext_call w c, ?_⟩
  intro x hx
  rw [List.mem_singleton] at hx
  rw [hx]
  exact hc

theorem endcalls_of_trace (w w2 : World) (c : Call) (hc : c.is_end_call = true)
    (h : w2.trace = w.trace ++ [c]) : EndCalls w w2 := by
  refine ⟨[c], h, ?_⟩
  intro x hx
  rw [List.mem_singleton] at hx
  rw [hx]
  exact hc

theorem endcalls_call_if (w : World) (c : Call) (P : Prop) [Decidable P]
    (hc : c.is_end_call = true) : EndCalls w (if P then w.call c else w) := by
  by_cases h : P
  · rw [if_pos h]; exact endcalls_call w c hc
  · rw [if_neg h]; exact endcalls_refl w

theorem endcalls_of_keeps {w w2 : World} (h : w2.trace = w.trace) : EndCalls w w2 :=
  ⟨[], by simp [Ext, h], fun _ h => absurd h (List.not_mem_nil _)⟩

theorem endcalls_get_location (env : Env) (w : World) (g : Nat) (name : UniformName) :
    EndCalls w (gl_get_uniform_location env w g name).2 :=
  endcalls_call w _ rfl

theorem endcalls_check_relink (w w2 : World) (up : Nat) (n : Int)
    (pv pv2 : CoglPipelineProgendPrivate)
    (h : end_check_relink w up n pv = some (w2, pv2)) : EndCalls w w2 := by
  unfold end_check_relink at h
  split at h
  · split at h
    · cases h
    · split at h
      · simp only [Option.some.injEq, Prod.mk.injEq] at h
        rw [← h.1]
        exact endcalls_call w _ rfl
      · simp only [Option.some.injEq, Prod.mk.injEq] at h
        rw [← h.1]
        exact endcalls_refl w
  · simp only [Option.some.injEq, Prod.mk.injEq] at h
    rw [← h.1]
    exact endcalls_refl w

theorem endcalls_attach_user_shaders (env : Env) (g : Nat) (n : Int) (shaders : List Nat) :
    ∀ (w w2 : World), attach_user_shaders env g n shaders w = some w2 → EndCalls w w2 := by
  induction shaders with
  | nil =>
    intro w w2 h
    simp only [attach_user_shaders, Option.some.injEq] at h
    subst h
    exact endcalls_refl _
  | cons sh rest ih =>
    intro w w2 h
    rw [attach_user_shaders] at h
    split at h
    · cases h
    · rename_i sh0 _
      dsimp only at h
      split at h
      · cases h
      · have f2 := ih _ _ h
        refine endcalls_trans ?_ f2
        refine endcalls_trans ?_ (endcalls_call _ _ rfl)
        exact endcalls_of_trace _ _ (Call.shader_compile_real sh n) rfl rfl

theorem endcalls_link_program (env : Env) (w : World) (g : Nat) :
    EndCalls w (link_program env w g) := by
  unfold link_program
  dsimp only
  have e1 := endcalls_call w (Call.glLinkProgram g) rfl
  have e2 := endcalls_call (w.call (Call.glLinkProgram g))
    (Call.glGetProgramiv_link_status g
      (env.link_status (w.call (Call.glLinkProgram g)).trace g)) rfl
  split
  · exact endcalls_trans (endcalls_trans (endcalls_trans e1 e2)
      (endcalls_call _ (Call.glGetProgramInfoLog g) rfl))
      (endcalls_call _ (Call.g_warning_link_failed g) rfl)
  · exact endcalls_trans e1 e2

theorem endcalls_end_link (env : Env) (w w2 : World) (p : Nat) (pl : CoglPipeline) (n : Int)
    (pv pv2 : CoglPipelineProgendPrivate) (b : Bool)
    (h : end_link env w p pl n pv = some (w2, pv2, b)) : EndCalls w w2 := by
  unfold end_link at h
  split at h
  · dsimp only at h
    split at h
    · cases h
    · rename_i w3 pv3 n3 hu
      simp only [Option.some.injEq, Prod.mk.injEq] at h
      obtain ⟨h1, _, _⟩ := h
      have e0 := endcalls_call w (Call.glCreateProgram (env.glCreateProgram w.trace)) rfl
      have hu2 : EndCalls w w3 := by
        split at hu
        · split at hu
          · cases hu
          · split at hu
            · cases hu
            · split at hu
              · cases hu
              · rename_i w5 ha
                simp only [Option.some.injEq, Prod.mk.injEq] at hu
                obtain ⟨u1, _, _⟩ := hu
                have f := endcalls_attach_user_shaders env _ _ _ _ _ ha
                rw [← u1]
                exact endcalls_trans e0 f
        · simp only [Option.some.injEq, Prod.mk.injEq] at hu
          obtain ⟨u1, _, _⟩ := hu
          rw [← u1]
          exact e0
      rw [← h1]
      refine endcalls_trans hu2 (endcalls_trans ?_ (endcalls_link_program env _ _))
      exact endcalls_trans (endcalls_call_if _ _ _ (by rfl)) (endcalls_call_if _ _ _ (by rfl))
  · simp only [Option.some.injEq, Prod.mk.injEq] at h
    obtain ⟨h1, _, _⟩ := h
    rw [← h1]
    exact endcalls_refl _

theorem endcalls_get_uniform_cb (env : Env) (g : Nat) (w w2 : World)
    (pv pv2 : CoglPipelineProgendPrivate) (unit : Nat)
    (h : get_uniform_cb env g w pv unit = some (w2, pv2)) : EndCalls w w2 := by
  unfold get_uniform_cb at h
  dsimp only at h
  have e1 := endcalls_get_location env w g (UniformName.sampler unit)
  have e2 := endcalls_call_if (gl_get_uniform_location env w g (UniformName.sampler unit)).2
    (Call.glUniform1i (gl_get_uniform_location env w g (UniformName.sampler unit)).1 unit)
    ((gl_get_uniform_location env w g (UniformName.sampler unit)).1 ≠ -1) rfl
  have e3 := endcalls_trans (endcalls_trans e1 e2)
    (endcalls_get_location env _ g (UniformName.layer_constant unit))
  split at h
  · cases h
  · split at h
    · simp only [Option.some.injEq, Prod.mk.injEq] at h
      rw [← h.1]
      exact endcalls_trans e3 (endcalls_get_location env _ g (UniformName.texture_matrix unit))
    · simp only [Option.some.injEq, Prod.mk.injEq] at h
      rw [← h.1]
      exact e3

theorem endcalls_update_constants_cb (env : Env) (p : Nat) (ua : Bool) (w w2 : World)
    (pv pv2 : CoglPipelineProgendPrivate) (unit li : Nat)
    (h : update_constants_cb env p ua w pv unit li = some (w2, pv2)) : EndCalls w w2 := by
  unfold update_constants_cb at h
  split at h
  · cases h
  · rename_i us hus
    dsimp only at h
    simp only [Option.some.injEq, Prod.mk.injEq] at h
    rw [← h.1]
    split
    · split
      · exact endcalls_trans (endcalls_call w (Call.glUniform4fv_combine_constant
          us.combine_constant_uniform p li) rfl) (endcalls_call _ _ rfl)
      · exact endcalls_call w (Call.glUniform4fv_combine_constant
          us.combine_constant_uniform p li) rfl
    · split
      · exact endcalls_call w _ rfl
      · exact endcalls_refl w

theorem endcalls_foreach_get_uniform (env : Env) (g : Nat) (layers : List Nat) :
    ∀ (unit : Nat) (w w2 : World) (pv pv2 : CoglPipelineProgendPrivate),
      foreach_get_uniform env g layers unit w pv = some (w2, pv2) → EndCalls w w2 := by
  induction layers with
  | nil =>
    intro unit w w2 pv pv2 h
    simp only [foreach_get_uniform, Option.some.injEq, Prod.mk.injEq] at h
    rw [← h.1]
    exact endcalls_refl _
  | cons l rest ih =>
    intro unit w w2 pv pv2 h
    rw [foreach_get_uniform] at h
    cases hc : get_uniform_cb env g w pv unit with
    | none => rw [hc] at h; cases h
    | some r =>
      rw [hc] at h
      exact endcalls_trans (endcalls_get_uniform_cb env g w r.1 pv r.2 unit hc) (ih _ _ _ _ _ h)

theorem endcalls_foreach_update_constants (env : Env) (p : Nat) (ua : Bool)
    (layers : List Nat) :
    ∀ (unit : Nat) (w w2 : World) (pv pv2 : CoglPipelineProgendPrivate),
      foreach_update_constants env p ua layers unit w pv = some (w2, pv2) → EndCalls w w2 := by
  induction layers with
  | nil =>
    intro unit w w2 pv pv2 h
    simp only [foreach_update_constants, Option.some.injEq, Prod.mk.injEq] at h
    rw [← h.1]
    exact endcalls_refl _
  | cons l rest ih =>
    intro unit w w2 pv pv2 h
    rw [foreach_update_constants] at h
    cases hc : update_constants_cb env p ua w pv unit l with
    | none => rw [hc] at h; cases h
    | some r =>
      rw [hc] at h
      exact endcalls_trans (endcalls_update_constants_cb env p ua w r.1 pv r.2 unit l hc)
        (ih _ _ _ _ _ h)

theorem endcalls_update_builtin_uniforms (p : Nat) (w : World)
    (pv : CoglPipelineProgendPrivate) : EndCalls w (update_builtin_uniforms p w pv).1 := by
  unfold update_builtin_uniforms
  split
  · exact endcalls_refl _
  · dsimp only
    exact endcalls_trans (endcalls_call_if w _ _ (by rfl)) (endcalls_call_if _ _ _ (by rfl))

theorem endcalls_unref_if (x : Nat) :
    ∀ c, c ∈ (if x ≠ 0 then [Call.matrix_stack_unref x] else []) → c.is_end_call = true := by
  intro c hc
  split at hc
  · rw [List.mem_singleton] at hc
    rw [hc]; rfl
  · cases hc

theorem endcalls_gles2_locations (env : Env) (w : World) (g : Nat)
    (pv : CoglPipelineProgendPrivate) : EndCalls w (end_gles2_locations env w g pv).1 := by
  have e0 : EndCalls w { w with trace := w.trace ++
      (clear_flushed_matrix_stacks (clear_attribute_cache pv)).2 } := by
    refine ⟨_, rfl, ?_⟩
    intro c hc
    rw [clear_flushed_calls] at hc
    rcases List.mem_append.mp hc with hc | hc
    · exact endcalls_unref_if _ c hc
    · exact endcalls_unref_if _ c hc
  exact endcalls_trans (endcalls_trans (endcalls_trans (endcalls_trans (endcalls_trans e0
    (endcalls_get_location env _ g (UniformName.builtin 0)))
    (endcalls_get_location env _ g (UniformName.builtin 1)))
    (endcalls_get_location env _ g UniformName.modelview_matrix))
    (endcalls_get_location env _ g UniformName.projection_matrix))
    (endcalls_get_location env _ g UniformName.modelview_projection_matrix)

theorem endcalls_end_gles2 (env : Env) (w : World) (p g : Nat) (changed : Bool)
    (pv : CoglPipelineProgendPrivate) : EndCalls w (end_gles2 env w p g changed pv).1 := by
  cases changed with
  | true =>
    have h : end_gles2 env w p g true pv =
        update_builtin_uniforms p (end_gles2_locations env w g pv).1
          { (end_gles2_locations env w g pv).2 with dirty_builtin_uniforms := env.ulong_max } := by
      unfold end_gles2
      simp
    rw [h]
    exact endcalls_trans (endcalls_gles2_locations env w g pv)
      (endcalls_update_builtin_uniforms p _ _)
  | false =>
    by_cases hl : pv.last_used_for_pipeline ≠ p
    · have h : end_gles2 env w p g false pv =
          update_builtin_uniforms p w { pv with dirty_builtin_uniforms := env.ulong_max } := by
        unfold end_gles2
        simp [hl]
      rw [h]
      exact endcalls_update_builtin_uniforms p w _
    · have h : end_gles2 env w p g false pv = update_builtin_uniforms p w pv := by
        unfold end_gles2
        simp [hl]
      rw [h]
      exact endcalls_update_builtin_uniforms p w _

/-- The second half of `_cogl_pipeline_progend_glsl_end` frees nothing: every call
it makes is a driver call, a shader compilation or a matrix stack release. -/
theorem endcalls_end_with_priv (env : Env) (w w2 : World) (p : Nat) (pl : CoglPipeline)
    (n : Int) (pv pv2 : CoglPipelineProgendPrivate)
    (h : end_with_priv env w p pl n pv = some (w2, pv2)) : EndCalls w w2 := by
  unfold end_with_priv at h
  split at h
  · cases h
  · rename_i w1 pv1 h1
    have f1 := endcalls_check_relink _ _ _ _ _ _ h1
    split at h
    · cases h
    · rename_i wl pvl changed hl
      have f2 := endcalls_end_link _ _ _ _ _ _ _ _ _ hl
      dsimp only at h
      split at h
      · cases h
      · rename_i w5 pv3 hg
        have f3 : EndCalls wl w5 := by
          have fu := endcalls_trans
            (endcalls_call_if wl (Call.use_fragment_program pvl.program)
              (pl.fragend = env.FRAGEND_GLSL) rfl)
            (endcalls_call_if _ (Call.use_vertex_program pvl.program)
              (pl.vertend = env.VERTEND_GLSL) rfl)
          split at hg
          · exact endcalls_trans fu (endcalls_foreach_get_uniform _ _ _ _ _ _ _ _ hg)
          · simp only [Option.some.injEq, Prod.mk.injEq] at hg
            rw [← hg.1]
            exact fu
        split at h
        · cases h
        · rename_i w6 pv4 hc
          have f4 := endcalls_foreach_update_constants _ _ _ _ _ _ _ _ _ hc
          simp only [Option.some.injEq, Prod.mk.injEq] at h
          obtain ⟨e1, _⟩ := h
          have f5 : EndCalls w6 (if env.gles2 = true then
                end_gles2 env w6 p pvl.program changed pv4 else (w6, pv4)).1 := by
            split
            · exact endcalls_end_gles2 _ _ _ _ _ _
            · exact endcalls_refl _
          rw [← e1]
          exact endcalls_trans f1 (endcalls_trans f2 (endcalls_trans f3 (endcalls_trans f4
            (endcalls_trans f5 (endcalls_call_if _ _ _ (by rfl))))))

theorem freed_of_endcalls {w w2 : World} (h : EndCalls w w2) :
    freed w2.trace = freed w.trace := by
  obtain ⟨t, e, hc⟩ := h
  have ht : freed t = [] := by
    unfold freed
    rw [List.filterMap_eq_nil_iff]
    intro c hcm
    have := hc c hcm
    cases c <;> first | rfl | cases this
  rw [e, freed_append, ht, List.append_nil]

theorem releases_end_with_priv (env : Env) (w w2 : World) (p : Nat) (pl : CoglPipeline)
    (n : Int) (pv pv2 : CoglPipelineProgendPrivate)
    (h : end_with_priv env w p pl n pv = some (w2, pv2)) : Releases w w2 := by
  apply releases_quiet w w2 (freed_of_endcalls (endcalls_end_with_priv env w w2 p pl n pv pv2 h))
  have f := (frame_end_with_priv env w w2 p pl n pv pv2 h).1
  intro e he
  unfold Dead at *
  rw [f.2.1]
  exact he

theorem releases_find_priv (env : Env) (hctx : env.have_context = true) (w w1 : World)
    (p e : Nat) (pl : CoglPipeline) (h : end_find_priv env w p pl = some (w1, e)) :
    Releases w w1 := by
  unfold end_find_priv at h
  dsimp only at h
  split at h
  · split at h
    · cases h
    · rename_i apriv _
      split at h
      · cases h
      · rename_i w2 e2 hc
        have r1 : Releases w w2 := by
          split at hc
          · unfold end_create_priv at hc
            dsimp only at hc
            split at hc
            · cases hc
            · rename_i w3 hs
              simp only [Option.some.injEq, Prod.mk.injEq] at hc
              rw [← hc.1]
              exact releases_trans (releases_alloc w _)
                (set_priv_user_data_releases env hctx _ _ _ _ hs)
          · simp only [Option.some.injEq, Prod.mk.injEq] at hc
            rw [← hc.1]
            exact releases_refl w
        split at h
        · split at h
          · cases h
          · rename_i w4 hsh
            simp only [Option.some.injEq, Prod.mk.injEq] at h
            rw [← h.1]
            refine releases_trans r1 ?_
            unfold end_share_priv at hsh
            split at hsh
            · cases hsh
            · rename_i pv0 hg0
              dsimp only at hsh
              exact releases_trans (releases_put_priv w2 e2 pv0 _ hg0)
                (set_priv_user_data_releases env hctx _ _ _ _ hsh)
        · simp only [Option.some.injEq, Prod.mk.injEq] at h
          rw [← h.1]
          exact r1
  · simp only [Option.some.injEq, Prod.mk.injEq] at h
    rw [← h.1]
    exact releases_refl w

theorem releases_end (env : Env) (hctx : env.have_context = true) (w w2 : World) (p d : Nat)
    (n : Int) (h : _cogl_pipeline_progend_glsl_end env w p d n = some w2) : Releases w w2 := by
  obtain ⟨pl, _, hc⟩ := end_unfold env hctx w w2 p d n h
  rcases hc with ⟨_, _, he⟩ | ⟨_, w1, e, pv, w3, pv2, hf, hg, hw, he⟩
  · rw [he]
    exact releases_refl w
  · rw [he]
    have f := (frame_end_with_priv env w1 w3 p pl n pv pv2 hw).1
    have hg3 : heap_get w3.privs e = some pv := by rw [f.2.1]; exact hg
    exact releases_trans (releases_find_priv env hctx w w1 p e pl hf)
      (releases_trans (releases_end_with_priv env w1 w3 p pl n pv pv2 hw)
        (releases_put_priv w3 e pv pv2 hg3))

theorem releases_with_glsl_priv (env : Env) (w w2 : World) (p : Nat)
    (update : CoglPipelineProgendPrivate → Option CoglPipelineProgendPrivate)
    (h : with_glsl_priv env w p update = some w2) : Releases w w2 := by
  unfold with_glsl_priv at h
  split at h
  · cases h
  · rename_i e _
    split at h
    · simp only [Option.some.injEq] at h
      rw [← h]
      exact releases_refl w
    · split at h
      · cases h
      · rename_i pv hg
        split at h
        · cases h
        · rename_i pv2 _
          simp only [Option.some.injEq] at h
          rw [← h]
          exact releases_put_priv w e pv pv2 hg

theorem releases_pre_change (env : Env) (hctx : env.have_context = true) (w w2 : World)
    (p change : Nat)
    (h : _cogl_pipeline_progend_glsl_pre_change_notify env w p change = some w2) :
    Releases w w2 := by
  unfold _cogl_pipeline_progend_glsl_pre_change_notify at h
  split at h
  · exact set_priv_user_data_releases env hctx w w2 p 0 h
  · split at h
    · split at h
      · exact releases_with_glsl_priv env w w2 p _ h
      · split at h
        · exact releases_with_glsl_priv env w w2 p _ h
        · simp only [Option.some.injEq] at h
          rw [← h]
          exact releases_refl w
    · simp only [Option.some.injEq] at h
      rw [← h]
      exact releases_refl w

theorem releases_layer_pre_change (env : Env) (hctx : env.have_context = true) (w w2 : World)
    (owner unit change : Nat)
    (h : _cogl_pipeline_progend_glsl_layer_pre_change_notify env w owner unit change =
      some w2) : Releases w w2 := by
  unfold _cogl_pipeline_progend_glsl_layer_pre_change_notify at h
  split at h
  · exact set_priv_user_data_releases env hctx w w2 owner 0 h
  · dsimp only at h
    split at h
    · cases h
    · rename_i w1 h1
      have r1 : Releases w w1 := by
        split at h1
        · exact releases_with_glsl_priv env w w1 owner _ h1
        · simp only [Option.some.injEq] at h1
          rw [← h1]
          exact releases_refl w
      split at h
      · exact releases_trans r1 (releases_with_glsl_priv env w1 w2 owner _ h)
      · simp only [Option.some.injEq] at h
        rw [← h]
        exact r1

theorem releases_pipeline_unref (env : Env) (hctx : env.have_context = true) (w w2 : World)
    (p : Nat) (h : pipeline_unref env w p = some w2) : Releases w w2 := by
  unfold pipeline_unref at h
  split at h
  · cases h
  · dsimp only at h
    split at h
    · cases h
    · rename_i w1 hr
      simp only [Option.some.injEq] at h
      rw [← h]
      exact releases_trans (run_events_releases env hctx p _ _ _ hr) (releases_same _ _ rfl rfl)

theorem releases_step (env : Env) (hctx : env.have_context = true) (w w2 : World) (op : Op)
    (h : step env w op = some w2) : Releases w w2 := by
  cases op with
  | ensure p d n => exact releases_end env hctx w w2 p d n h
  | pre_change p c => exact releases_pre_change env hctx w w2 p c h
  | layer_pre_change o u c => exact releases_layer_pre_change env hctx w w2 o u c h
  | unref p => exact releases_pipeline_unref env hctx w w2 p h
  | ref p =>
    simp only [step] at h
    split at h
    · cases h
    · simp only [Option.some.injEq] at h
      rw [← h]
      exact releases_same _ _ rfl rfl
  | edit p f v u l pa d =>
    simp only [step] at h
    split at h
    · cases h
    · simp only [Option.some.injEq] at h
      rw [← h]
      exact releases_same _ _ rfl rfl
  | new_pipeline m f v u l pa d =>
    simp only [step] at h
    split at h
    · simp only [Option.some.injEq] at h
      rw [← h]
      exact releases_same _ _ rfl rfl
    · cases h
  | set_program ptr prog =>
    simp only [step, Option.some.injEq] at h
    rw [← h]
    exact releases_same _ _ rfl rfl
  | set_shader ptr sh =>
    simp only [step, Option.some.injEq] at h
    rw [← h]
    exact releases_same _ _ rfl rfl

theorem releases_run_ops (env : Env) (hctx : env.have_context = true) (ops : List Op) :
    ∀ w w2 : World, run_ops env w ops = some w2 → Releases w w2 := by
  induction ops with
  | nil =>
    intro w w2 h
    simp only [run_ops, Option.some.injEq] at h
    rw [← h]
    exact releases_refl w
  | cons op rest ih =>
    intro w w2 h
    rw [run_ops] at h
    cases hs : step env w op with
    | none => rw [hs] at h; cases h
    | some w1 =>
      rw [hs] at h
      exact releases_trans (releases_step env hctx w w1 op hs) (ih w1 w2 h)

theorem freedOK_of_releases {w w2 : World} (h0 : FreedOK w) (h : Releases w w2) :
    FreedOK w2 := by
  obtain ⟨l, f, n, d, k⟩ := h
  obtain ⟨n0, d0⟩ := h0
  refine ⟨?_, ?_⟩
  · rw [f, List.nodup_append]
    exact ⟨n0, n, fun e h1 h2 => (d e h2).1 (d0 e h1)⟩
  · intro e he
    rw [f] at he
    rcases List.mem_append.mp he with he | he
    · exact k e (d0 e he)
    · exact (d e he).2

/-- In a run that starts with an empty trace, no cache entry is freed twice. -/
theorem freed_nodup (env : Env) (hctx : env.have_context = true) (w0 w : World)
    (ops : List Op) (ht : w0.trace = []) (hrun : run_ops env w0 ops = some w) :
    (freed w.trace).Nodup ∧ ∀ e, e ∈ freed w.trace → heap_get w.privs e = none := by
  have h0 : FreedOK w0 := by
    unfold FreedOK
    rw [ht]
    exact ⟨List.nodup_nil, fun _ h => absurd h (List.not_mem_nil _)⟩
  have h := freedOK_of_releases h0 (releases_run_ops env hctx ops w0 w hrun)
  exact ⟨h.1, fun e he => (h.2 e he).2.2⟩

/-! ## What a detach or a destruction does to the entry -/

theorem release_calls_zero (env : Env) (privs : List (Option CoglPipelineProgendPrivate))
    (e : Nat) (rest : List Nat) (pv : CoglPipelineProgendPrivate)
    (hg : heap_get privs e = some pv) (h0 : dec32 pv.ref_count = 0) :
    release_calls env privs (e :: rest) =
      destroy_calls env pv e ++ release_calls env (heap_set privs none e) rest := by
  have h1 : release_one env privs e = destroy_calls env pv e := by
    unfold release_one
    rw [hg]
    exact if_pos h0
  have h2 : privs_release privs e = some (heap_set privs none e) := by
    unfold privs_release
    rw [hg]
    exact if_pos h0
  rw [release_calls, h1, h2]
  rfl

theorem release_calls_pos (env : Env) (privs : List (Option CoglPipelineProgendPrivate))
    (e : Nat) (rest : List Nat) (pv : CoglPipelineProgendPrivate)
    (hg : heap_get privs e = some pv) (h0 : dec32 pv.ref_count ≠ 0) :
    release_calls env privs (e :: rest) =
      release_calls env
        (heap_set privs (some { pv with ref_count := dec32 pv.ref_count }) e) rest := by
  have h1 : release_one env privs e = [] := by
    unfold release_one
    rw [hg]
    exact if_neg h0
  have h2 : privs_release privs e =
      some (heap_set privs (some { pv with ref_count := dec32 pv.ref_count }) e) := by
    unfold privs_release
    rw [hg]
    exact if_neg h0
  rw [release_calls, h1, h2]
  rfl

theorem run_events_trace (env : Env) (hctx : env.have_context = true) (p : Nat)
    (f : Call → Option Nat) (hf1 : ∀ fn d, f (Call.foreign_destroy fn d) = none)
    (hf2 : ∀ q, f (Call.pipeline_free q) = none) (evs : List Event) :
    ∀ w w2 : World, run_events env p w evs = some w2 →
      w2.trace.filterMap f = w.trace.filterMap f ++
        (release_calls env w.privs (ev_targets env.destroy_glsl_priv evs)).filterMap f := by
  induction evs with
  | nil =>
    intro w w2 h
    simp only [run_events, Option.some.injEq] at h
    rw [← h]
    simp [ev_targets, release_calls]
  | cons ev rest ih =>
    intro w w2 h
    cases ev with
    | virt_free =>
      rw [run_events] at h
      have := ih _ _ h
      rw [this]
      have e1 : (w.call (Call.pipeline_free p)).trace.filterMap f = w.trace.filterMap f := by
        show (w.trace ++ [Call.pipeline_free p]).filterMap f = _
        rw [List.filterMap_append]
        simp [hf2]
      rw [e1]
      rfl
    | destroy fn d o =>
      rw [run_events] at h
      by_cases hfn : fn = env.destroy_glsl_priv
      · rw [if_pos hfn] at h
        have ht : ev_targets env.destroy_glsl_priv (Event.destroy fn d o :: rest) =
            d :: ev_targets env.destroy_glsl_priv rest := by
          rw [ev_targets, if_pos hfn]
        rw [ht]
        cases hg : heap_get w.privs d with
        | none =>
          unfold destroy_glsl_priv at h
          rw [if_neg (by rw [hctx]; exact Bool.noConfusion), hg] at h
          cases h
        | some pv =>
          by_cases h0 : dec32 pv.ref_count = 0
          · rw [destroy_glsl_priv_freed env hctx w d pv hg h0, destroy_calls_dec] at h
            have := ih _ _ h
            rw [this, release_calls_zero env w.privs d _ pv hg h0]
            show (w.trace ++ destroy_calls env pv d).filterMap f ++ _ = _
            rw [List.filterMap_append, List.filterMap_append, List.append_assoc]
          · rw [destroy_glsl_priv_shared env hctx w d pv hg h0] at h
            have := ih _ _ h
            rw [this, release_calls_pos env w.privs d _ pv hg h0]
      · rw [if_neg hfn] at h
        have ht : ev_targets env.destroy_glsl_priv (Event.destroy fn d o :: rest) =
            ev_targets env.destroy_glsl_priv rest := by
          rw [ev_targets, if_neg hfn]
        rw [ht]
        have := ih _ _ h
        rw [this]
        have e1 : (w.call (Call.foreign_destroy fn d)).trace.filterMap f =
            w.trace.filterMap f := by
          show (w.trace ++ [Call.foreign_destroy fn d]).filterMap f = _
          rw [List.filterMap_append]
          simp [hf1]
        rw [e1]
        rfl

theorem frees_quiet : (∀ fn d, Call.frees (Call.foreign_destroy fn d) = none) ∧
    ∀ q, Call.frees (Call.pipeline_free q) = none := ⟨fun _ _ => rfl, fun _ => rfl⟩

theorem deletes_quiet : (∀ fn d, Call.deletes (Call.foreign_destroy fn d) = none) ∧
    ∀ q, Call.deletes (Call.pipeline_free q) = none := ⟨fun _ _ => rfl, fun _ => rfl⟩

theorem release_calls_one (env : Env) (privs : List (Option CoglPipelineProgendPrivate))
    (e : Nat) (pv : CoglPipelineProgendPrivate) (hg : heap_get privs e = some pv) :
    release_calls env privs [e] =
      if dec32 pv.ref_count = 0 then destroy_calls env pv e else [] := by
  rw [release_calls, release_calls, List.append_nil]
  unfold release_one
  rw [hg]

/-- What the destructor callbacks of a detach or a destruction do, in a world that
satisfies the invariant, when the pipeline holds an entry. -/
theorem release_dropped (env : Env) (hok : env.ok) (w : World) (p : Nat) (pl : CoglPipeline)
    (v : Option CoglPipeline) (evs : List Event)
    (h : Inv env w) (hp : heap_get w.pipelines p = some pl) (hv : Detached env v)
    (hev : ev_targets env.destroy_glsl_priv evs =
      if priv_of env pl = 0 then [] else [priv_of env pl])
    (he : priv_of env pl ≠ 0) :
    ∃ w1 pv, run_events env p w evs = some w1 ∧
      heap_get w.privs (priv_of env pl) = some pv ∧ 1 ≤ pv.ref_count ∧
      Dropped w w1 (priv_of env pl) pv ∧ w1.pipelines = w.pipelines := by
  obtain ⟨w1, e1, e2, _, _, _, _, e7⟩ := inv_release env hok w p pl v evs h hp hv hev
  obtain ⟨pv, hg, hsh, h1, hpr⟩ := e7 he
  have hb := heap_get_some_bound _ _ _ hg
  have hlen := ((inv_iff env w).mp h).2.2
  have hle : sharers env w (priv_of env pl) ≤ w.pipelines.length := List.countP_le_length _
  have hfr := run_events_trace env hok.1 p Call.frees frees_quiet.1 frees_quiet.2 evs w w1 e1
  have hdl := run_events_trace env hok.1 p Call.deletes deletes_quiet.1 deletes_quiet.2
    evs w w1 e1
  rw [hev, if_neg he, release_calls_one env w.privs _ pv hg] at hfr hdl
  refine ⟨w1, pv, e1, hg, h1, ⟨?_, ?_, ?_⟩, e2⟩
  · intro hgt
    have hd : dec32 pv.ref_count ≠ 0 := by
      unfold dec32
      omega
    rw [if_neg hd] at hfr hdl
    refine ⟨?_, by simpa [freed] using hfr, by simpa [deleted_programs] using hdl⟩
    rw [hpr, heap_get_set_same _ _ _ hb.1 hb.2]
    unfold dropped
    rw [if_neg (by omega)]
  · intro h1e
    have hd : dec32 pv.ref_count = 0 := by
      unfold dec32
      omega
    rw [if_pos hd] at hfr hdl
    refine ⟨?_, ?_, ?_⟩
    · rw [hpr, heap_get_set_same _ _ _ hb.1 hb.2]
      unfold dropped
      rw [if_pos h1e]
    · have := freed_destroy_calls env pv (priv_of env pl)
      unfold freed at this ⊢
      rw [hfr, this]
    · have := deleted_destroy_calls env pv (priv_of env pl)
      unfold deleted_programs at this ⊢
      rw [hdl, this]
  · intro x hx
    rw [hpr, heap_get_set_ne _ _ _ _ hx]

theorem dirty_targets (env : Env) (hok : env.ok) (pl : CoglPipeline)
    (hdis : pl._parent.Disciplined env.N env.glsl_priv_key env.destroy_glsl_priv) :
    ev_targets env.destroy_glsl_priv
      (cogl_object_set_user_data env.N pl._parent env.glsl_priv_key 0
        env.destroy_glsl_priv).2 = if priv_of env pl = 0 then [] else [priv_of env pl] := by
  have hev := set_events env.N env.glsl_priv_key env.destroy_glsl_priv pl._parent 0
    env.destroy_glsl_priv hok.2.1 hok.2.2 hdis
  rw [hev]
  by_cases h0 : priv_of env pl = 0
  · have h02 : cogl_object_get_user_data env.N pl._parent env.glsl_priv_key = 0 := h0
    rw [if_pos h0, if_pos h02]
    rfl
  · have h02 : cogl_object_get_user_data env.N pl._parent env.glsl_priv_key ≠ 0 := h0
    rw [if_neg h0, if_neg h02]
    simp [ev_targets, priv_of]

/-- A detach (`dirty_glsl_program_state`) by a pipeline that holds an entry. -/
theorem dirty_dropped (env : Env) (hok : env.ok) (w : World) (p : Nat) (pl : CoglPipeline)
    (h : Inv env w) (hp : heap_get w.pipelines p = some pl) (he : priv_of env pl ≠ 0) :
    ∃ w2 pv, dirty_glsl_program_state env w p = some w2 ∧
      heap_get w.privs (priv_of env pl) = some pv ∧ 1 ≤ pv.ref_count ∧
      Dropped w w2 (priv_of env pl) pv ∧
      ∀ q, q ≠ p → heap_get w2.pipelines q = heap_get w.pipelines q := by
  have hdis := (((inv_iff env w).mp h).1 _ (heap_get_mem _ _ _ hp)).1
  obtain ⟨w1, pv, e1, hg, h1, hd, hpl⟩ := release_dropped env hok w p pl
    (some (attached env pl 0)) _ h hp (detached_attached env hok pl hdis)
    (dirty_targets env hok pl hdis) he
  refine ⟨w1.put_pipeline (some (attached env pl 0)) p, pv, ?_, hg, h1, hd, ?_⟩
  · unfold dirty_glsl_program_state set_priv_user_data
    rw [hp]
    dsimp only
    rw [e1]
    rfl
  · intro q hq
    show heap_get (heap_set w1.pipelines _ p) q = _
    rw [heap_get_set_ne _ _ _ _ hq, hpl]

/-- The final `cogl_object_unref` of a pipeline that holds an entry. -/
theorem unref_dropped (env : Env) (hok : env.ok) (w : World) (p : Nat) (pl : CoglPipeline)
    (h : Inv env w) (hp : heap_get w.pipelines p = some pl) (he : priv_of env pl ≠ 0)
    (hrc : pl._parent.ref_count = 1) :
    ∃ w2 pv, pipeline_unref env w p = some w2 ∧
      heap_get w.privs (priv_of env pl) = some pv ∧ 1 ≤ pv.ref_count ∧
      Dropped w w2 (priv_of env pl) pv ∧
      ∀ q, q ≠ p → heap_get w2.pipelines q = heap_get w.pipelines q := by
  have hdis := (((inv_iff env w).mp h).1 _ (heap_get_mem _ _ _ hp)).1
  obtain ⟨hu1, hu2⟩ := unref_targets env.N env.glsl_priv_key env.destroy_glsl_priv
    pl._parent hok.2.1 hok.2.2 hdis hrc
  have htar : ev_targets env.destroy_glsl_priv (cogl_object_unref env.N pl._parent).2 =
      if priv_of env pl = 0 then [] else [priv_of env pl] := hu2
  obtain ⟨w1, pv, e1, hg, h1, hd, hpl⟩ := release_dropped env hok w p pl none _ h hp
    trivial htar he
  refine ⟨w1.put_pipeline none p, pv, ?_, hg, h1, hd, ?_⟩
  · unfold pipeline_unref
    rw [hp]
    dsimp only
    rw [e1, hu1]
    rfl
  · intro q hq
    show heap_get (heap_set w1.pipelines _ p) q = _
    rw [heap_get_set_ne _ _ _ _ hq, hpl]

/-- C9: in every state reached from a world without cache entries and with an
empty trace, (1) the destructor `destroy_glsl_priv` on a live entry completes and
destroys the entry exactly when the decremented count is zero: then the entry is
gone and the calls made are those of `destroy_calls` (the program is deleted if
there is one, the unit state array and the entry are freed), otherwise the entry
stays with only its count decremented and no call is made; (2) a detach
(`dirty_glsl_program_state`) or the final `cogl_object_unref` of a pipeline that
holds an entry completes, and when the count was above one it leaves the entry,
with its program handle, to the other pipelines and frees and deletes nothing,
while with the last reference it frees the entry and deletes its program;
(3) no entry has been freed twice, and the freed entries are not live. -/
theorem entry_destroyed_when_count_reaches_zero (env : Env) (hok : env.ok) (w0 w : World)
    (ops : List Op) (hinit : InitOK env w0) (ht : w0.trace = [])
    (hrun : run_ops env w0 ops = some w) :
    (∀ e pv, heap_get w.privs e = some pv →
      ∃ w2, destroy_glsl_priv env w e = some w2 ∧
        (dec32 pv.ref_count = 0 →
          heap_get w2.privs e = none ∧ w2.trace = w.trace ++ destroy_calls env pv e ∧
          freed (destroy_calls env pv e) = [e] ∧
          Call.g_free_unit_state e ∈ destroy_calls env pv e ∧
          deleted_programs (destroy_calls env pv e) =
            (if pv.program ≠ 0 then [pv.program] else [])) ∧
        (dec32 pv.ref_count ≠ 0 →
          heap_get w2.privs e = some { pv with ref_count := dec32 pv.ref_count } ∧
          w2.trace = w.trace)) ∧
    (∀ p pl, heap_get w.pipelines p = some pl → priv_of env pl ≠ 0 →
      ∃ pv, heap_get w.privs (priv_of env pl) = some pv ∧ 1 ≤ pv.ref_count ∧
        (∃ w2, dirty_glsl_program_state env w p = some w2 ∧
          Dropped w w2 (priv_of env pl) pv ∧
          ∀ q, q ≠ p → heap_get w2.pipelines q = heap_get w.pipelines q) ∧
        (pl._parent.ref_count = 1 →
          ∃ w2, pipeline_unref env w p = some w2 ∧
            Dropped w w2 (priv_of env pl) pv ∧
            ∀ q, q ≠ p → heap_get w2.pipelines q = heap_get w.pipelines q)) ∧
    (freed w.trace).Nodup ∧ ∀ e, e ∈ freed w.trace → heap_get w.privs e = none := by
  have hinv := run_ops_inv env hok ops w0 w (init_inv env w0 hinit) hrun
  refine ⟨?_, ?_, freed_nodup env hok.1 w0 w ops ht hrun⟩
  · intro e pv hg
    have hb := heap_get_some_bound _ _ _ hg
    refine ⟨_, destroy_glsl_priv_eq env hok.1 w e pv hg, ?_, ?_⟩
    · intro h0
      rw [if_pos h0]
      refine ⟨heap_get_set_same _ _ _ hb.1 hb.2, rfl, freed_destroy_calls env pv e, ?_,
        deleted_destroy_calls env pv e⟩
      unfold destroy_calls
      simp
    · intro h0
      rw [if_neg h0]
      exact ⟨heap_get_set_same _ _ _ hb.1 hb.2, rfl⟩
  · intro p pl hp he
    obtain ⟨w2, pv, e1, hg, h1, hd, hq⟩ := dirty_dropped env hok w p pl hinv hp he
    refine ⟨pv, hg, h1, ⟨w2, e1, hd, hq⟩, ?_⟩
    intro hrc
    obtain ⟨w3, pv3, f1, hg3, _, hd3, hq3⟩ := unref_dropped env hok w p pl hinv hp he hrc
    rw [hg] at hg3
    simp only [Option.some.injEq] at hg3
    subst hg3
    exact ⟨w3, f1, hd3, hq3⟩

/-- Witness of C9: the example chain after `demo_ops`, in which the entry of C has
been freed with the destruction of C and the entry 1 is left to the root and B. -/
theorem entry_destroyed_when_count_reaches_zero_witness :
    (demo_env.ok ∧ InitOK demo_env demo_world ∧ demo_world.trace = [] ∧
      run_ops demo_env demo_world demo_ops = some demo_final) ∧
    ((∀ e pv, heap_get demo_final.privs e = some pv →
      ∃ w2, destroy_glsl_priv demo_env demo_final e = some w2 ∧
        (dec32 pv.ref_count = 0 →
          heap_get w2.privs e = none ∧
          w2.trace = demo_final.trace ++ destroy_calls demo_env pv e ∧
          freed (destroy_calls demo_env pv e) = [e] ∧
          Call.g_free_unit_state e ∈ destroy_calls demo_env pv e ∧
          deleted_programs (destroy_calls demo_env pv e) =
            (if pv.program ≠ 0 then [pv.program] else [])) ∧
        (dec32 pv.ref_count ≠ 0 →
          heap_get w2.privs e = some { pv with ref_count := dec32 pv.ref_count } ∧
          w2.trace = demo_final.trace)) ∧
    (∀ p pl, heap_get demo_final.pipelines p = some pl → priv_of demo_env pl ≠ 0 →
      ∃ pv, heap_get demo_final.privs (priv_of demo_env pl) = some pv ∧ 1 ≤ pv.ref_count ∧
        (∃ w2, dirty_glsl_program_state demo_env demo_final p = some w2 ∧
          Dropped demo_final w2 (priv_of demo_env pl) pv ∧
          ∀ q, q ≠ p → heap_get w2.pipelines q = heap_get demo_final.pipelines q) ∧
        (pl._parent.ref_count = 1 →
          ∃ w2, pipeline_unref demo_env demo_final p = some w2 ∧
            Dropped demo_final w2 (priv_of demo_env pl) pv ∧
            ∀ q, q ≠ p → heap_get w2.pipelines q = heap_get demo_final.pipelines q)) ∧
    (freed demo_final.trace).Nodup ∧
      ∀ e, e ∈ freed demo_final.trace → heap_get demo_final.privs e = none) :=
  ⟨⟨by decide, by decide, rfl, by decide⟩,
    entry_destroyed_when_count_reaches_zero demo_env (by decide) demo_world demo_final
      demo_ops (by decide) rfl (by decide)⟩

/-! ## Shaders stay live GLSL shaders -/

theorem sk_refl (w : World) : ShadersKept w w := fun _ h => h

theorem sk_trans {w w2 w3 : World} (h1 : ShadersKept w w2) (h2 : ShadersKept w2 w3) :
    ShadersKept w w3 := fun s h => h2 s (h1 s h)

theorem sk_eq {w w2 : World} (h : w2.shaders = w.shaders) : ShadersKept w w2 := by
  intro s hs
  unfold GlslShader at *
  rw [h]
  exact hs

theorem sk_call (w : World) (c : Call) : ShadersKept w (w.call c) := sk_eq rfl

theorem sk_call_if (w : World) (c : Call) (P : Prop) [Decidable P] :
    ShadersKept w (if P then w.call c else w) := by
  by_cases h : P
  · rw [if_pos h]; exact sk_call w c
  · rw [if_neg h]; exact sk_refl w

theorem sk_get_location (env : Env) (w : World) (g : Nat) (name : UniformName) :
    ShadersKept w (gl_get_uniform_location env w g name).2 := sk_eq rfl

theorem sk_check_relink (w w2 : World) (up : Nat) (n : Int)
    (pv pv2 : CoglPipelineProgendPrivate)
    (h : end_check_relink w up n pv = some (w2, pv2)) : ShadersKept w w2 := by
  unfold end_check_relink at h
  split at h
  · split at h
    · cases h
    · split at h
      · simp only [Option.some.injEq, Prod.mk.injEq] at h
        rw [← h.1]
        exact sk_call w _
      · simp only [Option.some.injEq, Prod.mk.injEq] at h
        rw [← h.1]
        exact sk_refl w
  · simp only [Option.some.injEq, Prod.mk.injEq] at h
    rw [← h.1]
    exact sk_refl w

theorem sk_attach_user_shaders (env : Env) (g : Nat) (n : Int) (shaders : List Nat) :
    ∀ (w w2 : World), attach_user_shaders env g n shaders w = some w2 → ShadersKept w w2 := by
  induction shaders with
  | nil =>
    intro w w2 h
    simp only [attach_user_shaders, Option.some.injEq] at h
    subst h
    exact sk_refl _
  | cons sh rest ih =>
    intro w w2 h
    rw [attach_user_shaders] at h
    split at h
    · cases h
    · rename_i sh0 _
      dsimp only at h
      split at h
      · cases h
      · rename_i hlang
        have f2 := ih _ _ h
        refine sk_trans ?_ f2
        intro s hs
        exact heap_live_set (fun y : CoglShader => y.language = 0) w.shaders
          (env.shader_compile_real sh0 n) sh s (not_not.mp hlang) hs

theorem sk_link_program (env : Env) (w : World) (g : Nat) :
    ShadersKept w (link_program env w g) := by
  unfold link_program
  dsimp only
  have e1 := sk_call w (Call.glLinkProgram g)
  have e2 := sk_call (w.call (Call.glLinkProgram g))
    (Call.glGetProgramiv_link_status g
      (env.link_status (w.call (Call.glLinkProgram g)).trace g))
  split
  · exact sk_trans (sk_trans (sk_trans e1 e2)
      (sk_call _ (Call.glGetProgramInfoLog g)))
      (sk_call _ (Call.g_warning_link_failed g))
  · exact sk_trans e1 e2

theorem sk_end_link (env : Env) (w w2 : World) (p : Nat) (pl : CoglPipeline) (n : Int)
    (pv pv2 : CoglPipelineProgendPrivate) (b : Bool)
    (h : end_link env w p pl n pv = some (w2, pv2, b)) : ShadersKept w w2 := by
  unfold end_link at h
  split at h
  · dsimp only at h
    split at h
    · cases h
    · rename_i w3 pv3 n3 hu
      simp only [Option.some.injEq, Prod.mk.injEq] at h
      obtain ⟨h1, _, _⟩ := h
      have e0 := sk_call w (Call.glCreateProgram (env.glCreateProgram w.trace))
      have hu2 : ShadersKept w w3 := by
        split at hu
        · split at hu
          · cases hu
          · split at hu
            · cases hu
            · split at hu
              · cases hu
              · rename_i w5 ha
                simp only [Option.some.injEq, Prod.mk.injEq] at hu
                obtain ⟨u1, _, _⟩ := hu
                have f := sk_attach_user_shaders env _ _ _ _ _ ha
                rw [← u1]
                exact sk_trans e0 f
        · simp only [Option.some.injEq, Prod.mk.injEq] at hu
          obtain ⟨u1, _, _⟩ := hu
          rw [← u1]
          exact e0
      rw [← h1]
      refine sk_trans hu2 (sk_trans ?_ (sk_link_program env _ _))
      exact sk_trans (sk_call_if _ _ _) (sk_call_if _ _ _)
  · simp only [Option.some.injEq, Prod.mk.injEq] at h
    obtain ⟨h1, _, _⟩ := h
    rw [← h1]
    exact sk_refl _

theorem sk_get_uniform_cb (env : Env) (g : Nat) (w w2 : World)
    (pv pv2 : CoglPipelineProgendPrivate) (unit : Nat)
    (h : get_uniform_cb env g w pv unit = some (w2, pv2)) : ShadersKept w w2 := by
  unfold get_uniform_cb at h
  dsimp only at h
  have e1 := sk_get_location env w g (UniformName.sampler unit)
  have e2 := sk_call_if (gl_get_uniform_location env w g (UniformName.sampler unit)).2
    (Call.glUniform1i (gl_get_uniform_location env w g (UniformName.sampler unit)).1 unit)
    ((gl_get_uniform_location env w g (UniformName.sampler unit)).1 ≠ -1)
  have e3 := sk_trans (sk_trans e1 e2)
    (sk_get_location env _ g (UniformName.layer_constant unit))
  split at h
  · cases h
  · split at h
    · simp only [Option.some.injEq, Prod.mk.injEq] at h
      rw [← h.1]
      exact sk_trans e3 (sk_get_location env _ g (UniformName.texture_matrix unit))
    · simp only [Option.some.injEq, Prod.mk.injEq] at h
      rw [← h.1]
      exact e3

theorem sk_update_constants_cb (env : Env) (p : Nat) (ua : Bool) (w w2 : World)
    (pv pv2 : CoglPipelineProgendPrivate) (unit li : Nat)
    (h : update_constants_cb env p ua w pv unit li = some (w2, pv2)) : ShadersKept w w2 := by
  unfold update_constants_cb at h
  split at h
  · cases h
  · rename_i us hus
    dsimp only at h
    simp only [Option.some.injEq, Prod.mk.injEq] at h
    rw [← h.1]
    split
    · split
      · exact sk_trans (sk_call w (Call.glUniform4fv_combine_constant
          us.combine_constant_uniform p li)) (sk_call _ _)
      · exact sk_call w (Call.glUniform4fv_combine_constant
          us.combine_constant_uniform p li)
    · split
      · exact sk_call w _
      · exact sk_refl w

theorem sk_foreach_get_uniform (env : Env) (g : Nat) (layers : List Nat) :
    ∀ (unit : Nat) (w w2 : World) (pv pv2 : CoglPipelineProgendPrivate),
      foreach_get_uniform env g layers unit w pv = some (w2, pv2) →
      ShadersKept w w2 := by
  induction layers with
  | nil =>
    intro unit w w2 pv pv2 h
    simp only [foreach_get_uniform, Option.some.injEq, Prod.mk.injEq] at h
    rw [← h.1]
    exact sk_refl _
  | cons l rest ih =>
    intro unit w w2 pv pv2 h
    rw [foreach_get_uniform] at h
    cases hc : get_uniform_cb env g w pv unit with
    | none => rw [hc] at h; cases h
    | some r =>
      rw [hc] at h
      exact sk_trans (sk_get_uniform_cb env g w r.1 pv r.2 unit hc) (ih _ _ _ _ _ h)

theorem sk_foreach_update_constants (env : Env) (p : Nat) (ua : Bool)
    (layers : List Nat) :
    ∀ (unit : Nat) (w w2 : World) (pv pv2 : CoglPipelineProgendPrivate),
      foreach_update_constants env p ua layers unit w pv = some (w2, pv2) →
      ShadersKept w w2 := by
  induction layers with
  | nil =>
    intro unit w w2 pv pv2 h
    simp only [foreach_update_constants, Option.some.injEq, Prod.mk.injEq] at h
    rw [← h.1]
    exact sk_refl _
  | cons l rest ih =>
    intro unit w w2 pv pv2 h
    rw [foreach_update_constants] at h
    cases hc : update_constants_cb env p ua w pv unit l with
    | none => rw [hc] at h; cases h
    | some r =>
      rw [hc] at h
      exact sk_trans (sk_update_constants_cb env p ua w r.1 pv r.2 unit l hc)
        (ih _ _ _ _ _ h)

theorem sk_update_builtin_uniforms (p : Nat) (w : World)
    (pv : CoglPipelineProgendPrivate) : ShadersKept w (update_builtin_uniforms p w pv).1 := by
  unfold update_builtin_uniforms
  split
  · exact sk_refl _
  · dsimp only
    exact sk_trans (sk_call_if w _ _) (sk_call_if _ _ _)

theorem sk_gles2_locations (env : Env) (w : World) (g : Nat)
    (pv : CoglPipelineProgendPrivate) : ShadersKept w (end_gles2_locations env w g pv).1 :=
  sk_eq rfl

theorem sk_end_gles2 (env : Env) (w : World) (p g : Nat) (changed : Bool)
    (pv : CoglPipelineProgendPrivate) : ShadersKept w (end_gles2 env w p g changed pv).1 := by
  cases changed with
  | true =>
    have h : end_gles2 env w p g true pv =
        update_builtin_uniforms p (end_gles2_locations env w g pv).1
          { (end_gles2_locations env w g pv).2 with dirty_builtin_uniforms := env.ulong_max } := by
      unfold end_gles2
      simp
    rw [h]
    exact sk_trans (sk_gles2_locations env w g pv)
      (sk_update_builtin_uniforms p _ _)
  | false =>
    by_cases hl : pv.last_used_for_pipeline ≠ p
    · have h : end_gles2 env w p g false pv =
          update_builtin_uniforms p w { pv with dirty_builtin_uniforms := env.ulong_max } := by
        unfold end_gles2
        simp [hl]
      rw [h]
      exact sk_update_builtin_uniforms p w _
    · have h : end_gles2 env w p g false pv = update_builtin_uniforms p w pv := by
        unfold end_gles2
        simp [hl]
      rw [h]
      exact sk_update_builtin_uniforms p w _

/-- The second half of `_cogl_pipeline_progend_glsl_end` keeps live GLSL shaders
live GLSL shaders. -/
theorem sk_end_with_priv (env : Env) (w w2 : World) (p : Nat) (pl : CoglPipeline)
    (n : Int) (pv pv2 : CoglPipelineProgendPrivate)
    (h : end_with_priv env w p pl n pv = some (w2, pv2)) : ShadersKept w w2 := by
  unfold end_with_priv at h
  split at h
  · cases h
  · rename_i w1 pv1 h1
    have f1 := sk_check_relink _ _ _ _ _ _ h1
    split at h
    · cases h
    · rename_i wl pvl changed hl
      have f2 := sk_end_link _ _ _ _ _ _ _ _ _ hl
      dsimp only at h
      split at h
      · cases h
      · rename_i w5 pv3 hg
        have f3 : ShadersKept wl w5 := by
          have fu := sk_trans
            (sk_call_if wl (Call.use_fragment_program pvl.program)
              (pl.fragend = env.FRAGEND_GLSL))
            (sk_call_if _ (Call.use_vertex_program pvl.program)
              (pl.vertend = env.VERTEND_GLSL))
          split at hg
          · exact sk_trans fu (sk_foreach_get_uniform _ _ _ _ _ _ _ _ hg)
          · simp only [Option.some.injEq, Prod.mk.injEq] at hg
            rw [← hg.1]
            exact fu
        split at h
        · cases h
        · rename_i w6 pv4 hc
          have f4 := sk_foreach_update_constants _ _ _ _ _ _ _ _ _ hc
          simp only [Option.some.injEq, Prod.mk.injEq] at h
          obtain ⟨e1, _⟩ := h
          have f5 : ShadersKept w6 (if env.gles2 = true then
                end_gles2 env w6 p pvl.program changed pv4 else (w6, pv4)).1 := by
            split
            · exact sk_end_gles2 _ _ _ _ _ _
            · exact sk_refl _
          rw [← e1]
          exact sk_trans f1 (sk_trans f2 (sk_trans f3 (sk_trans f4
            (sk_trans f5 (sk_call_if _ _ _)))))

/-! ## The unit state array keeps its length -/

theorem sameLink_length {pv pv2 : CoglPipelineProgendPrivate} (h : SameLink pv pv2) :
    pv2.unit_state.length = pv.unit_state.length := by
  have := congrArg List.length h.2.2.2
  simpa using this

theorem units_check_relink (w w2 : World) (up : Nat) (n : Int)
    (pv pv2 : CoglPipelineProgendPrivate)
    (h : end_check_relink w up n pv = some (w2, pv2)) :
    pv2.unit_state = pv.unit_state := by
  unfold end_check_relink at h
  split at h
  · split at h
    · cases h
    · split at h
      · simp only [Option.some.injEq, Prod.mk.injEq] at h
        rw [← h.2]
      · simp only [Option.some.injEq, Prod.mk.injEq] at h
        rw [← h.2]
  · simp only [Option.some.injEq, Prod.mk.injEq] at h
    rw [← h.2]

theorem units_end_link (env : Env) (w w2 : World) (p : Nat) (pl : CoglPipeline) (n : Int)
    (pv pv2 : CoglPipelineProgendPrivate) (b : Bool)
    (h : end_link env w p pl n pv = some (w2, pv2, b)) :
    pv2.unit_state = pv.unit_state := by
  unfold end_link at h
  split at h
  · dsimp only at h
    split at h
    · cases h
    · rename_i w3 pv3 n3 hu
      simp only [Option.some.injEq, Prod.mk.injEq] at h
      obtain ⟨_, h2, _⟩ := h
      have hu2 : pv3.unit_state = pv.unit_state := by
        split at hu
        · split at hu
          · cases hu
          · split at hu
            · cases hu
            · split at hu
              · cases hu
              · simp only [Option.some.injEq, Prod.mk.injEq] at hu
                obtain ⟨_, u2, _⟩ := hu
                rw [← u2]
        · simp only [Option.some.injEq, Prod.mk.injEq] at hu
          obtain ⟨_, u2, _⟩ := hu
          rw [← u2]
      rw [← h2]
      exact hu2
  · simp only [Option.some.injEq, Prod.mk.injEq] at h
    obtain ⟨_, h2, _⟩ := h
    rw [← h2]

theorem units_get_uniform_cb (env : Env) (g : Nat) (w w2 : World)
    (pv pv2 : CoglPipelineProgendPrivate) (unit : Nat)
    (h : get_uniform_cb env g w pv unit = some (w2, pv2)) :
    pv2.unit_state.length = pv.unit_state.length := by
  unfold get_uniform_cb at h
  dsimp only at h
  split at h
  · cases h
  · split at h
    · simp only [Option.some.injEq, Prod.mk.injEq] at h
      rw [← h.2]
      exact List.length_set _ _ _
    · simp only [Option.some.injEq, Prod.mk.injEq] at h
      rw [← h.2]
      exact List.length_set _ _ _

theorem units_foreach_get_uniform (env : Env) (g : Nat) (layers : List Nat) :
    ∀ (unit : Nat) (w w2 : World) (pv pv2 : CoglPipelineProgendPrivate),
      foreach_get_uniform env g layers unit w pv = some (w2, pv2) →
      pv2.unit_state.length = pv.unit_state.length := by
  induction layers with
  | nil =>
    intro unit w w2 pv pv2 h
    simp only [foreach_get_uniform, Option.some.injEq, Prod.mk.injEq] at h
    rw [← h.2]
  | cons l rest ih =>
    intro unit w w2 pv pv2 h
    rw [foreach_get_uniform] at h
    cases hc : get_uniform_cb env g w pv unit with
    | none => rw [hc] at h; cases h
    | some r =>
      rw [hc] at h
      exact (ih _ _ _ _ _ h).trans (units_get_uniform_cb env g w r.1 pv r.2 unit hc)

/-- The second half of `_cogl_pipeline_progend_glsl_end` keeps the length of the
unit state array of the entry. -/
theorem units_end_with_priv (env : Env) (w w2 : World) (p : Nat) (pl : CoglPipeline)
    (n : Int) (pv pv2 : CoglPipelineProgendPrivate)
    (h : end_with_priv env w p pl n pv = some (w2, pv2)) :
    pv2.unit_state.length = pv.unit_state.length := by
  unfold end_with_priv at h
  split at h
  · cases h
  · rename_i w1 pv1 h1
    have f1 := units_check_relink _ _ _ _ _ _ h1
    split at h
    · cases h
    · rename_i wl pvl changed hl
      have f2 := units_end_link _ _ _ _ _ _ _ _ _ hl
      dsimp only at h
      split at h
      · cases h
      · rename_i w5 pv3 hg
        have f3 : pv3.unit_state.length = pvl.unit_state.length := by
          split at hg
          · exact units_foreach_get_uniform _ _ _ _ _ _ _ _ hg
          · simp only [Option.some.injEq, Prod.mk.injEq] at hg
            rw [← hg.2]
        split at h
        · cases h
        · rename_i w6 pv4 hc
          have f4 := sameLink_length (keeps_foreach_update_constants _ _ _ _ _ _ _ _ _ hc).2
          simp only [Option.some.injEq, Prod.mk.injEq] at h
          obtain ⟨_, e2⟩ := h
          have f5 : (if env.gles2 = true then
                end_gles2 env w6 p pvl.program changed pv4 else (w6, pv4)).2.unit_state.length =
              pv4.unit_state.length := by
            split
            · exact sameLink_length (keeps_end_gles2 _ _ _ _ _ _).2
            · rfl
          rw [← e2]
          show _ = pv.unit_state.length
          rw [← f1, ← f2, ← f3, ← f4, ← f5]

theorem end_eq_of_parts (env : Env) (hctx : env.have_context = true) (w w1 w3 : World)
    (p d e : Nat) (n : Int) (pl : CoglPipeline) (pv pv2 : CoglPipelineProgendPrivate)
    (hp : heap_get w.pipelines p = some pl)
    (hglsl : pl.fragend = env.FRAGEND_GLSL ∨ pl.vertend = env.VERTEND_GLSL)
    (hf : end_find_priv env w p pl = some (w1, e)) (hpv : heap_get w1.privs e = some pv)
    (hw : end_with_priv env w1 p pl n pv = some (w3, pv2)) :
    _cogl_pipeline_progend_glsl_end env w p d n = some (w3.put_priv (some pv2) e) := by
  unfold _cogl_pipeline_progend_glsl_end
  rw [if_neg (by rw [hctx]; exact Bool.noConfusion), hp]
  dsimp only
  rw [if_neg (by
    intro hc
    rcases hglsl with h | h
    · exact hc.1 h
    · exact hc.2 h), hf]
  dsimp only
  rw [hpv]
  dsimp only
  rw [hw]
  rfl

/-! ## `_cogl_pipeline_progend_glsl_end` completes -/

theorem userProgramLive_of_eq {w w1 : World} (pl : CoglPipeline)
    (hp : w1.programs = w.programs) (hs : ShadersKept w w1)
    (h : UserProgramLive w pl) : UserProgramLive w1 pl := by
  intro hu
  obtain ⟨prog, hg, hsh⟩ := h hu
  exact ⟨prog, by rw [hp]; exact hg, fun s hs2 => hs s (hsh s hs2)⟩

/-- The program end runs to completion on a pipeline without cache entry when its
user program and the shaders of that are live GLSL shaders that stay GLSL shaders
when compiled, and the entry of the authority, if it has one, has a unit state for
every layer of the pipeline. -/
theorem end_absent_total (env : Env) (hok : env.ok) (hlang : env.compiles_glsl) (w : World)
    (P d : Nat) (n : Int) (pl pa : CoglPipeline) (hinv : Inv env w)
    (hP : heap_get w.pipelines P = some pl)
    (hglsl : pl.fragend = env.FRAGEND_GLSL ∨ pl.vertend = env.VERTEND_GLSL)
    (habs : priv_of env pl = 0)
    (hA : heap_get w.pipelines (env.find_equivalent_parent w.pipelines P) = some pa)
    (hlive : UserProgramLive w pl)
    (hunits : ∀ pv, heap_get w.privs (priv_of env pa) = some pv →
      pl.layers.length ≤ pv.unit_state.length) :
    ∃ w2, _cogl_pipeline_progend_glsl_end env w P d n = some w2 := by
  obtain ⟨w1, e, pv1, f1, _, _, f4, _, _, f7, f8⟩ :=
    find_absent_outcome env hok w P pl pa hinv hP habs hA
  obtain ⟨sg, _, _⟩ := find_priv_frame env hok w w1 P e pl hinv hP f1
  have hlive1 : UserProgramLive w1 pl :=
    userProgramLive_of_eq pl sg.2.2.1 (sk_eq sg.2.2.2.1) hlive
  have hu1 : pl.layers.length ≤ pv1.unit_state.length := by
    by_cases h0 : priv_of env pa = 0
    · obtain ⟨_, _, hpv, _, _⟩ := f7 h0
      have hn := (new_glsl_priv_fields env e pl.layers.length).2.2.2
      rw [hpv]
      split
      · rw [hn]
      · show _ ≤ (new_glsl_priv env e pl.layers.length).unit_state.length
        rw [hn]
    · obtain ⟨_, he, pv, hg, hpv, _⟩ := f8 h0
      rw [hpv]
      show _ ≤ pv.unit_state.length
      exact hunits pv (by rw [← he]; exact hg)
  obtain ⟨⟨w3, pv2⟩, hw⟩ := end_with_priv_total env hlang w1 P pl n pv1 hlive1 hu1
  exact ⟨_, end_eq_of_parts env hok.1 w w1 w3 P d e n pl pv1 pv2 hP hglsl f1 f4 hw⟩

/-- The program end leaves live user programs with live GLSL shaders that way. -/
theorem live_end (env : Env) (hok : env.ok) (w w2 : World) (p d : Nat) (n : Int)
    (hinv : Inv env w) (h : _cogl_pipeline_progend_glsl_end env w p d n = some w2)
    (pl2 : CoglPipeline) (hl : UserProgramLive w pl2) : UserProgramLive w2 pl2 := by
  obtain ⟨pl, hp, hc⟩ := end_unfold env hok.1 w w2 p d n h
  rcases hc with ⟨_, _, he⟩ | ⟨_, w1, e, pv, w3, pv2, hf, hg, hw, he⟩
  · rw [he]
    exact hl
  · obtain ⟨sg, _, _⟩ := find_priv_frame env hok w w1 p e pl hinv hp hf
    have f := (frame_end_with_priv env w1 w3 p pl n pv pv2 hw).1
    have k := sk_end_with_priv env w1 w3 p pl n pv pv2 hw
    have h1 := userProgramLive_of_eq pl2 sg.2.2.1 (sk_eq sg.2.2.2.1) hl
    have h3 := userProgramLive_of_eq pl2 f.2.2 k h1
    rw [he]
    exact userProgramLive_of_eq pl2 rfl (sk_eq rfl) h3

theorem end_units (env : Env) (hctx : env.have_context = true) (w w1 w2 : World)
    (p d e : Nat) (n : Int) (pl : CoglPipeline) (pv1 : CoglPipelineProgendPrivate)
    (hp : heap_get w.pipelines p = some pl)
    (hglsl : pl.fragend = env.FRAGEND_GLSL ∨ pl.vertend = env.VERTEND_GLSL)
    (hf : end_find_priv env w p pl = some (w1, e)) (hg : heap_get w1.privs e = some pv1)
    (hend : _cogl_pipeline_progend_glsl_end env w p d n = some w2) :
    ∃ pv2, heap_get w2.privs e = some pv2 ∧
      pv2.unit_state.length = pv1.unit_state.length := by
  obtain ⟨pl2, hp2, hc⟩ := end_unfold env hctx w w2 p d n hend
  rw [hp] at hp2
  simp only [Option.some.injEq] at hp2
  subst hp2
  rcases hc with ⟨g1, g2, _⟩ | ⟨_, w1b, eb, pvb, w3, pv2, hfb, hgb, hw, he⟩
  · rcases hglsl with h | h
    · exact absurd h g1
    · exact absurd h g2
  · rw [hf] at hfb
    simp only [Option.some.injEq, Prod.mk.injEq] at hfb
    obtain ⟨x1, x2⟩ := hfb
    subst x1; subst x2
    rw [hg] at hgb
    simp only [Option.some.injEq] at hgb
    subst hgb
    have hb := heap_get_some_bound _ _ _ hg
    have f := (frame_end_with_priv env w1 w3 p pl n pv1 pv2 hw).1
    refine ⟨pv2, ?_, units_end_with_priv env w1 w3 p pl n pv1 pv2 hw⟩
    rw [he]
    show heap_get (heap_set w3.privs _ e) e = _
    rw [f.2.1]
    exact heap_get_set_same _ _ _ hb.1 hb.2

/-! ## The claims on lines 523 to 566 -/

/-- C6: `_cogl_pipeline_progend_glsl_end` on a pipeline `P` that uses a GLSL
backend and has no cache entry, with authority `A`, runs to completion (the user
program of `P`, if any, and its shaders being live GLSL shaders, and an existing
entry of `A` having a unit state for every layer of `P`).  Lines 523 to 566 find
the entry `e`: when `A` has none, `e` is a newly allocated entry, created with
reference count 1 and no program and attached to `A`; when `A` differs from `P`
the count of the entry (new or old) is incremented by exactly one and the entry
is attached to `P`; when `A` is `P` the count stays 1.  When the call returns,
the entry still has that count, and the lookups on `P` and on `A` both return `e`. -/
theorem ensure_program_finds_entry (env : Env) (w : World) (P d : Nat) (n : Int)
    (pl pa : CoglPipeline) (hok : env.ok) (hlang : env.compiles_glsl) (hinv : Inv env w)
    (hP : heap_get w.pipelines P = some pl)
    (hglsl : pl.fragend = env.FRAGEND_GLSL ∨ pl.vertend = env.VERTEND_GLSL)
    (habs : get_glsl_priv env w P = some 0)
    (hA : heap_get w.pipelines (env.find_equivalent_parent w.pipelines P) = some pa)
    (hlive : UserProgramLive w pl)
    (hunits : ∀ pv, heap_get w.privs (priv_of env pa) = some pv →
      pl.layers.length ≤ pv.unit_state.length) :
    ∃ w2 w1 e pv1 pv2,
      _cogl_pipeline_progend_glsl_end env w P d n = some w2 ∧
      end_find_priv env w P pl = some (w1, e) ∧ e ≠ 0 ∧ heap_get w1.privs e = some pv1 ∧
      (get_glsl_priv env w (env.find_equivalent_parent w.pipelines P) = some 0 →
        e = w.privs.length + 1 ∧ heap_get w.privs e = none ∧
        (new_glsl_priv env e pl.layers.length).ref_count = 1 ∧
        (new_glsl_priv env e pl.layers.length).program = 0 ∧
        pv1 = (if env.find_equivalent_parent w.pipelines P = P
          then new_glsl_priv env e pl.layers.length
          else (new_glsl_priv env e pl.layers.length).incremented) ∧
        pv1.ref_count = (if env.find_equivalent_parent w.pipelines P = P then 1 else 2)) ∧
      (get_glsl_priv env w (env.find_equivalent_parent w.pipelines P) ≠ some 0 →
        env.find_equivalent_parent w.pipelines P ≠ P ∧
        get_glsl_priv env w (env.find_equivalent_parent w.pipelines P) = some e ∧
        ∃ pv, heap_get w.privs e = some pv ∧ pv1 = pv.incremented ∧
          pv1.ref_count = pv.ref_count + 1) ∧
      heap_get w2.privs e = some pv2 ∧ pv2.ref_count = pv1.ref_count ∧
      get_glsl_priv env w2 P = some e ∧
      get_glsl_priv env w2 (env.find_equivalent_parent w.pipelines P) = some e := by
  have habs2 : priv_of env pl = 0 := by
    rw [get_glsl_priv_live env w P pl hP] at habs
    simpa using habs
  obtain ⟨w2, hend⟩ :=
    end_absent_total env hok hlang w P d n pl pa hinv hP hglsl habs2 hA hlive hunits
  obtain ⟨w1, e, pv1, pv2, a1, a2, a3, a4, a5, a6, a7, a8, a9, _⟩ :=
    end_absent_outcome env w w2 P d n pl pa hok hinv hP hglsl habs hA hend
  exact ⟨w2, w1, e, pv1, pv2, hend, a1, a2, a3, a4, a5, a6, a7, a8, a9⟩

theorem demo_no_user_program (w : World) (parent differences : Nat) :
    UserProgramLive w (demo_pipeline 0 parent differences) := fun h => absurd rfl h

theorem demo_no_entry (pl : CoglPipeline) (pv : CoglPipelineProgendPrivate)
    (h : heap_get demo_world.privs (priv_of demo_env pl) = some pv) :
    (demo_pipeline 0 1 0).layers.length ≤ pv.unit_state.length := by
  have hn : heap_get demo_world.privs (priv_of demo_env pl) = none := by
    cases hx : priv_of demo_env pl with
    | zero => rfl
    | succ k => rfl
  rw [hn] at h
  cases h

/-- Witness of C6: `A` (2) in the example chain; its authority is the root (1),
which has no entry either. -/
theorem ensure_program_finds_entry_witness :
    (demo_env.ok ∧ demo_env.compiles_glsl ∧ Inv demo_env demo_world ∧
      heap_get demo_world.pipelines 2 = some (demo_pipeline 0 1 0) ∧
      ((demo_pipeline 0 1 0).fragend = demo_env.FRAGEND_GLSL ∨
        (demo_pipeline 0 1 0).vertend = demo_env.VERTEND_GLSL) ∧
      get_glsl_priv demo_env demo_world 2 = some 0 ∧
      heap_get demo_world.pipelines
        (demo_env.find_equivalent_parent demo_world.pipelines 2) =
          some (demo_pipeline 0 0 63) ∧
      UserProgramLive demo_world (demo_pipeline 0 1 0) ∧
      (∀ pv, heap_get demo_world.privs (priv_of demo_env (demo_pipeline 0 0 63)) = some pv →
        (demo_pipeline 0 1 0).layers.length ≤ pv.unit_state.length)) ∧
    (∃ w2 w1 e pv1 pv2,
      _cogl_pipeline_progend_glsl_end demo_env demo_world 2 0 1 = some w2 ∧
      end_find_priv demo_env demo_world 2 (demo_pipeline 0 1 0) = some (w1, e) ∧ e ≠ 0 ∧
      heap_get w1.privs e = some pv1 ∧
      (get_glsl_priv demo_env demo_world
          (demo_env.find_equivalent_parent demo_world.pipelines 2) = some 0 →
        e = demo_world.privs.length + 1 ∧ heap_get demo_world.privs e = none ∧
        (new_glsl_priv demo_env e (demo_pipeline 0 1 0).layers.length).ref_count = 1 ∧
        (new_glsl_priv demo_env e (demo_pipeline 0 1 0).layers.length).program = 0 ∧
        pv1 = (if demo_env.find_equivalent_parent demo_world.pipelines 2 = 2
          then new_glsl_priv demo_env e (demo_pipeline 0 1 0).layers.length
          else (new_glsl_priv demo_env e (demo_pipeline 0 1 0).layers.length).incremented) ∧
        pv1.ref_count =
          (if demo_env.find_equivalent_parent demo_world.pipelines 2 = 2 then 1 else 2)) ∧
      (get_glsl_priv demo_env demo_world
          (demo_env.find_equivalent_parent demo_world.pipelines 2) ≠ some 0 →
        demo_env.find_equivalent_parent demo_world.pipelines 2 ≠ 2 ∧
        get_glsl_priv demo_env demo_world
          (demo_env.find_equivalent_parent demo_world.pipelines 2) = some e ∧
        ∃ pv, heap_get demo_world.privs e = some pv ∧ pv1 = pv.incremented ∧
          pv1.ref_count = pv.ref_count + 1) ∧
      heap_get w2.privs e = some pv2 ∧ pv2.ref_count = pv1.ref_count ∧
      get_glsl_priv demo_env w2 2 = some e ∧
      get_glsl_priv demo_env w2
        (demo_env.find_equivalent_parent demo_world.pipelines 2) = some e) :=
  ⟨⟨by decide, demo_compiles_glsl, init_inv demo_env demo_world (by decide), by decide,
      by decide, by decide, by decide, demo_no_user_program demo_world 1 0,
      demo_no_entry (demo_pipeline 0 0 63)⟩,
    ensure_program_finds_entry demo_env demo_world 2 0 1 (demo_pipeline 0 1 0)
      (demo_pipeline 0 0 63) (by decide) demo_compiles_glsl
      (init_inv demo_env demo_world (by decide))
      (by decide) (by decide) (by decide) (by decide) (demo_no_user_program demo_world 1 0)
      (demo_no_entry (demo_pipeline 0 0 63))⟩

/-- C7 (amended): in a chain root, A, B (and any descendants such as C) in which
neither A nor B overrides a generation-affecting category and no cache entry
exists yet, the authority resolution of the specification returns the root for A
and for B; `_cogl_pipeline_progend_glsl_end` runs to completion for A and then
for B (their user programs, if any, and the shaders of those being live GLSL
shaders, and B having no more layers than A), and afterwards the lookups on A, on
B and on the root return the same cache entry, whose reference count is 3: one
reference for each of the three pipelines that hold it. -/
theorem chain_shares_entry (env : Env) (mask : Nat) (w : World)
    (root A B dA dB : Nat) (nA nB : Int) (pr pla plb : CoglPipeline)
    (hok : env.ok) (hlang : env.compiles_glsl)
    (hauth : env.find_equivalent_parent =
      fun pls p => resolve_authority mask pls pls.length p)
    (h0 : InitOK env w)
    (hroot : heap_get w.pipelines root = some pr) (hrp : pr.parent = 0)
    (hA : heap_get w.pipelines A = some pla) (hAp : pla.parent = root)
    (hAd : pla.differences &&& mask = 0)
    (hAg : pla.fragend = env.FRAGEND_GLSL ∨ pla.vertend = env.VERTEND_GLSL)
    (hB : heap_get w.pipelines B = some plb) (hBp : plb.parent = A)
    (hBd : plb.differences &&& mask = 0)
    (hBg : plb.fragend = env.FRAGEND_GLSL ∨ plb.vertend = env.VERTEND_GLSL)
    (hliveA : UserProgramLive w pla) (hliveB : UserProgramLive w plb)
    (hlayers : plb.layers.length ≤ pla.layers.length) :
    env.find_equivalent_parent w.pipelines A = root ∧
    env.find_equivalent_parent w.pipelines B = root ∧
    ∃ w1 w2, _cogl_pipeline_progend_glsl_end env w A dA nA = some w1 ∧
      _cogl_pipeline_progend_glsl_end env w1 B dB nB = some w2 ∧
      env.find_equivalent_parent w1.pipelines B = root ∧
      ∃ e pv, e ≠ 0 ∧ get_glsl_priv env w2 A = some e ∧ get_glsl_priv env w2 B = some e ∧
        get_glsl_priv env w2 root = some e ∧ heap_get w2.privs e = some pv ∧
        pv.ref_count = 3 := by
  have hinv := init_inv env w h0
  obtain ⟨ra, rb, hr0, hAr, hBr, hAB⟩ :=
    chain_authority mask w.pipelines root A B pr pla plb hroot hrp hA hAp hAd hB hBp hBd
  have hfa : env.find_equivalent_parent w.pipelines A = root := by rw [hauth]; exact ra
  have hfb : env.find_equivalent_parent w.pipelines B = root := by rw [hauth]; exact rb
  have hAabs := init_no_priv env w h0 A pla hA
  have hAabs2 : priv_of env pla = 0 := by
    rw [get_glsl_priv_live env w A pla hA] at hAabs
    simpa using hAabs
  -- the first call
  obtain ⟨w1, h1⟩ := end_absent_total env hok hlang w A dA nA pla pr hinv hA hAg hAabs2
    (by rw [hfa]; exact hroot) hliveA (by
      intro pv hg
      rw [h0.1] at hg
      cases hx : priv_of env pr with
      | zero => rw [hx] at hg; cases hg
      | succ k => rw [hx] at hg; cases hg)
  obtain ⟨wf, e, pv1, pv2, cf, he0, cg, c1, _, c3, c4, c5, c6, c7, c8, c9, _⟩ :=
    end_absent_outcome env w w1 A dA nA pla pr hok hinv hA hAg hAabs
      (by rw [hfa]; exact hroot) h1
  rw [hfa] at c1 c6 c9
  obtain ⟨_, _, _, _, hpv1, hrc1⟩ := c1 (init_no_priv env w h0 root pr hroot)
  rw [if_neg (fun hc => hAr hc.symm)] at hrc1 hpv1
  have hinv1 := end_inv env hok w w1 A dA nA hinv h1
  -- the chain in the world after the first call
  obtain ⟨pr1, hroot1, hrp1, _, _, _⟩ := state_of_map _ _ root pr (c8 root) hroot
  obtain ⟨pla1, hA1, hAp1, hAd1, _, _⟩ := state_of_map _ _ A pla (c8 A) hA
  have hB1 : heap_get w1.pipelines B = some plb := by
    rw [c9 B (fun hc => hAB hc.symm) hBr]; exact hB
  obtain ⟨ra1, rb1, _⟩ :=
    chain_authority mask w1.pipelines root A B pr1 pla1 plb hroot1 (by rw [hrp1, hrp])
      hA1 (by rw [hAp1, hAp]) (by rw [hAd1, hAd]) hB1 hBp hBd
  have hfb1 : env.find_equivalent_parent w1.pipelines B = root := by rw [hauth]; exact rb1
  -- the second call
  have hBabs : get_glsl_priv env w1 B = some 0 := by
    rw [get_glsl_priv_live env w1 B plb hB1, ← get_glsl_priv_live env w B plb hB]
    exact init_no_priv env w h0 B plb hB
  have hBabs2 : priv_of env plb = 0 := by
    rw [get_glsl_priv_live env w1 B plb hB1] at hBabs
    simpa using hBabs
  have hre : priv_of env pr1 = e := by
    have := get_glsl_priv_live env w1 root pr1 hroot1
    rw [c6] at this
    simpa using this.symm
  obtain ⟨pv2b, hg2b, hlen⟩ := end_units env hok.1 w wf w1 A dA e nA pla pv1 hA hAg cf cg h1
  have hlen1 : pv1.unit_state.length = pla.layers.length := by
    rw [hpv1]
    exact (new_glsl_priv_fields env e pla.layers.length).2.2.2
  obtain ⟨w2, h2⟩ := end_absent_total env hok hlang w1 B dB nB plb pr1 hinv1 hB1 hBg hBabs2
    (by rw [hfb1]; exact hroot1) (live_end env hok w w1 A dA nA hinv h1 plb hliveB) (by
      intro pv hg
      rw [hre, hg2b] at hg
      simp only [Option.some.injEq] at hg
      rw [← hg, hlen, hlen1]
      exact hlayers)
  obtain ⟨wg, e2, qv1, qv2, _, _, _, _, d2, d3, d4, d5, d6, _, _, d9, _⟩ :=
    end_absent_outcome env w1 w2 B dB nB plb pr1 hok hinv1 hB1 hBg hBabs
      (by rw [hfb1]; exact hroot1) h2
  rw [hfb1] at d2 d6 d9
  have hne : get_glsl_priv env w1 root ≠ some 0 := by
    rw [c6]
    intro hc
    simp only [Option.some.injEq] at hc
    exact he0 hc
  obtain ⟨_, hsame, pv, hpv, _, hrc2⟩ := d2 hne
  have hee : e2 = e := by
    rw [c6] at hsame
    simp only [Option.some.injEq] at hsame
    exact hsame.symm
  subst hee
  rw [c3] at hpv
  simp only [Option.some.injEq] at hpv
  subst hpv
  refine ⟨hfa, hfb, w1, w2, h1, h2, hfb1, e2, qv2, he0, ?_, d5, d6, d3, ?_⟩
  · have : heap_get w2.pipelines A = heap_get w1.pipelines A := d9 A hAB hAr
    unfold get_glsl_priv
    rw [this]
    exact c5
  · rw [d4, hrc2, c4, hrc1]

/-- Witness of C7 (amended): the example chain. -/
theorem chain_shares_entry_witness :
    (demo_env.ok ∧ demo_env.compiles_glsl ∧
      demo_env.find_equivalent_parent =
        (fun pls p => resolve_authority 12 pls pls.length p) ∧
      InitOK demo_env demo_world ∧
      heap_get demo_world.pipelines 1 = some (demo_pipeline 0 0 63) ∧
      (demo_pipeline 0 0 63).parent = 0 ∧
      heap_get demo_world.pipelines 2 = some (demo_pipeline 0 1 0) ∧
      (demo_pipeline 0 1 0).parent = 1 ∧ (demo_pipeline 0 1 0).differences &&& 12 = 0 ∧
      ((demo_pipeline 0 1 0).fragend = demo_env.FRAGEND_GLSL ∨
        (demo_pipeline 0 1 0).vertend = demo_env.VERTEND_GLSL) ∧
      heap_get demo_world.pipelines 3 = some (demo_pipeline 0 2 0) ∧
      (demo_pipeline 0 2 0).parent = 2 ∧ (demo_pipeline 0 2 0).differences &&& 12 = 0 ∧
      ((demo_pipeline 0 2 0).fragend = demo_env.FRAGEND_GLSL ∨
        (demo_pipeline 0 2 0).vertend = demo_env.VERTEND_GLSL) ∧
      UserProgramLive demo_world (demo_pipeline 0 1 0) ∧
      UserProgramLive demo_world (demo_pipeline 0 2 0) ∧
      (demo_pipeline 0 2 0).layers.length ≤ (demo_pipeline 0 1 0).layers.length) ∧
    (demo_env.find_equivalent_parent demo_world.pipelines 2 = 1 ∧
    demo_env.find_equivalent_parent demo_world.pipelines 3 = 1 ∧
    ∃ w1 w2, _cogl_pipeline_progend_glsl_end demo_env demo_world 2 0 1 = some w1 ∧
      _cogl_pipeline_progend_glsl_end demo_env w1 3 0 1 = some w2 ∧
      demo_env.find_equivalent_parent w1.pipelines 3 = 1 ∧
      ∃ e pv, e ≠ 0 ∧ get_glsl_priv demo_env w2 2 = some e ∧
        get_glsl_priv demo_env w2 3 = some e ∧ get_glsl_priv demo_env w2 1 = some e ∧
        heap_get w2.privs e = some pv ∧ pv.ref_count = 3) :=
  ⟨⟨by decide, demo_compiles_glsl, rfl, by decide, by decide, by decide, by decide,
      by decide, by decide, by decide, by decide, by decide, by decide, by decide,
      demo_no_user_program demo_world 1 0, demo_no_user_program demo_world 2 0, by decide⟩,
    chain_shares_entry demo_env 12 demo_world 1 2 3 0 0 1 1
      (demo_pipeline 0 0 63) (demo_pipeline 0 1 0) (demo_pipeline 0 2 0)
      (by decide) demo_compiles_glsl rfl (by decide) (by decide) (by decide) (by decide)
      (by decide) (by decide) (by decide) (by decide) (by decide) (by decide) (by decide)
      (demo_no_user_program demo_world 1 0) (demo_no_user_program demo_world 2 0)
      (by decide)⟩

/-! ## The quiet parts of `_cogl_pipeline_progend_glsl_end` -/

theorem quiet_refl (w : World) : Quiet w w :=
  ⟨[], ext_refl w, fun _ h => absurd h (List.not_mem_nil _)⟩

theorem quiet_trans {w w2 w3 : World} (h1 : Quiet w w2) (h2 : Quiet w2 w3) :
    Quiet w w3 := by
  obtain ⟨t1, e1, c1⟩ := h1
  obtain ⟨t2, e2, c2⟩ := h2
  refine ⟨t1 ++ t2, ext_trans e1 e2, ?_⟩
  intro c hc
  rcases List.mem_append.mp hc with hc | hc
  · exact c1 c hc
  · exact c2 c hc

theorem quiet_call (w : World) (c : Call) (hc : c.is_quiet = true) :
    Quiet w (w.call c) := by
  refine ⟨[c], ext_call w c, ?_⟩
  intro x hx
  rw [List.mem_singleton] at hx
  rw [hx]
  exact hc

theorem quiet_of_trace (w w2 : World) (c : Call) (hc : c.is_quiet = true)
    (h : w2.trace = w.trace ++ [c]) : Quiet w w2 := by
  refine ⟨[c], h, ?_⟩
  intro x hx
  rw [List.mem_singleton] at hx
  rw [hx]
  exact hc

theorem quiet_call_if (w : World) (c : Call) (P : Prop) [Decidable P]
    (hc : c.is_quiet = true) : Quiet w (if P then w.call c else w) := by
  by_cases h : P
  · rw [if_pos h]; exact quiet_call w c hc
  · rw [if_neg h]; exact quiet_refl w

theorem quiet_get_location (env : Env) (w : World) (g : Nat) (name : UniformName) :
    Quiet w (gl_get_uniform_location env w g name).2 :=
  quiet_call w _ rfl

theorem quiet_attach_user_shaders (env : Env) (g : Nat) (n : Int) (shaders : List Nat) :
    ∀ (w w2 : World), attach_user_shaders env g n shaders w = some w2 → Quiet w w2 := by
  induction shaders with
  | nil =>
    intro w w2 h
    simp only [attach_user_shaders, Option.some.injEq] at h
    subst h
    exact quiet_refl _
  | cons sh rest ih =>
    intro w w2 h
    rw [attach_user_shaders] at h
    split at h
    · cases h
    · rename_i sh0 _
      dsimp only at h
      split at h
      · cases h
      · have f2 := ih _ _ h
        refine quiet_trans ?_ f2
        refine quiet_trans ?_ (quiet_call _ _ rfl)
        exact quiet_of_trace _ _ (Call.shader_compile_real sh n) rfl rfl

theorem quiet_get_uniform_cb (env : Env) (g : Nat) (w w2 : World)
    (pv pv2 : CoglPipelineProgendPrivate) (unit : Nat)
    (h : get_uniform_cb env g w pv unit = some (w2, pv2)) : Quiet w w2 := by
  unfold get_uniform_cb at h
  dsimp only at h
  have e1 := quiet_get_location env w g (UniformName.sampler unit)
  have e2 := quiet_call_if (gl_get_uniform_location env w g (UniformName.sampler unit)).2
    (Call.glUniform1i (gl_get_uniform_location env w g (UniformName.sampler unit)).1 unit)
    ((gl_get_uniform_location env w g (UniformName.sampler unit)).1 ≠ -1) rfl
  have e3 := quiet_trans (quiet_trans e1 e2)
    (quiet_get_location env _ g (UniformName.layer_constant unit))
  split at h
  · cases h
  · split at h
    · simp only [Option.some.injEq, Prod.mk.injEq] at h
      rw [← h.1]
      exact quiet_trans e3 (quiet_get_location env _ g (UniformName.texture_matrix unit))
    · simp only [Option.some.injEq, Prod.mk.injEq] at h
      rw [← h.1]
      exact e3

theorem quiet_foreach_get_uniform (env : Env) (g : Nat) (layers : List Nat) :
    ∀ (unit : Nat) (w w2 : World) (pv pv2 : CoglPipelineProgendPrivate),
      foreach_get_uniform env g layers unit w pv = some (w2, pv2) → Quiet w w2 := by
  induction layers with
  | nil =>
    intro unit w w2 pv pv2 h
    simp only [foreach_get_uniform, Option.some.injEq, Prod.mk.injEq] at h
    rw [← h.1]
    exact quiet_refl _
  | cons l rest ih =>
    intro unit w w2 pv pv2 h
    rw [foreach_get_uniform] at h
    cases hc : get_uniform_cb env g w pv unit with
    | none => rw [hc] at h; cases h
    | some r =>
      rw [hc] at h
      exact quiet_trans (quiet_get_uniform_cb env g w r.1 pv r.2 unit hc) (ih _ _ _ _ _ h)

theorem quiet_update_builtin_uniforms (p : Nat) (w : World)
    (pv : CoglPipelineProgendPrivate) : Quiet w (update_builtin_uniforms p w pv).1 := by
  unfold update_builtin_uniforms
  split
  · exact quiet_refl _
  · dsimp only
    exact quiet_trans (quiet_call_if w _ _ (by rfl)) (quiet_call_if _ _ _ (by rfl))

theorem quiet_unref_if (x : Nat) :
    ∀ c, c ∈ (if x ≠ 0 then [Call.matrix_stack_unref x] else []) → c.is_quiet = true := by
  intro c hc
  split at hc
  · rw [List.mem_singleton] at hc
    rw [hc]; rfl
  · cases hc

theorem quiet_gles2_locations (env : Env) (w : World) (g : Nat)
    (pv : CoglPipelineProgendPrivate) : Quiet w (end_gles2_locations env w g pv).1 := by
  have e0 : Quiet w { w with trace := w.trace ++
      (clear_flushed_matrix_stacks (clear_attribute_cache pv)).2 } := by
    refine ⟨_, rfl, ?_⟩
    intro c hc
    rw [clear_flushed_calls] at hc
    rcases List.mem_append.mp hc with hc | hc
    · exact quiet_unref_if _ c hc
    · exact quiet_unref_if _ c hc
  exact quiet_trans (quiet_trans (quiet_trans (quiet_trans (quiet_trans e0
    (quiet_get_location env _ g (UniformName.builtin 0)))
    (quiet_get_location env _ g (UniformName.builtin 1)))
    (quiet_get_location env _ g UniformName.modelview_matrix))
    (quiet_get_location env _ g UniformName.projection_matrix))
    (quiet_get_location env _ g UniformName.modelview_projection_matrix)

theorem quiet_end_gles2 (env : Env) (w : World) (p g : Nat) (changed : Bool)
    (pv : CoglPipelineProgendPrivate) : Quiet w (end_gles2 env w p g changed pv).1 := by
  cases changed with
  | true =>
    have h : end_gles2 env w p g true pv =
        update_builtin_uniforms p (end_gles2_locations env w g pv).1
          { (end_gles2_locations env w g pv).2 with dirty_builtin_uniforms := env.ulong_max } := by
      unfold end_gles2
      simp
    rw [h]
    exact quiet_trans (quiet_gles2_locations env w g pv)
      (quiet_update_builtin_uniforms p _ _)
  | false =>
    by_cases hl : pv.last_used_for_pipeline ≠ p
    · have h : end_gles2 env w p g false pv =
          update_builtin_uniforms p w { pv with dirty_builtin_uniforms := env.ulong_max } := by
        unfold end_gles2
        simp [hl]
      rw [h]
      exact quiet_update_builtin_uniforms p w _
    · have h : end_gles2 env w p g false pv = update_builtin_uniforms p w pv := by
        unfold end_gles2
        simp [hl]
      rw [h]
      exact quiet_update_builtin_uniforms p w _

/-! ## The calls that create, link, delete and upload -/

theorem loud_append (t t2 : List Call) : loud (t ++ t2) = loud t ++ loud t2 := by
  simp [loud]

theorem loud_refl (w : World) : Loud w w [] := ⟨[], ext_refl w, rfl⟩

theorem loud_trans {w w2 w3 : World} {l l2 : List Call} (h1 : Loud w w2 l)
    (h2 : Loud w2 w3 l2) : Loud w w3 (l ++ l2) := by
  obtain ⟨t1, e1, c1⟩ := h1
  obtain ⟨t2, e2, c2⟩ := h2
  exact ⟨t1 ++ t2, ext_trans e1 e2, by rw [loud_append, c1, c2]⟩

theorem loud_of_quiet {w w2 : World} (h : Quiet w w2) : Loud w w2 [] := by
  obtain ⟨t, e, hc⟩ := h
  refine ⟨t, e, ?_⟩
  unfold loud
  rw [List.filter_eq_nil_iff]
  intro c hcm
  simp [hc c hcm]

theorem loud_call (w : World) (c : Call) (hc : c.is_quiet = false) :
    Loud w (w.call c) [c] :=
  ⟨[c], ext_call w c, by simp [loud, hc]⟩

theorem loud_cast {w w2 : World} {l l2 : List Call} (h : Loud w w2 l) (e : l = l2) :
    Loud w w2 l2 := e ▸ h

theorem loud_link_program (env : Env) (w : World) (g : Nat) :
    Loud w (link_program env w g)
      ([Call.glLinkProgram g, Call.glGetProgramiv_link_status g
          (env.link_status (w.trace ++ [Call.glLinkProgram g]) g)] ++
        if env.link_status (w.trace ++ [Call.glLinkProgram g]) g = false then
          [Call.glGetProgramInfoLog g, Call.g_warning_link_failed g] else []) := by
  unfold link_program
  dsimp only
  have e1 := loud_call w (Call.glLinkProgram g) rfl
  have e2 := loud_call (w.call (Call.glLinkProgram g))
    (Call.glGetProgramiv_link_status g
      (env.link_status (w.call (Call.glLinkProgram g)).trace g)) rfl
  have e12 := loud_trans e1 e2
  split
  · rename_i hst
    have hst2 : env.link_status (w.trace ++ [Call.glLinkProgram g]) g = false := hst
    rw [if_pos hst2]
    exact loud_trans e12 (loud_trans (loud_call _ (Call.glGetProgramInfoLog g) rfl)
      (loud_call _ (Call.g_warning_link_failed g) rfl))
  · rename_i hst
    have hst2 : ¬ env.link_status (w.trace ++ [Call.glLinkProgram g]) g = false := hst
    rw [if_neg hst2]
    exact loud_cast e12 (by simp [World.call])

theorem loud_then_link (env : Env) (g : Nat) {w0 w : World} {l0 : List Call}
    (h : Loud w0 w l0) :
    ∃ st, (∃ t, st = env.link_status t g) ∧ Loud w0 (link_program env w g)
      (l0 ++ ([Call.glLinkProgram g, Call.glGetProgramiv_link_status g st] ++
        if st = false then [Call.glGetProgramInfoLog g, Call.g_warning_link_failed g]
        else [])) :=
  ⟨_, ⟨_, rfl⟩, loud_trans h (loud_link_program env w g)⟩

/-- Lines 582 to 636 on an entry without program: the calls that are not quiet are
those of `link_calls`, and the entry takes the age of the user program. -/
theorem link_loud (env : Env) (w w2 : World) (p : Nat) (pl : CoglPipeline) (n : Int)
    (pv pv2 : CoglPipelineProgendPrivate) (b : Bool) (h0 : pv.program = 0)
    (h : end_link env w p pl n pv = some (w2, pv2, b)) :
    (∃ st, (∃ t, st = env.link_status t (env.glCreateProgram w.trace)) ∧
      Loud w w2 (link_calls (env.glCreateProgram w.trace) st)) ∧
    pv2.last_used_for_pipeline = pv.last_used_for_pipeline ∧
    (pl.user_program = 0 → pv2.user_program_age = pv.user_program_age) ∧
    (∀ prog, pl.user_program ≠ 0 → heap_get w.programs pl.user_program = some prog →
      pv2.user_program_age = prog.age) := by
  unfold end_link at h
  rw [if_pos h0] at h
  dsimp only at h
  split at h
  · cases h
  · rename_i w3 pv3 n3 hu
    simp only [Option.some.injEq, Prod.mk.injEq] at h
    obtain ⟨h1, h2, _⟩ := h
    have e0 := loud_call w (Call.glCreateProgram (env.glCreateProgram w.trace)) rfl
    have hu2 : Loud w w3 [Call.glCreateProgram (env.glCreateProgram w.trace)] ∧
        pv3.program = env.glCreateProgram w.trace ∧
        pv3.last_used_for_pipeline = pv.last_used_for_pipeline ∧
        (pl.user_program = 0 → pv3.user_program_age = pv.user_program_age) ∧
        (∀ prog, pl.user_program ≠ 0 → heap_get w.programs pl.user_program = some prog →
          pv3.user_program_age = prog.age) := by
      split at hu
      · rename_i hup
        split at hu
        · cases hu
        · rename_i up hgp
          split at hu
          · cases hu
          · split at hu
            · cases hu
            · rename_i w5 ha
              simp only [Option.some.injEq, Prod.mk.injEq] at hu
              obtain ⟨u1, u2, _⟩ := hu
              have f := loud_of_quiet (quiet_attach_user_shaders env _ _ _ _ _ ha)
              rw [← u1, ← u2]
              refine ⟨loud_cast (loud_trans e0 f) (by simp), rfl, rfl,
                fun hc => absurd hc hup, ?_⟩
              intro prog _ hg
              have hgp2 : heap_get w.programs pl.user_program = some up := hgp
              rw [hg] at hgp2
              simp only [Option.some.injEq] at hgp2
              rw [hgp2]
      · rename_i hup
        simp only [Option.some.injEq, Prod.mk.injEq] at hu
        obtain ⟨u1, u2, _⟩ := hu
        rw [← u1, ← u2]
        exact ⟨e0, rfl, rfl, fun _ => rfl, fun prog hc _ => absurd hc hup⟩
    obtain ⟨k1, k2, k3, k4, k5⟩ := hu2
    rw [← h2]
    refine ⟨?_, k3, k4, k5⟩
    rw [← h1, k2]
    have q1 := quiet_call_if w3 (Call.glAttachShader (env.glCreateProgram w.trace)
      (env.fragend_glsl_get_shader w3.trace p))
      (pl.fragend = env.FRAGEND_GLSL ∧ env.fragend_glsl_get_shader w3.trace p ≠ 0) rfl
    have q2 := quiet_call_if (if pl.fragend = env.FRAGEND_GLSL ∧
        env.fragend_glsl_get_shader w3.trace p ≠ 0 then
          w3.call (Call.glAttachShader (env.glCreateProgram w.trace)
            (env.fragend_glsl_get_shader w3.trace p))
        else w3) (Call.glAttachShader (env.glCreateProgram w.trace)
      (env.vertend_glsl_get_shader (if pl.fragend = env.FRAGEND_GLSL ∧
        env.fragend_glsl_get_shader w3.trace p ≠ 0 then
          w3.call (Call.glAttachShader (env.glCreateProgram w.trace)
            (env.fragend_glsl_get_shader w3.trace p))
        else w3).trace p))
      (pl.vertend = env.VERTEND_GLSL ∧
        env.vertend_glsl_get_shader (if pl.fragend = env.FRAGEND_GLSL ∧
          env.fragend_glsl_get_shader w3.trace p ≠ 0 then
          w3.call (Call.glAttachShader (env.glCreateProgram w.trace)
            (env.fragend_glsl_get_shader w3.trace p))
        else w3).trace p ≠ 0) rfl
    obtain ⟨st, hst, hl⟩ := loud_then_link env (env.glCreateProgram w.trace)
      (loud_trans (loud_trans k1 (loud_of_quiet q1)) (loud_of_quiet q2))
    exact ⟨st, hst, loud_cast hl (by simp [link_calls])⟩

/-! ## The uploads of the layer uniforms -/

theorem update_constants_cb_eq (env : Env) (p : Nat) (ua : Bool) (w : World)
    (pv : CoglPipelineProgendPrivate) (unit li : Nat) (us : UnitState)
    (hus : pv.unit_state[unit]? = some us) :
    ∃ w2 pv2, update_constants_cb env p ua w pv unit li = some (w2, pv2) ∧
      Ext w w2 (unit_uploads env p ua us li) ∧ Frame w w2 ∧ w2.shaders = w.shaders ∧
      pv2 = { pv with unit_state := pv.unit_state.set unit (unit_after env ua us) } := by
  by_cases c1 : us.combine_constant_uniform ≠ -1 ∧
      (ua = true ∨ us.dirty_combine_constant = true)
  · by_cases c2 : env.gles2 = true ∧ us.texture_matrix_uniform ≠ -1 ∧
        (ua = true ∨ us.dirty_texture_matrix = true)
    · unfold update_constants_cb
      rw [hus]
      dsimp only
      rw [if_pos c1]
      dsimp only
      rw [if_pos c2]
      refine ⟨_, _, rfl, ?_, ⟨rfl, rfl, rfl⟩, rfl, ?_⟩
      · unfold unit_uploads Ext
        rw [if_pos c1, if_pos c2]
        simp [World.call]
      · unfold unit_after
        rw [if_pos c1, if_pos c2]
    · unfold update_constants_cb
      rw [hus]
      dsimp only
      rw [if_pos c1]
      dsimp only
      rw [if_neg c2]
      refine ⟨_, _, rfl, ?_, ⟨rfl, rfl, rfl⟩, rfl, ?_⟩
      · unfold unit_uploads Ext
        rw [if_pos c1, if_neg c2]
        simp [World.call]
      · unfold unit_after
        rw [if_pos c1, if_neg c2]
  · by_cases c2 : env.gles2 = true ∧ us.texture_matrix_uniform ≠ -1 ∧
        (ua = true ∨ us.dirty_texture_matrix = true)
    · unfold update_constants_cb
      rw [hus]
      dsimp only
      rw [if_neg c1]
      dsimp only
      rw [if_pos c2]
      refine ⟨_, _, rfl, ?_, ⟨rfl, rfl, rfl⟩, rfl, ?_⟩
      · unfold unit_uploads Ext
        rw [if_neg c1, if_pos c2]
        simp [World.call]
      · unfold unit_after
        rw [if_neg c1, if_pos c2]
    · unfold update_constants_cb
      rw [hus]
      dsimp only
      rw [if_neg c1]
      dsimp only
      rw [if_neg c2]
      refine ⟨_, _, rfl, ?_, ⟨rfl, rfl, rfl⟩, rfl, ?_⟩
      · unfold unit_uploads Ext
        rw [if_neg c1, if_neg c2]
        simp
      · unfold unit_after
        rw [if_neg c1, if_neg c2]

theorem drop_succ_set {α : Type} (l : List α) (i : Nat) (a : α) :
    (l.set i a).drop (i + 1) = l.drop (i + 1) := by
  induction l generalizing i with
  | nil => simp
  | cons c rest ih =>
    cases i with
    | zero => simp
    | succ j => simpa using ih j

/-- The traversal with `update_constants_cb` from unit `unit` on, when the entry
has a unit state for every layer: it completes, its calls are `upload_calls`, and
it changes the entry in the visited unit states only, as `unit_after` says. -/
theorem foreach_update_spec (env : Env) (p : Nat) (ua : Bool) (layers : List Nat) :
    ∀ (unit : Nat) (w : World) (pv : CoglPipelineProgendPrivate),
      unit + layers.length ≤ pv.unit_state.length →
      ∃ w2 units, foreach_update_constants env p ua layers unit w pv =
          some (w2, { pv with unit_state := units }) ∧
        Ext w w2 (upload_calls env p ua (pv.unit_state.drop unit) layers) ∧
        Frame w w2 ∧ w2.shaders = w.shaders ∧
        ∀ u, units[u]? = if unit ≤ u ∧ u < unit + layers.length
          then (pv.unit_state[u]?).map (unit_after env ua) else pv.unit_state[u]? := by
  induction layers with
  | nil =>
    intro unit w pv _
    refine ⟨w, pv.unit_state, rfl, ?_, frame_refl w, rfl, ?_⟩
    · have : upload_calls env p ua (List.drop unit pv.unit_state) [] = [] := by
        cases List.drop unit pv.unit_state <;> rfl
      rw [this]
      exact ext_refl w
    · intro u
      rw [if_neg (by simp)]
  | cons l rest ih =>
    intro unit w pv hlen
    simp only [List.length_cons] at hlen
    have hlt : unit < pv.unit_state.length := by omega
    have hus : pv.unit_state[unit]? = some (pv.unit_state.get ⟨unit, hlt⟩) :=
      List.getElem?_eq_getElem hlt
    obtain ⟨w1, pv1, hcb, e1, f1, s1, hpv1⟩ :=
      update_constants_cb_eq env p ua w pv unit l _ hus
    have hlen1 : unit + 1 + rest.length ≤ pv1.unit_state.length := by
      rw [hpv1]
      show _ ≤ (pv.unit_state.set unit _).length
      rw [List.length_set]
      omega
    obtain ⟨w2, units, hf, e2, f2, s2, hu⟩ := ih (unit + 1) w1 pv1 hlen1
    have hd : pv.unit_state.drop unit =
        pv.unit_state.get ⟨unit, hlt⟩ :: pv.unit_state.drop (unit + 1) :=
      List.drop_eq_getElem_cons hlt
    have hd1 : pv1.unit_state.drop (unit + 1) = pv.unit_state.drop (unit + 1) := by
      rw [hpv1]
      exact drop_succ_set _ _ _
    refine ⟨w2, units, ?_, ?_, frame_trans f1 f2, s2.trans s1, ?_⟩
    · rw [foreach_update_constants, hcb]
      dsimp only
      rw [hf, hpv1]
    · rw [hd, upload_calls]
      rw [hd1] at e2
      exact ext_trans e1 e2
    · intro u
      rw [hu u]
      have hget : pv1.unit_state[u]? =
          if u = unit then some (unit_after env ua (pv.unit_state.get ⟨unit, hlt⟩))
          else pv.unit_state[u]? := by
        rw [hpv1]
        show (pv.unit_state.set unit _)[u]? = _
        by_cases hx : u = unit
        · rw [if_pos hx, hx]
          exact List.getElem?_set_self hlt
        · rw [if_neg hx]
          exact List.getElem?_set_ne (fun hc => hx hc.symm)
      rw [hget]
      by_cases hx : u = unit
      · subst hx
        rw [if_neg (by omega), if_pos rfl, if_pos (by simp), hus]
        rfl
      · rw [if_neg hx]
        by_cases h1 : unit + 1 ≤ u ∧ u < unit + 1 + rest.length
        · rw [if_pos h1, if_pos (by simp only [List.length_cons]; omega)]
        · rw [if_neg h1, if_neg (by simp only [List.length_cons]; omega)]

theorem loud_unit_uploads (env : Env) (p : Nat) (ua : Bool) (us : UnitState) (li : Nat) :
    loud (unit_uploads env p ua us li) = unit_uploads env p ua us li := by
  unfold unit_uploads
  rw [loud_append]
  congr 1
  · split <;> rfl
  · split <;> rfl

theorem loud_upload_calls (env : Env) (p : Nat) (ua : Bool) :
    ∀ (units : List UnitState) (layers : List Nat),
      loud (upload_calls env p ua units layers) = upload_calls env p ua units layers := by
  intro units
  induction units with
  | nil => intro layers; rfl
  | cons us rest ih =>
    intro layers
    cases layers with
    | nil => rfl
    | cons l ls =>
      rw [upload_calls, loud_append, loud_unit_uploads, ih]

theorem fields_get_uniform_cb (env : Env) (g : Nat) (w w2 : World)
    (pv pv2 : CoglPipelineProgendPrivate) (unit : Nat)
    (h : get_uniform_cb env g w pv unit = some (w2, pv2)) :
    pv2.last_used_for_pipeline = pv.last_used_for_pipeline ∧
    pv2.user_program_age = pv.user_program_age ∧ pv2.ref_count = pv.ref_count := by
  unfold get_uniform_cb at h
  dsimp only at h
  split at h
  · cases h
  · split at h
    · simp only [Option.some.injEq, Prod.mk.injEq] at h
      rw [← h.2]
      exact ⟨rfl, rfl, rfl⟩
    · simp only [Option.some.injEq, Prod.mk.injEq] at h
      rw [← h.2]
      exact ⟨rfl, rfl, rfl⟩

theorem fields_foreach_get_uniform (env : Env) (g : Nat) (layers : List Nat) :
    ∀ (unit : Nat) (w w2 : World) (pv pv2 : CoglPipelineProgendPrivate),
      foreach_get_uniform env g layers unit w pv = some (w2, pv2) →
      pv2.last_used_for_pipeline = pv.last_used_for_pipeline ∧
      pv2.user_program_age = pv.user_program_age ∧ pv2.ref_count = pv.ref_count := by
  induction layers with
  | nil =>
    intro unit w w2 pv pv2 h
    simp only [foreach_get_uniform, Option.some.injEq, Prod.mk.injEq] at h
    rw [← h.2]
    exact ⟨rfl, rfl, rfl⟩
  | cons l rest ih =>
    intro unit w w2 pv pv2 h
    rw [foreach_get_uniform] at h
    cases hc : get_uniform_cb env g w pv unit with
    | none => rw [hc] at h; cases h
    | some r =>
      rw [hc] at h
      obtain ⟨a1, a2, a3⟩ := fields_get_uniform_cb env g w r.1 pv r.2 unit hc
      obtain ⟨b1, b2, b3⟩ := ih _ _ _ _ _ h
      exact ⟨b1.trans a1, b2.trans a2, b3.trans a3⟩

theorem fields_update_builtin_uniforms (p : Nat) (w : World)
    (pv : CoglPipelineProgendPrivate) :
    (update_builtin_uniforms p w pv).2.unit_state = pv.unit_state ∧
    (update_builtin_uniforms p w pv).2.last_used_for_pipeline = pv.last_used_for_pipeline := by
  unfold update_builtin_uniforms
  split
  · exact ⟨rfl, rfl⟩
  · exact ⟨rfl, rfl⟩

theorem fields_end_gles2 (env : Env) (w : World) (p g : Nat) (changed : Bool)
    (pv : CoglPipelineProgendPrivate) :
    (end_gles2 env w p g changed pv).2.unit_state = pv.unit_state ∧
    (end_gles2 env w p g changed pv).2.last_used_for_pipeline =
      pv.last_used_for_pipeline := by
  cases changed with
  | true =>
    have h : end_gles2 env w p g true pv =
        update_builtin_uniforms p (end_gles2_locations env w g pv).1
          { (end_gles2_locations env w g pv).2 with dirty_builtin_uniforms := env.ulong_max } := by
      unfold end_gles2
      simp
    rw [h]
    exact fields_update_builtin_uniforms p _ _
  | false =>
    by_cases hl : pv.last_used_for_pipeline ≠ p
    · have h : end_gles2 env w p g false pv =
          update_builtin_uniforms p w { pv with dirty_builtin_uniforms := env.ulong_max } := by
        unfold end_gles2
        simp [hl]
      rw [h]
      exact fields_update_builtin_uniforms p w _
    · have h : end_gles2 env w p g false pv = update_builtin_uniforms p w pv := by
        unfold end_gles2
        simp [hl]
      rw [h]
      exact fields_update_builtin_uniforms p w _

theorem update_constants_cb_lt (env : Env) (p : Nat) (ua : Bool) (w : World)
    (pv : CoglPipelineProgendPrivate) (unit li : Nat)
    (r : World × CoglPipelineProgendPrivate)
    (h : update_constants_cb env p ua w pv unit li = some r) :
    unit < pv.unit_state.length := by
  unfold update_constants_cb at h
  split at h
  · cases h
  · rename_i us hus
    exact (List.getElem?_eq_some_iff.mp hus).1

theorem foreach_update_len (env : Env) (p : Nat) (ua : Bool) (layers : List Nat) :
    ∀ (unit : Nat) (w : World) (pv : CoglPipelineProgendPrivate)
      (r : World × CoglPipelineProgendPrivate),
      foreach_update_constants env p ua layers unit w pv = some r →
      layers.length = 0 ∨ unit + layers.length ≤ pv.unit_state.length := by
  induction layers with
  | nil =>
    intro unit w pv r _
    exact Or.inl rfl
  | cons l rest ih =>
    intro unit w pv r h
    rw [foreach_update_constants] at h
    cases hc : update_constants_cb env p ua w pv unit l with
    | none => rw [hc] at h; cases h
    | some r1 =>
      rw [hc] at h
      have h1 := ih _ _ _ _ h
      have hlt := update_constants_cb_lt env p ua w pv unit l r1 hc
      have hk := sameLink_length (keeps_update_constants_cb env p ua w r1.1 pv r1.2 unit l hc).2
      right
      simp only [List.length_cons]
      rcases h1 with h1 | h1
      · omega
      · omega

/-- The second half of `_cogl_pipeline_progend_glsl_end` in its parts: the
staleness test, the link, the quiet selection of the program and resolution of
the uniform locations, the uploads of the layer uniforms with
`update_all = program_changed || priv->last_used_for_pipeline != pipeline`, and a
quiet rest. -/
theorem end_with_priv_parts (env : Env) (w w2 : World) (p : Nat) (pl : CoglPipeline)
    (n : Int) (pv pv2 : CoglPipelineProgendPrivate)
    (h : end_with_priv env w p pl n pv = some (w2, pv2)) :
    ∃ w1 pv1 wl pvl changed w5 pv3 w6,
      end_check_relink w pl.user_program n pv = some (w1, pv1) ∧
      end_link env w1 p pl n pv1 = some (wl, pvl, changed) ∧
      Quiet wl w5 ∧ (changed = false → pv3 = pvl) ∧
      (∀ u, u < pl.layers.length → changed = true →
        ∃ t, Resolved env.gles2 pvl.program t pv3 u) ∧
      pv3.program = pvl.program ∧ pv3.n_tex_coord_attribs = pvl.n_tex_coord_attribs ∧
      pv3.user_program_age = pvl.user_program_age ∧ pv3.ref_count = pvl.ref_count ∧
      pv3.last_used_for_pipeline = pvl.last_used_for_pipeline ∧
      pv3.unit_state.length = pvl.unit_state.length ∧
      pl.layers.length ≤ pv3.unit_state.length ∧
      Ext w5 w6 (upload_calls env p
        (changed || decide (pv3.last_used_for_pipeline ≠ p)) pv3.unit_state pl.layers) ∧
      Quiet w6 w2 ∧
      Uploaded env p (changed || decide (pv3.last_used_for_pipeline ≠ p)) pv3 pv2
        pl.layers := by
  unfold end_with_priv at h
  split at h
  · cases h
  · rename_i w1 pv1 h1
    split at h
    · cases h
    · rename_i wl pvl changed hl
      dsimp only at h
      split at h
      · cases h
      · rename_i w5 pv3 hg
        have qu := quiet_trans
          (quiet_call_if wl (Call.use_fragment_program pvl.program)
            (pl.fragend = env.FRAGEND_GLSL) rfl)
          (quiet_call_if _ (Call.use_vertex_program pvl.program)
            (pl.vertend = env.VERTEND_GLSL) rfl)
        have hg2 : Quiet wl w5 ∧ (changed = false → pv3 = pvl) ∧
            (∀ u, u < pl.layers.length → changed = true →
              ∃ t, Resolved env.gles2 pvl.program t pv3 u) ∧
            pv3.program = pvl.program ∧
            pv3.n_tex_coord_attribs = pvl.n_tex_coord_attribs ∧
            pv3.user_program_age = pvl.user_program_age ∧
            pv3.ref_count = pvl.ref_count ∧
            pv3.last_used_for_pipeline = pvl.last_used_for_pipeline ∧
            pv3.unit_state.length = pvl.unit_state.length := by
          split at hg
          · rename_i hch
            obtain ⟨tg, _, hres, _, pg, ng⟩ :=
              resolved_foreach_get_uniform _ _ _ _ _ _ _ _ hg
            obtain ⟨a1, a2, a3⟩ := fields_foreach_get_uniform _ _ _ _ _ _ _ _ hg
            refine ⟨quiet_trans qu (quiet_foreach_get_uniform _ _ _ _ _ _ _ _ hg),
              fun hc => ?_, ?_, pg, ng, a2, a3, a1,
              units_foreach_get_uniform _ _ _ _ _ _ _ _ hg⟩
            · rw [hc] at hch
              cases hch
            · intro u hu _
              have := hres u hu
              rw [Nat.zero_add] at this
              exact ⟨tg, this⟩
          · rename_i hch
            simp only [Option.some.injEq, Prod.mk.injEq] at hg
            rw [← hg.1, ← hg.2]
            exact ⟨qu, fun _ => rfl, fun u _ hc => absurd hc hch, rfl, rfl, rfl, rfl, rfl,
              rfl⟩
        split at h
        · cases h
        · rename_i w6 pv4 hc
          have hlen : 0 + pl.layers.length ≤ pv3.unit_state.length := by
            rcases foreach_update_len _ _ _ _ _ _ _ _ hc with hz | hz
            · omega
            · exact hz
          obtain ⟨w6b, units, hf, eu, _, _, hu⟩ := foreach_update_spec env p
            (changed || decide (pv3.last_used_for_pipeline ≠ p)) pl.layers 0 w5 pv3 hlen
          rw [hc] at hf
          simp only [Option.some.injEq, Prod.mk.injEq] at hf
          obtain ⟨x1, x2⟩ := hf
          rw [← x1] at eu
          simp only [Option.some.injEq, Prod.mk.injEq] at h
          obtain ⟨e1, e2⟩ := h
          have q5 : Quiet w6 (if env.gles2 = true then
                end_gles2 env w6 p pvl.program changed pv4 else (w6, pv4)).1 := by
            split
            · exact quiet_end_gles2 _ _ _ _ _ _
            · exact quiet_refl _
          have k5 : Keeps w6 (if env.gles2 = true then
                end_gles2 env w6 p pvl.program changed pv4 else (w6, pv4)).1 pv4
              (if env.gles2 = true then
                end_gles2 env w6 p pvl.program changed pv4 else (w6, pv4)).2 := by
            split
            · exact keeps_end_gles2 _ _ _ _ _ _
            · exact keeps_refl _ _
          have r5 : (if env.gles2 = true then
                end_gles2 env w6 p pvl.program changed pv4 else (w6, pv4)).2.ref_count =
              pv4.ref_count := by
            split
            · exact (frame_end_gles2 _ _ _ _ _ _).2
            · rfl
          have u5 : (if env.gles2 = true then
                end_gles2 env w6 p pvl.program changed pv4 else (w6, pv4)).2.unit_state =
              pv4.unit_state := by
            split
            · exact (fields_end_gles2 _ _ _ _ _ _).1
            · rfl
          have q6 := quiet_trans q5 (quiet_call_if _
            (Call.program_flush_uniforms pl.user_program pvl.program changed)
            (pl.user_program ≠ 0) rfl)
          rw [e1] at q6
          obtain ⟨g1, g2, g3, g4, g5, g6, g7, g8, g9⟩ := hg2
          refine ⟨w1, pv1, wl, pvl, changed, w5, pv3, w6, h1, hl, g1, g2, g3, g4, g5, g6,
            g7, g8, g9, by omega, ?_, q6, ?_⟩
          · rw [List.drop_zero] at eu
            exact eu
          · rw [← e2]
            have s5 := k5.2
            refine ⟨?_, ?_, ?_, ?_, rfl, ?_⟩
            · show _ = pv3.program
              rw [s5.1, x2]
            · show _ = pv3.n_tex_coord_attribs
              rw [s5.2.1, x2]
            · show _ = pv3.user_program_age
              rw [s5.2.2.1, x2]
            · show _ = pv3.ref_count
              rw [r5, x2]
            · intro u
              show (_ : List UnitState)[u]? = _
              rw [u5, x2]
              have := hu u
              simp only [Nat.zero_le, true_and, Nat.zero_add] at this
              exact this

theorem fresh_check_relink (w : World) (pl : CoglPipeline) (n : Int)
    (pv : CoglPipelineProgendPrivate) (h : Fresh w pl n pv) :
    end_check_relink w pl.user_program n pv = some (w, pv) := by
  rcases h with h | ⟨prog, hg, ha, hn⟩
  · exact no_relink_eq w _ n pv (Or.inr h)
  · by_cases hc : pv.program ≠ 0 ∧ pl.user_program ≠ 0
    · unfold end_check_relink
      rw [if_pos hc, hg]
      dsimp only
      rw [if_neg (by
        intro hx
        rcases hx with hx | hx
        · exact hx ha
        · omega)]
    · unfold end_check_relink
      rw [if_neg hc]

/-- The second half of `_cogl_pipeline_progend_glsl_end` on an entry that has a
program which is not stale: nothing is created, linked, deleted or diagnosed; the
layer uniforms are uploaded with `update_all` set exactly when the entry was last
used for another pipeline. -/
theorem end_no_link (env : Env) (w w2 : World) (p : Nat) (pl : CoglPipeline) (n : Int)
    (pv pv2 : CoglPipelineProgendPrivate) (hp : pv.program ≠ 0) (hf : Fresh w pl n pv)
    (h : end_with_priv env w p pl n pv = some (w2, pv2)) :
    Loud w w2 (upload_calls env p (decide (pv.last_used_for_pipeline ≠ p)) pv.unit_state
      pl.layers) ∧
    Uploaded env p (decide (pv.last_used_for_pipeline ≠ p)) pv pv2 pl.layers := by
  obtain ⟨w1, pv1, wl, pvl, changed, w5, pv3, w6, h1, hl, q1, hsame, _, _, _, _, _, _, _, _,
    eu, q2, hup⟩ := end_with_priv_parts env w w2 p pl n pv pv2 h
  rw [fresh_check_relink w pl n pv hf] at h1
  simp only [Option.some.injEq, Prod.mk.injEq] at h1
  obtain ⟨x1, x2⟩ := h1
  subst x1; subst x2
  rw [no_link_eq env w p pl n pv hp] at hl
  simp only [Option.some.injEq, Prod.mk.injEq] at hl
  obtain ⟨y1, y2, y3⟩ := hl
  subst y1; subst y2; subst y3
  have h3 := hsame rfl
  subst h3
  simp only [Bool.false_or] at eu hup
  refine ⟨?_, hup⟩
  have l1 : Loud w5 w6 _ := ⟨_, eu, loud_upload_calls env p _ _ _⟩
  exact loud_cast (loud_trans (loud_trans (loud_of_quiet q1) l1) (loud_of_quiet q2))
    (by simp)

/-- The second half of `_cogl_pipeline_progend_glsl_end` completes on an entry that
has a program which is not stale and a unit state for every layer. -/
theorem end_no_link_total (env : Env) (w : World) (p : Nat) (pl : CoglPipeline) (n : Int)
    (pv : CoglPipelineProgendPrivate) (hp : pv.program ≠ 0) (hf : Fresh w pl n pv)
    (hunits : pl.layers.length ≤ pv.unit_state.length) :
    ∃ r, end_with_priv env w p pl n pv = some r := by
  unfold end_with_priv
  rw [fresh_check_relink w pl n pv hf]
  dsimp only
  rw [no_link_eq env w p pl n pv hp]
  dsimp only
  simp only [Bool.false_eq_true, ↓reduceIte, Bool.false_or]
  obtain ⟨w6, units, hfe, _⟩ := foreach_update_spec env p
    (decide (pv.last_used_for_pipeline ≠ p)) pl.layers 0
    (if pl.vertend = env.VERTEND_GLSL then
      (if pl.fragend = env.FRAGEND_GLSL then
        w.call (Call.use_fragment_program pv.program) else w).call
        (Call.use_vertex_program pv.program)
    else if pl.fragend = env.FRAGEND_GLSL then
      w.call (Call.use_fragment_program pv.program) else w) pv (by omega)
  rw [hfe]
  exact ⟨_, rfl⟩

/-! ## Projections of the trace of one call -/

theorem filterMap_loud {α : Type} (f : Call → Option α)
    (hq : ∀ c, c.is_quiet = true → f c = none) (t : List Call) :
    t.filterMap f = (loud t).filterMap f := by
  induction t with
  | nil => rfl
  | cons c rest ih =>
    cases hc : c.is_quiet with
    | true =>
      have h1 : loud (c :: rest) = loud rest := by simp [loud, hc]
      rw [h1, List.filterMap_cons, hq c hc, ih]
    | false =>
      have h1 : loud (c :: rest) = c :: loud rest := by simp [loud, hc]
      rw [h1, List.filterMap_cons, List.filterMap_cons, ih]

theorem filterMap_of_loud {α : Type} (f : Call → Option α)
    (hq : ∀ c, c.is_quiet = true → f c = none) {w w2 : World} {l : List Call}
    (h : Loud w w2 l) : w2.trace.filterMap f = w.trace.filterMap f ++ l.filterMap f := by
  obtain ⟨t, e, hl⟩ := h
  rw [e, List.filterMap_append, filterMap_loud f hq t, hl]

theorem mem_unit_uploads (env : Env) (p : Nat) (ua : Bool) (us : UnitState) (li : Nat)
    (c : Call) (hc : c ∈ unit_uploads env p ua us li) :
    (∃ loc, c = Call.glUniform4fv_combine_constant loc p li) ∨
    (∃ loc, c = Call.glUniformMatrix4fv_layer_matrix loc p li) := by
  unfold unit_uploads at hc
  rcases List.mem_append.mp hc with h | h
  · split at h
    · rw [List.mem_singleton] at h
      exact Or.inl ⟨_, h⟩
    · cases h
  · split at h
    · rw [List.mem_singleton] at h
      exact Or.inr ⟨_, h⟩
    · cases h

theorem mem_upload_calls (env : Env) (p : Nat) (ua : Bool) :
    ∀ (units : List UnitState) (layers : List Nat) (c : Call),
      c ∈ upload_calls env p ua units layers →
      (∃ loc li, c = Call.glUniform4fv_combine_constant loc p li) ∨
      (∃ loc li, c = Call.glUniformMatrix4fv_layer_matrix loc p li) := by
  intro units
  induction units with
  | nil => intro layers c hc; cases hc
  | cons us rest ih =>
    intro layers c hc
    cases layers with
    | nil => cases hc
    | cons l ls =>
      rw [upload_calls] at hc
      rcases List.mem_append.mp hc with h | h
      · rcases mem_unit_uploads env p ua us l c h with ⟨loc, e⟩ | ⟨loc, e⟩
        · exact Or.inl ⟨loc, l, e⟩
        · exact Or.inr ⟨loc, l, e⟩
      · exact ih ls c h

theorem filterMap_upload_calls {α : Type} (f : Call → Option α)
    (h1 : ∀ loc p li, f (Call.glUniform4fv_combine_constant loc p li) = none)
    (h2 : ∀ loc p li, f (Call.glUniformMatrix4fv_layer_matrix loc p li) = none)
    (env : Env) (p : Nat) (ua : Bool) (units : List UnitState) (layers : List Nat) :
    (upload_calls env p ua units layers).filterMap f = [] := by
  rw [List.filterMap_eq_nil_iff]
  intro c hc
  rcases mem_upload_calls env p ua units layers c hc with ⟨loc, li, e⟩ | ⟨loc, li, e⟩
  · rw [e]; exact h1 _ _ _
  · rw [e]; exact h2 _ _ _

theorem creates_quiet (c : Call) (h : c.is_quiet = true) : Call.creates c = none := by
  cases c <;> first | rfl | cases h

theorem deletes_of_quiet (c : Call) (h : c.is_quiet = true) : Call.deletes c = none := by
  cases c <;> first | rfl | cases h

theorem links_quiet (c : Call) (h : c.is_quiet = true) : Call.links c = none := by
  cases c <;> first | rfl | cases h

theorem warns_quiet (c : Call) (h : c.is_quiet = true) : Call.warns c = none := by
  cases c <;> first | rfl | cases h

theorem created_eq (t : List Call) : created_programs t = t.filterMap Call.creates := by
  unfold created_programs
  congr 1

/-- A call of the second half that makes only uploads beyond its quiet calls
creates, deletes, links and diagnoses nothing. -/
theorem uploads_only (env : Env) (p : Nat) (ua : Bool) (units : List UnitState)
    (layers : List Nat) {w w2 : World}
    (h : Loud w w2 (upload_calls env p ua units layers)) :
    created_programs w2.trace = created_programs w.trace ∧
    deleted_programs w2.trace = deleted_programs w.trace ∧
    linked_programs w2.trace = linked_programs w.trace ∧
    link_warnings w2.trace = link_warnings w.trace := by
  have a := filterMap_of_loud Call.creates creates_quiet h
  have b := filterMap_of_loud Call.deletes deletes_of_quiet h
  have c := filterMap_of_loud Call.links links_quiet h
  have d := filterMap_of_loud Call.warns warns_quiet h
  rw [filterMap_upload_calls _ (fun _ _ _ => rfl) (fun _ _ _ => rfl),
    List.append_nil] at a b c d
  exact ⟨by rw [created_eq, created_eq]; exact a, b, c, d⟩

/-! ## The program end on an entry whose program is not stale -/

/-- The program end on a pipeline that holds an entry with a program that is not
stale: the call completes, makes only the uploads of the layer uniforms beyond its
quiet calls, and changes nothing but that entry. -/
theorem end_present_no_link (env : Env) (hctx : env.have_context = true) (w : World)
    (p d : Nat) (n : Int) (pl : CoglPipeline) (pv : CoglPipelineProgendPrivate)
    (hp : heap_get w.pipelines p = some pl)
    (hglsl : pl.fragend = env.FRAGEND_GLSL ∨ pl.vertend = env.VERTEND_GLSL)
    (he : priv_of env pl ≠ 0) (hpv : heap_get w.privs (priv_of env pl) = some pv)
    (hprog : pv.program ≠ 0) (hf : Fresh w pl n pv)
    (hunits : pl.layers.length ≤ pv.unit_state.length) :
    ∃ w2 pv2, _cogl_pipeline_progend_glsl_end env w p d n = some w2 ∧
      heap_get w2.privs (priv_of env pl) = some pv2 ∧
      Loud w w2 (upload_calls env p (decide (pv.last_used_for_pipeline ≠ p))
        pv.unit_state pl.layers) ∧
      Uploaded env p (decide (pv.last_used_for_pipeline ≠ p)) pv pv2 pl.layers ∧
      w2.pipelines = w.pipelines ∧ w2.programs = w.programs ∧
      ∀ x, x ≠ priv_of env pl → heap_get w2.privs x = heap_get w.privs x := by
  obtain ⟨⟨w3, pv2⟩, hw⟩ := end_no_link_total env w p pl n pv hprog hf hunits
  obtain ⟨hl, hu⟩ := end_no_link env w w3 p pl n pv pv2 hprog hf hw
  obtain ⟨f, _⟩ := frame_end_with_priv env w w3 p pl n pv pv2 hw
  have hb := heap_get_some_bound _ _ _ hpv
  refine ⟨_, pv2, end_present_eq env hctx w w3 p d n pl pv pv2 hp hglsl he hpv hw,
    ?_, hl, hu, f.1, f.2.2, ?_⟩
  · show heap_get (heap_set w3.privs _ _) _ = _
    rw [f.2.1]
    exact heap_get_set_same _ _ _ hb.1 hb.2
  · intro x hx
    show heap_get (heap_set w3.privs _ _) _ = _
    rw [heap_get_set_ne _ _ _ _ hx, f.2.1]

/-- C11: when the program end runs for a pipeline that holds a cache entry with a
program, and the pipeline has no user program or the age of its user program is
the cached one and the call demands no more texture-coordinate attributes than
the entry records, the call completes without relinking: the program handle, the
recorded attribute count and the cached age are unchanged, and no program is
created, deleted or linked. -/
theorem no_relink_when_not_stale (env : Env) (hctx : env.have_context = true) (w : World)
    (p d : Nat) (n : Int) (pl : CoglPipeline) (pv : CoglPipelineProgendPrivate)
    (hp : heap_get w.pipelines p = some pl)
    (hglsl : pl.fragend = env.FRAGEND_GLSL ∨ pl.vertend = env.VERTEND_GLSL)
    (he : priv_of env pl ≠ 0) (hpv : heap_get w.privs (priv_of env pl) = some pv)
    (hprog : pv.program ≠ 0) (hf : Fresh w pl n pv)
    (hunits : pl.layers.length ≤ pv.unit_state.length) :
    ∃ w2 pv2, _cogl_pipeline_progend_glsl_end env w p d n = some w2 ∧
      heap_get w2.privs (priv_of env pl) = some pv2 ∧
      pv2.program = pv.program ∧ pv2.n_tex_coord_attribs = pv.n_tex_coord_attribs ∧
      pv2.user_program_age = pv.user_program_age ∧
      created_programs w2.trace = created_programs w.trace ∧
      deleted_programs w2.trace = deleted_programs w.trace ∧
      linked_programs w2.trace = linked_programs w.trace := by
  obtain ⟨w2, pv2, h1, h2, hl, hu, _⟩ :=
    end_present_no_link env hctx w p d n pl pv hp hglsl he hpv hprog hf hunits
  obtain ⟨c1, c2, c3, _⟩ := uploads_only env p _ _ _ hl
  exact ⟨w2, pv2, h1, h2, hu.1, hu.2.1, hu.2.2.1, c1, c2, c3⟩

theorem demo_fresh3 :
    Fresh demo_linked3 (pipeline_at demo_linked3 4) 1 (entry_at demo_env demo_linked3 1) :=
  Or.inr ⟨⟨5, [1]⟩, by decide, by decide, by decide⟩

/-- Witness of C11: C (4) of the example chain holds the entry 1 linked for three
attributes; the call for one attribute does not relink. -/
theorem no_relink_when_not_stale_witness :
    (demo_env.have_context = true ∧
      heap_get demo_linked3.pipelines 4 = some (pipeline_at demo_linked3 4) ∧
      ((pipeline_at demo_linked3 4).fragend = demo_env.FRAGEND_GLSL ∨
        (pipeline_at demo_linked3 4).vertend = demo_env.VERTEND_GLSL) ∧
      priv_of demo_env (pipeline_at demo_linked3 4) ≠ 0 ∧
      heap_get demo_linked3.privs (priv_of demo_env (pipeline_at demo_linked3 4)) =
        some (entry_at demo_env demo_linked3 1) ∧
      (entry_at demo_env demo_linked3 1).program ≠ 0 ∧
      (entry_at demo_env demo_linked3 1).n_tex_coord_attribs = 3 ∧
      Fresh demo_linked3 (pipeline_at demo_linked3 4) 1 (entry_at demo_env demo_linked3 1) ∧
      (pipeline_at demo_linked3 4).layers.length ≤
        (entry_at demo_env demo_linked3 1).unit_state.length) ∧
    (∃ w2 pv2, _cogl_pipeline_progend_glsl_end demo_env demo_linked3 4 0 1 = some w2 ∧
      heap_get w2.privs (priv_of demo_env (pipeline_at demo_linked3 4)) = some pv2 ∧
      pv2.program = (entry_at demo_env demo_linked3 1).program ∧
      pv2.n_tex_coord_attribs = (entry_at demo_env demo_linked3 1).n_tex_coord_attribs ∧
      pv2.user_program_age = (entry_at demo_env demo_linked3 1).user_program_age ∧
      created_programs w2.trace = created_programs demo_linked3.trace ∧
      deleted_programs w2.trace = deleted_programs demo_linked3.trace ∧
      linked_programs w2.trace = linked_programs demo_linked3.trace) :=
  ⟨⟨rfl, by decide, Or.inl (by decide), by decide, by decide, by decide, by decide,
      demo_fresh3, by decide⟩,
    no_relink_when_not_stale demo_env rfl demo_linked3 4 0 1 (pipeline_at demo_linked3 4)
      (entry_at demo_env demo_linked3 1) (by decide) (Or.inl (by decide)) (by decide)
      (by decide) (by decide) demo_fresh3 (by decide)⟩

/-! ## The program end when it links -/

theorem link_calls_proj (g : Nat) (st : Bool) :
    (link_calls g st).filterMap Call.creates = [g] ∧
    (link_calls g st).filterMap Call.deletes = [] ∧
    (link_calls g st).filterMap Call.links = [g] ∧
    (link_calls g st).filterMap Call.warns = (if st = false then [g] else []) := by
  cases st <;> exact ⟨rfl, rfl, rfl, rfl⟩

/-- The second half of `_cogl_pipeline_progend_glsl_end` from the link on, when the
entry has no program after the staleness test: the program that `glCreateProgram`
returns is linked once, the uniform locations of the layers are resolved on it,
and every layer uniform that has a location is uploaded (`update_all` is set). -/
theorem end_linked_parts (env : Env) (w w1 w2 : World) (p : Nat) (pl : CoglPipeline)
    (n : Int) (pv pv1 pv2 : CoglPipelineProgendPrivate)
    (h1 : end_check_relink w pl.user_program n pv = some (w1, pv1))
    (h0 : pv1.program = 0)
    (h : end_with_priv env w p pl n pv = some (w2, pv2)) :
    ∃ st pv3, (∃ t, st = env.link_status t (env.glCreateProgram w1.trace)) ∧
      Loud w1 w2 (link_calls (env.glCreateProgram w1.trace) st ++
        upload_calls env p true pv3.unit_state pl.layers) ∧
      Uploaded env p true pv3 pv2 pl.layers ∧
      pv3.program = env.glCreateProgram w1.trace ∧ n ≤ pv3.n_tex_coord_attribs ∧
      pv3.ref_count = pv1.ref_count ∧
      pv3.unit_state.length = pv1.unit_state.length ∧
      (pl.user_program = 0 → pv3.user_program_age = pv1.user_program_age) ∧
      (∀ prog, pl.user_program ≠ 0 → heap_get w1.programs pl.user_program = some prog →
        pv3.user_program_age = prog.age) ∧
      ∀ u, u < pl.layers.length →
        ∃ t, Resolved env.gles2 (env.glCreateProgram w1.trace) t pv3 u := by
  obtain ⟨w1b, pv1b, wl, pvl, changed, w5, pv3, w6, k1, hl, q1, _, hres, g4, g5, g6,
    g7, g8, g9, _, eu, q2, hup⟩ := end_with_priv_parts env w w2 p pl n pv pv2 h
  rw [h1] at k1
  simp only [Option.some.injEq, Prod.mk.injEq] at k1
  obtain ⟨x1, x2⟩ := k1
  subst x1; subst x2
  obtain ⟨hb, hprog, _, hn, hus⟩ := link_spec env _ _ p pl n _ _ _ h0 hl
  obtain ⟨⟨st, hst, ll⟩, _, a1, a2⟩ := link_loud env _ _ p pl n _ _ _ h0 hl
  obtain ⟨_, r2⟩ := frame_end_link env _ _ p pl n _ _ _ hl
  subst hb
  simp only [Bool.true_or] at eu hup
  have l1 : Loud w5 w6 _ := ⟨_, eu, loud_upload_calls env p _ _ _⟩
  refine ⟨st, pv3, hst, ?_, hup, g4.trans hprog, by rw [g5]; exact hn, g7.trans r2,
    by rw [g9, hus], fun hc => g6.trans (a1 hc), fun prog hc hg => g6.trans (a2 prog hc hg),
    ?_⟩
  · exact loud_cast (loud_trans (loud_trans (loud_trans ll (loud_of_quiet q1)) l1)
      (loud_of_quiet q2)) (by simp)
  · intro u hu
    obtain ⟨t, ht⟩ := hres u hu rfl
    rw [hprog] at ht
    exact ⟨t, ht⟩


theorem stale_check_relink (w : World) (pl : CoglPipeline) (n : Int)
    (pv : CoglPipelineProgendPrivate) (hs : Stale w pl n pv) :
    ∃ w1 pv1, end_check_relink w pl.user_program n pv = some (w1, pv1) ∧
      pv1.program = 0 ∧ Loud w w1 (stale_deletes pv) ∧
      w1.trace = w.trace ++ stale_deletes pv ∧ w1.programs = w.programs ∧
      pv1.ref_count = pv.ref_count ∧ pv1.user_program_age = pv.user_program_age ∧
      pv1.unit_state = pv.unit_state := by
  by_cases h0 : pv.program = 0
  · refine ⟨w, pv, no_relink_eq w _ n pv (Or.inl h0), h0, ?_, ?_, rfl, rfl, rfl, rfl⟩
    · unfold stale_deletes
      rw [if_neg (by intro hc; exact hc h0)]
      exact loud_refl w
    · unfold stale_deletes
      rw [if_neg (by intro hc; exact hc h0), List.append_nil]
  · rcases hs with hs | ⟨prog, hu, hg, hst⟩
    · exact absurd hs h0
    · refine ⟨_, _, relink_eq w _ n pv prog h0 hu hg hst, rfl, ?_, ?_, rfl, rfl, rfl, rfl⟩
      · unfold stale_deletes
        rw [if_pos h0]
        exact loud_call w _ rfl
      · unfold stale_deletes
        rw [if_pos h0]
        rfl

/-- The program end on a pipeline that holds an entry whose program has to be
linked: the call completes; beyond its quiet calls it deletes the old program if
there is one, creates and links the program that `glCreateProgram` returns, and
uploads every layer uniform that has a location; it changes nothing but that
entry (and the compiled shaders). -/
theorem end_present_links (env : Env) (hctx : env.have_context = true)
    (hlang : env.compiles_glsl) (w : World)
    (p d : Nat) (n : Int) (pl : CoglPipeline) (pv : CoglPipelineProgendPrivate)
    (hp : heap_get w.pipelines p = some pl)
    (hglsl : pl.fragend = env.FRAGEND_GLSL ∨ pl.vertend = env.VERTEND_GLSL)
    (he : priv_of env pl ≠ 0) (hpv : heap_get w.privs (priv_of env pl) = some pv)
    (hlive : UserProgramLive w pl) (hs : Stale w pl n pv)
    (hunits : pl.layers.length ≤ pv.unit_state.length) :
    ∃ w2 pv2 st pv3, _cogl_pipeline_progend_glsl_end env w p d n = some w2 ∧
      heap_get w2.privs (priv_of env pl) = some pv2 ∧
      (∃ t, st = env.link_status t (env.glCreateProgram (w.trace ++ stale_deletes pv))) ∧
      Loud w w2 (stale_deletes pv ++
        (link_calls (env.glCreateProgram (w.trace ++ stale_deletes pv)) st ++
          upload_calls env p true pv3.unit_state pl.layers)) ∧
      Uploaded env p true pv3 pv2 pl.layers ∧
      pv3.program = env.glCreateProgram (w.trace ++ stale_deletes pv) ∧
      n ≤ pv3.n_tex_coord_attribs ∧ pv3.ref_count = pv.ref_count ∧
      pv3.unit_state.length = pv.unit_state.length ∧
      (pl.user_program = 0 → pv3.user_program_age = pv.user_program_age) ∧
      (∀ prog, pl.user_program ≠ 0 → heap_get w.programs pl.user_program = some prog →
        pv3.user_program_age = prog.age) ∧
      w2.pipelines = w.pipelines ∧ w2.programs = w.programs ∧
      ∀ x, x ≠ priv_of env pl → heap_get w2.privs x = heap_get w.privs x := by
  obtain ⟨⟨w3, pv2⟩, hw⟩ := end_with_priv_total env hlang w p pl n pv hlive hunits
  obtain ⟨w1, pv1, h1, h0, hl1, ht1, hpr1, hr1, ha1, hu1⟩ := stale_check_relink w pl n pv hs
  obtain ⟨st, pv3, hst, hl, hup, k1, k2, k3, k4, k5, k6, _⟩ :=
    end_linked_parts env w w1 w3 p pl n pv pv1 pv2 h1 h0 hw
  obtain ⟨f, _⟩ := frame_end_with_priv env w w3 p pl n pv pv2 hw
  have hb := heap_get_some_bound _ _ _ hpv
  rw [ht1] at hst hl k1
  refine ⟨_, pv2, st, pv3, end_present_eq env hctx w w3 p d n pl pv pv2 hp hglsl he hpv hw,
    ?_, hst, loud_trans hl1 hl, hup, k1, k2, k3.trans hr1, by rw [k4, hu1],
    fun hc => (k5 hc).trans ha1, fun prog hc hg => k6 prog hc (by rw [hpr1]; exact hg),
    f.1, f.2.2, ?_⟩
  · show heap_get (heap_set w3.privs _ _) _ = _
    rw [f.2.1]
    exact heap_get_set_same _ _ _ hb.1 hb.2
  · intro x hx
    show heap_get (heap_set w3.privs _ _) _ = _
    rw [heap_get_set_ne _ _ _ _ hx, f.2.1]


theorem stale_deletes_proj (pv : CoglPipelineProgendPrivate) :
    (stale_deletes pv).filterMap Call.creates = [] ∧
    (stale_deletes pv).filterMap Call.deletes =
      (if pv.program ≠ 0 then [pv.program] else []) ∧
    (stale_deletes pv).filterMap Call.links = [] ∧
    (stale_deletes pv).filterMap Call.warns = [] := by
  unfold stale_deletes
  by_cases h : pv.program ≠ 0
  · rw [if_pos h, if_pos h]
    exact ⟨rfl, rfl, rfl, rfl⟩
  · rw [if_neg h, if_neg h]
    exact ⟨rfl, rfl, rfl, rfl⟩

/-- What a call of the program end that links creates, deletes, links and
diagnoses. -/
theorem links_proj (env : Env) (p : Nat) (pv : CoglPipelineProgendPrivate) (g : Nat)
    (st : Bool) (units : List UnitState) (layers : List Nat) {w w2 : World}
    (h : Loud w w2 (stale_deletes pv ++
      (link_calls g st ++ upload_calls env p true units layers))) :
    created_programs w2.trace = created_programs w.trace ++ [g] ∧
    deleted_programs w2.trace = deleted_programs w.trace ++
      (if pv.program ≠ 0 then [pv.program] else []) ∧
    linked_programs w2.trace = linked_programs w.trace ++ [g] ∧
    link_warnings w2.trace = link_warnings w.trace ++ (if st = false then [g] else []) := by
  have a := filterMap_of_loud Call.creates creates_quiet h
  have b := filterMap_of_loud Call.deletes deletes_of_quiet h
  have c := filterMap_of_loud Call.links links_quiet h
  have d := filterMap_of_loud Call.warns warns_quiet h
  obtain ⟨s1, s2, s3, s4⟩ := stale_deletes_proj pv
  obtain ⟨l1, l2, l3, l4⟩ := link_calls_proj g st
  rw [List.filterMap_append, List.filterMap_append,
    filterMap_upload_calls _ (fun _ _ _ => rfl) (fun _ _ _ => rfl), List.append_nil] at a b c d
  rw [s1, l1, List.nil_append] at a
  rw [s2, l2, List.append_nil] at b
  rw [s3, l3, List.nil_append] at c
  rw [s4, l4, List.nil_append] at d
  exact ⟨by rw [created_eq, created_eq]; exact a, b, c, d⟩

/-- C12: when the program end runs for a pipeline with a user program that holds
a cache entry with a program, the call completes; if the age of the user program
differs from the age cached in the entry, the old program is deleted, a new one
is created (after the deletion) and linked and becomes the program of the entry,
and the cached age is the current age of the user program; if the age is the
cached one and the call demands no more texture-coordinate attributes than the
entry records, the program and the cached age are unchanged and no program is
created, deleted or linked. -/
theorem relink_when_age_differs (env : Env) (hctx : env.have_context = true)
    (hlang : env.compiles_glsl) (w : World)
    (p d : Nat) (n : Int) (pl : CoglPipeline) (pv : CoglPipelineProgendPrivate)
    (prog : CoglProgram)
    (hp : heap_get w.pipelines p = some pl)
    (hglsl : pl.fragend = env.FRAGEND_GLSL ∨ pl.vertend = env.VERTEND_GLSL)
    (he : priv_of env pl ≠ 0) (hpv : heap_get w.privs (priv_of env pl) = some pv)
    (hprog : pv.program ≠ 0) (hup : pl.user_program ≠ 0)
    (hg : heap_get w.programs pl.user_program = some prog)
    (hsh : ∀ s, s ∈ prog.attached_shaders → GlslShader w s)
    (hunits : pl.layers.length ≤ pv.unit_state.length) :
    ∃ w2 pv2, _cogl_pipeline_progend_glsl_end env w p d n = some w2 ∧
      heap_get w2.privs (priv_of env pl) = some pv2 ∧
      heap_get w2.programs pl.user_program = some prog ∧
      (prog.age ≠ pv.user_program_age →
        deleted_programs w2.trace = deleted_programs w.trace ++ [pv.program] ∧
        created_programs w2.trace = created_programs w.trace ++ [pv2.program] ∧
        linked_programs w2.trace = linked_programs w.trace ++ [pv2.program] ∧
        pv2.program = env.glCreateProgram (w.trace ++ [Call.glDeleteProgram pv.program]) ∧
        pv2.user_program_age = prog.age) ∧
      (prog.age = pv.user_program_age → n ≤ pv.n_tex_coord_attribs →
        pv2.program = pv.program ∧ pv2.user_program_age = pv.user_program_age ∧
        deleted_programs w2.trace = deleted_programs w.trace ∧
        created_programs w2.trace = created_programs w.trace ∧
        linked_programs w2.trace = linked_programs w.trace) := by
  have hlive : UserProgramLive w pl := fun _ => ⟨prog, hg, hsh⟩
  have hd : stale_deletes pv = [Call.glDeleteProgram pv.program] := by
    unfold stale_deletes
    rw [if_pos hprog]
  by_cases hs : prog.age ≠ pv.user_program_age ∨ n > pv.n_tex_coord_attribs
  · obtain ⟨w2, pv2, st, pv3, h1, h2, _, hl, hu, k1, _, _, _, _, k6, _, hpr, _⟩ :=
      end_present_links env hctx hlang w p d n pl pv hp hglsl he hpv hlive
        (Or.inr ⟨prog, hup, hg, hs⟩) hunits
    obtain ⟨c1, c2, c3, _⟩ := links_proj env p pv _ st _ _ hl
    rw [hd] at c1 c3 k1
    rw [if_pos hprog] at c2
    refine ⟨w2, pv2, h1, h2, by rw [hpr]; exact hg, ?_, ?_⟩
    · intro _
      have e1 : pv2.program = env.glCreateProgram
          (w.trace ++ [Call.glDeleteProgram pv.program]) := hu.1.trans k1
      refine ⟨c2, by rw [e1]; exact c1, by rw [e1]; exact c3, e1, ?_⟩
      exact hu.2.2.1.trans (k6 prog hup hg)
    · intro ha hn
      rcases hs with hs | hs
      · exact absurd ha hs
      · exact absurd hn (not_le.mpr hs)
  · have ha : prog.age = pv.user_program_age := by
      by_contra hc
      exact hs (Or.inl hc)
    have hn : n ≤ pv.n_tex_coord_attribs := by
      by_contra hc
      exact hs (Or.inr (not_le.mp hc))
    obtain ⟨w2, pv2, h1, h2, hl, hu, _, hpr, _⟩ :=
      end_present_no_link env hctx w p d n pl pv hp hglsl he hpv hprog
        (Or.inr ⟨prog, hg, ha, hn⟩) hunits
    obtain ⟨c1, c2, c3, _⟩ := uploads_only env p _ _ _ hl
    refine ⟨w2, pv2, h1, h2, by rw [hpr]; exact hg, fun hc => absurd ha hc, ?_⟩
    intro _ _
    exact ⟨hu.1, hu.2.2.1, c2, c1, c3⟩

theorem demo_aged_shaders :
    ∀ s, s ∈ (⟨6, [1]⟩ : CoglProgram).attached_shaders → GlslShader demo_aged s := by
  intro s hs
  have h1 : s = 1 := by simpa using hs
  subst h1
  exact ⟨{ gl_handle := 900, n_tex_coord_attribs := 1, language := 0 }, by decide, rfl⟩

/-- Witness of C12: C (4) of the example chain holds the entry 1, linked when its
user program had the age 5; the user program now has the age 6. -/
theorem relink_when_age_differs_witness :
    (demo_env.have_context = true ∧ demo_env.compiles_glsl ∧
      heap_get demo_aged.pipelines 4 = some (pipeline_at demo_aged 4) ∧
      ((pipeline_at demo_aged 4).fragend = demo_env.FRAGEND_GLSL ∨
        (pipeline_at demo_aged 4).vertend = demo_env.VERTEND_GLSL) ∧
      priv_of demo_env (pipeline_at demo_aged 4) ≠ 0 ∧
      heap_get demo_aged.privs (priv_of demo_env (pipeline_at demo_aged 4)) =
        some (entry_at demo_env demo_aged 1) ∧
      (entry_at demo_env demo_aged 1).program ≠ 0 ∧
      (pipeline_at demo_aged 4).user_program ≠ 0 ∧
      heap_get demo_aged.programs (pipeline_at demo_aged 4).user_program = some ⟨6, [1]⟩ ∧
      (∀ s, s ∈ (⟨6, [1]⟩ : CoglProgram).attached_shaders → GlslShader demo_aged s) ∧
      (pipeline_at demo_aged 4).layers.length ≤
        (entry_at demo_env demo_aged 1).unit_state.length ∧
      (entry_at demo_env demo_aged 1).user_program_age = 5) ∧
    (∃ w2 pv2, _cogl_pipeline_progend_glsl_end demo_env demo_aged 4 0 1 = some w2 ∧
      heap_get w2.privs (priv_of demo_env (pipeline_at demo_aged 4)) = some pv2 ∧
      heap_get w2.programs (pipeline_at demo_aged 4).user_program = some ⟨6, [1]⟩ ∧
      ((⟨6, [1]⟩ : CoglProgram).age ≠ (entry_at demo_env demo_aged 1).user_program_age →
        deleted_programs w2.trace = deleted_programs demo_aged.trace ++
          [(entry_at demo_env demo_aged 1).program] ∧
        created_programs w2.trace = created_programs demo_aged.trace ++ [pv2.program] ∧
        linked_programs w2.trace = linked_programs demo_aged.trace ++ [pv2.program] ∧
        pv2.program = demo_env.glCreateProgram (demo_aged.trace ++
          [Call.glDeleteProgram (entry_at demo_env demo_aged 1).program]) ∧
        pv2.user_program_age = (⟨6, [1]⟩ : CoglProgram).age) ∧
      ((⟨6, [1]⟩ : CoglProgram).age = (entry_at demo_env demo_aged 1).user_program_age →
        (1 : Int) ≤ (entry_at demo_env demo_aged 1).n_tex_coord_attribs →
        pv2.program = (entry_at demo_env demo_aged 1).program ∧
        pv2.user_program_age = (entry_at demo_env demo_aged 1).user_program_age ∧
        deleted_programs w2.trace = deleted_programs demo_aged.trace ∧
        created_programs w2.trace = created_programs demo_aged.trace ∧
        linked_programs w2.trace = linked_programs demo_aged.trace)) :=
  ⟨⟨rfl, demo_compiles_glsl, by decide, Or.inl (by decide), by decide, by decide, by decide,
      by decide, by decide, demo_aged_shaders, by decide, by decide⟩,
    relink_when_age_differs demo_env rfl demo_compiles_glsl demo_aged 4 0 1
      (pipeline_at demo_aged 4) (entry_at demo_env demo_aged 1) ⟨6, [1]⟩ (by decide)
      (Or.inl (by decide)) (by decide) (by decide) (by decide) (by decide) (by decide)
      demo_aged_shaders (by decide)⟩


/-! ## The program end on any pipeline -/

/-- The program of an entry is either not stale for a call or has to be linked. -/
theorem fresh_or_stale (w : World) (pl : CoglPipeline) (n : Int)
    (pv : CoglPipelineProgendPrivate) (hlive : UserProgramLive w pl) :
    (pv.program ≠ 0 ∧ Fresh w pl n pv) ∨ Stale w pl n pv := by
  by_cases h0 : pv.program = 0
  · exact Or.inr (Or.inl h0)
  · by_cases hu : pl.user_program = 0
    · exact Or.inl ⟨h0, Or.inl hu⟩
    · obtain ⟨prog, hg, _⟩ := hlive hu
      by_cases hs : prog.age ≠ pv.user_program_age ∨ n > pv.n_tex_coord_attribs
      · exact Or.inr (Or.inr ⟨prog, hu, hg, hs⟩)
      · refine Or.inl ⟨h0, Or.inr ⟨prog, hg, ?_, ?_⟩⟩
        · by_contra hc
          exact hs (Or.inl hc)
        · by_contra hc
          exact hs (Or.inr (not_le.mp hc))

/-- The second half of `_cogl_pipeline_progend_glsl_end` either finds a program
that is not stale and only uploads, or deletes the stale program if there is
one, links a new program and uploads every layer uniform that has a location. -/
theorem with_priv_cases (env : Env) (w w2 : World) (p : Nat) (pl : CoglPipeline) (n : Int)
    (pv pv2 : CoglPipelineProgendPrivate) (hlive : UserProgramLive w pl)
    (h : end_with_priv env w p pl n pv = some (w2, pv2)) :
    (pv.program ≠ 0 ∧ Fresh w pl n pv ∧
      Loud w w2 (upload_calls env p (decide (pv.last_used_for_pipeline ≠ p))
        pv.unit_state pl.layers) ∧
      Uploaded env p (decide (pv.last_used_for_pipeline ≠ p)) pv pv2 pl.layers) ∨
    (Stale w pl n pv ∧ ∃ st pv3,
      (∃ t, st = env.link_status t (env.glCreateProgram (w.trace ++ stale_deletes pv))) ∧
      Loud w w2 (stale_deletes pv ++
        (link_calls (env.glCreateProgram (w.trace ++ stale_deletes pv)) st ++
          upload_calls env p true pv3.unit_state pl.layers)) ∧
      Uploaded env p true pv3 pv2 pl.layers ∧
      pv3.program = env.glCreateProgram (w.trace ++ stale_deletes pv) ∧
      n ≤ pv3.n_tex_coord_attribs ∧ pv3.ref_count = pv.ref_count ∧
      pv3.unit_state.length = pv.unit_state.length ∧
      (pl.user_program = 0 → pv3.user_program_age = pv.user_program_age) ∧
      (∀ prog, pl.user_program ≠ 0 → heap_get w.programs pl.user_program = some prog →
        pv3.user_program_age = prog.age) ∧
      ∀ u, u < pl.layers.length →
        ∃ t, Resolved env.gles2 (env.glCreateProgram (w.trace ++ stale_deletes pv)) t pv3 u) := by
  rcases fresh_or_stale w pl n pv hlive with ⟨hp, hf⟩ | hs
  · obtain ⟨hl, hu⟩ := end_no_link env w w2 p pl n pv pv2 hp hf h
    exact Or.inl ⟨hp, hf, hl, hu⟩
  · obtain ⟨w1, pv1, h1, h0, hl1, ht1, hpr1, hr1, ha1, hu1⟩ := stale_check_relink w pl n pv hs
    obtain ⟨st, pv3, hst, hl, hup, k1, k2, k3, k4, k5, k6, k7⟩ :=
      end_linked_parts env w w1 w2 p pl n pv pv1 pv2 h1 h0 h
    rw [ht1] at hst hl k1 k7
    exact Or.inr ⟨hs, st, pv3, hst, loud_trans hl1 hl, hup, k1, k2, k3.trans hr1,
      by rw [k4, hu1], fun hc => (k5 hc).trans ha1,
      fun prog hc hg => k6 prog hc (by rw [hpr1]; exact hg), k7⟩

/-- Lines 523 to 566 find an entry for a live pipeline in a world that satisfies
the invariant, when the authority is live: without calls, and the entry has a unit
state for every layer when the entry that the pipeline or its authority already
holds has. -/
theorem find_total (env : Env) (hok : env.ok) (w : World) (P : Nat) (pl : CoglPipeline)
    (hinv : Inv env w) (hP : heap_get w.pipelines P = some pl)
    (hA : priv_of env pl = 0 →
      ∃ pa, heap_get w.pipelines (env.find_equivalent_parent w.pipelines P) = some pa ∧
        ∀ pv, heap_get w.privs (priv_of env pa) = some pv →
          pl.layers.length ≤ pv.unit_state.length)
    (hown : ∀ pv, heap_get w.privs (priv_of env pl) = some pv →
      pl.layers.length ≤ pv.unit_state.length) :
    ∃ w1 e pv1, end_find_priv env w P pl = some (w1, e) ∧ e ≠ 0 ∧
      heap_get w1.privs e = some pv1 ∧ get_glsl_priv env w1 P = some e ∧
      SameGraph w w1 ∧ pl.layers.length ≤ pv1.unit_state.length ∧
      (priv_of env pl ≠ 0 → w1 = w ∧ e = priv_of env pl) := by
  by_cases habs : priv_of env pl = 0
  · obtain ⟨pa, hpa, hunits⟩ := hA habs
    obtain ⟨w1, e, pv1, f1, _, f3, f4, f5, _, f7, f8⟩ :=
      find_absent_outcome env hok w P pl pa hinv hP habs hpa
    obtain ⟨sg, _, _⟩ := find_priv_frame env hok w w1 P e pl hinv hP f1
    refine ⟨w1, e, pv1, f1, f3, f4, f5, sg, ?_, fun hc => absurd habs hc⟩
    by_cases h0 : priv_of env pa = 0
    · obtain ⟨_, _, hpv, _, _⟩ := f7 h0
      have hn := (new_glsl_priv_fields env e pl.layers.length).2.2.2
      rw [hpv]
      split
      · rw [hn]
      · show _ ≤ (new_glsl_priv env e pl.layers.length).unit_state.length
        rw [hn]
    · obtain ⟨_, he, pv, hg, hpv, _⟩ := f8 h0
      rw [hpv]
      show _ ≤ pv.unit_state.length
      exact hunits pv (by rw [← he]; exact hg)
  · have hok2 := (((inv_iff env w).mp hinv).1 _ (heap_get_mem _ _ _ hP)).2 habs
    cases hg : heap_get w.privs (priv_of env pl) with
    | none => rw [hg] at hok2; cases hok2
    | some pv =>
      exact ⟨w, priv_of env pl, pv, find_present env w P pl habs, habs, hg,
        get_glsl_priv_live env w P pl hP, ⟨rfl, fun _ => rfl, rfl, rfl, rfl⟩, hown pv hg,
        fun _ => ⟨rfl, rfl⟩⟩


theorem loud_of_trace {w w1 w2 w3 : World} {l : List Call} (h1 : w1.trace = w.trace)
    (h2 : w2.trace = w3.trace) (h : Loud w1 w3 l) : Loud w w2 l := by
  obtain ⟨t, e, hl⟩ := h
  refine ⟨t, ?_, hl⟩
  show w2.trace = w.trace ++ t
  rw [h2, ← h1]
  exact e

theorem fresh_congr {w w1 : World} (pl : CoglPipeline) (n : Int)
    (pv : CoglPipelineProgendPrivate) (h : w1.programs = w.programs)
    (hf : Fresh w1 pl n pv) : Fresh w pl n pv := by
  unfold Fresh at hf ⊢
  rw [h] at hf
  exact hf

theorem stale_congr {w w1 : World} (pl : CoglPipeline) (n : Int)
    (pv : CoglPipelineProgendPrivate) (h : w1.programs = w.programs)
    (hs : Stale w1 pl n pv) : Stale w pl n pv := by
  unfold Stale at hs ⊢
  rw [h] at hs
  exact hs

/-- The program end on a live pipeline that uses a GLSL backend, in a world that
satisfies the invariant: the call completes; lines 523 to 566 find the entry `e`
with the contents `pv1`, and the rest of the call either finds its program not
stale and only uploads, or links a new program. -/
theorem end_general (env : Env) (hok : env.ok) (hlang : env.compiles_glsl) (w : World)
    (P d : Nat) (n : Int) (pl : CoglPipeline) (hinv : Inv env w)
    (hP : heap_get w.pipelines P = some pl)
    (hglsl : pl.fragend = env.FRAGEND_GLSL ∨ pl.vertend = env.VERTEND_GLSL)
    (hA : priv_of env pl = 0 →
      ∃ pa, heap_get w.pipelines (env.find_equivalent_parent w.pipelines P) = some pa ∧
        ∀ pv, heap_get w.privs (priv_of env pa) = some pv →
          pl.layers.length ≤ pv.unit_state.length)
    (hown : ∀ pv, heap_get w.privs (priv_of env pl) = some pv →
      pl.layers.length ≤ pv.unit_state.length)
    (hlive : UserProgramLive w pl) :
    ∃ w1 e pv1 w2 pv2, end_find_priv env w P pl = some (w1, e) ∧ e ≠ 0 ∧
      heap_get w1.privs e = some pv1 ∧
      (priv_of env pl ≠ 0 → w1 = w ∧ e = priv_of env pl) ∧
      pl.layers.length ≤ pv1.unit_state.length ∧
      _cogl_pipeline_progend_glsl_end env w P d n = some w2 ∧
      heap_get w2.privs e = some pv2 ∧ get_glsl_priv env w2 P = some e ∧
      w2.programs = w.programs ∧
      ((pv1.program ≠ 0 ∧ Fresh w pl n pv1 ∧
        Loud w w2 (upload_calls env P (decide (pv1.last_used_for_pipeline ≠ P))
          pv1.unit_state pl.layers) ∧
        Uploaded env P (decide (pv1.last_used_for_pipeline ≠ P)) pv1 pv2 pl.layers) ∨
      (Stale w pl n pv1 ∧ ∃ st pv3,
        (∃ t, st = env.link_status t (env.glCreateProgram (w.trace ++ stale_deletes pv1))) ∧
        Loud w w2 (stale_deletes pv1 ++
          (link_calls (env.glCreateProgram (w.trace ++ stale_deletes pv1)) st ++
            upload_calls env P true pv3.unit_state pl.layers)) ∧
        Uploaded env P true pv3 pv2 pl.layers ∧
        pv3.program = env.glCreateProgram (w.trace ++ stale_deletes pv1) ∧
        n ≤ pv3.n_tex_coord_attribs ∧ pv3.ref_count = pv1.ref_count ∧
        pv3.unit_state.length = pv1.unit_state.length ∧
        (pl.user_program = 0 → pv3.user_program_age = pv1.user_program_age) ∧
        (∀ prog, pl.user_program ≠ 0 → heap_get w.programs pl.user_program = some prog →
          pv3.user_program_age = prog.age) ∧
        ∀ u, u < pl.layers.length →
          ∃ t, Resolved env.gles2
            (env.glCreateProgram (w.trace ++ stale_deletes pv1)) t pv3 u)) := by
  obtain ⟨w1, e, pv1, f1, f2, f3, f4, sg, f6, f7⟩ :=
    find_total env hok w P pl hinv hP hA hown
  have hlive1 : UserProgramLive w1 pl :=
    userProgramLive_of_eq pl sg.2.2.1 (sk_eq sg.2.2.2.1) hlive
  obtain ⟨⟨w3, pv2⟩, hw⟩ := end_with_priv_total env hlang w1 P pl n pv1 hlive1 f6
  obtain ⟨f, _⟩ := frame_end_with_priv env w1 w3 P pl n pv1 pv2 hw
  have hb := heap_get_some_bound _ _ _ f3
  have htr : w1.trace = w.trace := sg.2.2.2.2
  have hpr : w1.programs = w.programs := sg.2.2.1
  refine ⟨w1, e, pv1, w3.put_priv (some pv2) e, pv2, f1, f2, f3, f7, f6,
    end_eq_of_parts env hok.1 w w1 w3 P d e n pl pv1 pv2 hP hglsl f1 f3 hw, ?_, ?_, ?_, ?_⟩
  · show heap_get (heap_set w3.privs _ _) _ = _
    rw [f.2.1]
    exact heap_get_set_same _ _ _ hb.1 hb.2
  · rw [get_glsl_priv_congr env w1 (w3.put_priv (some pv2) e) P f.1]
    exact f4
  · show w3.programs = w.programs
    rw [f.2.2, hpr]
  · rcases with_priv_cases env w1 w3 P pl n pv1 pv2 hlive1 hw with
      ⟨a1, a2, a3, a4⟩ | ⟨b1, st, pv3, b2, b3, b4, b5, b6, b7, b8, b9, b10, b11⟩
    · exact Or.inl ⟨a1, fresh_congr pl n pv1 hpr a2, loud_of_trace htr rfl a3, a4⟩
    · rw [htr] at b2 b3 b5 b11
      exact Or.inr ⟨stale_congr pl n pv1 hpr b1, st, pv3, b2, loud_of_trace htr rfl b3, b4,
        b5, b6, b7, b8, b9, fun prog hc hg => b10 prog hc (by rw [hpr]; exact hg), b11⟩


/-! ## Link failures -/

theorem mem_loud (c : Call) (t : List Call) :
    c ∈ loud t ↔ c ∈ t ∧ c.is_quiet = false := by
  unfold loud
  rw [List.mem_filter]
  cases c.is_quiet <;> simp

theorem mem_stale_deletes (pv : CoglPipelineProgendPrivate) (c : Call)
    (h : c ∈ stale_deletes pv) : c = Call.glDeleteProgram pv.program := by
  unfold stale_deletes at h
  split at h
  · exact List.mem_singleton.mp h
  · cases h

theorem status_mem_link_calls (g g2 : Nat) (st b : Bool)
    (h : Call.glGetProgramiv_link_status g2 b ∈ link_calls g st) : g2 = g ∧ b = st := by
  unfold link_calls at h
  cases st <;> simp at h <;> exact h

theorem create_mem_link_calls (g : Nat) (st : Bool) :
    Call.glCreateProgram g ∈ link_calls g st := by
  unfold link_calls
  simp

/-- A link status among the new calls of a program end call is the status of the
program that the call created and stored in the entry. -/
theorem status_of_link {env : Env} {p : Nat} {t : List Call}
    {pv : CoglPipelineProgendPrivate} {g : Nat} {st : Bool} {units : List UnitState}
    {layers : List Nat}
    (hl : loud t = stale_deletes pv ++ (link_calls g st ++
      upload_calls env p true units layers)) :
    Call.glCreateProgram g ∈ t ∧
      ∀ g2 b, Call.glGetProgramiv_link_status g2 b ∈ t → g2 = g ∧ b = st := by
  refine ⟨?_, ?_⟩
  · have hm : Call.glCreateProgram g ∈ loud t := by
      rw [hl]
      exact List.mem_append_right _ (List.mem_append_left _ (create_mem_link_calls g st))
    exact ((mem_loud _ _).mp hm).1
  · intro g2 b hm
    have hm2 : Call.glGetProgramiv_link_status g2 b ∈ loud t := (mem_loud _ _).mpr ⟨hm, rfl⟩
    rw [hl] at hm2
    rcases List.mem_append.mp hm2 with h1 | h1
    · cases mem_stale_deletes pv _ h1
    · rcases List.mem_append.mp h1 with h2 | h2
      · exact status_mem_link_calls g g2 st b h2
      · rcases mem_upload_calls env p true units layers _ h2 with ⟨_, _, e2⟩ | ⟨_, _, e2⟩
        · cases e2
        · cases e2

/-- A call of the program end that only uploads asks for no link status. -/
theorem no_status_of_uploads {env : Env} {p : Nat} {ua : Bool} {t : List Call}
    {units : List UnitState} {layers : List Nat}
    (hl : loud t = upload_calls env p ua units layers) :
    ∀ g2 b, Call.glGetProgramiv_link_status g2 b ∉ t := by
  intro g2 b hm
  have hm2 : Call.glGetProgramiv_link_status g2 b ∈ loud t := (mem_loud _ _).mpr ⟨hm, rfl⟩
  rw [hl] at hm2
  rcases mem_upload_calls env p ua units layers _ hm2 with ⟨_, _, e2⟩ | ⟨_, _, e2⟩
  · cases e2
  · cases e2

/-- C13 (amended): the program end on a live pipeline that uses a GLSL backend
completes, also when the link fails; and when the driver reports a failed link
for a program `g` during the call, `g` is the program that the call created and
the entry of the pipeline holds the handle `g` afterwards: the entry keeps the
program that failed to link. -/
theorem link_failure_keeps_program (env : Env) (hok : env.ok) (hlang : env.compiles_glsl)
    (w : World) (P d : Nat) (n : Int) (pl : CoglPipeline) (hinv : Inv env w)
    (hP : heap_get w.pipelines P = some pl)
    (hglsl : pl.fragend = env.FRAGEND_GLSL ∨ pl.vertend = env.VERTEND_GLSL)
    (hA : priv_of env pl = 0 →
      ∃ pa, heap_get w.pipelines (env.find_equivalent_parent w.pipelines P) = some pa ∧
        ∀ pv, heap_get w.privs (priv_of env pa) = some pv →
          pl.layers.length ≤ pv.unit_state.length)
    (hown : ∀ pv, heap_get w.privs (priv_of env pl) = some pv →
      pl.layers.length ≤ pv.unit_state.length)
    (hlive : UserProgramLive w pl) :
    ∃ w2 e pv2 t, _cogl_pipeline_progend_glsl_end env w P d n = some w2 ∧
      get_glsl_priv env w2 P = some e ∧ e ≠ 0 ∧ heap_get w2.privs e = some pv2 ∧
      w2.trace = w.trace ++ t ∧
      ∀ g, Call.glGetProgramiv_link_status g false ∈ t →
        Call.glCreateProgram g ∈ t ∧ pv2.program = g := by
  obtain ⟨w1, e, pv1, w2, pv2, _, f2, _, _, _, f6, f7, f8, _, hc⟩ :=
    end_general env hok hlang w P d n pl hinv hP hglsl hA hown hlive
  rcases hc with ⟨_, _, a3, _⟩ | ⟨_, st, pv3, _, b3, b4, b5, _⟩
  · obtain ⟨t, ht, hl⟩ := a3
    exact ⟨w2, e, pv2, t, f6, f8, f2, f7, ht,
      fun g hg => absurd hg (no_status_of_uploads hl g false)⟩
  · obtain ⟨t, ht, hl⟩ := b3
    obtain ⟨hcr, hst⟩ := status_of_link hl
    refine ⟨w2, e, pv2, t, f6, f8, f2, f7, ht, ?_⟩
    intro g hg
    obtain ⟨e1, _⟩ := hst g false hg
    rw [e1]
    exact ⟨hcr, b4.1.trans b5⟩

theorem demo_world_no_priv (x : Nat) (pv : CoglPipelineProgendPrivate)
    (h : heap_get demo_world.privs x = some pv) : False := by
  have hn : heap_get demo_world.privs x = none := by
    cases x with
    | zero => rfl
    | succ k => rfl
  rw [hn] at h
  cases h

theorem demo_world_live : UserProgramLive demo_world (demo_pipeline 1 3 4) := by
  intro _
  refine ⟨⟨5, [1]⟩, by decide, ?_⟩
  intro s hs
  have h1 : s = 1 := by simpa using hs
  subst h1
  exact ⟨⟨0, 0, 0⟩, by decide, rfl⟩

/-- Witness of C13 (amended): C (4) of the example chain, which has a user
program and no entry yet, with a driver that fails to link. -/
theorem link_failure_keeps_program_witness :
    (demo_fail.ok ∧ demo_fail.compiles_glsl ∧ Inv demo_fail demo_world ∧
      heap_get demo_world.pipelines 4 = some (demo_pipeline 1 3 4) ∧
      ((demo_pipeline 1 3 4).fragend = demo_fail.FRAGEND_GLSL ∨
        (demo_pipeline 1 3 4).vertend = demo_fail.VERTEND_GLSL) ∧
      heap_get demo_world.pipelines
        (demo_fail.find_equivalent_parent demo_world.pipelines 4) =
          some (demo_pipeline 1 3 4) ∧
      UserProgramLive demo_world (demo_pipeline 1 3 4)) ∧
    (∃ w2 e pv2 t, _cogl_pipeline_progend_glsl_end demo_fail demo_world 4 0 1 = some w2 ∧
      get_glsl_priv demo_fail w2 4 = some e ∧ e ≠ 0 ∧ heap_get w2.privs e = some pv2 ∧
      w2.trace = demo_world.trace ++ t ∧
      ∀ g, Call.glGetProgramiv_link_status g false ∈ t →
        Call.glCreateProgram g ∈ t ∧ pv2.program = g) :=
  ⟨⟨by decide, fun _ _ h => h, init_inv demo_fail demo_world (by decide), by decide,
      Or.inl (by decide), by decide, demo_world_live⟩,
    link_failure_keeps_program demo_fail (by decide) (fun _ _ h => h) demo_world 4 0 1
      (demo_pipeline 1 3 4) (init_inv demo_fail demo_world (by decide)) (by decide)
      (Or.inl (by decide))
      (fun _ => ⟨demo_pipeline 1 3 4, by decide,
        fun pv h => (demo_world_no_priv _ pv h).elim⟩)
      (fun pv h => (demo_world_no_priv _ pv h).elim) demo_world_live⟩

/-- C13, as stated, fails: with a driver that fails to link, the program end on C
(4) of the example chain completes, the driver reports the failed link of the
program 1, and the entry of C holds the program handle 1 afterwards, not 0. -/
theorem link_failure_not_programless :
    _cogl_pipeline_progend_glsl_end demo_fail demo_world 4 0 1 =
      some (after demo_fail demo_world [Op.ensure 4 0 1]) ∧
    Call.glGetProgramiv_link_status 1 false ∈
      (after demo_fail demo_world [Op.ensure 4 0 1]).trace ∧
    Call.g_warning_link_failed 1 ∈ (after demo_fail demo_world [Op.ensure 4 0 1]).trace ∧
    get_glsl_priv demo_fail (after demo_fail demo_world [Op.ensure 4 0 1]) 4 = some 1 ∧
    (heap_get (after demo_fail demo_world [Op.ensure 4 0 1]).privs 1).map (·.program) =
      some 1 := by
  decide


theorem uploaded_length {env : Env} {p : Nat} {ua : Bool}
    {pv3 pv2 : CoglPipelineProgendPrivate} {layers : List Nat}
    (h : Uploaded env p ua pv3 pv2 layers) :
    pv2.unit_state.length = pv3.unit_state.length := by
  have hu := h.2.2.2.2.2
  apply Nat.le_antisymm
  · apply List.getElem?_eq_none_iff.mp
    rw [hu]
    have hn : pv3.unit_state[pv3.unit_state.length]? = none :=
      List.getElem?_eq_none_iff.mpr (Nat.le_refl _)
    rw [hn]
    split <;> rfl
  · apply List.getElem?_eq_none_iff.mp
    have hn : pv2.unit_state[pv2.unit_state.length]? = none :=
      List.getElem?_eq_none_iff.mpr (Nat.le_refl _)
    rw [hu] at hn
    split at hn
    · cases hx : pv3.unit_state[pv2.unit_state.length]? with
      | none => rfl
      | some x => rw [hx] at hn; cases hn
    · exact hn

theorem laterCall_congr {env : Env} {w w2 : World} {e : Nat}
    {pv pv2 : CoglPipelineProgendPrivate} {c : Nat × Nat × Int}
    (h1 : w2.pipelines = w.pipelines) (h2 : w2.programs = w.programs)
    (h3 : pv2.user_program_age = pv.user_program_age)
    (h4 : pv2.n_tex_coord_attribs = pv.n_tex_coord_attribs)
    (h5 : pv2.unit_state.length = pv.unit_state.length)
    (h : LaterCall env w e pv c) : LaterCall env w2 e pv2 c := by
  obtain ⟨pl, a1, a2, a3, a4, a5⟩ := h
  refine ⟨pl, by rw [h1]; exact a1, a2, a3, ?_, by rw [h5]; exact a5⟩
  unfold Fresh at a4 ⊢
  rw [h2, h3, h4]
  exact a4

/-- A sequence of calls of the program end that find the program of the entry `e`
not stale completes, keeps the program of the entry, and creates, deletes, links
and diagnoses nothing. -/
theorem no_link_run (env : Env) (hctx : env.have_context = true) (e : Nat) (he : e ≠ 0) :
    ∀ (calls : List (Nat × Nat × Int)) (w : World) (pv : CoglPipelineProgendPrivate),
      heap_get w.privs e = some pv → pv.program ≠ 0 →
      (∀ c, c ∈ calls → LaterCall env w e pv c) →
      ∃ w3 pv3, run_ops env w (ensure_ops calls) = some w3 ∧
        heap_get w3.privs e = some pv3 ∧ pv3.program = pv.program ∧
        created_programs w3.trace = created_programs w.trace ∧
        deleted_programs w3.trace = deleted_programs w.trace ∧
        linked_programs w3.trace = linked_programs w.trace ∧
        link_warnings w3.trace = link_warnings w.trace := by
  intro calls
  induction calls with
  | nil =>
    intro w pv hpv _ _
    exact ⟨w, pv, rfl, hpv, rfl, rfl, rfl, rfl, rfl⟩
  | cons c rest ih =>
    intro w pv hpv hprog hc
    obtain ⟨pl, a1, a2, a3, a4, a5⟩ := hc c (List.mem_cons_self _ _)
    obtain ⟨w2, pv2, h1, h2, hl, hu, k1, k2, _⟩ :=
      end_present_no_link env hctx w c.1 c.2.1 c.2.2 pl pv a1 a2 (by rw [a3]; exact he)
        (by rw [a3]; exact hpv) hprog a4 a5
    rw [a3] at h2
    obtain ⟨c1, c2, c3, c4⟩ := uploads_only env c.1 _ _ _ hl
    obtain ⟨w3, pv3, r1, r2, r3, r4, r5, r6, r7⟩ := ih w2 pv2 h2 (by rw [hu.1]; exact hprog)
      (fun c2 hc2 => laterCall_congr k1 k2 hu.2.2.1 hu.2.1 (uploaded_length hu)
        (hc c2 (List.mem_cons_of_mem _ hc2)))
    refine ⟨w3, pv3, ?_, r2, r3.trans hu.1, r4.trans c1, r5.trans c2, r6.trans c3,
      r7.trans c4⟩
    show run_ops env w (Op.ensure c.1 c.2.1 c.2.2 :: ensure_ops rest) = some w3
    rw [run_ops]
    show (match _cogl_pipeline_progend_glsl_end env w c.1 c.2.1 c.2.2 with
      | none => none
      | some w2 => run_ops env w2 (ensure_ops rest)) = some w3
    rw [h1]
    exact r1

theorem link_warnings_of_link {env : Env} {p : Nat} {t : List Call}
    {pv : CoglPipelineProgendPrivate} {g : Nat} {st : Bool} {units : List UnitState}
    {layers : List Nat}
    (hl : loud t = stale_deletes pv ++ (link_calls g st ++
      upload_calls env p true units layers)) :
    link_warnings t = (if st = false then [g] else []) ∧ linked_programs t = [g] := by
  unfold link_warnings linked_programs
  rw [filterMap_loud Call.warns warns_quiet t, filterMap_loud Call.links links_quiet t, hl,
    List.filterMap_append, List.filterMap_append, List.filterMap_append,
    List.filterMap_append,
    filterMap_upload_calls _ (fun _ _ _ => rfl) (fun _ _ _ => rfl),
    filterMap_upload_calls _ (fun _ _ _ => rfl) (fun _ _ _ => rfl),
    (stale_deletes_proj pv).2.2.2, (stale_deletes_proj pv).2.2.1,
    (link_calls_proj g st).2.2.2, (link_calls_proj g st).2.2.1]
  simp


/-! ## Counting the uploads of a layer -/

theorem countP_loud (f : Call → Bool) (hq : ∀ c, c.is_quiet = true → f c = false)
    (t : List Call) : t.countP f = (loud t).countP f := by
  induction t with
  | nil => rfl
  | cons c rest ih =>
    cases hc : c.is_quiet with
    | true =>
      have h1 : loud (c :: rest) = loud rest := by simp [loud, hc]
      rw [h1, List.countP_cons, hq c hc, ih]
      simp
    | false =>
      have h1 : loud (c :: rest) = c :: loud rest := by simp [loud, hc]
      rw [h1, List.countP_cons, List.countP_cons, ih]

theorem constant_upload_quiet (li : Nat) (c : Call) (h : c.is_quiet = true) :
    Call.is_constant_upload li c = false := by
  cases c <;> first | rfl | cases h

theorem matrix_upload_quiet (li : Nat) (c : Call) (h : c.is_quiet = true) :
    Call.is_matrix_upload li c = false := by
  cases c <;> first | rfl | cases h

theorem count_unit_uploads (env : Env) (p : Nat) (ua : Bool) (us : UnitState) (l li : Nat) :
    (unit_uploads env p ua us l).countP (Call.is_constant_upload li) =
      (if l = li ∧ us.combine_constant_uniform ≠ -1 ∧
        (ua = true ∨ us.dirty_combine_constant = true) then 1 else 0) ∧
    (unit_uploads env p ua us l).countP (Call.is_matrix_upload li) =
      (if l = li ∧ env.gles2 = true ∧ us.texture_matrix_uniform ≠ -1 ∧
        (ua = true ∨ us.dirty_texture_matrix = true) then 1 else 0) := by
  unfold unit_uploads
  by_cases h1 : us.combine_constant_uniform ≠ -1 ∧
      (ua = true ∨ us.dirty_combine_constant = true)
  · by_cases h2 : env.gles2 = true ∧ us.texture_matrix_uniform ≠ -1 ∧
        (ua = true ∨ us.dirty_texture_matrix = true)
    · rw [if_pos h1, if_pos h2]
      by_cases hl : l = li
      · simp [Call.is_constant_upload, Call.is_matrix_upload, hl, h1, h2]
      · simp [Call.is_constant_upload, Call.is_matrix_upload, hl]
    · rw [if_pos h1, if_neg h2]
      by_cases hl : l = li
      · simp [Call.is_constant_upload, Call.is_matrix_upload, hl, h1, h2]
      · simp [Call.is_constant_upload, Call.is_matrix_upload, hl]
  · by_cases h2 : env.gles2 = true ∧ us.texture_matrix_uniform ≠ -1 ∧
        (ua = true ∨ us.dirty_texture_matrix = true)
    · rw [if_neg h1, if_pos h2]
      by_cases hl : l = li
      · simp [Call.is_constant_upload, Call.is_matrix_upload, hl, h1, h2]
      · simp [Call.is_constant_upload, Call.is_matrix_upload, hl]
    · rw [if_neg h1, if_neg h2]
      by_cases hl : l = li
      · simp [Call.is_constant_upload, Call.is_matrix_upload, hl, h1, h2]
      · simp [Call.is_constant_upload, Call.is_matrix_upload, hl]

theorem count_upload_calls_zero (env : Env) (p : Nat) (ua : Bool) (li : Nat) :
    ∀ (units : List UnitState) (layers : List Nat), li ∉ layers →
      (upload_calls env p ua units layers).countP (Call.is_constant_upload li) = 0 ∧
      (upload_calls env p ua units layers).countP (Call.is_matrix_upload li) = 0 := by
  intro units
  induction units with
  | nil => intro layers _; cases layers <;> exact ⟨rfl, rfl⟩
  | cons us rest ih =>
    intro layers hn
    cases layers with
    | nil => exact ⟨rfl, rfl⟩
    | cons l ls =>
      have hl : l ≠ li := fun hc => hn (by rw [hc]; exact List.mem_cons_self _ _)
      have hls : li ∉ ls := fun hc => hn (List.mem_cons_of_mem _ hc)
      obtain ⟨a1, a2⟩ := count_unit_uploads env p ua us l li
      obtain ⟨b1, b2⟩ := ih ls hls
      rw [upload_calls, List.countP_append, List.countP_append, a1, a2, b1, b2,
        if_neg (fun hc => hl hc.1), if_neg (fun hc => hl hc.1)]
      exact ⟨rfl, rfl⟩

/-- The traversal with `update_constants_cb` over distinct layers uploads the
combine constant of the layer at unit `u` once when its uniform has a location
and `update_all` or its dirty bit is set, and not at all otherwise; likewise the
texture matrix in the GLES2 build. -/
theorem count_upload_calls (env : Env) (p : Nat) (ua : Bool) :
    ∀ (units : List UnitState) (layers : List Nat), layers.Nodup →
      ∀ (u : Nat) (us : UnitState) (li : Nat), units[u]? = some us → layers[u]? = some li →
      (upload_calls env p ua units layers).countP (Call.is_constant_upload li) =
        (if us.combine_constant_uniform ≠ -1 ∧
          (ua = true ∨ us.dirty_combine_constant = true) then 1 else 0) ∧
      (upload_calls env p ua units layers).countP (Call.is_matrix_upload li) =
        (if env.gles2 = true ∧ us.texture_matrix_uniform ≠ -1 ∧
          (ua = true ∨ us.dirty_texture_matrix = true) then 1 else 0) := by
  intro units
  induction units with
  | nil => intro layers _ u us li hu _; cases hu
  | cons us0 rest ih =>
    intro layers hnd u us li hu hl
    cases layers with
    | nil => cases hl
    | cons l ls =>
      obtain ⟨hnl, hnd2⟩ := List.nodup_cons.mp hnd
      obtain ⟨a1, a2⟩ := count_unit_uploads env p ua us0 l li
      rw [upload_calls, List.countP_append, List.countP_append]
      cases u with
      | zero =>
        simp only [List.getElem?_cons_zero, Option.some.injEq] at hu hl
        subst hu; subst hl
        obtain ⟨b1, b2⟩ := count_upload_calls_zero env p ua l rest ls hnl
        rw [a1, a2, b1, b2]
        simp
      | succ k =>
        simp only [List.getElem?_cons_succ] at hu hl
        have hne : l ≠ li := by
          intro hc
          rw [hc] at hnl
          exact hnl (List.mem_iff_getElem?.mpr ⟨k, hl⟩)
        obtain ⟨b1, b2⟩ := ih ls hnd2 k us li hu hl
        rw [if_neg (fun hc => hne hc.1)] at a1 a2
        rw [a1, a2, b1, b2]
        exact ⟨Nat.zero_add _, Nat.zero_add _⟩

theorem count_link_calls (g : Nat) (st : Bool) (li : Nat) :
    (link_calls g st).countP (Call.is_constant_upload li) = 0 ∧
    (link_calls g st).countP (Call.is_matrix_upload li) = 0 := by
  cases st <;> exact ⟨rfl, rfl⟩

theorem count_stale_deletes (pv : CoglPipelineProgendPrivate) (li : Nat) :
    (stale_deletes pv).countP (Call.is_constant_upload li) = 0 ∧
    (stale_deletes pv).countP (Call.is_matrix_upload li) = 0 := by
  unfold stale_deletes
  split <;> exact ⟨rfl, rfl⟩

/-- The uploads of the layers among calls whose calls that are not quiet are
`pre`, which uploads nothing, followed by the traversal with
`update_constants_cb`. -/
theorem uploads_count_of_loud (env : Env) (p : Nat) (ua : Bool) (units : List UnitState)
    (layers : List Nat) (hnd : layers.Nodup) (pre : List Call)
    (hpre : ∀ li, pre.countP (Call.is_constant_upload li) = 0 ∧
      pre.countP (Call.is_matrix_upload li) = 0)
    {t : List Call} (hl : loud t = pre ++ upload_calls env p ua units layers)
    (u : Nat) (us : UnitState) (li : Nat) (hu : units[u]? = some us)
    (hli : layers[u]? = some li) :
    constant_uploads t li =
      (if us.combine_constant_uniform ≠ -1 ∧
        (ua = true ∨ us.dirty_combine_constant = true) then 1 else 0) ∧
    matrix_uploads t li =
      (if env.gles2 = true ∧ us.texture_matrix_uniform ≠ -1 ∧
        (ua = true ∨ us.dirty_texture_matrix = true) then 1 else 0) := by
  obtain ⟨c1, c2⟩ := count_upload_calls env p ua units layers hnd u us li hu hli
  unfold constant_uploads matrix_uploads
  rw [countP_loud _ (constant_upload_quiet li) t, countP_loud _ (matrix_upload_quiet li) t,
    hl, List.countP_append, List.countP_append, (hpre li).1, (hpre li).2, c1, c2,
    Nat.zero_add, Nat.zero_add]
  exact ⟨rfl, rfl⟩

theorem uploaded_unit {env : Env} {p : Nat} {ua : Bool}
    {pv3 pv2 : CoglPipelineProgendPrivate} {layers : List Nat}
    (h : Uploaded env p ua pv3 pv2 layers) (u : Nat) (us : UnitState) (li : Nat)
    (hu : pv2.unit_state[u]? = some us) (hli : layers[u]? = some li) :
    ∃ us3, pv3.unit_state[u]? = some us3 ∧ us = unit_after env ua us3 := by
  have hlt : u < layers.length := by
    by_contra hc
    rw [List.getElem?_eq_none_iff.mpr (not_lt.mp hc)] at hli
    cases hli
  have hx := h.2.2.2.2.2 u
  rw [if_pos hlt, hu] at hx
  cases h3 : pv3.unit_state[u]? with
  | none => rw [h3] at hx; cases hx
  | some us3 =>
    rw [h3] at hx
    simp only [Option.map_some', Option.some.injEq] at hx
    exact ⟨us3, rfl, hx⟩

theorem uploaded_locations {env : Env} {p : Nat} {ua : Bool}
    {pv3 pv2 : CoglPipelineProgendPrivate} {layers : List Nat}
    (h : Uploaded env p ua pv3 pv2 layers) (u : Nat) :
    (pv2.unit_state[u]?).map UnitState.locations =
      (pv3.unit_state[u]?).map UnitState.locations := by
  rw [h.2.2.2.2.2 u]
  split
  · cases pv3.unit_state[u]? with
    | none => rfl
    | some us => rfl
  · rfl

/-- C15: `update_all` is set when the program end links the program or the
pipeline recorded in the entry as the last painted one is not the current one.
The program end on a live pipeline `P` that uses a GLSL backend, with distinct
layers, completes and records `P` in the entry as the last pipeline; and when
the call links a program or the entry it finds records another pipeline than
`P` (as when `P` follows a pipeline that shares the entry and its program),
every layer is uploaded in full whatever its dirty bits: the combine constant
exactly once when its uniform has a location and not at all otherwise, and
likewise the texture matrix in the GLES2 build.  Without a link the program and
the uniform locations of the entry are the ones it had. -/
theorem update_all_on_link_or_switch (env : Env) (hok : env.ok) (hlang : env.compiles_glsl)
    (w : World) (P d : Nat) (n : Int) (pl : CoglPipeline) (hinv : Inv env w)
    (hP : heap_get w.pipelines P = some pl)
    (hglsl : pl.fragend = env.FRAGEND_GLSL ∨ pl.vertend = env.VERTEND_GLSL)
    (hA : priv_of env pl = 0 →
      ∃ pa, heap_get w.pipelines (env.find_equivalent_parent w.pipelines P) = some pa ∧
        ∀ pv, heap_get w.privs (priv_of env pa) = some pv →
          pl.layers.length ≤ pv.unit_state.length)
    (hown : ∀ pv, heap_get w.privs (priv_of env pl) = some pv →
      pl.layers.length ≤ pv.unit_state.length)
    (hlive : UserProgramLive w pl) (hnd : pl.layers.Nodup) :
    ∃ w1 e pv1 w2 pv2 t, end_find_priv env w P pl = some (w1, e) ∧
      heap_get w1.privs e = some pv1 ∧
      (priv_of env pl ≠ 0 → e = priv_of env pl ∧ heap_get w.privs e = some pv1) ∧
      _cogl_pipeline_progend_glsl_end env w P d n = some w2 ∧
      heap_get w2.privs e = some pv2 ∧ w2.trace = w.trace ++ t ∧
      pv2.last_used_for_pipeline = P ∧
      ((linked_programs t ≠ [] ∨ pv1.last_used_for_pipeline ≠ P) →
        ∀ (u : Nat) (us : UnitState) (li : Nat),
          pv2.unit_state[u]? = some us → pl.layers[u]? = some li →
          constant_uploads t li = (if us.combine_constant_uniform ≠ -1 then 1 else 0) ∧
          matrix_uploads t li =
            (if env.gles2 = true ∧ us.texture_matrix_uniform ≠ -1 then 1 else 0)) ∧
      (linked_programs t = [] → pv2.program = pv1.program ∧
        ∀ u : Nat, (pv2.unit_state[u]?).map UnitState.locations =
          (pv1.unit_state[u]?).map UnitState.locations) := by
  obtain ⟨w1, e, pv1, w2, pv2, f1, _, f3, f4, _, f6, f7, _, _, hc⟩ :=
    end_general env hok hlang w P d n pl hinv hP hglsl hA hown hlive
  have hpres : priv_of env pl ≠ 0 → e = priv_of env pl ∧ heap_get w.privs e = some pv1 := by
    intro hne
    obtain ⟨x1, x2⟩ := f4 hne
    rw [x1] at f3
    exact ⟨x2, f3⟩
  rcases hc with ⟨_, _, a3, a4⟩ | ⟨_, st, pv3, _, b3, b4, _⟩
  · obtain ⟨t, ht, hl⟩ := a3
    have hlk : linked_programs t = [] := by
      unfold linked_programs
      rw [filterMap_loud Call.links links_quiet t, hl,
        filterMap_upload_calls _ (fun _ _ _ => rfl) (fun _ _ _ => rfl)]
    refine ⟨w1, e, pv1, w2, pv2, t, f1, f3, hpres, f6, f7, ht, a4.2.2.2.2.1, ?_,
      fun _ => ⟨a4.1, uploaded_locations a4⟩⟩
    intro hch u us li hu hli
    have hne : pv1.last_used_for_pipeline ≠ P := by
      rcases hch with h | h
      · exact absurd hlk h
      · exact h
    have hd : decide (pv1.last_used_for_pipeline ≠ P) = true := decide_eq_true hne
    rw [hd] at a4 hl
    obtain ⟨us3, h3, hus⟩ := uploaded_unit a4 u us li hu hli
    obtain ⟨c1, c2⟩ := uploads_count_of_loud env P true pv1.unit_state pl.layers hnd []
      (fun _ => ⟨rfl, rfl⟩) (t := t) (by rw [hl]; rfl) u us3 li h3 hli
    rw [c1, c2, hus]
    simp [unit_after]
  · obtain ⟨t, ht, hl⟩ := b3
    have hlk : linked_programs t ≠ [] := by
      rw [(link_warnings_of_link hl).2]
      exact List.cons_ne_nil _ _
    refine ⟨w1, e, pv1, w2, pv2, t, f1, f3, hpres, f6, f7, ht, b4.2.2.2.2.1, ?_,
      fun h => absurd h hlk⟩
    intro _ u us li hu hli
    obtain ⟨us3, h3, hus⟩ := uploaded_unit b4 u us li hu hli
    obtain ⟨c1, c2⟩ := uploads_count_of_loud env P true pv3.unit_state pl.layers hnd
      (stale_deletes pv1 ++ link_calls (env.glCreateProgram (w.trace ++ stale_deletes pv1)) st)
      (fun li => by
        rw [List.countP_append, List.countP_append, (count_stale_deletes pv1 li).1,
          (count_stale_deletes pv1 li).2, (count_link_calls _ st li).1,
          (count_link_calls _ st li).2]
        exact ⟨rfl, rfl⟩)
      (t := t) (by rw [hl, List.append_assoc]) u us3 li h3 hli
    rw [c1, c2, hus]
    simp [unit_after]

theorem demo_switched_inv : Inv demo_env demo_switched :=
  run_ops_inv demo_env (by decide) [Op.ensure 2 0 1, Op.ensure 3 0 1] demo_world
    demo_switched (init_inv demo_env demo_world (by decide)) (by decide)

theorem demo_switched_units (pv : CoglPipelineProgendPrivate)
    (h : heap_get demo_switched.privs (priv_of demo_env (pipeline_at demo_switched 2)) =
      some pv) :
    (pipeline_at demo_switched 2).layers.length ≤ pv.unit_state.length := by
  have h2 : heap_get demo_switched.privs (priv_of demo_env (pipeline_at demo_switched 2)) =
      some (entry_at demo_env demo_switched 1) := by decide
  rw [h2] at h
  simp only [Option.some.injEq] at h
  rw [← h]
  decide

/-- Witness of C15: A (2) and B (3) of the example chain share the entry 1 and its
program; the entry records B as the last pipeline, and the program end runs for
A. -/
theorem update_all_on_link_or_switch_witness :
    (demo_env.ok ∧ demo_env.compiles_glsl ∧ Inv demo_env demo_switched ∧
      heap_get demo_switched.pipelines 2 = some (pipeline_at demo_switched 2) ∧
      ((pipeline_at demo_switched 2).fragend = demo_env.FRAGEND_GLSL ∨
        (pipeline_at demo_switched 2).vertend = demo_env.VERTEND_GLSL) ∧
      priv_of demo_env (pipeline_at demo_switched 2) = 1 ∧
      priv_of demo_env (pipeline_at demo_switched 3) = 1 ∧
      (entry_at demo_env demo_switched 1).last_used_for_pipeline = 3 ∧
      UserProgramLive demo_switched (pipeline_at demo_switched 2) ∧
      (pipeline_at demo_switched 2).layers.Nodup) ∧
    (∃ w1 e pv1 w2 pv2 t,
      end_find_priv demo_env demo_switched 2 (pipeline_at demo_switched 2) = some (w1, e) ∧
      heap_get w1.privs e = some pv1 ∧
      (priv_of demo_env (pipeline_at demo_switched 2) ≠ 0 →
        e = priv_of demo_env (pipeline_at demo_switched 2) ∧
        heap_get demo_switched.privs e = some pv1) ∧
      _cogl_pipeline_progend_glsl_end demo_env demo_switched 2 0 1 = some w2 ∧
      heap_get w2.privs e = some pv2 ∧ w2.trace = demo_switched.trace ++ t ∧
      pv2.last_used_for_pipeline = 2 ∧
      ((linked_programs t ≠ [] ∨ pv1.last_used_for_pipeline ≠ 2) →
        ∀ (u : Nat) (us : UnitState) (li : Nat),
          pv2.unit_state[u]? = some us → (pipeline_at demo_switched 2).layers[u]? = some li →
          constant_uploads t li = (if us.combine_constant_uniform ≠ -1 then 1 else 0) ∧
          matrix_uploads t li =
            (if demo_env.gles2 = true ∧ us.texture_matrix_uniform ≠ -1 then 1 else 0)) ∧
      (linked_programs t = [] → pv2.program = pv1.program ∧
        ∀ u : Nat, (pv2.unit_state[u]?).map UnitState.locations =
          (pv1.unit_state[u]?).map UnitState.locations)) :=
  ⟨⟨by decide, demo_compiles_glsl, demo_switched_inv, by decide, Or.inl (by decide),
      by decide, by decide, by decide, fun h => absurd (by decide) h, by decide⟩,
    update_all_on_link_or_switch demo_env (by decide) demo_compiles_glsl demo_switched 2 0 1
      (pipeline_at demo_switched 2) demo_switched_inv (by decide) (Or.inl (by decide))
      (fun h => absurd h (by decide)) demo_switched_units
      (fun h => absurd (by decide) h) (by decide)⟩

/-! ## Notifications that mark a unit -/

theorem with_glsl_priv_absent (env : Env) (w : World) (p : Nat) (pl : CoglPipeline)
    (update : CoglPipelineProgendPrivate → Option CoglPipelineProgendPrivate)
    (hp : heap_get w.pipelines p = some pl) (he : priv_of env pl = 0) :
    with_glsl_priv env w p update = some w := by
  unfold with_glsl_priv
  rw [get_glsl_priv_live env w p pl hp]
  dsimp only
  rw [if_pos he]

theorem with_glsl_priv_present (env : Env) (w : World) (p : Nat) (pl : CoglPipeline)
    (update : CoglPipelineProgendPrivate → Option CoglPipelineProgendPrivate)
    (pv pv2 : CoglPipelineProgendPrivate)
    (hp : heap_get w.pipelines p = some pl) (he : priv_of env pl ≠ 0)
    (hpv : heap_get w.privs (priv_of env pl) = some pv) (hu : update pv = some pv2) :
    with_glsl_priv env w p update = some (w.put_priv (some pv2) (priv_of env pl)) := by
  unfold with_glsl_priv
  rw [get_glsl_priv_live env w p pl hp]
  dsimp only
  rw [if_neg he, hpv]
  dsimp only
  rw [hu]
  rfl

theorem set_getElem_self {α : Type} (l : List α) (i : Nat) (x : α) (h : l[i]? = some x) :
    l.set i x = l := by
  apply List.ext_getElem?
  intro j
  by_cases hj : i = j
  · subst hj
    rw [List.getElem?_set_self (by
      by_contra hc
      rw [List.getElem?_eq_none_iff.mpr (not_lt.mp hc)] at h
      cases h), h]
  · rw [List.getElem?_set_ne hj]

theorem marked_none (env : Env) (change : Nat) (us : UnitState)
    (hc : ¬ change &&& env.LAYER_STATE_COMBINE_CONSTANT ≠ 0)
    (hm : ¬ change &&& env.LAYER_STATE_USER_MATRIX ≠ 0) : us.marked env change = us := by
  unfold UnitState.marked
  rw [if_neg hc, if_neg hm]

/-- The layer notification with a change that does not intersect the mask it
tests first, on a pipeline that holds an entry with a unit state at the index:
the dirty bits of the announced changes are set in that unit state, and nothing
else changes. -/
theorem layer_notify_marks (env : Env) (w : World) (owner i change : Nat)
    (pl : CoglPipeline) (pv : CoglPipelineProgendPrivate) (us : UnitState)
    (hp : heap_get w.pipelines owner = some pl)
    (hmask : change &&& env.LAYER_STATE_AFFECTS_FRAGMENT_CODEGEN = 0)
    (he : priv_of env pl ≠ 0) (hpv : heap_get w.privs (priv_of env pl) = some pv)
    (hu : pv.unit_state[i]? = some us) :
    ∃ w2, _cogl_pipeline_progend_glsl_layer_pre_change_notify env w owner i change =
        some w2 ∧
      w2.pipelines = w.pipelines ∧ w2.programs = w.programs ∧ w2.shaders = w.shaders ∧
      w2.trace = w.trace ∧
      heap_get w2.privs (priv_of env pl) =
        some { pv with unit_state := pv.unit_state.set i (us.marked env change) } ∧
      ∀ x, x ≠ priv_of env pl → heap_get w2.privs x = heap_get w.privs x := by
  have hb := heap_get_some_bound _ _ _ hpv
  have hlt : i < pv.unit_state.length := by
    by_contra hc
    rw [List.getElem?_eq_none_iff.mpr (not_lt.mp hc)] at hu
    cases hu
  unfold _cogl_pipeline_progend_glsl_layer_pre_change_notify
  rw [if_neg (by rw [hmask]; exact fun hc => hc rfl)]
  dsimp only
  by_cases hc : change &&& env.LAYER_STATE_COMBINE_CONSTANT ≠ 0
  · rw [if_pos hc, with_glsl_priv_present env w owner pl _ pv
      { pv with unit_state := pv.unit_state.set i { us with dirty_combine_constant := true } }
      hp he hpv (by rw [hu])]
    dsimp only
    by_cases hm : change &&& env.LAYER_STATE_USER_MATRIX ≠ 0
    · rw [if_pos hm, with_glsl_priv_present env
        (w.put_priv (some { pv with
          unit_state := pv.unit_state.set i { us with dirty_combine_constant := true } })
          (priv_of env pl)) owner pl _
        { pv with unit_state := pv.unit_state.set i { us with dirty_combine_constant := true } }
        { pv with unit_state := pv.unit_state.set i (us.marked env change) }
        hp he (heap_get_set_same _ _ _ hb.1 hb.2) (by
          dsimp only
          rw [List.getElem?_set_self hlt]
          dsimp only
          rw [List.set_set]
          unfold UnitState.marked
          rw [if_pos hc, if_pos hm])]
      refine ⟨_, rfl, rfl, rfl, rfl, rfl, ?_, ?_⟩
      · exact heap_get_set_same _ _ _ hb.1
          (by show _ ≤ (heap_set w.privs _ _).length; rw [heap_set_length]; exact hb.2)
      · intro x hx
        show heap_get (heap_set (heap_set w.privs _ _) _ _) x = _
        rw [heap_get_set_ne _ _ _ _ hx, heap_get_set_ne _ _ _ _ hx]
    · rw [if_neg hm]
      refine ⟨_, rfl, rfl, rfl, rfl, rfl, ?_, ?_⟩
      · show heap_get (heap_set w.privs _ _) _ = _
        rw [heap_get_set_same _ _ _ hb.1 hb.2]
        unfold UnitState.marked
        rw [if_pos hc, if_neg hm]
      · intro x hx
        show heap_get (heap_set w.privs _ _) x = _
        rw [heap_get_set_ne _ _ _ _ hx]
  · rw [if_neg hc]
    dsimp only
    by_cases hm : change &&& env.LAYER_STATE_USER_MATRIX ≠ 0
    · rw [if_pos hm, with_glsl_priv_present env w owner pl _ pv
        { pv with unit_state := pv.unit_state.set i { us with dirty_texture_matrix := true } }
        hp he hpv (by rw [hu])]
      refine ⟨_, rfl, rfl, rfl, rfl, rfl, ?_, ?_⟩
      · show heap_get (heap_set w.privs _ _) _ = _
        rw [heap_get_set_same _ _ _ hb.1 hb.2]
        unfold UnitState.marked
        rw [if_neg hc, if_pos hm]
      · intro x hx
        show heap_get (heap_set w.privs _ _) x = _
        rw [heap_get_set_ne _ _ _ _ hx]
    · rw [if_neg hm]
      refine ⟨w, rfl, rfl, rfl, rfl, rfl, ?_, fun _ _ => rfl⟩
      rw [marked_none env change us hc hm, set_getElem_self _ _ _ hu]
      exact hpv

theorem layer_notify_absent (env : Env) (w : World) (owner i change : Nat)
    (pl : CoglPipeline) (hp : heap_get w.pipelines owner = some pl)
    (hmask : change &&& env.LAYER_STATE_AFFECTS_FRAGMENT_CODEGEN = 0)
    (he : priv_of env pl = 0) :
    _cogl_pipeline_progend_glsl_layer_pre_change_notify env w owner i change = some w := by
  unfold _cogl_pipeline_progend_glsl_layer_pre_change_notify
  rw [if_neg (by rw [hmask]; exact fun hc => hc rfl)]
  dsimp only
  by_cases hc : change &&& env.LAYER_STATE_COMBINE_CONSTANT ≠ 0
  · rw [if_pos hc, with_glsl_priv_absent env w owner pl _ hp he]
    dsimp only
    split
    · exact with_glsl_priv_absent env w owner pl _ hp he
    · rfl
  · rw [if_neg hc]
    dsimp only
    split
    · exact with_glsl_priv_absent env w owner pl _ hp he
    · rfl

/-- C19: a layer notification whose change does not intersect the mask that the
function tests for code generation, for the layer with unit index `i` of a live
pipeline.  When the pipeline holds an entry (with a unit state at `i`), the call
completes, the dirty bit of the combine constant of unit `i` is set if the
change announces the combine constant, the dirty bit of its texture matrix is
set if the change announces the user matrix, a bit that is not announced and the
uniform locations are kept, every other unit state is unchanged, and the entry
stays attached with the same reference count and the same program; nothing else
changes and no call is made.  When the pipeline holds no entry, the call changes
nothing. -/
theorem layer_change_marks_unit (env : Env) (w : World) (owner i change : Nat)
    (pl : CoglPipeline) (hp : heap_get w.pipelines owner = some pl)
    (hmask : change &&& env.LAYER_STATE_AFFECTS_FRAGMENT_CODEGEN = 0) :
    (priv_of env pl = 0 →
      _cogl_pipeline_progend_glsl_layer_pre_change_notify env w owner i change = some w) ∧
    ∀ (pv : CoglPipelineProgendPrivate) (us : UnitState), priv_of env pl ≠ 0 →
      heap_get w.privs (priv_of env pl) = some pv → pv.unit_state[i]? = some us →
      ∃ w2 pv2 us2,
        _cogl_pipeline_progend_glsl_layer_pre_change_notify env w owner i change = some w2 ∧
        get_glsl_priv env w2 owner = some (priv_of env pl) ∧
        heap_get w2.privs (priv_of env pl) = some pv2 ∧
        pv2.ref_count = pv.ref_count ∧ pv2.program = pv.program ∧
        pv2.unit_state[i]? = some us2 ∧
        (change &&& env.LAYER_STATE_COMBINE_CONSTANT ≠ 0 →
          us2.dirty_combine_constant = true) ∧
        (change &&& env.LAYER_STATE_USER_MATRIX ≠ 0 → us2.dirty_texture_matrix = true) ∧
        (change &&& env.LAYER_STATE_COMBINE_CONSTANT = 0 →
          us2.dirty_combine_constant = us.dirty_combine_constant) ∧
        (change &&& env.LAYER_STATE_USER_MATRIX = 0 →
          us2.dirty_texture_matrix = us.dirty_texture_matrix) ∧
        us2.combine_constant_uniform = us.combine_constant_uniform ∧
        us2.texture_matrix_uniform = us.texture_matrix_uniform ∧
        (∀ j : Nat, j ≠ i → pv2.unit_state[j]? = pv.unit_state[j]?) ∧
        w2.pipelines = w.pipelines ∧ w2.programs = w.programs ∧ w2.trace = w.trace ∧
        ∀ x, x ≠ priv_of env pl → heap_get w2.privs x = heap_get w.privs x := by
  refine ⟨layer_notify_absent env w owner i change pl hp hmask, ?_⟩
  intro pv us he hpv hu
  obtain ⟨w2, h1, h2, h3, _, h5, h6, h7⟩ :=
    layer_notify_marks env w owner i change pl pv us hp hmask he hpv hu
  have hlt : i < pv.unit_state.length := by
    by_contra hc
    rw [List.getElem?_eq_none_iff.mpr (not_lt.mp hc)] at hu
    cases hu
  refine ⟨w2, _, us.marked env change, h1, ?_, h6, rfl, rfl,
    List.getElem?_set_self hlt, ?_, ?_, ?_, ?_, rfl, rfl, ?_, h2, h3, h5, h7⟩
  · rw [get_glsl_priv_congr env w w2 owner h2]
    exact get_glsl_priv_live env w owner pl hp
  · intro hc
    show (if change &&& env.LAYER_STATE_COMBINE_CONSTANT ≠ 0 then true
      else us.dirty_combine_constant) = true
    rw [if_pos hc]
  · intro hc
    show (if change &&& env.LAYER_STATE_USER_MATRIX ≠ 0 then true
      else us.dirty_texture_matrix) = true
    rw [if_pos hc]
  · intro hc
    show (if change &&& env.LAYER_STATE_COMBINE_CONSTANT ≠ 0 then true
      else us.dirty_combine_constant) = us.dirty_combine_constant
    rw [if_neg (fun h => h hc)]
  · intro hc
    show (if change &&& env.LAYER_STATE_USER_MATRIX ≠ 0 then true
      else us.dirty_texture_matrix) = us.dirty_texture_matrix
    rw [if_neg (fun h => h hc)]
  · intro j hj
    exact List.getElem?_set_ne (fun h => hj h.symm)

/-- Witness of C19: the root (1) of the example chain after a paint; the change 4
announces the combine constant of the layer at unit 1. -/
theorem layer_change_marks_unit_witness :
    (heap_get demo_painted.pipelines 1 = some (pipeline_at demo_painted 1) ∧
      4 &&& demo_env.LAYER_STATE_AFFECTS_FRAGMENT_CODEGEN = 0 ∧
      4 &&& demo_env.LAYER_STATE_COMBINE_CONSTANT ≠ 0 ∧
      priv_of demo_env (pipeline_at demo_painted 1) ≠ 0 ∧
      heap_get demo_painted.privs (priv_of demo_env (pipeline_at demo_painted 1)) =
        some (entry_at demo_env demo_painted 1) ∧
      (entry_at demo_env demo_painted 1).unit_state[1]? = some ⟨false, false, 11, 21⟩) ∧
    ((priv_of demo_env (pipeline_at demo_painted 1) = 0 →
      _cogl_pipeline_progend_glsl_layer_pre_change_notify demo_env demo_painted 1 1 4 =
        some demo_painted) ∧
    ∀ (pv : CoglPipelineProgendPrivate) (us : UnitState),
      priv_of demo_env (pipeline_at demo_painted 1) ≠ 0 →
      heap_get demo_painted.privs (priv_of demo_env (pipeline_at demo_painted 1)) = some pv →
      pv.unit_state[1]? = some us →
      ∃ w2 pv2 us2,
        _cogl_pipeline_progend_glsl_layer_pre_change_notify demo_env demo_painted 1 1 4 =
          some w2 ∧
        get_glsl_priv demo_env w2 1 = some (priv_of demo_env (pipeline_at demo_painted 1)) ∧
        heap_get w2.privs (priv_of demo_env (pipeline_at demo_painted 1)) = some pv2 ∧
        pv2.ref_count = pv.ref_count ∧ pv2.program = pv.program ∧
        pv2.unit_state[1]? = some us2 ∧
        (4 &&& demo_env.LAYER_STATE_COMBINE_CONSTANT ≠ 0 →
          us2.dirty_combine_constant = true) ∧
        (4 &&& demo_env.LAYER_STATE_USER_MATRIX ≠ 0 → us2.dirty_texture_matrix = true) ∧
        (4 &&& demo_env.LAYER_STATE_COMBINE_CONSTANT = 0 →
          us2.dirty_combine_constant = us.dirty_combine_constant) ∧
        (4 &&& demo_env.LAYER_STATE_USER_MATRIX = 0 →
          us2.dirty_texture_matrix = us.dirty_texture_matrix) ∧
        us2.combine_constant_uniform = us.combine_constant_uniform ∧
        us2.texture_matrix_uniform = us.texture_matrix_uniform ∧
        (∀ j : Nat, j ≠ 1 → pv2.unit_state[j]? = pv.unit_state[j]?) ∧
        w2.pipelines = demo_painted.pipelines ∧ w2.programs = demo_painted.programs ∧
        w2.trace = demo_painted.trace ∧
        ∀ x, x ≠ priv_of demo_env (pipeline_at demo_painted 1) →
          heap_get w2.privs x = heap_get demo_painted.privs x) :=
  ⟨⟨by decide, by decide, by decide, by decide, by decide, by decide⟩,
    layer_change_marks_unit demo_env demo_painted 1 1 4 (pipeline_at demo_painted 1)
      (by decide) (by decide)⟩

/-! ## Notifications that detach the entry -/

theorem demo_painted_inv : Inv demo_env demo_painted :=
  run_ops_inv demo_env (by decide) [Op.ensure 1 0 1] demo_world
    demo_painted (init_inv demo_env demo_world (by decide)) (by decide)

/-! ## The entry after a paint, and the next paint -/

/-- The program end changes no pipeline apart from its embedded object. -/
theorem end_state (env : Env) (hok : env.ok) (w w2 : World) (P d : Nat) (n : Int)
    (hinv : Inv env w) (h : _cogl_pipeline_progend_glsl_end env w P d n = some w2) (q : Nat) :
    (heap_get w2.pipelines q).map pipeline_state =
      (heap_get w.pipelines q).map pipeline_state := by
  obtain ⟨pl, hp, hc⟩ := end_unfold env hok.1 w w2 P d n h
  rcases hc with ⟨_, _, he⟩ | ⟨_, w1, e, pv, w3, pv2, hf, hg, hw, he⟩
  · rw [he]
  · obtain ⟨sg, _, _⟩ := find_priv_frame env hok w w1 P e pl hinv hp hf
    have f := (frame_end_with_priv env w1 w3 P pl n pv pv2 hw).1
    rw [he]
    show (heap_get w3.pipelines q).map pipeline_state = _
    rw [f.1]
    exact sg.2.1 q

theorem unit_after_clean (env : Env) (p : Nat) (ua : Bool) (us : UnitState) (li : Nat) :
    unit_uploads env p false (unit_after env ua us) li = [] := by
  unfold unit_uploads unit_after
  dsimp only
  have h1 : ¬ (us.combine_constant_uniform ≠ -1 ∧ (false = true ∨
      (if us.combine_constant_uniform ≠ -1 ∧ (ua = true ∨ us.dirty_combine_constant = true)
        then false else us.dirty_combine_constant) = true)) := by
    intro ⟨a, b⟩
    rcases b with b | b
    · cases b
    · split at b
      · cases b
      · rename_i hn
        exact hn ⟨a, Or.inr b⟩
  have h2 : ¬ (env.gles2 = true ∧ us.texture_matrix_uniform ≠ -1 ∧ (false = true ∨
      (if env.gles2 = true ∧ us.texture_matrix_uniform ≠ -1 ∧
          (ua = true ∨ us.dirty_texture_matrix = true)
        then false else us.dirty_texture_matrix) = true)) := by
    intro ⟨g, a, b⟩
    rcases b with b | b
    · cases b
    · split at b
      · cases b
      · rename_i hn
        exact hn ⟨g, a, Or.inr b⟩
  rw [if_neg h1, if_neg h2]
  rfl

/-- A unit state is settled when the uniforms that have a location are not dirty
(for the texture matrix: in the GLES2 build). -/
theorem settled_iff (env : Env) (p : Nat) (us : UnitState) (li : Nat) :
    unit_uploads env p false us li = [] ↔
      (us.combine_constant_uniform ≠ -1 → us.dirty_combine_constant = false) ∧
      (env.gles2 = true → us.texture_matrix_uniform ≠ -1 →
        us.dirty_texture_matrix = false) := by
  unfold unit_uploads
  constructor
  · intro h
    obtain ⟨h1, h2⟩ := List.append_eq_nil.mp h
    constructor
    · intro hc
      by_contra hd
      rw [if_pos ⟨hc, Or.inr (by simpa using hd)⟩] at h1
      cases h1
    · intro hg hc
      by_contra hd
      rw [if_pos ⟨hg, hc, Or.inr (by simpa using hd)⟩] at h2
      cases h2
  · intro ⟨h1, h2⟩
    rw [if_neg (by
      intro ⟨a, b⟩
      rcases b with b | b
      · cases b
      · rw [h1 a] at b; cases b), if_neg (by
      intro ⟨g, a, b⟩
      rcases b with b | b
      · cases b
      · rw [h2 g a] at b; cases b)]
    rfl

/-- The program end leaves the entry of a live pipeline with a program that is
not stale for the same call, with the pipeline recorded as the last one, and
with the unit states of its layers settled.  (The driver returns non-zero
program handles.) -/
theorem end_settled (env : Env) (hok : env.ok) (hlang : env.compiles_glsl)
    (hnz : ∀ t, env.glCreateProgram t ≠ 0)
    (w : World) (P d : Nat) (n : Int) (pl : CoglPipeline) (hinv : Inv env w)
    (hP : heap_get w.pipelines P = some pl)
    (hglsl : pl.fragend = env.FRAGEND_GLSL ∨ pl.vertend = env.VERTEND_GLSL)
    (hA : priv_of env pl = 0 →
      ∃ pa, heap_get w.pipelines (env.find_equivalent_parent w.pipelines P) = some pa ∧
        ∀ pv, heap_get w.privs (priv_of env pa) = some pv →
          pl.layers.length ≤ pv.unit_state.length)
    (hown : ∀ pv, heap_get w.privs (priv_of env pl) = some pv →
      pl.layers.length ≤ pv.unit_state.length)
    (hlive : UserProgramLive w pl) :
    ∃ w2 pl2 pv2, _cogl_pipeline_progend_glsl_end env w P d n = some w2 ∧ Inv env w2 ∧
      heap_get w2.pipelines P = some pl2 ∧ pipeline_state pl2 = pipeline_state pl ∧
      priv_of env pl2 ≠ 0 ∧ heap_get w2.privs (priv_of env pl2) = some pv2 ∧
      pv2.program ≠ 0 ∧ Fresh w2 pl2 n pv2 ∧ pv2.last_used_for_pipeline = P ∧
      pl.layers.length ≤ pv2.unit_state.length ∧
      ∀ (u : Nat) (us : UnitState) (li : Nat), pv2.unit_state[u]? = some us →
        pl.layers[u]? = some li → unit_uploads env P false us li = [] := by
  obtain ⟨w1, e, pv1, w2, pv2, _, f2, _, _, f5, f6, f7, f8, f9, hc⟩ :=
    end_general env hok hlang w P d n pl hinv hP hglsl hA hown hlive
  have hst := end_state env hok w w2 P d n hinv f6 P
  rw [hP] at hst
  cases hp2 : heap_get w2.pipelines P with
  | none => rw [hp2] at hst; cases hst
  | some pl2 =>
    rw [hp2] at hst
    simp only [Option.map_some', Option.some.injEq] at hst
    have he2 : priv_of env pl2 = e := by
      rw [get_glsl_priv_live env w2 P pl2 hp2] at f8
      simpa using f8
    have hup : pl2.user_program = pl.user_program := by
      have := congrArg (fun x => x.2.2.1) hst
      exact this
    have key : pv2.program ≠ 0 ∧ Fresh w pl n pv2 ∧ pv2.last_used_for_pipeline = P ∧
        pl.layers.length ≤ pv2.unit_state.length ∧
        ∀ (u : Nat) (us : UnitState) (li : Nat), pv2.unit_state[u]? = some us →
          pl.layers[u]? = some li → unit_uploads env P false us li = [] := by
      rcases hc with ⟨a1, a2, _, a4⟩ | ⟨_, st, pv3, _, _, b4, b5, b6, _, b8, _, b10, _⟩
      · refine ⟨by rw [a4.1]; exact a1, ?_, a4.2.2.2.2.1, by rw [uploaded_length a4]; exact f5,
          ?_⟩
        · unfold Fresh at a2 ⊢
          rw [a4.2.2.1, a4.2.1]
          exact a2
        · intro u us li hu hli
          obtain ⟨us3, _, hus⟩ := uploaded_unit a4 u us li hu hli
          rw [hus]
          exact unit_after_clean env P _ us3 li
      · refine ⟨by rw [b4.1, b5]; exact hnz _, ?_, b4.2.2.2.2.1,
          by rw [uploaded_length b4, b8]; exact f5, ?_⟩
        · by_cases hu0 : pl.user_program = 0
          · exact Or.inl hu0
          · obtain ⟨prog, hg, _⟩ := hlive hu0
            refine Or.inr ⟨prog, hg, ?_, ?_⟩
            · rw [b4.2.2.1, b10 prog hu0 hg]
            · rw [b4.2.1]
              exact b6
        · intro u us li hu hli
          obtain ⟨us3, _, hus⟩ := uploaded_unit b4 u us li hu hli
          rw [hus]
          exact unit_after_clean env P _ us3 li
    obtain ⟨k1, k2, k3, k4, k5⟩ := key
    refine ⟨w2, pl2, pv2, f6, end_inv env hok w w2 P d n hinv f6, hp2, hst,
      by rw [he2]; exact f2, by rw [he2]; exact f7, k1, ?_, k3, k4, k5⟩
    unfold Fresh at k2 ⊢
    rw [hup, f9]
    exact k2

theorem marked_marked (env : Env) (change : Nat) (us : UnitState) :
    (us.marked env change).marked env change = us.marked env change := by
  unfold UnitState.marked
  dsimp only
  by_cases hc : change &&& env.LAYER_STATE_COMBINE_CONSTANT ≠ 0
  · by_cases hm : change &&& env.LAYER_STATE_USER_MATRIX ≠ 0
    · simp only [if_pos hc, if_pos hm]
    · simp only [if_pos hc, if_neg hm]
  · by_cases hm : change &&& env.LAYER_STATE_USER_MATRIX ≠ 0
    · simp only [if_neg hc, if_pos hm]
    · simp only [if_neg hc, if_neg hm]

/-- A sequence of layer notifications that do not detach, on a pipeline that
holds an entry: they complete without a call and mark the notified units. -/
theorem notify_run (env : Env) (P change : Nat) (pl : CoglPipeline)
    (hmask : change &&& env.LAYER_STATE_AFFECTS_FRAGMENT_CODEGEN = 0)
    (he : priv_of env pl ≠ 0) :
    ∀ (changed : List Nat) (w : World) (pv : CoglPipelineProgendPrivate),
      heap_get w.pipelines P = some pl → heap_get w.privs (priv_of env pl) = some pv →
      (∀ i, i ∈ changed → i < pv.unit_state.length) →
      ∃ w3 pv3, run_ops env w (notify_ops P change changed) = some w3 ∧
        w3.pipelines = w.pipelines ∧ w3.programs = w.programs ∧ w3.trace = w.trace ∧
        heap_get w3.privs (priv_of env pl) = some pv3 ∧ pv3.program = pv.program ∧
        pv3.user_program_age = pv.user_program_age ∧
        pv3.n_tex_coord_attribs = pv.n_tex_coord_attribs ∧
        pv3.last_used_for_pipeline = pv.last_used_for_pipeline ∧
        ∀ u : Nat, pv3.unit_state[u]? = (pv.unit_state[u]?).map
          (fun us => if u ∈ changed then us.marked env change else us) := by
  intro changed
  induction changed with
  | nil =>
    intro w pv _ hpv _
    refine ⟨w, pv, rfl, rfl, rfl, rfl, hpv, rfl, rfl, rfl, rfl, ?_⟩
    intro u
    cases pv.unit_state[u]? with
    | none => rfl
    | some us => simp
  | cons i rest ih =>
    intro w pv hp hpv hidx
    have hlt := hidx i (List.mem_cons_self _ _)
    have hu : pv.unit_state[i]? = some (pv.unit_state.get ⟨i, hlt⟩) :=
      List.getElem?_eq_getElem hlt
    obtain ⟨w2, h1, h2, h3, _, h5, h6, _⟩ :=
      layer_notify_marks env w P i change pl pv _ hp hmask he hpv hu
    obtain ⟨w3, pv3, r1, r2, r3, r4, r5, r6, r7, r8, r9, r10⟩ := ih w2 _ (by rw [h2]; exact hp) h6
      (fun j hj => by
        show j < (pv.unit_state.set i _).length
        rw [List.length_set]
        exact hidx j (List.mem_cons_of_mem _ hj))
    refine ⟨w3, pv3, ?_, r2.trans h2, r3.trans h3, r4.trans h5, r5, r6, r7, r8, r9, ?_⟩
    · show run_ops env w (Op.layer_pre_change P i change :: notify_ops P change rest) = some w3
      rw [run_ops]
      show (match _cogl_pipeline_progend_glsl_layer_pre_change_notify env w P i change with
        | none => none
        | some w2 => run_ops env w2 (notify_ops P change rest)) = some w3
      rw [h1]
      exact r1
    · intro u
      rw [r10 u]
      show ((pv.unit_state.set i _)[u]?).map _ = _
      by_cases hui : i = u
      · subst hui
        rw [List.getElem?_set_self hlt, hu]
        simp only [Option.map_some', List.mem_cons, true_or, if_true]
        split
        · rw [marked_marked]
        · rfl
      · rw [List.getElem?_set_ne hui]
        cases pv.unit_state[u]? with
        | none => rfl
        | some us =>
          have hiff : (u ∈ i :: rest) ↔ u ∈ rest := by
            rw [List.mem_cons]
            constructor
            · intro h
              rcases h with h | h
              · exact absurd h.symm hui
              · exact h
            · exact Or.inr
          simp only [Option.map_some', hiff]

theorem layer_uploads_append (t t2 : List Call) :
    layer_uploads (t ++ t2) = layer_uploads t ++ layer_uploads t2 := by
  unfold layer_uploads
  rw [List.filter_append]

theorem layer_uploads_loud (t : List Call) : layer_uploads t = layer_uploads (loud t) := by
  induction t with
  | nil => rfl
  | cons c rest ih =>
    cases hc : c.is_quiet with
    | true =>
      have h1 : loud (c :: rest) = loud rest := by simp [loud, hc]
      have h2 : layer_uploads (c :: rest) = layer_uploads rest := by
        cases c <;> first | rfl | cases hc
      rw [h1, h2, ih]
    | false =>
      have h1 : loud (c :: rest) = c :: loud rest := by simp [loud, hc]
      rw [h1]
      show layer_uploads ([c] ++ rest) = layer_uploads ([c] ++ loud rest)
      rw [layer_uploads_append, layer_uploads_append, ih]

theorem upload_calls_clean (env : Env) (p : Nat) :
    ∀ (units : List UnitState) (layers : List Nat),
      (∀ (u : Nat) (us : UnitState) (li : Nat), units[u]? = some us → layers[u]? = some li →
        unit_uploads env p false us li = []) →
      upload_calls env p false units layers = [] := by
  intro units
  induction units with
  | nil => intro layers _; cases layers <;> rfl
  | cons us rest ih =>
    intro layers h
    cases layers with
    | nil => rfl
    | cons l ls =>
      rw [upload_calls, h 0 us l (List.getElem?_cons_zero ..) (List.getElem?_cons_zero ..),
        ih ls (fun u us2 li hu hl => h (u + 1) us2 li
          (by rw [List.getElem?_cons_succ]; exact hu)
          (by rw [List.getElem?_cons_succ]; exact hl))]
      rfl

theorem length_of_getElem?_map {α : Type} (l l3 : List α) (f : Nat → α → α)
    (h : ∀ u : Nat, l3[u]? = (l[u]?).map (f u)) : l3.length = l.length := by
  apply Nat.le_antisymm
  · apply List.getElem?_eq_none_iff.mp
    rw [h, List.getElem?_eq_none_iff.mpr (Nat.le_refl _)]
    rfl
  · apply List.getElem?_eq_none_iff.mp
    have hn := h l3.length
    rw [List.getElem?_eq_none_iff.mpr (Nat.le_refl _)] at hn
    cases hx : l[l3.length]? with
    | none => rfl
    | some x => rw [hx] at hn; cases hn

theorem marked_counts (env : Env) (change : Nat) (us : UnitState) (inch : Prop)
    [Decidable inch]
    (s1 : us.combine_constant_uniform ≠ -1 → us.dirty_combine_constant = false)
    (s2 : env.gles2 = true → us.texture_matrix_uniform ≠ -1 →
      us.dirty_texture_matrix = false) :
    ((if (if inch then us.marked env change else us).combine_constant_uniform ≠ -1 ∧
        (false = true ∨
          (if inch then us.marked env change else us).dirty_combine_constant = true)
      then 1 else 0) =
      (if inch ∧ change &&& env.LAYER_STATE_COMBINE_CONSTANT ≠ 0 ∧
        us.combine_constant_uniform ≠ -1 then 1 else 0)) ∧
    ((if env.gles2 = true ∧
        (if inch then us.marked env change else us).texture_matrix_uniform ≠ -1 ∧
        (false = true ∨
          (if inch then us.marked env change else us).dirty_texture_matrix = true)
      then 1 else 0) =
      (if inch ∧ change &&& env.LAYER_STATE_USER_MATRIX ≠ 0 ∧
        env.gles2 = true ∧ us.texture_matrix_uniform ≠ -1 then 1 else 0)) := by
  by_cases hin : inch <;>
    by_cases hc : change &&& env.LAYER_STATE_COMBINE_CONSTANT = 0 <;>
    by_cases hm : change &&& env.LAYER_STATE_USER_MATRIX = 0 <;>
    by_cases hl1 : us.combine_constant_uniform = -1 <;>
    by_cases hl2 : us.texture_matrix_uniform = -1 <;>
    by_cases hg : env.gles2 = true <;>
    simp_all [UnitState.marked]

/-- The paint, the notifications and the next paint: the second paint links
nothing and uploads, of each layer, what the notifications marked and has a
location. -/
theorem repaint (env : Env) (hctx : env.have_context = true) (P d2 change : Nat) (n : Int)
    (changed : List Nat) (w2 : World) (pl2 : CoglPipeline) (pv2 : CoglPipelineProgendPrivate)
    (hp : heap_get w2.pipelines P = some pl2)
    (hglsl : pl2.fragend = env.FRAGEND_GLSL ∨ pl2.vertend = env.VERTEND_GLSL)
    (he : priv_of env pl2 ≠ 0) (hpv : heap_get w2.privs (priv_of env pl2) = some pv2)
    (hprog : pv2.program ≠ 0) (hf : Fresh w2 pl2 n pv2)
    (hlast : pv2.last_used_for_pipeline = P)
    (hunits : pl2.layers.length ≤ pv2.unit_state.length)
    (hclean : ∀ (u : Nat) (us : UnitState) (li : Nat), pv2.unit_state[u]? = some us →
      pl2.layers[u]? = some li → unit_uploads env P false us li = [])
    (hnd : pl2.layers.Nodup)
    (hmask : change &&& env.LAYER_STATE_AFFECTS_FRAGMENT_CODEGEN = 0)
    (hidx : ∀ i, i ∈ changed → i < pl2.layers.length) :
    ∃ w3 w4 t, run_ops env w2 (notify_ops P change changed) = some w3 ∧
      w3.trace = w2.trace ∧
      _cogl_pipeline_progend_glsl_end env w3 P d2 n = some w4 ∧
      w4.trace = w3.trace ++ t ∧ linked_programs t = [] ∧
      ∀ (u : Nat) (us : UnitState) (li : Nat), pv2.unit_state[u]? = some us →
        pl2.layers[u]? = some li →
        constant_uploads t li =
          (if u ∈ changed ∧ change &&& env.LAYER_STATE_COMBINE_CONSTANT ≠ 0 ∧
            us.combine_constant_uniform ≠ -1 then 1 else 0) ∧
        matrix_uploads t li =
          (if u ∈ changed ∧ change &&& env.LAYER_STATE_USER_MATRIX ≠ 0 ∧
            env.gles2 = true ∧ us.texture_matrix_uniform ≠ -1 then 1 else 0) := by
  obtain ⟨w3, pv3, r1, r2, r3, r4, r5, r6, r7, r8, r9, r10⟩ :=
    notify_run env P change pl2 hmask he changed w2 pv2 hp hpv
      (fun i hi => Nat.lt_of_lt_of_le (hidx i hi) hunits)
  have hlen : pv3.unit_state.length = pv2.unit_state.length :=
    length_of_getElem?_map _ _ _ r10
  have hf3 : Fresh w3 pl2 n pv3 := by
    unfold Fresh at hf ⊢
    rw [r3, r7, r8]
    exact hf
  obtain ⟨w4, pv4, h1, _, hl, _⟩ :=
    end_present_no_link env hctx w3 P d2 n pl2 pv3 (by rw [r2]; exact hp) hglsl he r5
      (by rw [r6]; exact hprog) hf3 (by rw [hlen]; exact hunits)
  have hd : decide (pv3.last_used_for_pipeline ≠ P) = false := by
    rw [r9, hlast]
    exact decide_eq_false (fun hc => hc rfl)
  rw [hd] at hl
  obtain ⟨t, ht, hlt⟩ := hl
  have hlk : linked_programs t = [] := by
    unfold linked_programs
    rw [filterMap_loud Call.links links_quiet t, hlt,
      filterMap_upload_calls _ (fun _ _ _ => rfl) (fun _ _ _ => rfl)]
  refine ⟨w3, w4, t, r1, r4, h1, ht, hlk, ?_⟩
  intro u us li hu hli
  have hu3 := r10 u
  rw [hu] at hu3
  simp only [Option.map_some'] at hu3
  obtain ⟨c1, c2⟩ := uploads_count_of_loud env P false pv3.unit_state pl2.layers hnd []
    (fun _ => ⟨rfl, rfl⟩) (t := t) (by rw [hlt]; rfl) u _ li hu3 hli
  obtain ⟨s1, s2⟩ := (settled_iff env P us li).mp (hclean u us li hu hli)
  rw [c1, c2]
  exact marked_counts env change us (u ∈ changed) s1 s2

/-! ## Two paints of one pipeline -/

/-- C16 (amended): a pipeline with distinct layers is painted, the combine
constants of the layers at the unit indices `changed` are announced as changing
by layer notifications that do not detach the entry, and the same pipeline is
painted again with the same program.  All calls complete, the notifications make
no call, and the second paint links nothing and uploads the combine constant of
a layer exactly once if the layer is one of the changed ones and its
combine-constant uniform has a location in the program, and not at all
otherwise.  (The driver returns non-zero program handles.) -/
theorem second_paint_uploads_changed (env : Env) (hok : env.ok) (hlang : env.compiles_glsl)
    (hnz : ∀ t, env.glCreateProgram t ≠ 0)
    (w : World) (P d d2 : Nat) (n : Int) (pl : CoglPipeline) (hinv : Inv env w)
    (hP : heap_get w.pipelines P = some pl)
    (hglsl : pl.fragend = env.FRAGEND_GLSL ∨ pl.vertend = env.VERTEND_GLSL)
    (hA : priv_of env pl = 0 →
      ∃ pa, heap_get w.pipelines (env.find_equivalent_parent w.pipelines P) = some pa ∧
        ∀ pv, heap_get w.privs (priv_of env pa) = some pv →
          pl.layers.length ≤ pv.unit_state.length)
    (hown : ∀ pv, heap_get w.privs (priv_of env pl) = some pv →
      pl.layers.length ≤ pv.unit_state.length)
    (hlive : UserProgramLive w pl) (hnd : pl.layers.Nodup)
    (change : Nat) (changed : List Nat)
    (hmask : change &&& env.LAYER_STATE_AFFECTS_FRAGMENT_CODEGEN = 0)
    (hcc : change &&& env.LAYER_STATE_COMBINE_CONSTANT ≠ 0)
    (hidx : ∀ i, i ∈ changed → i < pl.layers.length) :
    ∃ w2 e pv2 w3 w4 t, _cogl_pipeline_progend_glsl_end env w P d n = some w2 ∧
      get_glsl_priv env w2 P = some e ∧ heap_get w2.privs e = some pv2 ∧
      run_ops env w2 (notify_ops P change changed) = some w3 ∧ w3.trace = w2.trace ∧
      _cogl_pipeline_progend_glsl_end env w3 P d2 n = some w4 ∧
      w4.trace = w3.trace ++ t ∧ linked_programs t = [] ∧
      ∀ (u : Nat) (us : UnitState) (li : Nat), pv2.unit_state[u]? = some us →
        pl.layers[u]? = some li →
        constant_uploads t li =
          (if u ∈ changed ∧ us.combine_constant_uniform ≠ -1 then 1 else 0) := by
  obtain ⟨w2, pl2, pv2, h1, _, h3, h4, h5, h6, h7, h8, h9, h10, h11⟩ :=
    end_settled env hok hlang hnz w P d n pl hinv hP hglsl hA hown hlive
  simp only [pipeline_state, Prod.mk.injEq] at h4
  obtain ⟨e1, e2, _, e4, _, _⟩ := h4
  obtain ⟨w3, w4, t, r1, r2, r3, r4, r5, r6⟩ :=
    repaint env hok.1 P d2 change n changed w2 pl2 pv2 h3 (by rw [e1, e2]; exact hglsl) h5 h6
      h7 h8 h9 (by rw [e4]; exact h10) (by rw [e4]; exact h11) (by rw [e4]; exact hnd) hmask
      (by rw [e4]; exact hidx)
  refine ⟨w2, priv_of env pl2, pv2, w3, w4, t, h1, get_glsl_priv_live env w2 P pl2 h3, h6,
    r1, r2, r3, r4, r5, ?_⟩
  intro u us li hu hli
  rw [(r6 u us li hu (by rw [e4]; exact hli)).1]
  by_cases hin : u ∈ changed
  · by_cases hloc : us.combine_constant_uniform ≠ -1
    · rw [if_pos ⟨hin, hcc, hloc⟩, if_pos ⟨hin, hloc⟩]
    · rw [if_neg (fun h => hloc h.2.2), if_neg (fun h => hloc h.2)]
  · rw [if_neg (fun h => hin h.1), if_neg (fun h => hin h.1)]

theorem demo_root_authority (env : Env) (h : env.find_equivalent_parent = demo_env.find_equivalent_parent)
    (_h0 : priv_of env (demo_pipeline 0 0 63) = 0) :
    ∃ pa, heap_get demo_world.pipelines (env.find_equivalent_parent demo_world.pipelines 1) =
        some pa ∧
      ∀ pv, heap_get demo_world.privs (priv_of env pa) = some pv →
        (demo_pipeline 0 0 63).layers.length ≤ pv.unit_state.length := by
  rw [h]
  exact ⟨demo_pipeline 0 0 63, by decide, fun pv hpv => (demo_world_no_priv _ pv hpv).elim⟩

/-- Witness of C16 (amended): the two-layer root (1) of the example chain is
painted, the combine constant of the layer at unit 1 is announced as changing
(change 4), and the root is painted again. -/
theorem second_paint_uploads_changed_witness :
    (demo_env.ok ∧ demo_env.compiles_glsl ∧ (∀ t, demo_env.glCreateProgram t ≠ 0) ∧
      Inv demo_env demo_world ∧
      heap_get demo_world.pipelines 1 = some (demo_pipeline 0 0 63) ∧
      ((demo_pipeline 0 0 63).fragend = demo_env.FRAGEND_GLSL ∨
        (demo_pipeline 0 0 63).vertend = demo_env.VERTEND_GLSL) ∧
      UserProgramLive demo_world (demo_pipeline 0 0 63) ∧
      (demo_pipeline 0 0 63).layers = [0, 1] ∧ (demo_pipeline 0 0 63).layers.Nodup ∧
      4 &&& demo_env.LAYER_STATE_AFFECTS_FRAGMENT_CODEGEN = 0 ∧
      4 &&& demo_env.LAYER_STATE_COMBINE_CONSTANT ≠ 0 ∧
      (∀ i, i ∈ [1] → i < (demo_pipeline 0 0 63).layers.length)) ∧
    (∃ w2 e pv2 w3 w4 t, _cogl_pipeline_progend_glsl_end demo_env demo_world 1 0 1 = some w2 ∧
      get_glsl_priv demo_env w2 1 = some e ∧ heap_get w2.privs e = some pv2 ∧
      run_ops demo_env w2 (notify_ops 1 4 [1]) = some w3 ∧ w3.trace = w2.trace ∧
      _cogl_pipeline_progend_glsl_end demo_env w3 1 0 1 = some w4 ∧
      w4.trace = w3.trace ++ t ∧ linked_programs t = [] ∧
      ∀ (u : Nat) (us : UnitState) (li : Nat), pv2.unit_state[u]? = some us →
        (demo_pipeline 0 0 63).layers[u]? = some li →
        constant_uploads t li =
          (if u ∈ [1] ∧ us.combine_constant_uniform ≠ -1 then 1 else 0)) :=
  ⟨⟨by decide, demo_compiles_glsl, fun _ => Nat.succ_ne_zero _,
      init_inv demo_env demo_world (by decide), by decide, Or.inl (by decide),
      demo_no_user_program demo_world 0 63, by decide, by decide, by decide, by decide,
      by decide⟩,
    second_paint_uploads_changed demo_env (by decide) demo_compiles_glsl
      (fun _ => Nat.succ_ne_zero _) demo_world 1 0 0 1 (demo_pipeline 0 0 63)
      (init_inv demo_env demo_world (by decide)) (by decide) (Or.inl (by decide))
      (demo_root_authority demo_env rfl)
      (fun pv h => (demo_world_no_priv _ pv h).elim)
      (demo_no_user_program demo_world 0 63) (by decide) 4 [1] (by decide) (by decide)
      (by decide)⟩

/-- C16, as stated, fails when the combine-constant uniform of layer 1 has no
location in the program: the two-layer root (1) of the example chain is painted,
the change of the combine constant of the layer at unit 1 is announced (its dirty
bit is set), and the second paint of the root uploads the combine constant of
layer 1 zero times, not once. -/
theorem changed_constant_without_location_not_uploaded :
    run_ops demo_noconst demo_world [Op.ensure 1 0 1, Op.layer_pre_change 1 1 4] =
      some (after demo_noconst demo_world [Op.ensure 1 0 1, Op.layer_pre_change 1 1 4]) ∧
    ((entry_at demo_noconst
      (after demo_noconst demo_world [Op.ensure 1 0 1, Op.layer_pre_change 1 1 4])
      1).unit_state[1]?).map (·.dirty_combine_constant) = some true ∧
    _cogl_pipeline_progend_glsl_end demo_noconst
      (after demo_noconst demo_world [Op.ensure 1 0 1, Op.layer_pre_change 1 1 4]) 1 0 1 =
      some (after demo_noconst demo_world
        [Op.ensure 1 0 1, Op.layer_pre_change 1 1 4, Op.ensure 1 0 1]) ∧
    constant_uploads
      ((after demo_noconst demo_world
        [Op.ensure 1 0 1, Op.layer_pre_change 1 1 4, Op.ensure 1 0 1]).trace.drop
        (after demo_noconst demo_world
          [Op.ensure 1 0 1, Op.layer_pre_change 1 1 4]).trace.length) 1 = 0 := by
  decide

/-! ## The upload rule of a paint -/

theorem rule_counts (env : Env) (ua : Bool) (us3 us1 : UnitState) (A : Prop) [Decidable A]
    (hA : ua = true ↔ A) (h1 : ¬ A → us1 = us3) :
    ((if us3.combine_constant_uniform ≠ -1 ∧
        (ua = true ∨ us3.dirty_combine_constant = true) then 1 else 0) =
      (if (unit_after env ua us3).combine_constant_uniform ≠ -1 ∧
        (A ∨ us1.dirty_combine_constant = true) then 1 else 0)) ∧
    ((if env.gles2 = true ∧ us3.texture_matrix_uniform ≠ -1 ∧
        (ua = true ∨ us3.dirty_texture_matrix = true) then 1 else 0) =
      (if env.gles2 = true ∧ (unit_after env ua us3).texture_matrix_uniform ≠ -1 ∧
        (A ∨ us1.dirty_texture_matrix = true) then 1 else 0)) := by
  by_cases ha : A
  · have hu : ua = true := hA.mpr ha
    subst hu
    simp [unit_after, ha]
  · have hu : ua = false := by
      cases ua with
      | false => rfl
      | true => exact absurd (hA.mp rfl) ha
    subst hu
    rw [h1 ha]
    simp [unit_after, ha]

/-- C17 (amended): the upload rule of a paint.  The program end on a live pipeline
with distinct layers completes, and for each layer: its combine constant is
uploaded exactly once if its uniform has a location and `update_all` is set (the
call linked a program, or the entry recorded another pipeline) or the dirty bit
of the constant was set, and not at all otherwise; its texture matrix likewise,
in the GLES2 build only, with its own location and dirty bit; afterwards the
dirty bit of every uniform of the layer that has a location is clear (in the
GLES2 build for the matrix).  An immediately following paint of the same
pipeline completes and uploads no uniform of a layer.  (The driver returns
non-zero program handles.) -/
theorem layer_uniform_upload_rule (env : Env) (hok : env.ok) (hlang : env.compiles_glsl)
    (hnz : ∀ t, env.glCreateProgram t ≠ 0)
    (w : World) (P d : Nat) (n : Int) (pl : CoglPipeline) (hinv : Inv env w)
    (hP : heap_get w.pipelines P = some pl)
    (hglsl : pl.fragend = env.FRAGEND_GLSL ∨ pl.vertend = env.VERTEND_GLSL)
    (hA : priv_of env pl = 0 →
      ∃ pa, heap_get w.pipelines (env.find_equivalent_parent w.pipelines P) = some pa ∧
        ∀ pv, heap_get w.privs (priv_of env pa) = some pv →
          pl.layers.length ≤ pv.unit_state.length)
    (hown : ∀ pv, heap_get w.privs (priv_of env pl) = some pv →
      pl.layers.length ≤ pv.unit_state.length)
    (hlive : UserProgramLive w pl) (hnd : pl.layers.Nodup) :
    ∃ w1 e pv1 w2 pv2 t, end_find_priv env w P pl = some (w1, e) ∧
      heap_get w1.privs e = some pv1 ∧
      (priv_of env pl ≠ 0 → e = priv_of env pl ∧ heap_get w.privs e = some pv1) ∧
      _cogl_pipeline_progend_glsl_end env w P d n = some w2 ∧
      heap_get w2.privs e = some pv2 ∧ w2.trace = w.trace ++ t ∧
      (∀ (u : Nat) (us1 us2 : UnitState) (li : Nat), pv1.unit_state[u]? = some us1 →
        pv2.unit_state[u]? = some us2 → pl.layers[u]? = some li →
        constant_uploads t li =
          (if us2.combine_constant_uniform ≠ -1 ∧
            ((linked_programs t ≠ [] ∨ pv1.last_used_for_pipeline ≠ P) ∨
              us1.dirty_combine_constant = true) then 1 else 0) ∧
        matrix_uploads t li =
          (if env.gles2 = true ∧ us2.texture_matrix_uniform ≠ -1 ∧
            ((linked_programs t ≠ [] ∨ pv1.last_used_for_pipeline ≠ P) ∨
              us1.dirty_texture_matrix = true) then 1 else 0) ∧
        (us2.combine_constant_uniform ≠ -1 → us2.dirty_combine_constant = false) ∧
        (env.gles2 = true → us2.texture_matrix_uniform ≠ -1 →
          us2.dirty_texture_matrix = false)) ∧
      ∀ d2, ∃ w3 t2, _cogl_pipeline_progend_glsl_end env w2 P d2 n = some w3 ∧
        w3.trace = w2.trace ++ t2 ∧ layer_uploads t2 = [] := by
  obtain ⟨w1, e, pv1, w2, pv2, f1, _, f3, f4, _, f6, f7, _, _, hc⟩ :=
    end_general env hok hlang w P d n pl hinv hP hglsl hA hown hlive
  have hpres : priv_of env pl ≠ 0 → e = priv_of env pl ∧ heap_get w.privs e = some pv1 := by
    intro hne
    obtain ⟨x1, x2⟩ := f4 hne
    rw [x1] at f3
    exact ⟨x2, f3⟩
  have hnext : ∀ d2, ∃ w3 t2, _cogl_pipeline_progend_glsl_end env w2 P d2 n = some w3 ∧
      w3.trace = w2.trace ++ t2 ∧ layer_uploads t2 = [] := by
    intro d2
    obtain ⟨w2b, pl2, pv2b, h1, _, h3, h4, h5, h6, h7, h8, h9, h10, h11⟩ :=
      end_settled env hok hlang hnz w P d n pl hinv hP hglsl hA hown hlive
    rw [f6] at h1
    simp only [Option.some.injEq] at h1
    subst h1
    simp only [pipeline_state, Prod.mk.injEq] at h4
    obtain ⟨e1, e2, _, e4, _, _⟩ := h4
    obtain ⟨w3, _, k1, _, hl, _⟩ :=
      end_present_no_link env hok.1 w2 P d2 n pl2 pv2b h3 (by rw [e1, e2]; exact hglsl) h5 h6
        h7 h8 (by rw [e4]; exact h10)
    obtain ⟨t2, ht2, hlt⟩ := hl
    refine ⟨w3, t2, k1, ht2, ?_⟩
    have hd : decide (pv2b.last_used_for_pipeline ≠ P) = false := by
      rw [h9]
      exact decide_eq_false (fun hc => hc rfl)
    rw [hd] at hlt
    rw [layer_uploads_loud, hlt, upload_calls_clean env P _ _
      (fun u us li hu hli => h11 u us li hu (by rw [← e4]; exact hli))]
    rfl
  rcases hc with ⟨_, _, a3, a4⟩ | ⟨_, st, pv3, _, b3, b4, _, _, _, b8, _⟩
  · obtain ⟨t, ht, hl⟩ := a3
    have hlk : linked_programs t = [] := by
      unfold linked_programs
      rw [filterMap_loud Call.links links_quiet t, hl,
        filterMap_upload_calls _ (fun _ _ _ => rfl) (fun _ _ _ => rfl)]
    refine ⟨w1, e, pv1, w2, pv2, t, f1, f3, hpres, f6, f7, ht, ?_, hnext⟩
    intro u us1 us2 li hu1 hu2 hli
    obtain ⟨us3, h3, hus⟩ := uploaded_unit a4 u us2 li hu2 hli
    rw [hu1] at h3
    simp only [Option.some.injEq] at h3
    subst h3
    obtain ⟨c1, c2⟩ := uploads_count_of_loud env P _ pv1.unit_state pl.layers hnd []
      (fun _ => ⟨rfl, rfl⟩) (t := t) (by rw [hl]; rfl) u us1 li hu1 hli
    obtain ⟨r1, r2⟩ := rule_counts env (decide (pv1.last_used_for_pipeline ≠ P)) us1 us1
      (linked_programs t ≠ [] ∨ pv1.last_used_for_pipeline ≠ P)
      (by
        rw [decide_eq_true_iff]
        constructor
        · exact Or.inr
        · intro h
          rcases h with h | h
          · exact absurd hlk h
          · exact h)
      (fun _ => rfl)
    obtain ⟨s1, s2⟩ := (settled_iff env P us2 li).mp
      (by rw [hus]; exact unit_after_clean env P _ us1 li)
    rw [c1, c2, hus]
    exact ⟨r1, r2, by rw [← hus]; exact s1, by rw [← hus]; exact s2⟩
  · obtain ⟨t, ht, hl⟩ := b3
    have hlk : linked_programs t ≠ [] := by
      rw [(link_warnings_of_link hl).2]
      exact List.cons_ne_nil _ _
    refine ⟨w1, e, pv1, w2, pv2, t, f1, f3, hpres, f6, f7, ht, ?_, hnext⟩
    intro u us1 us2 li hu1 hu2 hli
    obtain ⟨us3, h3, hus⟩ := uploaded_unit b4 u us2 li hu2 hli
    obtain ⟨c1, c2⟩ := uploads_count_of_loud env P true pv3.unit_state pl.layers hnd
      (stale_deletes pv1 ++ link_calls (env.glCreateProgram (w.trace ++ stale_deletes pv1)) st)
      (fun li => by
        rw [List.countP_append, List.countP_append, (count_stale_deletes pv1 li).1,
          (count_stale_deletes pv1 li).2, (count_link_calls _ st li).1,
          (count_link_calls _ st li).2]
        exact ⟨rfl, rfl⟩)
      (t := t) (by rw [hl, List.append_assoc]) u us3 li h3 hli
    obtain ⟨r1, r2⟩ := rule_counts env true us3 us1
      (linked_programs t ≠ [] ∨ pv1.last_used_for_pipeline ≠ P)
      ⟨fun _ => Or.inl hlk, fun _ => rfl⟩ (fun h => absurd (Or.inl hlk) h)
    obtain ⟨s1, s2⟩ := (settled_iff env P us2 li).mp
      (by rw [hus]; exact unit_after_clean env P _ us3 li)
    rw [c1, c2, hus]
    exact ⟨r1, r2, by rw [← hus]; exact s1, by rw [← hus]; exact s2⟩

/-- Witness of C17 (amended): the first paint of the two-layer root (1) of the
example chain. -/
theorem layer_uniform_upload_rule_witness :
    (demo_env.ok ∧ demo_env.compiles_glsl ∧ (∀ t, demo_env.glCreateProgram t ≠ 0) ∧
      Inv demo_env demo_world ∧
      heap_get demo_world.pipelines 1 = some (demo_pipeline 0 0 63) ∧
      ((demo_pipeline 0 0 63).fragend = demo_env.FRAGEND_GLSL ∨
        (demo_pipeline 0 0 63).vertend = demo_env.VERTEND_GLSL) ∧
      UserProgramLive demo_world (demo_pipeline 0 0 63) ∧
      (demo_pipeline 0 0 63).layers.Nodup) ∧
    (∃ w1 e pv1 w2 pv2 t,
      end_find_priv demo_env demo_world 1 (demo_pipeline 0 0 63) = some (w1, e) ∧
      heap_get w1.privs e = some pv1 ∧
      (priv_of demo_env (demo_pipeline 0 0 63) ≠ 0 →
        e = priv_of demo_env (demo_pipeline 0 0 63) ∧
        heap_get demo_world.privs e = some pv1) ∧
      _cogl_pipeline_progend_glsl_end demo_env demo_world 1 0 1 = some w2 ∧
      heap_get w2.privs e = some pv2 ∧ w2.trace = demo_world.trace ++ t ∧
      (∀ (u : Nat) (us1 us2 : UnitState) (li : Nat), pv1.unit_state[u]? = some us1 →
        pv2.unit_state[u]? = some us2 → (demo_pipeline 0 0 63).layers[u]? = some li →
        constant_uploads t li =
          (if us2.combine_constant_uniform ≠ -1 ∧
            ((linked_programs t ≠ [] ∨ pv1.last_used_for_pipeline ≠ 1) ∨
              us1.dirty_combine_constant = true) then 1 else 0) ∧
        matrix_uploads t li =
          (if demo_env.gles2 = true ∧ us2.texture_matrix_uniform ≠ -1 ∧
            ((linked_programs t ≠ [] ∨ pv1.last_used_for_pipeline ≠ 1) ∨
              us1.dirty_texture_matrix = true) then 1 else 0) ∧
        (us2.combine_constant_uniform ≠ -1 → us2.dirty_combine_constant = false) ∧
        (demo_env.gles2 = true → us2.texture_matrix_uniform ≠ -1 →
          us2.dirty_texture_matrix = false)) ∧
      ∀ d2, ∃ w3 t2, _cogl_pipeline_progend_glsl_end demo_env w2 1 d2 1 = some w3 ∧
        w3.trace = w2.trace ++ t2 ∧ layer_uploads t2 = []) :=
  ⟨⟨by decide, demo_compiles_glsl, fun _ => Nat.succ_ne_zero _,
      init_inv demo_env demo_world (by decide), by decide, Or.inl (by decide),
      demo_no_user_program demo_world 0 63, by decide⟩,
    layer_uniform_upload_rule demo_env (by decide) demo_compiles_glsl
      (fun _ => Nat.succ_ne_zero _) demo_world 1 0 1 (demo_pipeline 0 0 63)
      (init_inv demo_env demo_world (by decide)) (by decide) (Or.inl (by decide))
      (demo_root_authority demo_env rfl)
      (fun pv h => (demo_world_no_priv _ pv h).elim)
      (demo_no_user_program demo_world 0 63) (by decide)⟩

/-- C17, as stated, fails: in the first paint of the two-layer root (1) of the
example chain a program is linked, so `update_all` is set; with a driver that has
no location for the combine constant of unit 1 that constant is not uploaded
(the one of layer 0 is, once); and in the build without GLES2 no texture matrix
is uploaded. -/
theorem update_all_without_location_not_uploaded :
    _cogl_pipeline_progend_glsl_end demo_noconst demo_world 1 0 1 =
      some (after demo_noconst demo_world [Op.ensure 1 0 1]) ∧
    linked_programs (after demo_noconst demo_world [Op.ensure 1 0 1]).trace = [1] ∧
    constant_uploads (after demo_noconst demo_world [Op.ensure 1 0 1]).trace 0 = 1 ∧
    constant_uploads (after demo_noconst demo_world [Op.ensure 1 0 1]).trace 1 = 0 ∧
    _cogl_pipeline_progend_glsl_end demo_gl demo_world 1 0 1 =
      some (after demo_gl demo_world [Op.ensure 1 0 1]) ∧
    linked_programs (after demo_gl demo_world [Op.ensure 1 0 1]).trace = [1] ∧
    constant_uploads (after demo_gl demo_world [Op.ensure 1 0 1]).trace 1 = 1 ∧
    matrix_uploads (after demo_gl demo_world [Op.ensure 1 0 1]).trace 0 = 0 ∧
    matrix_uploads (after demo_gl demo_world [Op.ensure 1 0 1]).trace 1 = 0 := by
  decide

/-! ## The matrix uniforms -/

theorem uploads_modelview_part (mx : MatrixCtx) (priv : CoglPipelineProgendPrivate)
    (u : MatrixUniform) (h : u ∈ matrix_uniform_uploads (pre_paint_modelview mx priv).2) :
    u = MatrixUniform.modelview := by
  unfold matrix_uniform_uploads pre_paint_modelview at h
  dsimp only at h
  rw [List.filterMap_append, List.filterMap_append] at h
  rcases List.mem_append.mp h with h1 | h1
  · rcases List.mem_append.mp h1 with h2 | h2
    · simp [PaintCall.uploads] at h2
    · split at h2 <;> simp [PaintCall.uploads] at h2
  · split at h1
    · obtain ⟨c, hc, hu⟩ := List.mem_filterMap.mp h1
      obtain ⟨x, _, hx⟩ := List.mem_map.mp hc
      rw [← hx] at hu
      simp only [flush_modelview_cb, PaintCall.uploads, Option.some.injEq] at hu
      exact hu.symm
    · simp at h1

theorem uploads_projection_part (mx : MatrixCtx) (priv : CoglPipelineProgendPrivate)
    (u : MatrixUniform) (h : u ∈ matrix_uniform_uploads (pre_paint_projection mx priv).2) :
    u = MatrixUniform.projection := by
  unfold matrix_uniform_uploads pre_paint_projection at h
  dsimp only at h
  rw [List.filterMap_append, List.filterMap_append] at h
  rcases List.mem_append.mp h with h1 | h1
  · rcases List.mem_append.mp h1 with h2 | h2
    · simp [PaintCall.uploads] at h2
    · split at h2 <;> simp [PaintCall.uploads] at h2
  · split at h1
    · obtain ⟨c, hc, hu⟩ := List.mem_filterMap.mp h1
      obtain ⟨x, _, hx⟩ := List.mem_map.mp hc
      rw [← hx] at hu
      simp only [flush_projection_cb, PaintCall.uploads, Option.some.injEq] at hu
      exact hu.symm
    · simp at h1

theorem uploads_combined_part (mx : MatrixCtx) (priv : CoglPipelineProgendPrivate)
    (l : List (Bool × Nat)) (u : MatrixUniform)
    (h : u ∈ matrix_uniform_uploads (l.flatMap (flush_combined_step_one_cb mx priv))) :
    u = MatrixUniform.mvp := by
  unfold matrix_uniform_uploads at h
  obtain ⟨c, hc, hu⟩ := List.mem_filterMap.mp h
  obtain ⟨x, _, hx⟩ := List.mem_flatMap.mp hc
  unfold flush_combined_step_one_cb at hx
  obtain ⟨y, _, hy⟩ := List.mem_map.mp hx
  rw [← hy] at hu
  unfold flush_combined_step_two_cb at hu
  split at hu <;>
    (simp only [PaintCall.uploads, Option.some.injEq] at hu; exact hu.symm)

/-- What the matrix uploads of lines 865 to 923 imply. -/
theorem pre_paint_with_priv_spec (mx : MatrixCtx) (priv : CoglPipelineProgendPrivate) :
    (MatrixUniform.modelview ∈ matrix_uniform_uploads (pre_paint_with_priv mx priv).2 →
      modelview_changed mx priv = true) ∧
    (MatrixUniform.projection ∈ matrix_uniform_uploads (pre_paint_with_priv mx priv).2 →
      projection_changed mx priv = true) ∧
    (MatrixUniform.mvp ∈ matrix_uniform_uploads (pre_paint_with_priv mx priv).2 →
      modelview_changed mx priv = true ∨ projection_changed mx priv = true) ∧
    (modelview_changed mx priv = true →
      (pre_paint_with_priv mx priv).1.flushed_modelview_stack = mx.flushed_modelview_stack ∧
      (pre_paint_with_priv mx priv).1.flushed_modelview_stack_age =
        mx._cogl_matrix_stack_get_age mx.flushed_modelview_stack) ∧
    (projection_changed mx priv = true →
      (pre_paint_with_priv mx priv).1.flushed_projection_stack =
        mx.flushed_projection_stack ∧
      (pre_paint_with_priv mx priv).1.flushed_projection_stack_age =
        mx._cogl_matrix_stack_get_age mx.flushed_projection_stack) := by
  have key : ∀ u, u ∈ matrix_uniform_uploads (pre_paint_with_priv mx priv).2 →
      (u = MatrixUniform.modelview ∧ modelview_changed mx priv = true) ∨
      (u = MatrixUniform.projection ∧ projection_changed mx priv = true) ∨
      (u = MatrixUniform.mvp ∧
        (modelview_changed mx priv = true ∨ projection_changed mx priv = true)) := by
    intro u h
    have hmvp : ∀ (pv : CoglPipelineProgendPrivate) (c : Prop) [Decidable c],
        u ∈ matrix_uniform_uploads (if c then
          (mx._cogl_matrix_stack_prepare_for_flush mx.flushed_projection_stack 1).flatMap
            (flush_combined_step_one_cb mx pv) else []) → u = MatrixUniform.mvp ∧ c := by
      intro pv c _ hu
      by_cases hc : c
      · rw [if_pos hc] at hu
        exact ⟨uploads_combined_part mx pv _ u hu, hc⟩
      · rw [if_neg hc] at hu
        cases hu
    unfold pre_paint_with_priv at h
    dsimp only at h
    unfold matrix_uniform_uploads at h
    rw [List.filterMap_append, List.filterMap_append] at h
    rcases List.mem_append.mp h with h1 | h1
    · rcases List.mem_append.mp h1 with h2 | h2
      · cases hm : modelview_changed mx priv with
        | false => rw [hm] at h2; simp at h2
        | true =>
          rw [hm] at h2
          exact Or.inl ⟨uploads_modelview_part mx priv u h2, rfl⟩
      · cases hpc : projection_changed mx priv with
        | false => rw [hpc] at h2; simp at h2
        | true =>
          rw [hpc] at h2
          exact Or.inr (Or.inl ⟨uploads_projection_part mx _ u h2, rfl⟩)
    · obtain ⟨a, b⟩ := hmvp _ _ h1
      exact Or.inr (Or.inr ⟨a, b.2⟩)
  refine ⟨?_, ?_, ?_, ?_, ?_⟩
  · intro h
    rcases key _ h with ⟨_, a⟩ | ⟨a, _⟩ | ⟨a, _⟩
    · exact a
    · cases a
    · cases a
  · intro h
    rcases key _ h with ⟨a, _⟩ | ⟨_, a⟩ | ⟨a, _⟩
    · cases a
    · exact a
    · cases a
  · intro h
    rcases key _ h with ⟨a, _⟩ | ⟨a, _⟩ | ⟨_, a⟩
    · cases a
    · cases a
    · exact a
  · intro hm
    unfold pre_paint_with_priv
    dsimp only
    rw [hm]
    cases projection_changed mx priv <;> exact ⟨rfl, rfl⟩
  · intro hpc
    unfold pre_paint_with_priv
    dsimp only
    rw [hpc]
    exact ⟨rfl, rfl⟩

theorem modelview_changed_cond (mx : MatrixCtx) (priv : CoglPipelineProgendPrivate)
    (h : modelview_changed mx priv = true) :
    priv.flushed_modelview_stack ≠ mx.flushed_modelview_stack ∨
    priv.flushed_modelview_stack_age ≠
      mx._cogl_matrix_stack_get_age mx.flushed_modelview_stack := by
  unfold modelview_changed at h
  split at h
  · cases h
  · have h2 := of_decide_eq_true h
    by_cases he : priv.flushed_modelview_stack = mx.flushed_modelview_stack
    · rcases h2 with h3 | h3
      · exact absurd he h3
      · rw [he] at h3
        exact Or.inr h3
    · exact Or.inl he

theorem projection_changed_cond (mx : MatrixCtx) (priv : CoglPipelineProgendPrivate)
    (h : projection_changed mx priv = true) :
    priv.flushed_projection_stack ≠ mx.flushed_projection_stack ∨
    priv.flushed_projection_stack_age ≠
      mx._cogl_matrix_stack_get_age mx.flushed_projection_stack := by
  unfold projection_changed at h
  have h2 := of_decide_eq_true h
  by_cases he : priv.flushed_projection_stack = mx.flushed_projection_stack
  · rcases h2 with h3 | h3
    · exact absurd he h3
    · rw [he] at h3
      exact Or.inr h3
  · exact Or.inl he

/-- C20: the pre-paint synchronisation of the matrix uniforms (GLES2 build), for a
live pipeline that holds a live entry.  The call completes; the modelview
uniform is uploaded only if the flushed modelview stack of the context is not
the stack recorded in the entry or its age is not the recorded age, and then
the entry records that stack and its age; the same holds for the projection
uniform and the projection stack; and the combined modelview-projection uniform
is uploaded only if one of the two conditions holds. -/
theorem pre_paint_uploads_only_on_change (env : Env) (mx : MatrixCtx) (w : World) (p : Nat)
    (pl : CoglPipeline) (pv : CoglPipelineProgendPrivate)
    (hp : heap_get w.pipelines p = some pl)
    (hpv : heap_get w.privs (priv_of env pl) = some pv) :
    ∃ w2 calls pv2, _cogl_pipeline_progend_glsl_pre_paint env mx w p = some (w2, calls) ∧
      heap_get w2.privs (priv_of env pl) = some pv2 ∧
      (MatrixUniform.modelview ∈ matrix_uniform_uploads calls →
        (pv.flushed_modelview_stack ≠ mx.flushed_modelview_stack ∨
          pv.flushed_modelview_stack_age ≠
            mx._cogl_matrix_stack_get_age mx.flushed_modelview_stack) ∧
        pv2.flushed_modelview_stack = mx.flushed_modelview_stack ∧
        pv2.flushed_modelview_stack_age =
          mx._cogl_matrix_stack_get_age mx.flushed_modelview_stack) ∧
      (MatrixUniform.projection ∈ matrix_uniform_uploads calls →
        (pv.flushed_projection_stack ≠ mx.flushed_projection_stack ∨
          pv.flushed_projection_stack_age ≠
            mx._cogl_matrix_stack_get_age mx.flushed_projection_stack) ∧
        pv2.flushed_projection_stack = mx.flushed_projection_stack ∧
        pv2.flushed_projection_stack_age =
          mx._cogl_matrix_stack_get_age mx.flushed_projection_stack) ∧
      (MatrixUniform.mvp ∈ matrix_uniform_uploads calls →
        (pv.flushed_modelview_stack ≠ mx.flushed_modelview_stack ∨
          pv.flushed_modelview_stack_age ≠
            mx._cogl_matrix_stack_get_age mx.flushed_modelview_stack) ∨
        (pv.flushed_projection_stack ≠ mx.flushed_projection_stack ∨
          pv.flushed_projection_stack_age ≠
            mx._cogl_matrix_stack_get_age mx.flushed_projection_stack)) := by
  have hb := heap_get_some_bound _ _ _ hpv
  have hpv2 : heap_get w.privs (cogl_object_get_user_data env.N pl._parent env.glsl_priv_key) =
      some pv := hpv
  have hnone : ∀ u, u ∉ matrix_uniform_uploads ([] : List PaintCall) := fun _ h => by cases h
  have hwarn : ∀ u, u ∉ matrix_uniform_uploads [PaintCall.g_return_if_fail_warning] :=
    fun _ h => by cases h
  unfold _cogl_pipeline_progend_glsl_pre_paint
  rw [hp]
  dsimp only
  by_cases hctx : env.have_context = false
  · rw [if_pos hctx]
    exact ⟨w, [], pv, rfl, hpv, fun h => absurd h (hnone _), fun h => absurd h (hnone _),
      fun h => absurd h (hnone _)⟩
  · rw [if_neg hctx]
    by_cases hv : pl.vertend ≠ env.VERTEND_GLSL
    · rw [if_pos hv]
      exact ⟨w, _, pv, rfl, hpv, fun h => absurd h (hwarn _), fun h => absurd h (hwarn _),
        fun h => absurd h (hwarn _)⟩
    · rw [if_neg hv]
      by_cases hs : mx.flushed_modelview_stack = 0 ∨ mx.flushed_projection_stack = 0
      · rw [if_pos hs]
        exact ⟨w, [], pv, rfl, hpv, fun h => absurd h (hnone _), fun h => absurd h (hnone _),
          fun h => absurd h (hnone _)⟩
      · rw [if_neg hs, hpv2]
        obtain ⟨s1, s2, s3, s4, s5⟩ := pre_paint_with_priv_spec mx pv
        refine ⟨_, _, (pre_paint_with_priv mx pv).1, rfl,
          heap_get_set_same _ _ _ hb.1 hb.2, ?_, ?_, ?_⟩
        · intro h
          exact ⟨modelview_changed_cond mx pv (s1 h), s4 (s1 h)⟩
        · intro h
          exact ⟨projection_changed_cond mx pv (s2 h), s5 (s2 h)⟩
        · intro h
          rcases s3 h with h1 | h1
          · exact Or.inl (modelview_changed_cond mx pv h1)
          · exact Or.inr (projection_changed_cond mx pv h1)

/-- Witness of C20: the root (1) of the example chain after a paint, with the
example context: the entry records no stack yet, so both matrices are uploaded;
the combined uniform has no location. -/
theorem pre_paint_uploads_only_on_change_witness :
    (heap_get demo_painted.pipelines 1 = some (pipeline_at demo_painted 1) ∧
      heap_get demo_painted.privs (priv_of demo_env (pipeline_at demo_painted 1)) =
        some (entry_at demo_env demo_painted 1) ∧
      ((_cogl_pipeline_progend_glsl_pre_paint demo_env demo_mx demo_painted 1).map
        (fun r => r.2)) =
        some [PaintCall.cogl_object_ref 7,
          PaintCall.glUniformMatrix4fv MatrixUniform.modelview 40 7,
          PaintCall.cogl_object_ref 8,
          PaintCall.glUniformMatrix4fv MatrixUniform.projection 41 8]) ∧
    (∃ w2 calls pv2,
      _cogl_pipeline_progend_glsl_pre_paint demo_env demo_mx demo_painted 1 =
        some (w2, calls) ∧
      heap_get w2.privs (priv_of demo_env (pipeline_at demo_painted 1)) = some pv2 ∧
      (MatrixUniform.modelview ∈ matrix_uniform_uploads calls →
        ((entry_at demo_env demo_painted 1).flushed_modelview_stack ≠
            demo_mx.flushed_modelview_stack ∨
          (entry_at demo_env demo_painted 1).flushed_modelview_stack_age ≠
            demo_mx._cogl_matrix_stack_get_age demo_mx.flushed_modelview_stack) ∧
        pv2.flushed_modelview_stack = demo_mx.flushed_modelview_stack ∧
        pv2.flushed_modelview_stack_age =
          demo_mx._cogl_matrix_stack_get_age demo_mx.flushed_modelview_stack) ∧
      (MatrixUniform.projection ∈ matrix_uniform_uploads calls →
        ((entry_at demo_env demo_painted 1).flushed_projection_stack ≠
            demo_mx.flushed_projection_stack ∨
          (entry_at demo_env demo_painted 1).flushed_projection_stack_age ≠
            demo_mx._cogl_matrix_stack_get_age demo_mx.flushed_projection_stack) ∧
        pv2.flushed_projection_stack = demo_mx.flushed_projection_stack ∧
        pv2.flushed_projection_stack_age =
          demo_mx._cogl_matrix_stack_get_age demo_mx.flushed_projection_stack) ∧
      (MatrixUniform.mvp ∈ matrix_uniform_uploads calls →
        ((entry_at demo_env demo_painted 1).flushed_modelview_stack ≠
            demo_mx.flushed_modelview_stack ∨
          (entry_at demo_env demo_painted 1).flushed_modelview_stack_age ≠
            demo_mx._cogl_matrix_stack_get_age demo_mx.flushed_modelview_stack) ∨
        ((entry_at demo_env demo_painted 1).flushed_projection_stack ≠
            demo_mx.flushed_projection_stack ∨
          (entry_at demo_env demo_painted 1).flushed_projection_stack_age ≠
            demo_mx._cogl_matrix_stack_get_age demo_mx.flushed_projection_stack))) :=
  ⟨⟨by decide, by decide, by decide⟩,
    pre_paint_uploads_only_on_change demo_env demo_mx demo_painted 1
      (pipeline_at demo_painted 1) (entry_at demo_env demo_painted 1) (by decide)
      (by decide)⟩

/-! ## Claims on the slot table invariant and the reference count -/

/-- C26: after any sequence of attach and detach calls with non-`NULL` keys on a
new object whose inline array has `N` slots, no two slots in use (inline or
overflow) hold the same non-`NULL` key, every slot with a `NULL` payload has a
`NULL` key and a `NULL` destructor, `n_user_data_entries` is the number of inline
slots in use plus the length of the overflow list, and the overflow list exists
only when all `N` inline slots are in use. -/
theorem slot_table_invariant (N rc : Nat) (mem : List CoglUserDataEntry)
    (calls : List SetCall) (hmem : mem.length = N) (hk : ∀ c ∈ calls, c.key ≠ 0) :
    ((run_set_calls N (CoglObject.fresh rc mem) calls).1.slots N).Pairwise
        (fun a b => a.key ≠ 0 → a.key ≠ b.key) ∧
    (∀ e ∈ (run_set_calls N (CoglObject.fresh rc mem) calls).1.slots N,
        e.user_data = 0 → e.key = 0 ∧ e.destroy = 0) ∧
    (run_set_calls N (CoglObject.fresh rc mem) calls).1.n_user_data_entries =
      (run_set_calls N (CoglObject.fresh rc mem) calls).1.count N +
        ((run_set_calls N (CoglObject.fresh rc mem) calls).1.user_data_array.getD []).length ∧
    ((run_set_calls N (CoglObject.fresh rc mem) calls).1.user_data_array ≠ none →
      (run_set_calls N (CoglObject.fresh rc mem) calls).1.count N = N) := by
  obtain ⟨⟨_, hs⟩, hc, hp⟩ := run_good N calls _ (fresh_good N rc mem hmem) hk
  refine ⟨hp, fun e he h0 => ⟨(hc e he).1.mp h0, (hc e he).2 h0⟩, ?_, ?_⟩
  · unfold CoglObject.count
    cases ha : (run_set_calls N (CoglObject.fresh rc mem) calls).1.user_data_array with
    | none => rw [ha] at hs; simp at hs ⊢; exact hs
    | some arr => rw [ha] at hs; simp at hs ⊢; omega
  · intro hne
    unfold CoglObject.count
    cases ha : (run_set_calls N (CoglObject.fresh rc mem) calls).1.user_data_array with
    | none => exact absurd ha hne
    | some arr => rw [ha] at hs; simp at hs; omega

/-- Witness of C26: two inline slots, attaches and a detach. -/
theorem slot_table_invariant_witness :
    (demo_mem.length = 2 ∧ ∀ c ∈ demo_set_calls, c.key ≠ 0) ∧
    ((run_set_calls 2 (CoglObject.fresh 1 demo_mem) demo_set_calls).1.slots 2).Pairwise
        (fun a b => a.key ≠ 0 → a.key ≠ b.key) ∧
    (∀ e ∈ (run_set_calls 2 (CoglObject.fresh 1 demo_mem) demo_set_calls).1.slots 2,
        e.user_data = 0 → e.key = 0 ∧ e.destroy = 0) ∧
    (run_set_calls 2 (CoglObject.fresh 1 demo_mem) demo_set_calls).1.n_user_data_entries =
      (run_set_calls 2 (CoglObject.fresh 1 demo_mem) demo_set_calls).1.count 2 +
        ((run_set_calls 2 (CoglObject.fresh 1 demo_mem) demo_set_calls).1.user_data_array.getD
          []).length ∧
    ((run_set_calls 2 (CoglObject.fresh 1 demo_mem) demo_set_calls).1.user_data_array ≠ none →
      (run_set_calls 2 (CoglObject.fresh 1 demo_mem) demo_set_calls).1.count 2 = 2) :=
  ⟨⟨by decide, by decide⟩,
    slot_table_invariant 2 1 demo_mem demo_set_calls (by decide) (by decide)⟩

theorem modelview_settled (mx : MatrixCtx) (pv : CoglPipelineProgendPrivate) :
    modelview_changed mx (pre_paint_with_priv mx pv).1 = false := by
  cases hmc : modelview_changed mx pv <;> cases hpc : projection_changed mx pv <;>
    simp only [pre_paint_with_priv, hmc, hpc, pre_paint_modelview, pre_paint_projection,
      if_true, if_false, Bool.false_eq_true] <;>
    unfold modelview_changed at hmc ⊢ <;>
    simp only [] <;>
    (try exact hmc) <;>
    (split <;> simp)

theorem projection_settled (mx : MatrixCtx) (pv : CoglPipelineProgendPrivate) :
    projection_changed mx (pre_paint_with_priv mx pv).1 = false := by
  cases hmc : modelview_changed mx pv <;> cases hpc : projection_changed mx pv <;>
    simp only [pre_paint_with_priv, hmc, hpc, pre_paint_modelview, pre_paint_projection,
      if_true, if_false, Bool.false_eq_true] <;>
    unfold projection_changed at hpc ⊢ <;>
    simp only [] <;>
    (try exact hpc) <;>
    simp

theorem pre_paint_with_priv_settled (mx : MatrixCtx) (pv : CoglPipelineProgendPrivate)
    (hm : modelview_changed mx pv = false) (hp : projection_changed mx pv = false) :
    pre_paint_with_priv mx pv = (pv, []) := by
  simp [pre_paint_with_priv, hm, hp]

theorem heap_set_get_self {α : Type} (h : List (Option α)) (v : α) (p : Nat)
    (hg : heap_get h p = some v) : heap_set h (some v) p = h := by
  cases p with
  | zero => rfl
  | succ q =>
    simp only [heap_get, List.getD_eq_getElem?_getD] at hg
    simp only [heap_set]
    apply List.ext_getElem?
    intro i
    by_cases hi : i = q
    · subst hi
      cases hq : h[i]? with
      | none => rw [hq] at hg; simp at hg
      | some x =>
        rw [hq] at hg
        simp at hg
        rw [List.getElem?_set_self (by
          have := (List.getElem?_eq_some_iff.mp hq).1
          exact this), hg]
    · rw [List.getElem?_set_ne (fun hh => hi hh.symm)]

theorem age_reads_nonnull (mx : MatrixCtx) (pv : CoglPipelineProgendPrivate)
    (hm : mx.flushed_modelview_stack ≠ 0) (hp : mx.flushed_projection_stack ≠ 0) :
    ∀ s ∈ age_reads_with_priv mx pv, s ≠ 0 := by
  intro s hs
  unfold age_reads_with_priv at hs
  simp only [List.mem_append] at hs
  rcases hs with ((hs | hs) | hs) | hs
  · split at hs
    · simp at hs
    · split at hs
      · simp at hs
      · rename_i h2
        simp at hs h2
        rw [hs, h2]; exact hm
  · split at hs
    · simp at hs
    · rename_i h2
      simp at hs h2
      rw [hs, h2]; exact hp
  · split at hs
    · simp at hs; rw [hs]; exact hm
    · simp at hs
  · split at hs
    · simp at hs; rw [hs]; exact hp
    · simp at hs

/-- C29: when `_cogl_pipeline_progend_glsl_pre_paint` has run for a pipeline, a
second run with the same context (the same flushed stacks, ages and identity flags)
returns the same world, so the same cache entry, and uploads no matrix uniform; on
the entry itself the second run makes no call at all; and every stack whose age the
function reads, the recorded stacks of the entry included, is non-`NULL`. -/
theorem pre_paint_idempotent (env : Env) (mx : MatrixCtx) (w w1 : World) (pipeline : Nat)
    (l1 : List PaintCall)
    (h : _cogl_pipeline_progend_glsl_pre_paint env mx w pipeline = some (w1, l1)) :
    (∃ l2, _cogl_pipeline_progend_glsl_pre_paint env mx w1 pipeline = some (w1, l2) ∧
      matrix_uniform_uploads l2 = []) ∧
    (∀ pv : CoglPipelineProgendPrivate,
      pre_paint_with_priv mx (pre_paint_with_priv mx pv).1 =
        ((pre_paint_with_priv mx pv).1, [])) ∧
    (∀ s ∈ pre_paint_age_reads env mx w pipeline, s ≠ 0) ∧
    (∀ s ∈ pre_paint_age_reads env mx w1 pipeline, s ≠ 0) := by
  have hidem : ∀ pv : CoglPipelineProgendPrivate,
      pre_paint_with_priv mx (pre_paint_with_priv mx pv).1 =
        ((pre_paint_with_priv mx pv).1, []) := fun pv =>
    pre_paint_with_priv_settled mx _ (modelview_settled mx pv) (projection_settled mx pv)
  have hreads : ∀ w0 : World, ∀ s ∈ pre_paint_age_reads env mx w0 pipeline, s ≠ 0 := by
    intro w0 s hs
    unfold pre_paint_age_reads at hs
    cases hp : heap_get w0.pipelines pipeline with
    | none => rw [hp] at hs; simp at hs
    | some pl =>
      rw [hp] at hs
      simp only [] at hs
      split at hs
      · simp at hs
      · split at hs
        · simp at hs
        · split at hs
          · simp at hs
          · rename_i h0
            cases hq : heap_get w0.privs
                (cogl_object_get_user_data env.N pl._parent env.glsl_priv_key) with
            | none => rw [hq] at hs; simp at hs
            | some pv =>
              rw [hq] at hs
              simp only [] at hs
              exact age_reads_nonnull mx pv (fun e => h0 (Or.inl e)) (fun e => h0 (Or.inr e))
                s hs
  refine ⟨?_, hidem, hreads w, hreads w1⟩
  unfold _cogl_pipeline_progend_glsl_pre_paint at h ⊢
  cases hp : heap_get w.pipelines pipeline with
  | none => rw [hp] at h; simp at h
  | some pl =>
    rw [hp] at h
    simp only [] at h
    by_cases hc : env.have_context = false
    · rw [if_pos hc] at h
      simp at h
      obtain ⟨rfl, rfl⟩ := h
      rw [hp]
      simp only []
      rw [if_pos hc]
      exact ⟨[], rfl, rfl⟩
    · rw [if_neg hc] at h
      by_cases hv : pl.vertend ≠ env.VERTEND_GLSL
      · rw [if_pos hv] at h
        simp at h
        obtain ⟨rfl, rfl⟩ := h
        rw [hp]
        simp only []
        rw [if_neg hc, if_pos hv]
        exact ⟨_, rfl, rfl⟩
      · rw [if_neg hv] at h
        by_cases h0 : mx.flushed_modelview_stack = 0 ∨ mx.flushed_projection_stack = 0
        · rw [if_pos h0] at h
          simp at h
          obtain ⟨rfl, rfl⟩ := h
          rw [hp]
          simp only []
          rw [if_neg hc, if_neg hv, if_pos h0]
          exact ⟨[], rfl, rfl⟩
        · rw [if_neg h0] at h
          cases hq : heap_get w.privs
              (cogl_object_get_user_data env.N pl._parent env.glsl_priv_key) with
          | none => rw [hq] at h; simp at h
          | some pv =>
            rw [hq] at h
            simp only [Option.some.injEq, Prod.mk.injEq] at h
            obtain ⟨hw, hl⟩ := h
            have hne : cogl_object_get_user_data env.N pl._parent env.glsl_priv_key ≠ 0 := by
              intro e; rw [e] at hq; simp [heap_get] at hq
            have hle : cogl_object_get_user_data env.N pl._parent env.glsl_priv_key ≤
                w.privs.length := by
              cases hk : cogl_object_get_user_data env.N pl._parent env.glsl_priv_key with
              | zero => exact Nat.zero_le _
              | succ q =>
                rw [hk] at hq
                simp only [heap_get, List.getD_eq_getElem?_getD] at hq
                by_contra hcon
                rw [List.getElem?_eq_none (by omega)] at hq
                simp at hq
            have hp1 : heap_get w1.pipelines pipeline = some pl := by rw [← hw]; exact hp
            have hq1 : heap_get w1.privs
                (cogl_object_get_user_data env.N pl._parent env.glsl_priv_key) =
                some (pre_paint_with_priv mx pv).1 := by
              rw [← hw]
              exact heap_get_set_same _ _ _ hne hle
            rw [hp1]
            simp only []
            rw [if_neg hc, if_neg hv, if_neg h0, hq1]
            simp only []
            rw [hidem pv]
            refine ⟨[], ?_, rfl⟩
            simp only []
            rw [heap_set_get_self _ _ _ hq1]

/-- Witness of C29: the root (1) of the example chain after a paint, with the
example context; the first run uploads the modelview and the projection matrix. -/
theorem pre_paint_idempotent_witness :
    ∃ w1 l1, _cogl_pipeline_progend_glsl_pre_paint demo_env demo_mx demo_painted 1 =
        some (w1, l1) ∧
      matrix_uniform_uploads l1 = [MatrixUniform.modelview, MatrixUniform.projection] ∧
      pre_paint_age_reads demo_env demo_mx demo_painted 1 = [7, 8] ∧
      pre_paint_age_reads demo_env demo_mx w1 1 = [7, 8] ∧
      ((∃ l2, _cogl_pipeline_progend_glsl_pre_paint demo_env demo_mx w1 1 = some (w1, l2) ∧
        matrix_uniform_uploads l2 = []) ∧
      (∀ pv : CoglPipelineProgendPrivate,
        pre_paint_with_priv demo_mx (pre_paint_with_priv demo_mx pv).1 =
          ((pre_paint_with_priv demo_mx pv).1, [])) ∧
      (∀ s ∈ pre_paint_age_reads demo_env demo_mx demo_painted 1, s ≠ 0) ∧
      (∀ s ∈ pre_paint_age_reads demo_env demo_mx w1 1, s ≠ 0)) :=
  ⟨((_cogl_pipeline_progend_glsl_pre_paint demo_env demo_mx demo_painted 1).getD
      (demo_painted, [])).1,
    ((_cogl_pipeline_progend_glsl_pre_paint demo_env demo_mx demo_painted 1).getD
      (demo_painted, [])).2,
    by decide, by decide, by decide, by decide,
    pre_paint_idempotent demo_env demo_mx demo_painted
      ((_cogl_pipeline_progend_glsl_pre_paint demo_env demo_mx demo_painted 1).getD
        (demo_painted, [])).1 1
      ((_cogl_pipeline_progend_glsl_pre_paint demo_env demo_mx demo_painted 1).getD
        (demo_painted, [])).2 (by decide)⟩

/-! ## The attribute queries of the GLES2 build -/

theorem with_attribute_priv_null (env : Env) (w : World) (pipeline : Nat) (pl : CoglPipeline)
    (body : CoglPipelineProgendPrivate → Int × CoglPipelineProgendPrivate × List AttribCall)
    (hP : heap_get w.pipelines pipeline = some pl) (h0 : priv_of env pl = 0) :
    with_attribute_priv env w pipeline body =
      some (-1, w, [AttribCall.g_return_if_fail_warning]) := by
  unfold with_attribute_priv get_glsl_priv
  rw [hP]
  simp only []
  unfold priv_of at h0
  rw [if_pos h0]

theorem with_attribute_priv_noprog (env : Env) (w : World) (pipeline : Nat) (pl : CoglPipeline)
    (pv : CoglPipelineProgendPrivate)
    (body : CoglPipelineProgendPrivate → Int × CoglPipelineProgendPrivate × List AttribCall)
    (hP : heap_get w.pipelines pipeline = some pl)
    (hpv : heap_get w.privs (priv_of env pl) = some pv) (h0 : pv.program = 0) :
    with_attribute_priv env w pipeline body =
      some (-1, w, [AttribCall.g_return_if_fail_warning]) := by
  have hne : priv_of env pl ≠ 0 := by
    intro e; rw [e] at hpv; simp [heap_get] at hpv
  unfold with_attribute_priv get_glsl_priv
  rw [hP]
  simp only []
  unfold priv_of at hpv hne
  rw [if_neg hne]
  rw [hpv]
  simp only []
  rw [if_pos h0]

theorem with_attribute_priv_live (env : Env) (w : World) (pipeline : Nat) (pl : CoglPipeline)
    (pv : CoglPipelineProgendPrivate)
    (body : CoglPipelineProgendPrivate → Int × CoglPipelineProgendPrivate × List AttribCall)
    (hP : heap_get w.pipelines pipeline = some pl)
    (hpv : heap_get w.privs (priv_of env pl) = some pv) (h0 : pv.program ≠ 0) :
    with_attribute_priv env w pipeline body =
      some ((body pv).1,
        { w with privs := heap_set w.privs (some (body pv).2.1) (priv_of env pl) },
        (body pv).2.2) := by
  have hne : priv_of env pl ≠ 0 := by
    intro e; rw [e] at hpv; simp [heap_get] at hpv
  unfold with_attribute_priv get_glsl_priv
  rw [hP]
  simp only []
  unfold priv_of at hpv hne ⊢
  rw [if_neg hne]
  rw [hpv]
  simp only []
  rw [if_neg h0]

theorem heap_get_le {α : Type} (h : List (Option α)) (v : α) (p : Nat)
    (hg : heap_get h p = some v) : p ≠ 0 ∧ p ≤ h.length := by
  cases p with
  | zero => simp [heap_get] at hg
  | succ q =>
    refine ⟨Nat.succ_ne_zero _, ?_⟩
    simp only [heap_get, List.getD_eq_getElem?_getD] at hg
    by_contra hcon
    rw [List.getElem?_eq_none (by omega)] at hg
    simp at hg

/-- The body of an attribute query by name, as the four functions give it to the
common frame. -/
theorem attribute_query_frame (gl : Nat → AttribName → Int) (env : Env) (w : World)
    (pipeline : Nat) (name : AttribName) :
    ∃ body, attribute_query gl env w pipeline name = with_attribute_priv env w pipeline body ∧
      ∀ pv : CoglPipelineProgendPrivate,
        (cached_attribute pv name ≠ -2 → body pv = (cached_attribute pv name, pv, [])) ∧
        (cached_attribute pv name = -2 →
          (body pv).1 = gl pv.program name ∧
          (body pv).2.2 =
            [AttribCall.glGetAttribLocation pv.program name (gl pv.program name)] ∧
          cached_attribute (body pv).2.1 name = gl pv.program name ∧
          (∀ other, other ≠ name →
            cached_attribute (body pv).2.1 other = cached_attribute pv other) ∧
          (body pv).2.1.program = pv.program) := by
  cases name with
  | position =>
    refine ⟨_, rfl, fun pv => ⟨fun h => ?_, fun h => ?_⟩⟩
    · simp only [cached_attribute] at h ⊢
      rw [if_neg h]
    · simp only [cached_attribute] at h
      rw [if_pos h]
      refine ⟨rfl, rfl, rfl, ?_, rfl⟩
      intro other ho
      cases other with
      | tex_coord u => cases u <;> rfl
      | position => exact absurd rfl ho
      | _ => rfl
  | color =>
    refine ⟨_, rfl, fun pv => ⟨fun h => ?_, fun h => ?_⟩⟩
    · simp only [cached_attribute] at h ⊢
      rw [if_neg h]
    · simp only [cached_attribute] at h
      rw [if_pos h]
      refine ⟨rfl, rfl, rfl, ?_, rfl⟩
      intro other ho
      cases other with
      | tex_coord u => cases u <;> rfl
      | color => exact absurd rfl ho
      | _ => rfl
  | normal =>
    refine ⟨_, rfl, fun pv => ⟨fun h => ?_, fun h => ?_⟩⟩
    · simp only [cached_attribute] at h ⊢
      rw [if_neg h]
    · simp only [cached_attribute] at h
      rw [if_pos h]
      refine ⟨rfl, rfl, rfl, ?_, rfl⟩
      intro other ho
      cases other with
      | tex_coord u => cases u <;> rfl
      | normal => exact absurd rfl ho
      | _ => rfl
  | tex_coord unit =>
    cases unit with
    | zero =>
      refine ⟨_, rfl, fun pv => ⟨fun h => ?_, fun h => ?_⟩⟩
      · simp only [cached_attribute] at h ⊢
        rw [if_neg h]
        exact if_pos trivial
      · simp only [cached_attribute] at h
        rw [if_pos rfl, if_pos h]
        refine ⟨rfl, rfl, rfl, ?_, rfl⟩
        intro other ho
        cases other with
        | tex_coord u =>
          cases u with
          | zero => exact absurd rfl ho
          | succ v => rfl
        | _ => rfl
    | succ u =>
      refine ⟨_, rfl, fun pv => ⟨fun h => ?_, fun h => ?_⟩⟩
      · simp only [cached_attribute] at h ⊢
        rw [if_neg (Nat.succ_ne_zero u)]
        simp only [Nat.add_sub_cancel]
        have hlt : u < (pv.tex_coord_attribute_locations.getD []).length := by
          by_contra hcon
          apply h
          rw [List.getD_eq_getElem?_getD, List.getElem?_eq_none (by omega)]
          rfl
        obtain ⟨arr, harr⟩ : ∃ arr, pv.tex_coord_attribute_locations = some arr := by
          cases ha : pv.tex_coord_attribute_locations with
          | none => rw [ha] at hlt; simp at hlt
          | some arr => exact ⟨arr, rfl⟩
        rw [harr] at hlt h ⊢
        simp only [Option.getD_some] at hlt h ⊢
        rw [if_neg (show ¬ arr.length ≤ u by omega)]
        have hg : arr.getD u 0 = arr.getD u (-2) := by
          simp only [List.getD_eq_getElem?_getD, List.getElem?_eq_getElem hlt, Option.getD_some]
        rw [hg, if_neg h]
        have : pv = { pv with tex_coord_attribute_locations := some arr } := by
          cases pv
          simp only [] at harr
          rw [harr]
        rw [← this]
      · simp only [cached_attribute] at h
        have hunk : (if (pv.tex_coord_attribute_locations.getD []).length ≤ u + 1 - 1 then
              pv.tex_coord_attribute_locations.getD [] ++
                List.replicate (u + 1 - (pv.tex_coord_attribute_locations.getD []).length) (-2)
            else pv.tex_coord_attribute_locations.getD []).getD (u + 1 - 1) 0 = -2 := by
          simp only [Nat.add_sub_cancel]
          by_cases hle : (pv.tex_coord_attribute_locations.getD []).length ≤ u
          · rw [if_pos hle, List.getD_eq_getElem?_getD,
              List.getElem?_append_right hle, List.getElem?_replicate]
            rw [if_pos (by omega)]
            rfl
          · rw [if_neg hle]
            have hlt : u < (pv.tex_coord_attribute_locations.getD []).length := by omega
            rw [List.getD_eq_getElem?_getD, List.getElem?_eq_getElem hlt] at h ⊢
            exact h
        simp only [if_neg (Nat.succ_ne_zero u), hunk, if_true]
        refine ⟨trivial, trivial, ?_, ?_, trivial⟩
        · simp only [cached_attribute, Option.getD_some, Nat.add_sub_cancel]
          rw [List.getD_eq_getElem?_getD, List.getElem?_set_self]
          · rfl
          · split
            · simp; omega
            · omega
        · intro other ho
          cases other with
          | tex_coord v =>
            cases v with
            | zero => rfl
            | succ v =>
              have hvu : v ≠ u := fun e => ho (by rw [e])
              simp only [cached_attribute, Option.getD_some, Nat.add_sub_cancel]
              rw [List.getD_eq_getElem?_getD, List.getD_eq_getElem?_getD,
                List.getElem?_set_ne (fun e => hvu e.symm)]
              by_cases hle : (pv.tex_coord_attribute_locations.getD []).length ≤ u
              · rw [if_pos hle]
                by_cases hv : v < (pv.tex_coord_attribute_locations.getD []).length
                · rw [List.getElem?_append_left hv]
                · rw [List.getElem?_append_right (by omega), List.getElem?_replicate,
                    List.getElem?_eq_none (by omega)]
                  split <;> rfl
              · rw [if_neg hle]
          | _ => rfl

/-- C21: each of the four attribute queries (position, colour, normal, texture
coordinate of a unit) of a live pipeline returns `-1` with only the warning of
`g_return_val_if_fail`, no `glGetAttribLocation`, and the world as it was, when the
pipeline has no cache entry or the entry has program 0; with an entry that has a
program it returns the cached location without any call and leaves the world as it
was when that location is not unknown, and when it is unknown it asks the driver
once, returns the answer and caches it, leaving the other cached locations, the
program, the other entries and the pipelines as they were. -/
theorem attribute_query_cached (gl : Nat → AttribName → Int) (env : Env) (w : World)
    (pipeline : Nat) (pl : CoglPipeline) (name : AttribName)
    (hP : heap_get w.pipelines pipeline = some pl) :
    (priv_of env pl = 0 →
      attribute_query gl env w pipeline name =
        some (-1, w, [AttribCall.g_return_if_fail_warning])) ∧
    (∀ pv, heap_get w.privs (priv_of env pl) = some pv →
      (pv.program = 0 →
        attribute_query gl env w pipeline name =
          some (-1, w, [AttribCall.g_return_if_fail_warning])) ∧
      (pv.program ≠ 0 → cached_attribute pv name ≠ -2 →
        attribute_query gl env w pipeline name = some (cached_attribute pv name, w, [])) ∧
      (pv.program ≠ 0 → cached_attribute pv name = -2 →
        ∃ w2 pv2,
          attribute_query gl env w pipeline name =
            some (gl pv.program name, w2,
              [AttribCall.glGetAttribLocation pv.program name (gl pv.program name)]) ∧
          heap_get w2.privs (priv_of env pl) = some pv2 ∧
          cached_attribute pv2 name = gl pv.program name ∧
          (∀ other, other ≠ name → cached_attribute pv2 other = cached_attribute pv other) ∧
          pv2.program = pv.program ∧
          (∀ x, x ≠ priv_of env pl → heap_get w2.privs x = heap_get w.privs x) ∧
          w2.pipelines = w.pipelines ∧ w2.trace = w.trace)) := by
  obtain ⟨body, hb, hspec⟩ := attribute_query_frame gl env w pipeline name
  rw [hb]
  refine ⟨fun h0 => with_attribute_priv_null env w pipeline pl body hP h0, fun pv hpv => ?_⟩
  refine ⟨fun h0 => with_attribute_priv_noprog env w pipeline pl pv body hP hpv h0,
    fun h0 hc => ?_, fun h0 hc => ?_⟩
  · rw [with_attribute_priv_live env w pipeline pl pv body hP hpv h0, (hspec pv).1 hc]
    simp only []
    rw [heap_set_get_self _ _ _ hpv]
  · obtain ⟨h1, h2, h3, h4, h5⟩ := (hspec pv).2 hc
    rw [with_attribute_priv_live env w pipeline pl pv body hP hpv h0, h1, h2]
    obtain ⟨hne, hle⟩ := heap_get_le _ _ _ hpv
    exact ⟨_, (body pv).2.1, rfl, heap_get_set_same _ _ _ hne hle, h3, h4, h5,
      fun x hx => heap_get_set_ne _ _ _ _ hx, rfl, rfl⟩

/-- Witness of C21: the painted root (1) of the example chain, whose entry has
program 1 and an attribute cache cleared by the link; the query for the texture
coordinate attribute of unit 2 asks the driver once; before the paint the root has
no entry and the query returns `-1`. -/
theorem attribute_query_cached_witness :
    (heap_get demo_painted.pipelines 1 = some (pipeline_at demo_painted 1) ∧
      (attribute_query demo_attrib_gl demo_env demo_painted 1 (AttribName.tex_coord 2)).map
          (fun r => (r.1, r.2.2)) =
        some (5, [AttribCall.glGetAttribLocation 1 (AttribName.tex_coord 2) 5]) ∧
      attribute_query demo_attrib_gl demo_env demo_world 1 (AttribName.tex_coord 2) =
        some (-1, demo_world, [AttribCall.g_return_if_fail_warning])) ∧
    ((priv_of demo_env (pipeline_at demo_painted 1) = 0 →
      attribute_query demo_attrib_gl demo_env demo_painted 1 (AttribName.tex_coord 2) =
        some (-1, demo_painted, [AttribCall.g_return_if_fail_warning])) ∧
    (∀ pv, heap_get demo_painted.privs (priv_of demo_env (pipeline_at demo_painted 1)) = some pv →
      (pv.program = 0 →
        attribute_query demo_attrib_gl demo_env demo_painted 1 (AttribName.tex_coord 2) =
          some (-1, demo_painted, [AttribCall.g_return_if_fail_warning])) ∧
      (pv.program ≠ 0 → cached_attribute pv (AttribName.tex_coord 2) ≠ -2 →
        attribute_query demo_attrib_gl demo_env demo_painted 1 (AttribName.tex_coord 2) = some (cached_attribute pv (AttribName.tex_coord 2), demo_painted, [])) ∧
      (pv.program ≠ 0 → cached_attribute pv (AttribName.tex_coord 2) = -2 →
        ∃ w2 pv2,
          attribute_query demo_attrib_gl demo_env demo_painted 1 (AttribName.tex_coord 2) =
            some (demo_attrib_gl pv.program (AttribName.tex_coord 2), w2,
              [AttribCall.glGetAttribLocation pv.program (AttribName.tex_coord 2) (demo_attrib_gl pv.program (AttribName.tex_coord 2))]) ∧
          heap_get w2.privs (priv_of demo_env (pipeline_at demo_painted 1)) = some pv2 ∧
          cached_attribute pv2 (AttribName.tex_coord 2) = demo_attrib_gl pv.program (AttribName.tex_coord 2) ∧
          (∀ other, other ≠ (AttribName.tex_coord 2) → cached_attribute pv2 other = cached_attribute pv other) ∧
          pv2.program = pv.program ∧
          (∀ x, x ≠ priv_of demo_env (pipeline_at demo_painted 1) → heap_get w2.privs x = heap_get demo_painted.privs x) ∧
          w2.pipelines = demo_painted.pipelines ∧ w2.trace = demo_painted.trace))) :=
  ⟨⟨by decide, by decide, by decide⟩,
    attribute_query_cached demo_attrib_gl demo_env demo_painted 1 (pipeline_at demo_painted 1)
      (AttribName.tex_coord 2) (by decide)⟩


/-! ## The shader effect -/

theorem paint_target_fails (env : ShaderEnv) (e : Effect) (hp : e.priv.program ≠ 0)
    (hs : e.priv.shader ≠ 0) (hc : e.priv.is_compiled = false)
    (hfail : env.cogl_shader_is_compiled
      (e.trace ++ [EffectCall.cogl_shader_compile e.priv.shader]) e.priv.shader = false) :
    clutter_shader_effect_paint_target env e =
      { priv := { e.priv with shader := 0 },
        trace := e.trace ++
          [EffectCall.cogl_shader_compile e.priv.shader,
            EffectCall.cogl_shader_is_compiled e.priv.shader false,
            EffectCall.cogl_shader_get_info_log e.priv.shader,
            EffectCall.g_warning_unable_to_compile,
            EffectCall.cogl_handle_unref e.priv.shader,
            EffectCall.cogl_handle_unref e.priv.program] } := by
  unfold clutter_shader_effect_paint_target
  rw [if_neg (by simp [hp, hs]), if_pos hc]
  simp only [Effect.call, hfail, if_true]
  simp

theorem paint_target_invalid (env : ShaderEnv) (e : Effect)
    (h : e.priv.program = 0 ∨ e.priv.shader = 0) :
    clutter_shader_effect_paint_target env e = e := by
  unfold clutter_shader_effect_paint_target
  rw [if_pos h]

theorem add_uniform_uncompiled (env : ShaderEnv) (e : Effect) (name : String) (value : GValue)
    (hc : e.priv.is_compiled = false) :
    (clutter_shader_effect_add_uniform env e name value).trace = e.trace ∧
    (clutter_shader_effect_add_uniform env e name value).priv.shader = e.priv.shader ∧
    (clutter_shader_effect_add_uniform env e name value).priv.program = e.priv.program ∧
    (clutter_shader_effect_add_uniform env e name value).priv.is_compiled = false := by
  unfold clutter_shader_effect_add_uniform
  simp only [hc, Bool.false_eq_true, if_false]
  cases table_lookup (e.priv.uniforms.getD []) name with
  | none => simp [hc]
  | some i =>
    simp only []
    cases (e.priv.uniforms.getD [])[i]? with
    | none => simp [hc]
    | some u => simp [hc]

theorem submission_uncompiled (env : ShaderEnv) (e : Effect) (op : EffectOp) (e1 : Effect)
    (hop : op.is_paint_or_submission = true) (hs : e.priv.shader = 0)
    (hc : e.priv.is_compiled = false) (hr : run_effect_ops env e [op] = some e1) :
    e1.priv.shader = 0 ∧ e1.priv.is_compiled = false ∧ e1.priv.program = e.priv.program ∧
      ∃ l, e1.trace = e.trace ++ l ∧ ∀ c ∈ l, c.uses_program = false := by
  cases op with
  | set_actor a => simp [EffectOp.is_paint_or_submission] at hop
  | finalize => simp [EffectOp.is_paint_or_submission] at hop
  | paint_target =>
    simp only [run_effect_ops, Option.some.injEq] at hr
    rw [paint_target_invalid env e (Or.inr hs)] at hr
    subst hr
    exact ⟨hs, hc, rfl, [], by simp, by simp⟩
  | set_uniform_value name value =>
    simp only [run_effect_ops, Option.some.injEq] at hr
    subst hr
    unfold clutter_shader_effect_set_uniform_value
    cases name with
    | none => exact ⟨hs, hc, rfl, [_], rfl, by simp [EffectCall.uses_program]⟩
    | some n =>
      cases value with
      | none => exact ⟨hs, hc, rfl, [_], rfl, by simp [EffectCall.uses_program]⟩
      | some v =>
        obtain ⟨h1, h2, h3, h4⟩ := add_uniform_uncompiled env e n v hc
        exact ⟨h2.trans hs, h4, h3, [], by simp [h1], by simp⟩
  | set_uniform name gtype n_values args =>
    simp only [run_effect_ops, Option.some.injEq] at hr
    subst hr
    have hw : ∀ c : EffectCall, c.uses_program = false →
        (e.call c).priv.shader = 0 ∧ (e.call c).priv.is_compiled = false ∧
        (e.call c).priv.program = e.priv.program ∧
        ∃ l, (e.call c).trace = e.trace ++ l ∧ ∀ c ∈ l, c.uses_program = false :=
      fun c hcu => ⟨hs, hc, rfl, [c], rfl, by simpa using hcu⟩
    have ha : ∀ v : GValue, ∀ n : String,
        (clutter_shader_effect_add_uniform env e n v).priv.shader = 0 ∧
        (clutter_shader_effect_add_uniform env e n v).priv.is_compiled = false ∧
        (clutter_shader_effect_add_uniform env e n v).priv.program = e.priv.program ∧
        ∃ l, (clutter_shader_effect_add_uniform env e n v).trace = e.trace ++ l ∧
          ∀ c ∈ l, c.uses_program = false := by
      intro v n
      obtain ⟨h1, h2, h3, h4⟩ := add_uniform_uncompiled env e n v hc
      exact ⟨h2.trans hs, h4, h3, [], by simp [h1], by simp⟩
    unfold clutter_shader_effect_set_uniform
    cases name with
    | none => exact hw _ rfl
    | some n =>
      simp only []
      split
      · exact hw _ rfl
      · split
        · exact hw _ rfl
        · unfold clutter_shader_effect_set_uniform_valist
          repeat' split
          all_goals first | exact ha _ _ | exact hw _ rfl

theorem run_effect_ops_cons (env : ShaderEnv) (e : Effect) (op : EffectOp)
    (rest : List EffectOp) (hop : op.is_paint_or_submission = true) :
    ∃ e1, run_effect_ops env e [op] = some e1 ∧
      run_effect_ops env e (op :: rest) = run_effect_ops env e1 rest := by
  cases op with
  | set_actor a => simp [EffectOp.is_paint_or_submission] at hop
  | finalize => simp [EffectOp.is_paint_or_submission] at hop
  | paint_target => exact ⟨_, rfl, rfl⟩
  | set_uniform_value name value => exact ⟨_, rfl, rfl⟩
  | set_uniform name gtype n_values args => exact ⟨_, rfl, rfl⟩

theorem run_invalid_shader (env : ShaderEnv) (ops : List EffectOp) :
    ∀ e : Effect, (∀ op ∈ ops, op.is_paint_or_submission = true) → e.priv.shader = 0 →
      e.priv.is_compiled = false →
      ∃ e1 l, run_effect_ops env e ops = some e1 ∧ e1.priv.shader = 0 ∧
        e1.priv.is_compiled = false ∧ e1.priv.program = e.priv.program ∧
        e1.trace = e.trace ++ l ∧ ∀ c ∈ l, c.uses_program = false := by
  induction ops with
  | nil => intro e _ hs hc; exact ⟨e, [], rfl, hs, hc, rfl, by simp, by simp⟩
  | cons op rest ih =>
    intro e hops hs hc
    obtain ⟨e1, h1, h2⟩ := run_effect_ops_cons env e op rest (hops op (List.mem_cons_self _ _))
    obtain ⟨a1, a2, a3, l1, a4, a5⟩ :=
      submission_uncompiled env e op e1 (hops op (List.mem_cons_self _ _)) hs hc h1
    obtain ⟨e2, l2, b1, b2, b3, b4, b5, b6⟩ :=
      ih e1 (fun o ho => hops o (List.mem_cons_of_mem _ ho)) a1 a2
    refine ⟨e2, l1 ++ l2, by rw [h2]; exact b1, b2, b3, b4.trans a3, ?_, ?_⟩
    · rw [b5, a4, List.append_assoc]
    · intro c hcm
      rcases List.mem_append.mp hcm with h | h
      · exact a5 c h
      · exact b6 c h

/-- C24: when `clutter_shader_effect_paint_target` runs on a prepared effect and the
shader does not compile, the shader handle is invalid afterwards and
`clutter_shader_effect_get_shader` returns the invalid handle; every later sequence
of paints and uniform submissions runs to its end, keeps the shader handle invalid,
and makes no call that compiles a shader or attaches a shader to, links or uses a
program; each paint of such a sequence returns at once, leaving the effect as it
is. -/
theorem compile_failure_disables_paint (env : ShaderEnv) (e : Effect)
    (hp : e.priv.program ≠ 0) (hs : e.priv.shader ≠ 0) (hc : e.priv.is_compiled = false)
    (hfail : env.cogl_shader_is_compiled
      (e.trace ++ [EffectCall.cogl_shader_compile e.priv.shader]) e.priv.shader = false) :
    (clutter_shader_effect_paint_target env e).priv.shader = 0 ∧
    clutter_shader_effect_get_shader (clutter_shader_effect_paint_target env e) = 0 ∧
    (clutter_shader_effect_paint_target env e).trace = e.trace ++
      [EffectCall.cogl_shader_compile e.priv.shader,
        EffectCall.cogl_shader_is_compiled e.priv.shader false,
        EffectCall.cogl_shader_get_info_log e.priv.shader,
        EffectCall.g_warning_unable_to_compile,
        EffectCall.cogl_handle_unref e.priv.shader,
        EffectCall.cogl_handle_unref e.priv.program] ∧
    ∀ ops : List EffectOp, (∀ op ∈ ops, op.is_paint_or_submission = true) →
      ∃ e1 l, run_effect_ops env (clutter_shader_effect_paint_target env e) ops = some e1 ∧
        e1.priv.shader = 0 ∧ clutter_shader_effect_get_shader e1 = 0 ∧
        e1.trace = (clutter_shader_effect_paint_target env e).trace ++ l ∧
        (∀ c ∈ l, c.uses_program = false) ∧
        clutter_shader_effect_paint_target env e1 = e1 := by
  have hf := paint_target_fails env e hp hs hc hfail
  refine ⟨by rw [hf], by rw [hf]; rfl, by rw [hf], ?_⟩
  intro ops hops
  obtain ⟨e1, l, h1, h2, _, _, h5, h6⟩ :=
    run_invalid_shader env ops (clutter_shader_effect_paint_target env e) hops
      (by rw [hf]) (by rw [hf]; exact hc)
  exact ⟨e1, l, h1, h2, h2, h5, h6, paint_target_invalid env e1 (Or.inr h2)⟩

/-- The effect after `clutter_shader_effect_set_actor` for actor 5 on a new effect,
in the example where no shader compiles. -/
theorem demo_prepared :
    run_effect_ops demo_shader_env Effect.init [EffectOp.set_actor 5] =
      some ⟨⟨5, 101, 102, none, false⟩,
        [EffectCall.parent_set_actor 5, EffectCall.cogl_create_program 101,
          EffectCall.cogl_create_shader 102]⟩ := by
  decide

/-- Witness of C24: a new effect is prepared for actor 5 (program 101, shader 102),
the shader does not compile; two paints and a uniform submission follow. -/
theorem compile_failure_disables_paint_witness :
    run_effect_ops demo_shader_env Effect.init
        [EffectOp.set_actor 5, EffectOp.paint_target, EffectOp.paint_target,
          EffectOp.set_uniform_value (some "tex") (some ⟨GType.int, 1, [0]⟩),
          EffectOp.paint_target] =
      some ⟨⟨5, 101, 0, some [⟨"tex", GType.int, ⟨GType.int, 1, [0]⟩, -1⟩], false⟩,
        [EffectCall.parent_set_actor 5, EffectCall.cogl_create_program 101,
          EffectCall.cogl_create_shader 102, EffectCall.cogl_shader_compile 102,
          EffectCall.cogl_shader_is_compiled 102 false,
          EffectCall.cogl_shader_get_info_log 102, EffectCall.g_warning_unable_to_compile,
          EffectCall.cogl_handle_unref 102, EffectCall.cogl_handle_unref 101]⟩ ∧
    ((clutter_shader_effect_paint_target demo_shader_env
        ⟨⟨5, 101, 102, none, false⟩,
          [EffectCall.parent_set_actor 5, EffectCall.cogl_create_program 101,
            EffectCall.cogl_create_shader 102]⟩).priv.shader = 0 ∧
    clutter_shader_effect_get_shader (clutter_shader_effect_paint_target demo_shader_env
        ⟨⟨5, 101, 102, none, false⟩,
          [EffectCall.parent_set_actor 5, EffectCall.cogl_create_program 101,
            EffectCall.cogl_create_shader 102]⟩) = 0 ∧
    (clutter_shader_effect_paint_target demo_shader_env
        ⟨⟨5, 101, 102, none, false⟩,
          [EffectCall.parent_set_actor 5, EffectCall.cogl_create_program 101,
            EffectCall.cogl_create_shader 102]⟩).trace =
      [EffectCall.parent_set_actor 5, EffectCall.cogl_create_program 101,
          EffectCall.cogl_create_shader 102] ++
        [EffectCall.cogl_shader_compile 102,
          EffectCall.cogl_shader_is_compiled 102 false,
          EffectCall.cogl_shader_get_info_log 102,
          EffectCall.g_warning_unable_to_compile,
          EffectCall.cogl_handle_unref 102,
          EffectCall.cogl_handle_unref 101] ∧
    ∀ ops : List EffectOp, (∀ op ∈ ops, op.is_paint_or_submission = true) →
      ∃ e1 l, run_effect_ops demo_shader_env (clutter_shader_effect_paint_target demo_shader_env
          ⟨⟨5, 101, 102, none, false⟩,
            [EffectCall.parent_set_actor 5, EffectCall.cogl_create_program 101,
              EffectCall.cogl_create_shader 102]⟩) ops = some e1 ∧
        e1.priv.shader = 0 ∧ clutter_shader_effect_get_shader e1 = 0 ∧
        e1.trace = (clutter_shader_effect_paint_target demo_shader_env
          ⟨⟨5, 101, 102, none, false⟩,
            [EffectCall.parent_set_actor 5, EffectCall.cogl_create_program 101,
              EffectCall.cogl_create_shader 102]⟩).trace ++ l ∧
        (∀ c ∈ l, c.uses_program = false) ∧
        clutter_shader_effect_paint_target demo_shader_env e1 = e1) :=
  ⟨by decide,
    compile_failure_disables_paint demo_shader_env
      ⟨⟨5, 101, 102, none, false⟩,
        [EffectCall.parent_set_actor 5, EffectCall.cogl_create_program 101,
          EffectCall.cogl_create_shader 102]⟩
      (by decide) (by decide) rfl rfl⟩

theorem clear_trace (e : Effect) (reset_uniforms : Bool) :
    (clutter_shader_effect_clear e reset_uniforms).trace.filter EffectCall.is_unref =
      e.trace.filter EffectCall.is_unref ++
        (if e.priv.shader ≠ 0 then [EffectCall.cogl_handle_unref e.priv.shader] else []) ++
        (if e.priv.program ≠ 0 then [EffectCall.cogl_handle_unref e.priv.program] else []) := by
  unfold clutter_shader_effect_clear
  by_cases h1 : e.priv.shader = 0 <;> by_cases h2 : e.priv.program = 0 <;>
    by_cases h3 : reset_uniforms = true ∧ e.priv.uniforms ≠ none <;>
    simp [h1, h2, h3, List.filter_append, EffectCall.is_unref]

theorem reset_uniforms_trace (e : Effect) :
    (clutter_shader_effect_reset_uniforms e).trace = e.trace := by
  unfold clutter_shader_effect_reset_uniforms
  cases e.priv.uniforms <;> rfl

theorem set_actor_trace (env : ShaderEnv) (e : Effect) (actor : Nat)
    (hglsl : env.clutter_feature_available_glsl e.trace = true)
    (hcs : ∀ t, env.cogl_create_shader t ≠ 0) :
    ∃ e1, clutter_shader_effect_set_actor env e actor = some e1 ∧
      e1.trace.filter EffectCall.is_unref =
        (clutter_shader_effect_clear e false).trace.filter EffectCall.is_unref := by
  unfold clutter_shader_effect_set_actor
  rw [if_neg (by simp [hglsl])]
  simp only []
  split
  · exact ⟨_, rfl, by
      simp [Effect.call, reset_uniforms_trace, List.filter_append, EffectCall.is_unref]⟩
  · rw [if_pos (hcs _)]
    exact ⟨_, rfl, by
      simp [Effect.call, reset_uniforms_trace, List.filter_append, EffectCall.is_unref]⟩

/-- C25: on a prepared effect whose shader does not compile, a paint followed by
`finalize`, or by `set_actor` where GLSL is available, releases the program handle
twice: the failure path of the paint releases the shader and the program and
resets the shader field only, so the program field still holds the released handle
when `clutter_shader_effect_clear` runs and releases it again.  The
`cogl_handle_unref` calls of the two operations are those of the shader, the
program, and the program. -/
theorem compile_failure_then_clear_releases_program_twice (env : ShaderEnv) (e : Effect)
    (actor : Nat) (hp : e.priv.program ≠ 0) (hs : e.priv.shader ≠ 0)
    (hc : e.priv.is_compiled = false)
    (hfail : env.cogl_shader_is_compiled
      (e.trace ++ [EffectCall.cogl_shader_compile e.priv.shader]) e.priv.shader = false)
    (hglsl : ∀ t, env.clutter_feature_available_glsl t = true)
    (hcs : ∀ t, env.cogl_create_shader t ≠ 0) :
    (clutter_shader_effect_paint_target env e).priv.shader = 0 ∧
    (clutter_shader_effect_paint_target env e).priv.program = e.priv.program ∧
    (∃ e2, run_effect_ops env e [EffectOp.paint_target, EffectOp.finalize] = some e2 ∧
      e2.trace.filter EffectCall.is_unref =
        e.trace.filter EffectCall.is_unref ++
          [EffectCall.cogl_handle_unref e.priv.shader,
            EffectCall.cogl_handle_unref e.priv.program,
            EffectCall.cogl_handle_unref e.priv.program]) ∧
    (∃ e2, run_effect_ops env e [EffectOp.paint_target, EffectOp.set_actor actor] = some e2 ∧
      e2.trace.filter EffectCall.is_unref =
        e.trace.filter EffectCall.is_unref ++
          [EffectCall.cogl_handle_unref e.priv.shader,
            EffectCall.cogl_handle_unref e.priv.program,
            EffectCall.cogl_handle_unref e.priv.program]) := by
  have hf := paint_target_fails env e hp hs hc hfail
  have hcl : ∀ b, (clutter_shader_effect_clear (clutter_shader_effect_paint_target env e)
      b).trace.filter EffectCall.is_unref =
        e.trace.filter EffectCall.is_unref ++
          [EffectCall.cogl_handle_unref e.priv.shader,
            EffectCall.cogl_handle_unref e.priv.program,
            EffectCall.cogl_handle_unref e.priv.program] := by
    intro b
    rw [clear_trace, hf]
    simp [List.filter_append, EffectCall.is_unref, hp]
  refine ⟨by rw [hf], by rw [hf], ?_, ?_⟩
  · refine ⟨clutter_shader_effect_finalize (clutter_shader_effect_paint_target env e),
      by simp only [run_effect_ops, if_true], ?_⟩
    unfold clutter_shader_effect_finalize
    simp only [Effect.call, List.filter_append]
    rw [hcl true]
    simp [EffectCall.is_unref]
  · obtain ⟨e2, h1, h2⟩ := set_actor_trace env (clutter_shader_effect_paint_target env e)
      actor (hglsl _) hcs
    refine ⟨e2, ?_, by rw [h2, hcl false]⟩
    simp only [run_effect_ops, h1]

/-- Witness of C25: a new effect is prepared for actor 5 (program 101, shader 102),
the shader does not compile, and the effect is finalized: program 101, created
once, is released twice. -/
theorem compile_failure_then_clear_releases_program_twice_witness :
    (run_effect_ops demo_shader_env Effect.init
        [EffectOp.set_actor 5, EffectOp.paint_target, EffectOp.finalize]).map (·.trace) =
      some [EffectCall.parent_set_actor 5, EffectCall.cogl_create_program 101,
        EffectCall.cogl_create_shader 102, EffectCall.cogl_shader_compile 102,
        EffectCall.cogl_shader_is_compiled 102 false,
        EffectCall.cogl_shader_get_info_log 102, EffectCall.g_warning_unable_to_compile,
        EffectCall.cogl_handle_unref 102, EffectCall.cogl_handle_unref 101,
        EffectCall.cogl_handle_unref 101, EffectCall.parent_finalize] ∧
    run_effect_ops demo_shader_env Effect.init [EffectOp.set_actor 5] =
      some ⟨⟨5, 101, 102, none, false⟩,
        [EffectCall.parent_set_actor 5, EffectCall.cogl_create_program 101,
          EffectCall.cogl_create_shader 102]⟩ ∧
    ((clutter_shader_effect_paint_target demo_shader_env
        ⟨⟨5, 101, 102, none, false⟩,
          [EffectCall.parent_set_actor 5, EffectCall.cogl_create_program 101,
            EffectCall.cogl_create_shader 102]⟩).priv.shader = 0 ∧
    (clutter_shader_effect_paint_target demo_shader_env
        ⟨⟨5, 101, 102, none, false⟩,
          [EffectCall.parent_set_actor 5, EffectCall.cogl_create_program 101,
            EffectCall.cogl_create_shader 102]⟩).priv.program = 101 ∧
    (∃ e2, run_effect_ops demo_shader_env
        ⟨⟨5, 101, 102, none, false⟩,
          [EffectCall.parent_set_actor 5, EffectCall.cogl_create_program 101,
            EffectCall.cogl_create_shader 102]⟩
        [EffectOp.paint_target, EffectOp.finalize] = some e2 ∧
      e2.trace.filter EffectCall.is_unref =
        [] ++ [EffectCall.cogl_handle_unref 102, EffectCall.cogl_handle_unref 101,
            EffectCall.cogl_handle_unref 101]) ∧
    (∃ e2, run_effect_ops demo_shader_env
        ⟨⟨5, 101, 102, none, false⟩,
          [EffectCall.parent_set_actor 5, EffectCall.cogl_create_program 101,
            EffectCall.cogl_create_shader 102]⟩
        [EffectOp.paint_target, EffectOp.set_actor 7] = some e2 ∧
      e2.trace.filter EffectCall.is_unref =
        [] ++ [EffectCall.cogl_handle_unref 102, EffectCall.cogl_handle_unref 101,
            EffectCall.cogl_handle_unref 101])) :=
  ⟨by decide, by decide,
    compile_failure_then_clear_releases_program_twice demo_shader_env
      ⟨⟨5, 101, 102, none, false⟩,
        [EffectCall.parent_set_actor 5, EffectCall.cogl_create_program 101,
          EffectCall.cogl_create_shader 102]⟩ 7
      (by decide) (by decide) rfl rfl (fun _ => rfl) (fun t => by
        show t.length + 100 ≠ 0
        omega)⟩

/-! ## The uniform table of the shader effect -/

theorem table_lookup_none (l : List ShaderUniform) (name : String)
    (h : table_lookup l name = none) : ∀ u ∈ l, u.name ≠ name := by
  unfold table_lookup at h
  simp only [] at h
  split at h
  · simp at h
  · rename_i hlt
    intro u hu hn
    apply hlt
    exact List.findIdx_lt_length_of_exists ⟨u, hu, by simp [hn]⟩

theorem table_lookup_some (l : List ShaderUniform) (name : String) :
    ∀ i, table_lookup l name = some i →
      ∃ u, l[i]? = some u ∧ u.name = name ∧ ∀ g, l.set i (g u) = update_first name g l := by
  induction l with
  | nil => intro i h; simp [table_lookup] at h
  | cons a rest ih =>
    intro i h
    unfold table_lookup at h
    simp only [List.findIdx_cons] at h
    by_cases ha : a.name = name
    · simp [ha] at h
      subst h
      exact ⟨a, List.getElem?_cons_zero .., ha, fun g => by simp [update_first, ha]⟩
    · simp [ha] at h
      obtain ⟨hlt, rfl⟩ := h
      obtain ⟨u, h1, h2, h3⟩ := ih (List.findIdx (fun uniform => uniform.name = name) rest)
        (by unfold table_lookup; simp [hlt])
      refine ⟨u, by simpa using h1, h2, fun g => ?_⟩
      simp only [List.set_cons_succ, update_first, if_neg ha, h3]

theorem update_first_names (name : String) (g : ShaderUniform → ShaderUniform)
    (hg : ∀ u, (g u).name = u.name) (l : List ShaderUniform) :
    (update_first name g l).map (·.name) = l.map (·.name) := by
  induction l with
  | nil => rfl
  | cons a rest ih =>
    unfold update_first
    split
    · simp [hg]
    · simp only [List.map_cons, ih]

theorem update_first_other (name other : String) (g : ShaderUniform → ShaderUniform)
    (hg : ∀ u, (g u).name = u.name) (hne : other ≠ name) (l : List ShaderUniform) :
    (update_first name g l).find? (fun uniform => uniform.name = other) =
      l.find? (fun uniform => uniform.name = other) := by
  induction l with
  | nil => rfl
  | cons a rest ih =>
    unfold update_first
    by_cases ha : a.name = name
    · rw [if_pos ha]
      have h1 : ¬ (g a).name = other := by rw [hg, ha]; exact fun e => hne e.symm
      have h2 : ¬ a.name = other := by rw [ha]; exact fun e => hne e.symm
      simp [List.find?_cons, h1, h2]
    · rw [if_neg ha]
      simp only [List.find?_cons, ih]

theorem update_first_self (name : String) (g : ShaderUniform → ShaderUniform)
    (hg : ∀ u, (g u).name = u.name) (l : List ShaderUniform)
    (hex : ∃ u ∈ l, u.name = name) :
    ∃ u, u.name = name ∧
      (update_first name g l).find? (fun uniform => uniform.name = name) = some (g u) := by
  induction l with
  | nil => simp at hex
  | cons a rest ih =>
    unfold update_first
    by_cases ha : a.name = name
    · rw [if_pos ha]
      exact ⟨a, ha, by simp [List.find?_cons, hg, ha]⟩
    · rw [if_neg ha]
      obtain ⟨u, hu, hn⟩ := hex
      have hur : u ∈ rest := by
        rcases List.mem_cons.mp hu with h | h
        · rw [h] at hn; exact absurd hn ha
        · exact h
      obtain ⟨v, hv1, hv2⟩ := ih ⟨u, hur, hn⟩
      exact ⟨v, hv1, by simp [List.find?_cons, ha, hv2]⟩

/-- The table after `clutter_shader_effect_add_uniform`: a new uniform at the end
when the name was absent, the first uniform of that name changed otherwise; the
trace gains at most a location query. -/
theorem add_uniform_table (env : ShaderEnv) (e : Effect) (name : String) (value : GValue) :
    ∃ (g : ShaderUniform → ShaderUniform) (nu : ShaderUniform),
      (∀ u, (g u).name = u.name ∧ (g u).value = value) ∧ nu.name = name ∧ nu.value = value ∧
      (clutter_shader_effect_add_uniform env e name value).priv.uniforms =
        some (if ∀ u ∈ e.priv.uniforms.getD [], u.name ≠ name
          then e.priv.uniforms.getD [] ++ [nu]
          else update_first name g (e.priv.uniforms.getD [])) ∧
      (∀ c ∈ (clutter_shader_effect_add_uniform env e name value).trace, c ∈ e.trace ∨
        c.is_diagnostic = false) ∧
      (clutter_shader_effect_add_uniform env e name value).trace.filter
          EffectCall.is_diagnostic = e.trace.filter EffectCall.is_diagnostic := by
  unfold clutter_shader_effect_add_uniform
  simp only []
  cases hl : table_lookup (e.priv.uniforms.getD []) name with
  | none =>
    have hno := table_lookup_none _ _ hl
    simp only []
    by_cases hc : e.priv.is_compiled = true
    · refine ⟨fun u => { u with value := value },
        { shader_uniform_new name value with
          location := env.cogl_program_get_uniform_location e.trace e.priv.program name },
        fun u => ⟨rfl, rfl⟩, rfl, rfl, ?_, ?_, ?_⟩
      · rw [if_pos hc, if_pos hno]
        simp [shader_uniform_new]
      · rw [if_pos hc]
        intro c hcm
        simp at hcm
        rcases hcm with h | h
        · exact Or.inl h
        · right; rw [h]; rfl
      · rw [if_pos hc]
        simp [List.filter_append, EffectCall.is_diagnostic]
    · refine ⟨fun u => { u with value := value }, shader_uniform_new name value,
        fun u => ⟨rfl, rfl⟩, rfl, rfl, ?_, ?_, ?_⟩
      · rw [if_neg hc, if_pos hno]
      · rw [if_neg hc]
        intro c hcm
        exact Or.inl hcm
      · rw [if_neg hc]
  | some i =>
    obtain ⟨u0, h1, h2, h3⟩ := table_lookup_some _ _ i hl
    have hex : ¬ ∀ u ∈ e.priv.uniforms.getD [], u.name ≠ name := by
      intro hall
      exact hall u0 (List.mem_iff_getElem?.mpr ⟨i, h1⟩) h2
    simp only [h1]
    by_cases hc : e.priv.is_compiled = true
    · refine ⟨fun u => { shader_uniform_update u value with
          location := env.cogl_program_get_uniform_location e.trace e.priv.program
            (shader_uniform_update u value).name },
        shader_uniform_new name value, fun u => ⟨rfl, rfl⟩, rfl, rfl, ?_, ?_, ?_⟩
      · rw [if_pos hc, if_neg hex]
        simp only [List.set_set]
        rw [← h3]
      · rw [if_pos hc]
        intro c hcm
        simp at hcm
        rcases hcm with h | h
        · exact Or.inl h
        · right; rw [h]; rfl
      · rw [if_pos hc]
        simp [List.filter_append, EffectCall.is_diagnostic]
    · refine ⟨fun u => shader_uniform_update u value, shader_uniform_new name value,
        fun u => ⟨rfl, rfl⟩, rfl, rfl, ?_, ?_, ?_⟩
      · rw [if_neg hc, if_neg hex, ← h3]
      · rw [if_neg hc]
        intro c hcm
        exact Or.inl hcm
      · rw [if_neg hc]

theorem add_uniform_stored (env : ShaderEnv) (e : Effect) (name : String) (value : GValue) :
    stored_value (clutter_shader_effect_add_uniform env e name value) name = some value ∧
    (∀ other, other ≠ name →
      stored_value (clutter_shader_effect_add_uniform env e name value) other =
        stored_value e other) ∧
    (((e.priv.uniforms.getD []).map (·.name)).Nodup →
      ((((clutter_shader_effect_add_uniform env e name value).priv.uniforms.getD []).map
        (·.name)).Nodup ∧
      (((clutter_shader_effect_add_uniform env e name value).priv.uniforms.getD []).map
        (·.name)).count name = 1)) := by
  obtain ⟨g, nu, hg, hn1, hn2, htab, _, _⟩ := add_uniform_table env e name value
  unfold stored_value
  rw [htab]
  simp only [Option.getD_some]
  by_cases hno : ∀ u ∈ e.priv.uniforms.getD [], u.name ≠ name
  · rw [if_pos hno]
    have hnone : (e.priv.uniforms.getD []).find? (fun uniform => uniform.name = name) = none := by
      rw [List.find?_eq_none]
      intro u hu
      simpa using hno u hu
    refine ⟨?_, ?_, ?_⟩
    · rw [List.find?_append, hnone]
      simp [List.find?_cons, hn1, hn2]
    · intro other hne
      rw [List.find?_append]
      cases (e.priv.uniforms.getD []).find? (fun uniform => uniform.name = other) with
      | some x => rfl
      | none =>
        have : ¬ nu.name = other := by rw [hn1]; exact fun e => hne e.symm
        simp [List.find?_cons, this]
    · intro hnd
      have hnm : name ∉ (e.priv.uniforms.getD []).map (·.name) := by
        intro hm
        obtain ⟨u, hu, hun⟩ := List.mem_map.mp hm
        exact hno u hu hun
      have hnd2 : ((e.priv.uniforms.getD [] ++ [nu]).map (·.name)).Nodup := by
        rw [List.map_append, List.nodup_append]
        refine ⟨hnd, by simp, ?_⟩
        intro a ha hb
        simp [hn1] at hb
        rw [hb] at ha
        exact hnm ha
      exact ⟨hnd2, List.count_eq_one_of_mem hnd2 (by simp [hn1])⟩
  · rw [if_neg hno]
    have hex : ∃ u ∈ e.priv.uniforms.getD [], u.name = name := by
      by_contra hcon
      apply hno
      intro u hu hn
      exact hcon ⟨u, hu, hn⟩
    refine ⟨?_, ?_, ?_⟩
    · obtain ⟨u, _, hu2⟩ := update_first_self name g (fun u => (hg u).1) _ hex
      rw [hu2]
      simp [(hg u).2]
    · intro other hne
      rw [update_first_other name other g (fun u => (hg u).1) hne]
    · intro hnd
      rw [update_first_names name g (fun u => (hg u).1)]
      refine ⟨hnd, List.count_eq_one_of_mem hnd ?_⟩
      obtain ⟨u, hu, hn⟩ := hex
      exact List.mem_map.mpr ⟨u, hu, hn⟩

theorem upload_recognised (u : ShaderUniform) (loc : Int) :
    (uniform_upload u loc).is_uniform_upload = u.value.type.recognised ∧
    (u.value.type.recognised = false →
      uniform_upload u loc = EffectCall.g_warning_invalid_uniform u.value.type u.name) := by
  obtain ⟨n, ty, ⟨vt, sz, d⟩, l⟩ := u
  cases vt <;> simp [uniform_upload, EffectCall.is_uniform_upload, GType.recognised]

theorem update_uniforms_loop_spec (env : ShaderEnv) (program : Nat)
    (table : List ShaderUniform) :
    ∀ t : List EffectCall, ∃ calls,
      (update_uniforms_loop env program table t).2 = t ++ calls ∧
      (update_uniforms_loop env program table t).1.map (·.name) = table.map (·.name) ∧
      (update_uniforms_loop env program table t).1.map (·.value) = table.map (·.value) ∧
      (∀ u ∈ table, ∃ loc, uniform_upload u loc ∈ calls) ∧
      calls.countP EffectCall.is_uniform_upload =
        table.countP (fun u => u.value.type.recognised) ∧
      calls.countP EffectCall.is_diagnostic =
        table.countP (fun u => !u.value.type.recognised) := by
  induction table with
  | nil => intro t; exact ⟨[], by simp [update_uniforms_loop]⟩
  | cons u rest ih =>
    intro t
    simp only [update_uniforms_loop]
    have hdiag : ∀ loc, (uniform_upload u loc).is_diagnostic = !u.value.type.recognised := by
      intro loc
      obtain ⟨n, ty, ⟨vt, sz, d⟩, l⟩ := u
      cases vt <;> simp [uniform_upload, EffectCall.is_diagnostic, GType.recognised]
    by_cases hl : u.location = -1
    · simp only [hl, if_true]
      obtain ⟨calls, h1, h2, h3, h4, h5, h6⟩ := ih
        (t ++ [EffectCall.cogl_program_get_uniform_location program u.name
            (env.cogl_program_get_uniform_location t program u.name)] ++
          [uniform_upload u (env.cogl_program_get_uniform_location t program u.name)])
      refine ⟨[EffectCall.cogl_program_get_uniform_location program u.name
            (env.cogl_program_get_uniform_location t program u.name)] ++
          [uniform_upload u (env.cogl_program_get_uniform_location t program u.name)] ++ calls,
        ?_, ?_, ?_, ?_, ?_, ?_⟩
      · rw [h1]; simp
      · simp only [List.map_cons, h2]
      · simp only [List.map_cons, h3]
      · intro v hv
        rcases List.mem_cons.mp hv with h | h
        · exact ⟨env.cogl_program_get_uniform_location t program u.name, by rw [h]; simp⟩
        · obtain ⟨loc, hloc⟩ := h4 v h
          exact ⟨loc, by simp [hloc]⟩
      · have hq : ∀ r, EffectCall.is_uniform_upload
            (EffectCall.cogl_program_get_uniform_location program u.name r) = false :=
          fun _ => rfl
        simp only [List.countP_append, List.countP_cons, List.countP_nil, h5,
          (upload_recognised u _).1, hq]
        simp; omega
      · have hq : ∀ r, EffectCall.is_diagnostic
            (EffectCall.cogl_program_get_uniform_location program u.name r) = false :=
          fun _ => rfl
        simp only [List.countP_append, List.countP_cons, List.countP_nil, h6, hdiag, hq]
        simp; omega
    · simp only [hl, if_false]
      obtain ⟨calls, h1, h2, h3, h4, h5, h6⟩ := ih (t ++ [uniform_upload u u.location])
      refine ⟨[uniform_upload u u.location] ++ calls, ?_, ?_, ?_, ?_, ?_, ?_⟩
      · rw [h1]; simp
      · simp only [List.map_cons, h2]
      · simp only [List.map_cons, h3]
      · intro v hv
        rcases List.mem_cons.mp hv with h | h
        · exact ⟨u.location, by rw [h]; simp⟩
        · obtain ⟨loc, hloc⟩ := h4 v h
          exact ⟨loc, by simp [hloc]⟩
      · simp only [List.countP_append, List.countP_cons, List.countP_nil, h5,
          (upload_recognised u _).1]
        simp; omega
      · simp only [List.countP_append, List.countP_cons, List.countP_nil, h6, hdiag]
        simp; omega

theorem find_value_congr (name : String) (l1 : List ShaderUniform) :
    ∀ l2 : List ShaderUniform, l1.map (·.name) = l2.map (·.name) →
      l1.map (·.value) = l2.map (·.value) →
      (l1.find? (fun uniform => uniform.name = name)).map (·.value) =
        (l2.find? (fun uniform => uniform.name = name)).map (·.value) := by
  induction l1 with
  | nil =>
    intro l2 h _
    cases l2 with
    | nil => rfl
    | cons b r => simp at h
  | cons a rest ih =>
    intro l2 hn hv
    cases l2 with
    | nil => simp at hn
    | cons b r =>
      simp only [List.map_cons, List.cons.injEq] at hn hv
      by_cases ha : a.name = name
      · have hb : b.name = name := by rw [← hn.1]; exact ha
        simp [List.find?_cons, ha, hb, hv.1]
      · have hb : ¬ b.name = name := by rw [← hn.1]; exact ha
        simp only [List.find?_cons, ha, hb, decide_False]
        exact ih r hn.2 hv.2

/-- C23: `clutter_shader_effect_set_uniform_value` with a name and a value makes the
table hold the value under the name, whether the name was present or not, in a
single entry, and leaves the value stored under every other name as it was; and
`clutter_shader_effect_update_uniforms` changes no stored value, warns for every
uniform of the table whose payload kind is not recognised, uploads every uniform
whose kind is recognised, and makes as many upload calls as there are recognised
uniforms and as many diagnostics as there are unrecognised ones. -/
theorem set_uniform_value_stores (env : ShaderEnv) (e : Effect) (name : String)
    (value : GValue) (hnd : ((e.priv.uniforms.getD []).map (·.name)).Nodup) :
    stored_value (clutter_shader_effect_set_uniform_value env e (some name) (some value))
      name = some value ∧
    ((((clutter_shader_effect_set_uniform_value env e (some name)
        (some value)).priv.uniforms.getD []).map (·.name)).Nodup ∧
      (((clutter_shader_effect_set_uniform_value env e (some name)
        (some value)).priv.uniforms.getD []).map (·.name)).count name = 1) ∧
    (∀ other, other ≠ name →
      stored_value (clutter_shader_effect_set_uniform_value env e (some name) (some value))
        other = stored_value e other) ∧
    (∀ table, e.priv.uniforms = some table →
      ∃ calls, (clutter_shader_effect_update_uniforms env e).trace = e.trace ++ calls ∧
        (∀ n, stored_value (clutter_shader_effect_update_uniforms env e) n =
          stored_value e n) ∧
        (∀ u ∈ table, u.value.type.recognised = false →
          EffectCall.g_warning_invalid_uniform u.value.type u.name ∈ calls) ∧
        (∀ u ∈ table, u.value.type.recognised = true →
          ∃ loc, uniform_upload u loc ∈ calls ∧
            (uniform_upload u loc).is_uniform_upload = true) ∧
        calls.countP EffectCall.is_uniform_upload =
          table.countP (fun u => u.value.type.recognised) ∧
        calls.countP EffectCall.is_diagnostic =
          table.countP (fun u => !u.value.type.recognised)) := by
  obtain ⟨h1, h2, h3⟩ := add_uniform_stored env e name value
  refine ⟨h1, h3 hnd, h2, ?_⟩
  intro table htab
  obtain ⟨calls, c1, c2, c3, c4, c5, c6⟩ :=
    update_uniforms_loop_spec env e.priv.program table e.trace
  have hu : clutter_shader_effect_update_uniforms env e =
      { priv := { e.priv with
          uniforms := some (update_uniforms_loop env e.priv.program table e.trace).1 },
        trace := (update_uniforms_loop env e.priv.program table e.trace).2 } := by
    unfold clutter_shader_effect_update_uniforms
    rw [htab]
  refine ⟨calls, by rw [hu]; exact c1, ?_, ?_, ?_, c5, c6⟩
  · intro n
    unfold stored_value
    rw [hu, htab]
    exact find_value_congr n _ _ c2 c3
  · intro u hu1 hr
    obtain ⟨loc, hloc⟩ := c4 u hu1
    rw [(upload_recognised u loc).2 hr] at hloc
    exact hloc
  · intro u hu1 hr
    obtain ⟨loc, hloc⟩ := c4 u hu1
    exact ⟨loc, hloc, by rw [(upload_recognised u loc).1, hr]⟩

/-- Example: a compiled effect with program 101 and three uniforms, the second of
a kind that is not recognised. -/
theorem demo_uniforms_upload :
    (clutter_shader_effect_update_uniforms demo_shader_ok
      ⟨⟨5, 101, 102,
        some [⟨"tex", GType.int, ⟨GType.int, 1, [0]⟩, 3⟩,
          ⟨"label", GType.other 64, ⟨GType.other 64, 1, [7]⟩, -1⟩,
          ⟨"component", GType.shader_float, ⟨GType.shader_float, 3, [1, 2, 3]⟩, -1⟩],
        true⟩, []⟩).trace =
      [EffectCall.cogl_program_uniform_int 3 1 [0],
        EffectCall.cogl_program_get_uniform_location 101 "label" 3,
        EffectCall.g_warning_invalid_uniform (GType.other 64) "label",
        EffectCall.cogl_program_get_uniform_location 101 "component" 3,
        EffectCall.cogl_program_uniform_float 3 3 [1, 2, 3]] := by
  decide

/-- Witness of C23: the table holds `tex` and `label`; `tex` is set again. -/
theorem set_uniform_value_stores_witness :
    (clutter_shader_effect_set_uniform_value demo_shader_ok
      ⟨⟨5, 101, 102,
        some [⟨"tex", GType.int, ⟨GType.int, 1, [0]⟩, 3⟩,
          ⟨"label", GType.other 64, ⟨GType.other 64, 1, [7]⟩, -1⟩],
        true⟩, []⟩ (some "tex") (some ⟨GType.float, 1, [9]⟩)).priv.uniforms =
      some [⟨"tex", GType.int, ⟨GType.float, 1, [9]⟩, 3⟩,
          ⟨"label", GType.other 64, ⟨GType.other 64, 1, [7]⟩, -1⟩] ∧
    (stored_value (clutter_shader_effect_set_uniform_value demo_shader_ok
      ⟨⟨5, 101, 102,
        some [⟨"tex", GType.int, ⟨GType.int, 1, [0]⟩, 3⟩,
          ⟨"label", GType.other 64, ⟨GType.other 64, 1, [7]⟩, -1⟩],
        true⟩, []⟩ (some "tex") (some ⟨GType.float, 1, [9]⟩)) "tex" =
        some ⟨GType.float, 1, [9]⟩ ∧
      ((((clutter_shader_effect_set_uniform_value demo_shader_ok
        ⟨⟨5, 101, 102,
          some [⟨"tex", GType.int, ⟨GType.int, 1, [0]⟩, 3⟩,
            ⟨"label", GType.other 64, ⟨GType.other 64, 1, [7]⟩, -1⟩],
          true⟩, []⟩ (some "tex")
          (some ⟨GType.float, 1, [9]⟩)).priv.uniforms.getD []).map (·.name)).Nodup ∧
        (((clutter_shader_effect_set_uniform_value demo_shader_ok
        ⟨⟨5, 101, 102,
          some [⟨"tex", GType.int, ⟨GType.int, 1, [0]⟩, 3⟩,
            ⟨"label", GType.other 64, ⟨GType.other 64, 1, [7]⟩, -1⟩],
          true⟩, []⟩ (some "tex")
          (some ⟨GType.float, 1, [9]⟩)).priv.uniforms.getD []).map (·.name)).count
            "tex" = 1)) :=
  ⟨by decide,
    (set_uniform_value_stores demo_shader_ok
      ⟨⟨5, 101, 102,
        some [⟨"tex", GType.int, ⟨GType.int, 1, [0]⟩, 3⟩,
          ⟨"label", GType.other 64, ⟨GType.other 64, 1, [7]⟩, -1⟩],
        true⟩, []⟩ "tex" ⟨GType.float, 1, [9]⟩ (by decide)).1,
    (set_uniform_value_stores demo_shader_ok
      ⟨⟨5, 101, 102,
        some [⟨"tex", GType.int, ⟨GType.int, 1, [0]⟩, 3⟩,
          ⟨"label", GType.other 64, ⟨GType.other 64, 1, [7]⟩, -1⟩],
        true⟩, []⟩ "tex" ⟨GType.float, 1, [9]⟩ (by decide)).2.1⟩

/-- C22, as stated, fails for `clutter_shader_effect_set_uniform_value`: on a new
effect a value of a kind that is not recognised (type 64) is stored under the
name, and no diagnostic is made. -/
theorem set_uniform_value_stores_unrecognised_kind :
    GType.recognised (GType.other 64) = false ∧
    Effect.init.priv.uniforms = none ∧
    (clutter_shader_effect_set_uniform_value demo_shader_env Effect.init (some "label")
      (some ⟨GType.other 64, 1, [7]⟩)).priv.uniforms =
      some [⟨"label", GType.other 64, ⟨GType.other 64, 1, [7]⟩, -1⟩] ∧
    (clutter_shader_effect_set_uniform_value demo_shader_env Effect.init (some "label")
      (some ⟨GType.other 64, 1, [7]⟩)).trace = [] := by
  decide

/-- C22, amended: a `clutter_shader_effect_set_uniform` call whose type is not one
of the recognised kinds makes one call, a diagnostic, and leaves the private data
of the effect, the uniform table included, as it was; and
`clutter_shader_effect_set_uniform_value` does not examine the kind of the payload:
it stores the value under the name and makes no diagnostic. -/
theorem unrecognised_set_uniform_is_noop (env : ShaderEnv) (e : Effect)
    (name : Option String) (gtype : GType) (n_values : Nat) (args : List Int)
    (h : gtype.recognised = false) :
    (∃ c, c.is_diagnostic = true ∧
      clutter_shader_effect_set_uniform env e name gtype n_values args = e.call c) ∧
    (clutter_shader_effect_set_uniform env e name gtype n_values args).priv = e.priv ∧
    (∀ (n : String) (v : GValue),
      stored_value (clutter_shader_effect_set_uniform_value env e (some n) (some v)) n =
        some v ∧
      (clutter_shader_effect_set_uniform_value env e (some n) (some v)).trace.filter
        EffectCall.is_diagnostic = e.trace.filter EffectCall.is_diagnostic) := by
  have hcall : ∃ c, c.is_diagnostic = true ∧
      clutter_shader_effect_set_uniform env e name gtype n_values args = e.call c := by
    unfold clutter_shader_effect_set_uniform
    cases name with
    | none => exact ⟨EffectCall.g_return_if_fail_warning, rfl, rfl⟩
    | some n =>
      simp only []
      by_cases hi : gtype = GType.invalid
      · rw [if_pos hi]; exact ⟨EffectCall.g_return_if_fail_warning, rfl, rfl⟩
      · rw [if_neg hi]
        by_cases hz : n_values = 0
        · rw [if_pos hz]; exact ⟨EffectCall.g_return_if_fail_warning, rfl, rfl⟩
        · rw [if_neg hz]
          refine ⟨EffectCall.g_warning_unrecognized_type gtype (int_of_gsize n_values) n, rfl,
            ?_⟩
          unfold clutter_shader_effect_set_uniform_valist
          cases gtype <;> simp [GType.recognised] at h hi ⊢
  refine ⟨hcall, ?_, ?_⟩
  · obtain ⟨c, _, hc⟩ := hcall
    rw [hc]
    rfl
  · intro n v
    obtain ⟨_, _, _, _, _, _, _, hd⟩ := add_uniform_table env e n v
    exact ⟨(add_uniform_stored env e n v).1, hd⟩

/-- Witness of C22, amended: `clutter_shader_effect_set_uniform` with type 64 on a
new effect. -/
theorem unrecognised_set_uniform_is_noop_witness :
    clutter_shader_effect_set_uniform demo_shader_env Effect.init (some "label")
        (GType.other 64) 1 [7] =
      ⟨Effect.init.priv, [EffectCall.g_warning_unrecognized_type (GType.other 64) 1 "label"]⟩ ∧
    (clutter_shader_effect_set_uniform demo_shader_env Effect.init (some "label")
      (GType.other 64) 1 [7]).priv = Effect.init.priv :=
  ⟨by decide,
    (unrecognised_set_uniform_is_noop demo_shader_env Effect.init (some "label")
      (GType.other 64) 1 [7] rfl).2.1⟩

/-! ## The contents of newly allocated memory do not reach the driver -/

/-- Lines 582 to 636 on an entry without program end with `link_program` on the
program that `glCreateProgram` returned. -/
theorem end_link_query (env : Env) (w w2 : World) (p : Nat) (pl : CoglPipeline) (n : Int)
    (pv pv2 : CoglPipelineProgendPrivate) (b : Bool) (h0 : pv.program = 0)
    (h : end_link env w p pl n pv = some (w2, pv2, b)) :
    ∃ wq pre, Ext w wq pre ∧ w2 = link_program env wq (env.glCreateProgram w.trace) := by
  unfold end_link at h
  rw [if_pos h0] at h
  dsimp only at h
  split at h
  · cases h
  · rename_i w3 pv3 n3 hu
    simp only [Option.some.injEq, Prod.mk.injEq] at h
    obtain ⟨h1, _, _⟩ := h
    have hu2 : pv3.program = env.glCreateProgram w.trace ∧ ∃ t, Ext w w3 t := by
      split at hu
      · split at hu
        · cases hu
        · split at hu
          · cases hu
          · split at hu
            · cases hu
            · rename_i w5 ha
              simp only [Option.some.injEq, Prod.mk.injEq] at hu
              obtain ⟨u1, u2, _⟩ := hu
              obtain ⟨t, ht⟩ := ext_attach_user_shaders env _ _ _ _ _ ha
              rw [← u1, ← u2]
              exact ⟨rfl, _, ext_trans (ext_call w _) ht⟩
      · simp only [Option.some.injEq, Prod.mk.injEq] at hu
        obtain ⟨u1, u2, _⟩ := hu
        rw [← u1, ← u2]
        exact ⟨rfl, _, ext_call _ _⟩
    obtain ⟨k1, t, k2⟩ := hu2
    obtain ⟨t1, e1⟩ := ext_call_if w3 (Call.glAttachShader pv3.program
      (env.fragend_glsl_get_shader w3.trace p))
      (pl.fragend = env.FRAGEND_GLSL ∧ env.fragend_glsl_get_shader w3.trace p ≠ 0)
    obtain ⟨t2, e2⟩ := ext_call_if _ (Call.glAttachShader pv3.program
      (env.vertend_glsl_get_shader (if pl.fragend = env.FRAGEND_GLSL ∧
        env.fragend_glsl_get_shader w3.trace p ≠ 0 then
          w3.call (Call.glAttachShader pv3.program (env.fragend_glsl_get_shader w3.trace p))
        else w3).trace p))
      (pl.vertend = env.VERTEND_GLSL ∧
        env.vertend_glsl_get_shader (if pl.fragend = env.FRAGEND_GLSL ∧
          env.fragend_glsl_get_shader w3.trace p ≠ 0 then
          w3.call (Call.glAttachShader pv3.program (env.fragend_glsl_get_shader w3.trace p))
        else w3).trace p ≠ 0)
    refine ⟨_, _, ext_trans (ext_trans k2 e1) e2, ?_⟩
    rw [← h1, k1]

theorem link_program_trace (env : Env) (w : World) (g : Nat) :
    ∃ post, (link_program env w g).trace = w.trace ++
      ([Call.glLinkProgram g, Call.glGetProgramiv_link_status g
        (env.link_status (w.trace ++ [Call.glLinkProgram g]) g)] ++ post) := by
  unfold link_program
  dsimp only
  split
  · exact ⟨[Call.glGetProgramInfoLog g, Call.g_warning_link_failed g], by simp [World.call]⟩
  · exact ⟨[], by simp [World.call]⟩

/-- The second half of `_cogl_pipeline_progend_glsl_end` on an entry whose program
has to be linked: among its calls are `glLinkProgram` on the program that
`glCreateProgram` returned and, right after it, the query of the link status,
answered by the driver. -/
theorem end_with_priv_query (env : Env) (w w2 : World) (p : Nat) (pl : CoglPipeline) (n : Int)
    (pv pv2 : CoglPipelineProgendPrivate) (hs : Stale w pl n pv)
    (h : end_with_priv env w p pl n pv = some (w2, pv2)) :
    ∃ pre post, w2.trace = w.trace ++ (pre ++
      [Call.glLinkProgram (env.glCreateProgram (w.trace ++ stale_deletes pv)),
        Call.glGetProgramiv_link_status (env.glCreateProgram (w.trace ++ stale_deletes pv))
          (env.link_status (w.trace ++ pre ++
            [Call.glLinkProgram (env.glCreateProgram (w.trace ++ stale_deletes pv))])
            (env.glCreateProgram (w.trace ++ stale_deletes pv)))] ++ post) := by
  obtain ⟨w1b, pv1b, wl, pvl, changed, w5, pv3, w6, k1, hl, q1, _, _, _, _, _, _, _, _, _,
    eu, q2, _⟩ := end_with_priv_parts env w w2 p pl n pv pv2 h
  obtain ⟨w1, pv1, h1, h0, _, ht1, _⟩ := stale_check_relink w pl n pv hs
  rw [h1] at k1
  simp only [Option.some.injEq, Prod.mk.injEq] at k1
  obtain ⟨x1, x2⟩ := k1
  subst x1; subst x2
  obtain ⟨wq, pre, epre, hwl⟩ := end_link_query env w1 wl p pl n pv1 pvl changed h0 hl
  obtain ⟨post, hpost⟩ := link_program_trace env wq (env.glCreateProgram w1.trace)
  obtain ⟨t1, e1, _⟩ := q1
  obtain ⟨t2, e2, _⟩ := q2
  unfold Ext at epre e1 eu e2
  refine ⟨stale_deletes pv ++ pre, post ++ t1 ++
    upload_calls env p (changed || decide (pv3.last_used_for_pipeline ≠ p)) pv3.unit_state
      pl.layers ++ t2, ?_⟩
  rw [e2, eu, e1, hwl, hpost, epre, ht1]
  simp only [List.append_assoc]

theorem stale_of_eq {w w1 : World} (pl : CoglPipeline) (n : Int)
    (pv : CoglPipelineProgendPrivate) (h : w1.programs = w.programs)
    (hs : Stale w pl n pv) : Stale w1 pl n pv := by
  unfold Stale at hs ⊢
  rw [h]
  exact hs

/-- C14, as stated, fails when `glCreateProgram` returns the handle 0: the entry
then counts as having no program.  C (4) of the example chain with a driver that
creates no program and fails every link: the first call links and warns once and
leaves the program 0 in the entry, with the age 5 of the user program and one
texture-coordinate attribute recorded; the second call, with the age unchanged
and the same number of attributes, links and warns again. -/
theorem zero_handle_diagnosed_again :
    run_ops demo_zero demo_world [Op.ensure 4 0 1] =
      some (after demo_zero demo_world [Op.ensure 4 0 1]) ∧
    link_warnings (after demo_zero demo_world [Op.ensure 4 0 1]).trace = [0] ∧
    (entry_at demo_zero (after demo_zero demo_world [Op.ensure 4 0 1]) 1).program = 0 ∧
    (entry_at demo_zero (after demo_zero demo_world [Op.ensure 4 0 1]) 1).user_program_age
      = 5 ∧
    (entry_at demo_zero (after demo_zero demo_world [Op.ensure 4 0 1]) 1).n_tex_coord_attribs
      = 1 ∧
    heap_get (after demo_zero demo_world [Op.ensure 4 0 1]).programs 1 = some ⟨5, [1]⟩ ∧
    _cogl_pipeline_progend_glsl_end demo_zero (after demo_zero demo_world [Op.ensure 4 0 1])
        4 0 1 = some (after demo_zero demo_world [Op.ensure 4 0 1, Op.ensure 4 0 1]) ∧
    linked_programs (after demo_zero demo_world [Op.ensure 4 0 1, Op.ensure 4 0 1]).trace =
      [0, 0] ∧
    link_warnings (after demo_zero demo_world [Op.ensure 4 0 1, Op.ensure 4 0 1]).trace =
      [0, 0] := by
  decide

/-- C14, amended: a link failure is diagnosed once, when the program has a handle.
The program end on a live pipeline that uses a GLSL backend completes.  Either it
makes no link attempt and no warning; or it links once, the program `g` of the
entry after the call: `glLinkProgram (g)` is followed by the query of the link
status, the driver answers it, and the call makes exactly one warning, for `g`,
when the answer is a failure, and no warning when it is not.  When the handle `g`
is not 0, every sequence of later calls on the same entry that find the age of
the user program unchanged and demand no more texture-coordinate attributes than
recorded completes and adds no link attempt and no warning. -/
theorem link_failure_diagnosed_once (env : Env) (hok : env.ok) (hlang : env.compiles_glsl)
    (w : World) (P d : Nat) (n : Int) (pl : CoglPipeline) (hinv : Inv env w)
    (hP : heap_get w.pipelines P = some pl)
    (hglsl : pl.fragend = env.FRAGEND_GLSL ∨ pl.vertend = env.VERTEND_GLSL)
    (hA : priv_of env pl = 0 →
      ∃ pa, heap_get w.pipelines (env.find_equivalent_parent w.pipelines P) = some pa ∧
        ∀ pv, heap_get w.privs (priv_of env pa) = some pv →
          pl.layers.length ≤ pv.unit_state.length)
    (hown : ∀ pv, heap_get w.privs (priv_of env pl) = some pv →
      pl.layers.length ≤ pv.unit_state.length)
    (hlive : UserProgramLive w pl) :
    ∃ w2 e pv2 t, _cogl_pipeline_progend_glsl_end env w P d n = some w2 ∧
      get_glsl_priv env w2 P = some e ∧ heap_get w2.privs e = some pv2 ∧
      w2.trace = w.trace ++ t ∧
      ((linked_programs t = [] ∧ link_warnings t = []) ∨
        ∃ pre post, t = pre ++ [Call.glLinkProgram pv2.program,
            Call.glGetProgramiv_link_status pv2.program
              (env.link_status (w.trace ++ pre ++ [Call.glLinkProgram pv2.program])
                pv2.program)] ++ post ∧
          linked_programs t = [pv2.program] ∧
          link_warnings t =
            (if env.link_status (w.trace ++ pre ++ [Call.glLinkProgram pv2.program])
                pv2.program = false then [pv2.program] else [])) ∧
      (pv2.program ≠ 0 →
        ∀ calls, (∀ c, c ∈ calls → LaterCall env w2 e pv2 c) →
          ∃ w3 pv3, run_ops env w2 (ensure_ops calls) = some w3 ∧
            heap_get w3.privs e = some pv3 ∧ pv3.program = pv2.program ∧
            linked_programs w3.trace = linked_programs w2.trace ∧
            link_warnings w3.trace = link_warnings w2.trace) := by
  obtain ⟨w1, e, pv1, w2, pv2, f1, f2, f3, _, _, f6, f7, f8, _, hc⟩ :=
    end_general env hok hlang w P d n pl hinv hP hglsl hA hown hlive
  have hlater : pv2.program ≠ 0 → ∀ calls, (∀ c, c ∈ calls → LaterCall env w2 e pv2 c) →
      ∃ w3 pv3, run_ops env w2 (ensure_ops calls) = some w3 ∧
        heap_get w3.privs e = some pv3 ∧ pv3.program = pv2.program ∧
        linked_programs w3.trace = linked_programs w2.trace ∧
        link_warnings w3.trace = link_warnings w2.trace := by
    intro hnz2 calls hcalls
    obtain ⟨w3, pv3, r1, r2, r3, _, _, r6, r7⟩ :=
      no_link_run env hok.1 e f2 calls w2 pv2 f7 hnz2 hcalls
    exact ⟨w3, pv3, r1, r2, r3, r6, r7⟩
  rcases hc with ⟨_, _, a3, _⟩ | ⟨hs, st, pv3, _, b3, b4, b5, _⟩
  · obtain ⟨c1, c2, c3, c4⟩ := uploads_only env P _ _ _ a3
    obtain ⟨t, ht, _⟩ := a3
    refine ⟨w2, e, pv2, t, f6, f8, f7, ht, Or.inl ⟨?_, ?_⟩, hlater⟩
    · unfold linked_programs at c3 ⊢
      rw [ht, List.filterMap_append] at c3
      exact List.append_cancel_left (c3.trans (List.append_nil _).symm)
    · unfold link_warnings at c4 ⊢
      rw [ht, List.filterMap_append] at c4
      exact List.append_cancel_left (c4.trans (List.append_nil _).symm)
  · obtain ⟨t, ht, hl⟩ := b3
    obtain ⟨_, hst⟩ := status_of_link hl
    obtain ⟨hw, hlk⟩ := link_warnings_of_link hl
    have hprog : pv2.program = env.glCreateProgram (w.trace ++ stale_deletes pv1) :=
      b4.1.trans b5
    obtain ⟨sg, _, _⟩ := find_priv_frame env hok w w1 P e pl hinv hP f1
    obtain ⟨pl0, hP0, hcase⟩ := end_unfold env hok.1 w w2 P d n f6
    rw [hP] at hP0
    simp only [Option.some.injEq] at hP0
    subst hP0
    rcases hcase with ⟨g1, g2, _⟩ | ⟨_, w1x, ex, pvx, w3, pv3x, hfx, hpvx, hwx, hW⟩
    · rcases hglsl with hg | hg
      · exact absurd hg g1
      · exact absurd hg g2
    · rw [f1] at hfx
      simp only [Option.some.injEq, Prod.mk.injEq] at hfx
      obtain ⟨y1, y2⟩ := hfx
      subst y1; subst y2
      rw [f3] at hpvx
      simp only [Option.some.injEq] at hpvx
      subst hpvx
      obtain ⟨pre, post, hq⟩ := end_with_priv_query env w1 w3 P pl n pv1 pv3x
        (stale_of_eq pl n pv1 sg.2.2.1 hs) hwx
      have htr : w2.trace = w3.trace := by rw [hW]; rfl
      rw [sg.2.2.2.2] at hq
      have ht2 : t = pre ++
          [Call.glLinkProgram (env.glCreateProgram (w.trace ++ stale_deletes pv1)),
            Call.glGetProgramiv_link_status
              (env.glCreateProgram (w.trace ++ stale_deletes pv1))
              (env.link_status (w.trace ++ pre ++
                [Call.glLinkProgram (env.glCreateProgram (w.trace ++ stale_deletes pv1))])
                (env.glCreateProgram (w.trace ++ stale_deletes pv1)))] ++ post := by
        have hx : w.trace ++ t = w.trace ++ _ := (ht.symm.trans htr).trans hq
        exact List.append_cancel_left hx
      have hmem : Call.glGetProgramiv_link_status
          (env.glCreateProgram (w.trace ++ stale_deletes pv1))
          (env.link_status (w.trace ++ pre ++
            [Call.glLinkProgram (env.glCreateProgram (w.trace ++ stale_deletes pv1))])
            (env.glCreateProgram (w.trace ++ stale_deletes pv1))) ∈ t := by
        rw [ht2]
        simp
      obtain ⟨_, hst2⟩ := hst _ _ hmem
      refine ⟨w2, e, pv2, t, f6, f8, f7, ht, Or.inr ⟨pre, post, ?_, ?_, ?_⟩, hlater⟩
      · rw [hprog]; exact ht2
      · rw [hprog]; exact hlk
      · rw [hprog, hst2]; exact hw

/-- Witness of C14, amended: C (4) of the example chain with a driver that fails
to link; the call links the program 1 and makes one warning. -/
theorem link_failure_diagnosed_once_witness :
    (demo_fail.ok ∧ demo_fail.compiles_glsl ∧ Inv demo_fail demo_world ∧
      heap_get demo_world.pipelines 4 = some (demo_pipeline 1 3 4) ∧
      ((demo_pipeline 1 3 4).fragend = demo_fail.FRAGEND_GLSL ∨
        (demo_pipeline 1 3 4).vertend = demo_fail.VERTEND_GLSL) ∧
      heap_get demo_world.pipelines
        (demo_fail.find_equivalent_parent demo_world.pipelines 4) =
          some (demo_pipeline 1 3 4) ∧
      UserProgramLive demo_world (demo_pipeline 1 3 4)) ∧
    link_warnings (after demo_fail demo_world [Op.ensure 4 0 1]).trace = [1] ∧
    (∃ w2 e pv2 t, _cogl_pipeline_progend_glsl_end demo_fail demo_world 4 0 1 = some w2 ∧
      get_glsl_priv demo_fail w2 4 = some e ∧ heap_get w2.privs e = some pv2 ∧
      w2.trace = demo_world.trace ++ t ∧
      ((linked_programs t = [] ∧ link_warnings t = []) ∨
        ∃ pre post, t = pre ++ [Call.glLinkProgram pv2.program,
            Call.glGetProgramiv_link_status pv2.program
              (demo_fail.link_status
                (demo_world.trace ++ pre ++ [Call.glLinkProgram pv2.program])
                pv2.program)] ++ post ∧
          linked_programs t = [pv2.program] ∧
          link_warnings t =
            (if demo_fail.link_status
                (demo_world.trace ++ pre ++ [Call.glLinkProgram pv2.program])
                pv2.program = false then [pv2.program] else [])) ∧
      (pv2.program ≠ 0 →
        ∀ calls, (∀ c, c ∈ calls → LaterCall demo_fail w2 e pv2 c) →
          ∃ w3 pv3, run_ops demo_fail w2 (ensure_ops calls) = some w3 ∧
            heap_get w3.privs e = some pv3 ∧ pv3.program = pv2.program ∧
            linked_programs w3.trace = linked_programs w2.trace ∧
            link_warnings w3.trace = link_warnings w2.trace)) :=
  ⟨⟨by decide, fun _ _ h => h, init_inv demo_fail demo_world (by decide), by decide,
      Or.inl (by decide), by decide, demo_world_live⟩, by decide,
    link_failure_diagnosed_once demo_fail (by decide) (fun _ _ h => h) demo_world 4 0 1
      (demo_pipeline 1 3 4) (init_inv demo_fail demo_world (by decide)) (by decide)
      (Or.inl (by decide))
      (fun _ => ⟨demo_pipeline 1 3 4, by decide,
        fun pv h => (demo_world_no_priv _ pv h).elim⟩)
      (fun pv h => (demo_world_no_priv _ pv h).elim) demo_world_live⟩

/-! ## The dirty bits of the built-in uniforms -/

end Cogl
